import Mathlib

/-!
Exchange-correlation engine (`src/capture/network/exchange-lib.js`)

A shallow embedding of the header/cookie utilities, the request and response
aggregators, the exchange and the identity registry, followed by the theorems
that settle the specification's claims about them.

Conventions of the embedding

* A JavaScript string is a Lean `String`; the string built-ins the source calls
  (`split`, `trim`, `includes`) are defined below on the character list so that
  they evaluate. `toLowerCase`, `localeCompare`, `parseInt`, `JSON.parse` and
  the `URL` constructor are provided by the host runtime (ICU data, number
  and URL parsing): they are the fields of `Host`, and every definition that
  calls one takes the host as its first argument. `Host.ascii` is a concrete
  host used to evaluate examples.
* A plain JavaScript object is the list of its own properties in enumeration
  order (`JSObject`): array-index keys first in ascending numeric order, then
  the other keys in insertion order. A header map or cookie record that comes
  from a notification may hold any own key, `__proto__` included (`JSON.parse`
  creates it as a data property). An object the library builds with `{}` and
  fills with `obj[k] = v` never gets an own `__proto__`: that assignment
  reaches the accessor `Object.prototype` provides, which ignores a value
  that is not an object (`JSObject.assign`). Reads through the prototype
  chain matter at one place, the table `mimeToExt` of `bodyFileName`, where
  the keys plain objects inherit (`objectPrototypeKeys`) yield a function.
* `Array.prototype.sort` is a stable insertion sort. For a comparator that is
  a total preorder on the elements every conforming engine returns this
  list; for any other comparator the order is implementation-defined, and the
  theorems that speak of the order of a sorted list either assume such a
  comparator or hold for every reordering.
* `null`/`undefined` fields are `Option`s; where the source tests truthiness of
  a string, the empty string counts as absent (`truthyStr`).
-/

set_option autoImplicit false

/-! ## Host built-ins -/

/-- The parts of a parsed `URL` object that the library reads. -/
structure URLParts where
  pathname : String
  hostname : String
  /-- The value `searchParams.get('mode')`; `none` when the query has no `mode`. -/
  mode : Option String
  deriving DecidableEq, Repr

/-- The built-ins the library calls on the host runtime. -/
structure Host where
  /-- The method `String.prototype.toLowerCase`. -/
  toLowerCase : String → String
  /-- The method `String.prototype.localeCompare` (negative, zero or positive). -/
  localeCompare : String → String → Int
  /-- The call `parseInt(s, 10)`; `none` is `NaN`. -/
  parseInt : String → Option Int
  /-- Whether `JSON.parse` accepts the text (`Exchange.isValidJSON`). -/
  isValidJSON : String → Bool
  /-- The constructor `new URL(s)`; `none` is the `TypeError` for an invalid URL. -/
  parseURL : String → Option URLParts
  /-- The string `'' + ({})[k]` for a property name `k` that plain objects
  inherit from `Object.prototype`: the engine's text of a built-in function,
  or `[object Object]` for `__proto__`. -/
  inheritedText : String → String

/-- Ordinal comparison of two character lists, as a three-way result. -/
def compareChars : List Char → List Char → Int
  | [], [] => 0
  | [], _ :: _ => -1
  | _ :: _, [] => 1
  | a :: as, b :: bs =>
    if a.toNat < b.toNat then -1
    else if b.toNat < a.toNat then 1
    else compareChars as bs

/-- Decimal value of a list of digits, most significant first; `none` when a
character is not a decimal digit. -/
def digitsValue : List Char → Option Nat
  | [] => some 0
  | cs => cs.foldl (fun acc c =>
      match acc with
      | none => none
      | some n => if c.isDigit then some (n * 10 + (c.toNat - 48)) else none) (some 0)

/-- The value of `key` in a query string (the text after `?`), split on `&`
and on the first `=` of each pair. -/
def queryValue (key : List Char) (query : List Char) : Option String :=
  let pieces : List (List Char) :=
    query.foldr (fun c acc =>
      if c = '&' then [] :: acc
      else match acc with
        | [] => [[c]]
        | p :: ps => (c :: p) :: ps) [[]]
  (pieces.find? (fun p => decide (p.takeWhile (fun c => c != '=') = key))).map
    (fun p => String.mk ((p.dropWhile (fun c => c != '=')).drop 1))

/-- A URL parser for evaluating examples. It reads `scheme://host/path?query`
and agrees with `new URL` on URLs of that shape whose scheme and host are
lower-case ASCII and that have no port, user info, escapes or dot segments. -/
def parseSimpleURL (s : String) : Option URLParts :=
  let scheme := s.data.takeWhile (fun c => c != ':')
  if scheme.isEmpty || !scheme.all Char.isAlpha then none
  else match s.data.dropWhile (fun c => c != ':') with
    | ':' :: '/' :: '/' :: rest =>
      let host := rest.takeWhile (fun c => c != '/' && c != '?' && c != '#')
      let afterHost := rest.dropWhile (fun c => c != '/' && c != '?' && c != '#')
      let path := afterHost.takeWhile (fun c => c != '?' && c != '#')
      let query := match afterHost.dropWhile (fun c => c != '?' && c != '#') with
        | '?' :: q => q.takeWhile (fun c => c != '#')
        | _ => []
      if host.isEmpty then none
      else some { pathname := if path.isEmpty then "/" else String.mk path
                  hostname := String.mk host
                  mode := queryValue ['m', 'o', 'd', 'e'] query }
    | _ => none

/-- A host for evaluating examples: ASCII case folding, ordinal comparison,
unsigned decimal `parseInt`, a JSON check that accepts nothing, and the URL
parser `parseSimpleURL`. On lower-case ASCII letters, digits and punctuation
it agrees with every JavaScript engine's `toLowerCase` and, for strings that
differ first at such a letter, with `localeCompare`; the text of a built-in
function is the one V8 prints. -/
def Host.ascii : Host where
  toLowerCase s := ⟨s.data.map Char.toLower⟩
  localeCompare a b := compareChars a.data b.data
  parseInt s := match s.data with
    | [] => none
    | cs => (digitsValue cs).map Int.ofNat
  isValidJSON _ := false
  parseURL := parseSimpleURL
  inheritedText k :=
    if k = "__proto__" then "[object Object]"
    else if k = "constructor" then "function Object() \x7b [native code] \x7d"
    else "function " ++ k ++ "() \x7b [native code] \x7d"

/-! ## String built-ins -/

/-- The `WhiteSpace` and `LineTerminator` code points that `trim` removes. -/
def isJSWhiteSpace (c : Char) : Bool :=
  decide (c.toNat ∈ [9, 10, 11, 12, 13, 32, 160, 5760, 8232, 8233, 8239, 8287, 12288, 65279])
    || (decide (8192 ≤ c.toNat) && decide (c.toNat ≤ 8202))

/-- Pieces of a character list between occurrences of `sep` (never empty). -/
def splitChars (sep : Char) : List Char → List (List Char)
  | [] => [[]]
  | c :: cs =>
    if c = sep then [] :: splitChars sep cs
    else match splitChars sep cs with
      | [] => [[c]]
      | p :: ps => (c :: p) :: ps

/-- The call `s.split(sep)` for a one-character separator. -/
def jsSplit (s : String) (sep : Char) : List String :=
  (splitChars sep s.data).map String.mk

/-- The call `s.trim()`. -/
def jsTrim (s : String) : String :=
  ⟨((s.data.dropWhile isJSWhiteSpace).reverse.dropWhile isJSWhiteSpace).reverse⟩

/-- Whether `pat` starts the character list. -/
def startsWithChars : List Char → List Char → Bool
  | [], _ => true
  | _ :: _, [] => false
  | p :: ps, c :: cs => p == c && startsWithChars ps cs

/-- Whether `pat` occurs in the character list. -/
def includesChars (pat : List Char) : List Char → Bool
  | [] => pat.isEmpty
  | c :: cs => startsWithChars pat (c :: cs) || includesChars pat cs

/-- The call `s.includes(pat)`. -/
def jsIncludes (s pat : String) : Bool := includesChars pat.data s.data

/-- Truthiness of a possibly absent string: present and not empty. -/
def truthyStr : Option String → Bool
  | some s => s != ""
  | none => false

/-- The expression `arr.sort(cmp)` for a comparator that cannot throw: a stable
insertion sort, which is the list every engine returns when the comparator is
a total preorder on the elements. -/
def jsSort {α : Type} (cmp : α → α → Int) (l : List α) : List α :=
  List.insertionSort (fun a b => cmp a b ≤ 0) l

/-! ## Plain objects -/

/-- Own properties of a plain object, in enumeration order. -/
abbrev JSObject (α : Type) := List (String × α)

/-- The number an array-index property name denotes: a canonical decimal
string below `2^32 - 1`. -/
def arrayIndex? (k : String) : Option Nat :=
  match k.data with
  | [] => none
  | c :: cs =>
    if c = '0' ∧ cs ≠ [] then none
    else match digitsValue (c :: cs) with
      | some n => if n < 4294967295 then some n else none
      | none => none

namespace JSObject

variable {α : Type}

/-- Property names in enumeration order (`Object.keys`, `for … in`). -/
def keys (o : JSObject α) : List String := o.map Prod.fst

/-- The read `o[k]`; `none` is `undefined`. -/
def get (o : JSObject α) (k : String) : Option α :=
  match o with
  | [] => none
  | (k', v) :: rest => if k' = k then some v else get rest k

/-- Overwrite the value of the existing property `k`, keeping its position. -/
def replaceKey (k : String) (v : α) : JSObject α → JSObject α
  | [] => []
  | (k', v') :: rest => if k' = k then (k', v) :: rest else (k', v') :: replaceKey k v rest

/-- Place the new array-index property `k` (denoting `n`) among the index keys. -/
def insertIndex (n : Nat) (k : String) (v : α) : JSObject α → JSObject α
  | [] => [(k, v)]
  | (k', v') :: rest =>
    match arrayIndex? k' with
    | some m => if m < n then (k', v') :: insertIndex n k v rest else (k, v) :: (k', v') :: rest
    | none => (k, v) :: (k', v') :: rest

/-- The write `o[k] = v` of an own data property `k`. -/
def set (o : JSObject α) (k : String) (v : α) : JSObject α :=
  if (get o k).isSome then replaceKey k v o
  else match arrayIndex? k with
    | some n => insertIndex n k v o
    | none => o ++ [(k, v)]

/-- The statement `o[k] = v` on an object the library has built from `{}`,
for a value `v` that is no object (a string or a boolean). Such an object
has no own `__proto__`, so that key reaches the accessor it inherits from
`Object.prototype`, whose setter ignores a value that is neither an object
nor `null`: nothing is written. -/
def assign (o : JSObject α) (k : String) (v : α) : JSObject α :=
  if k = "__proto__" then o else set o k v

end JSObject

/-- The names of the properties a plain object inherits from
`Object.prototype`; each of them reads as a function, `__proto__` as the
prototype object, all of them truthy. -/
def objectPrototypeKeys : List String :=
  ["constructor", "__defineGetter__", "__defineSetter__", "hasOwnProperty", "__lookupGetter__",
   "__lookupSetter__", "isPrototypeOf", "propertyIsEnumerable", "toString", "valueOf",
   "__proto__", "toLocaleString"]

/-- A header map: header name to header value. -/
abbrev Headers := JSObject String

/-! ## Header utilities (`Exchange` static methods) -/

/-- The loop `for (const key in headers) target[key.toLowerCase()] = headers[key]`. -/
def lowerInto (H : Host) (target : Headers) (headers : Headers) : Headers :=
  headers.foldl (fun m p => JSObject.assign m (H.toLowerCase p.1) p.2) target

/-- The static method `Exchange.mergeHeaders(originalHeaders, newHeaders)`.
`originalHeaders = none` is a `null`/`undefined` original; a missing
`newHeaders` enumerates like the empty object. -/
def Exchange.mergeHeaders (H : Host) (originalHeaders : Option Headers)
    (newHeaders : Headers) : Headers :=
  match originalHeaders with
  | none => lowerInto H [] newHeaders
  | some orig =>
    let merged := lowerInto H (lowerInto H [] orig) newHeaders
    let sortedKeys := jsSort H.localeCompare (JSObject.keys merged)
    sortedKeys.foldl (fun sorted key =>
      JSObject.assign sorted key ((JSObject.get merged key).getD "")) []

/-- Case-insensitive header existence check. -/
def Exchange.headersHasHeaderName (H : Host) (headers : Headers) (headerName : String) : Bool :=
  headers.any (fun p => H.toLowerCase p.1 == H.toLowerCase headerName)

/-- Case-insensitive header value retrieval; `none` is `null`. -/
def Exchange.headerValueIgnoreCase (H : Host) (headers : Headers) (headerName : String) :
    Option String :=
  match headers with
  | [] => none
  | (k, v) :: rest =>
    if H.toLowerCase k = H.toLowerCase headerName then some v
    else Exchange.headerValueIgnoreCase H rest headerName

/-- The value given by the last property of `hs`, in enumeration order, whose
name equals `k` ignoring case (its lower-cased name is `k`). -/
def lastValueCI (H : Host) : Headers → String → Option String
  | [], _ => none
  | (k', v) :: rest, k =>
    match lastValueCI H rest k with
    | some w => some w
    | none => if H.toLowerCase k' = k then some v else none

/-- The header map after a sequence of notifications has been merged into it,
one `mergeHeaders` call per notification. -/
def mergeAll (H : Host) (orig : Headers) (notifications : List Headers) : Headers :=
  notifications.foldl (fun acc n => Exchange.mergeHeaders H (some acc) n) orig


/-! ## Cookies -/

/-- A primitive JavaScript value held by a property of a cookie record. -/
inductive Val
  | undefined
  | null
  | bool (b : Bool)
  | num (n : Int)
  | str (s : String)
  deriving DecidableEq, Repr

namespace Val

/-- The abstract operation `ToBoolean`. -/
def truthy : Val → Bool
  | undefined => false
  | null => false
  | bool b => b
  | num n => n != 0
  | str s => s != ""

/-- The abstract operation `ToString`. -/
def toStr : Val → String
  | undefined => "undefined"
  | null => "null"
  | bool true => "true"
  | bool false => "false"
  | num n => toString n
  | str s => s

/-- The expression `v || ''`. -/
def orEmpty (v : Val) : Val := if v.truthy then v else str ""

end Val

/-- An element of a cookie array: a cookie record, a protocol wrapper
`{cookie: {…}}` around one, or a primitive (a string, boolean or number). -/
inductive Item
  | obj (r : JSObject Val)
  | wrapper (c : JSObject Val)
  | str (s : String)
  | bool (b : Bool)
  | num (n : Int)
  deriving DecidableEq, Repr

namespace Item

/-- The read `item[k]` for a property other than `cookie`: a record's own
property, `undefined` on a wrapper or a primitive. -/
def prop (i : Item) (k : String) : Val :=
  match i with
  | obj r => (JSObject.get r k).getD Val.undefined
  | _ => Val.undefined

/-- The expression `(w.cookie) ? w.cookie : w`. -/
def unwrap : Item → Item
  | wrapper c => obj c
  | obj r =>
    match JSObject.get r "cookie" with
    | some (Val.str s) => if s != "" then str s else obj r
    | some (Val.bool true) => bool true
    | some (Val.num n) => if n != 0 then num n else obj r
    | _ => obj r
  | i => i

/-- The cookie's name, as `===` compares it. -/
def name (i : Item) : Val := i.prop "name"

/-- The cookie's `(name, domain, path)`, as `===` compares the three. -/
def triple (i : Item) : Val × Val × Val := (i.prop "name", i.prop "domain", i.prop "path")

end Item

/-- The call `x.localeCompare(y)` on values: a `TypeError` (`none`) unless the
receiver is a string; the argument is converted with `ToString`. -/
def localeCompareVal (H : Host) (x y : Val) : Option Int :=
  match x with
  | Val.str s => some (H.localeCompare s y.toStr)
  | _ => none

/-- The comparator both cookie merges sort with: by domain, then by name. -/
def compareCookies (H : Host) (a b : Item) : Option Int :=
  if a.prop "domain" ≠ b.prop "domain" then
    localeCompareVal H (a.prop "domain").orEmpty (b.prop "domain").orEmpty
  else
    localeCompareVal H (a.prop "name").orEmpty (b.prop "name").orEmpty

/-- Insertion step of the sort with a comparator that may throw. -/
def orderedInsertM {α : Type} (cmp : α → α → Option Int) (a : α) : List α → Option (List α)
  | [] => some [a]
  | b :: l =>
    match cmp a b with
    | none => none
    | some c => if c ≤ 0 then some (a :: b :: l) else (orderedInsertM cmp a l).map (b :: ·)

/-- The expression `arr.sort(cmp)` for a comparator that may throw: `none`
when a comparison the sort performs throws. It is a stable insertion sort
that calls `cmp` on an earlier and a later element. Every engine returns a
reordering of the array; the order is this one when the comparator is a total
preorder on the elements, and which comparisons are made (so whether one
throws) is the same when none of them can throw. -/
def jsSortM {α : Type} (cmp : α → α → Option Int) : List α → Option (List α)
  | [] => some []
  | a :: l =>
    match jsSortM cmp l with
    | none => none
    | some s => orderedInsertM cmp a s

/-- The assignment `arr[arr.findIndex(p)] = x` when an element satisfies `p`. -/
def replaceFirst {α : Type} (p : α → Bool) (x : α) : List α → List α
  | [] => []
  | a :: l => if p a then x :: l else a :: replaceFirst p x l

/-- One round of the merge loop: `findIndex` by `same`, then push or overwrite. -/
def upsert {α : Type} (same : α → α → Bool) (merged : List α) (cookie : α) : List α :=
  if merged.any (fun c => same c cookie) then replaceFirst (fun c => same c cookie) cookie merged
  else merged ++ [cookie]

/-- The static method `ExchangeRequest.mergeRequestCookies`; `none` for either
argument is `null`/`undefined`, a `none` result is a thrown `TypeError`. -/
def ExchangeRequest.mergeRequestCookies (H : Host)
    (originalCookies newCookies : Option (List Item)) : Option (List Item) :=
  let merged := originalCookies.getD []
  match newCookies with
  | none => some merged
  | some cookies =>
    jsSortM (compareCookies H)
      (cookies.foldl (upsert (fun c cookie => decide (c.prop "name" = cookie.prop "name"))) merged)

/-- The static method `ExchangeResponse.mergeResponseCookies`. -/
def ExchangeResponse.mergeResponseCookies (H : Host)
    (originalCookies newCookies : Option (List Item)) : Option (List Item) :=
  let merged := originalCookies.getD []
  match newCookies with
  | none => some merged
  | some cookies =>
    jsSortM (compareCookies H)
      (cookies.foldl (fun m cookieWrapper =>
        upsert (fun c cookie => decide (c.prop "name" = cookie.prop "name")
            && decide (c.prop "domain" = cookie.prop "domain")
            && decide (c.prop "path" = cookie.prop "path")) m cookieWrapper.unwrap) merged)

/-- The last element of `l` whose key is `k`. -/
def lastWithKey {α κ : Type} [DecidableEq κ] (key : α → κ) : List α → κ → Option α
  | [], _ => none
  | c :: rest, k =>
    match lastWithKey key rest k with
    | some e => some e
    | none => if key c = k then some c else none

/-- A cookie the comparator can order: its domain and its name are strings
when present (anything falsy counts as absent). -/
def Item.sortable (i : Item) : Bool :=
  (match (i.prop "domain").orEmpty with | Val.str _ => true | _ => false) &&
  (match (i.prop "name").orEmpty with | Val.str _ => true | _ => false)

/-- A request whose cookies can all be ordered. -/
def ExchangeRequest.CookiesSortable (cookies : List Item) : Prop :=
  ∀ c ∈ cookies, c.sortable = true

/-- The host's `localeCompare` orders any two strings one way or the other. -/
def Host.CompareTotal (H : Host) : Prop :=
  ∀ s t : String, H.localeCompare s t ≤ 0 ∨ H.localeCompare t s ≤ 0

/-- The host's `localeCompare` is a consistent comparator that is a total
order on strings: swapping the arguments swaps the sign, it is transitive, and
it is zero only for equal strings. -/
def Host.CompareOrder (H : Host) : Prop :=
  (∀ s t : String, H.localeCompare s t < 0 ↔ 0 < H.localeCompare t s) ∧
  (∀ s t u : String, H.localeCompare s t ≤ 0 → H.localeCompare t u ≤ 0 →
    H.localeCompare s u ≤ 0) ∧
  (∀ s t : String, H.localeCompare s t = 0 → s = t)

/-- A cookie as the protocol describes it: its name is a string, and its
domain is absent or a non-empty string. -/
def Item.wellFormed (i : Item) : Bool :=
  (match i.prop "name" with | Val.str _ => true | _ => false) &&
  (match i.prop "domain" with
    | Val.undefined => true
    | Val.str s => s != ""
    | _ => false)

/-- The string `c.domain || ''` that the comparator compares. -/
def Item.domainKey (i : Item) : String := (i.prop "domain").orEmpty.toStr

/-- The string `c.name || ''` that the comparator compares. -/
def Item.nameKey (i : Item) : String := (i.prop "name").orEmpty.toStr

/-- What `arr.sort(cmp)` guarantees of its result `s` for the array `l` when
the comparator is consistent on the elements and throws on none: `s` is a
reordering of `l` in which every element is at or before each later one in the
comparator's order. -/
def SortedBy {α : Type} (cmp : α → α → Option Int) (l s : List α) : Prop :=
  List.Perm s l ∧ List.Pairwise (fun a b => ∃ c, cmp a b = some c ∧ c ≤ 0) s

/-! ## Set-Cookie parsing (`Exchange` static methods) -/

/-- The value a destructured piece `[a, b] = s.split('=')` binds to `b`. -/
def secondPiece (pieces : List String) : Val :=
  match pieces with
  | _ :: v :: _ => Val.str v
  | _ => Val.undefined

/-- One round of the attribute loop of `parseCookie`. -/
def parseAttribute (H : Host) (cookie : JSObject Val) (attr : String) : JSObject Val :=
  let pieces := jsSplit attr '='
  let attrLower := H.toLowerCase (pieces.headD "")
  if attrLower = "httponly" ∨ attrLower = "secure" then
    JSObject.assign cookie attrLower (Val.bool true)
  else match secondPiece pieces with
    | Val.undefined => JSObject.assign cookie attrLower (Val.bool true)
    | attrValue => JSObject.assign cookie attrLower attrValue

/-- The static method `Exchange.parseCookie(cookieStr)`: always a record. -/
def Exchange.parseCookie (H : Host) (cookieStr : String) : JSObject Val :=
  let parts := (jsSplit cookieStr ';').map jsTrim
  let nameValue := parts.headD ""
  let attributes := parts.tail
  let pieces := jsSplit nameValue '='
  let cookie : JSObject Val :=
    JSObject.set (JSObject.set [] "name" (Val.str (pieces.headD ""))) "value" (secondPiece pieces)
  attributes.foldl (parseAttribute H) cookie

/-- The static method `Exchange.parseStringArrayOfCookies`: the parsed record
is an object, hence truthy, so every string contributes one cookie. -/
def Exchange.parseStringArrayOfCookies (H : Host) (setCookieHeaders : List String) : List Item :=
  setCookieHeaders.map (fun cookieStr => Item.obj (Exchange.parseCookie H cookieStr))

/-- The static method `ExchangeResponse.extractCookiesFromResponseHeaders`;
absent headers enumerate like the empty object. -/
def ExchangeResponse.extractCookiesFromResponseHeaders (H : Host) (allHeaders : Headers) :
    List Item :=
  allHeaders.foldl (fun cookies p =>
    if H.toLowerCase p.1 = "set-cookie" then
      cookies ++ Exchange.parseStringArrayOfCookies H
        (((jsSplit p.2 '\n').map jsTrim).filter (fun c => c.length > 0))
    else cookies) []

/-- The static method `ExchangeRequest.extractCookiesFromRequestHeaders`. -/
def ExchangeRequest.extractCookiesFromRequestHeaders (H : Host) (headers : Headers) : List Item :=
  headers.foldl (fun cookies p =>
    if H.toLowerCase p.1 = "cookie" then
      cookies ++ (((jsSplit p.2 ';').map jsTrim).filter (fun c => c.length > 0)).map
        (fun pair =>
          let pieces := jsSplit pair '='
          Item.obj [("name", Val.str (pieces.headD "")), ("value", secondPiece pieces)])
    else cookies) []

/-- The static method `Exchange.requestHasCookies`. -/
def Exchange.requestHasCookies (H : Host) (headers : Headers) : Bool :=
  Exchange.headersHasHeaderName H headers "cookie"

/-- The expression `(c.name || '').toLowerCase()`; `none` is the `TypeError`
of calling `toLowerCase` on a name that is not a string. -/
def ExchangeRequest.lowerName (H : Host) (c : Item) : Option String :=
  match (c.prop "name").orEmpty with
  | Val.str s => some (H.toLowerCase s)
  | _ => none

/-- The expression `cookies.map(c => (c.name || '').toLowerCase())`. -/
def ExchangeRequest.lowerNames (H : Host) : List Item → Option (List String)
  | [] => some []
  | c :: cs =>
    match ExchangeRequest.lowerName H c, ExchangeRequest.lowerNames H cs with
    | some s, some names => some (s :: names)
    | _, _ => none

/-- The static method `ExchangeRequest.findNewCookies`; `none` is the
`TypeError` of calling `toLowerCase` on a name that is not a string. -/
def ExchangeRequest.findNewCookies (H : Host) (oldCookies newCookies : List Item) :
    Option (List Item) :=
  if oldCookies.length = 0 then some newCookies
  else if newCookies.length = 0 then some []
  else
    match ExchangeRequest.lowerNames H oldCookies with
    | none => none
    | some oldCookieNames =>
      newCookies.foldl (fun acc c =>
        match acc, ExchangeRequest.lowerName H c with
        | some kept, some cookieName =>
          some (if cookieName ∈ oldCookieNames then kept else kept ++ [c])
        | _, _ => none) (some [])

/-! ## Notifications -/

/-- The notification kinds, `Exchange.EVENT_TYPES`. -/
inductive EventType
  | RequestIntercepted
  | RequestWillBeSent
  | RequestWillBeSentExtraInfo
  | ResponseReceived
  | ResponseReceivedExtraInfo
  | ResponseWillBeSentExtraInfo
  | LoadingFinished
  | LoadingFailed
  deriving DecidableEq, Repr

/-- The request descriptor `params.request`. -/
structure RequestDesc where
  url : Option String := none
  method : Option String := none
  headers : Option Headers := none
  postData : Option String := none
  hasPostData : Bool := false
  deriving DecidableEq, Repr

/-- A response descriptor, `params.response` or `params.redirectResponse`. -/
structure ResponseDesc where
  url : Option String := none
  status : Option Int := none
  statusText : Option String := none
  mimeType : Option String := none
  headers : Option Headers := none
  protocol : Option String := none
  encodedDataLength : Option Int := none
  contentLength : Option Int := none
  responseCookies : Option (List Item) := none
  deriving DecidableEq, Repr

/-- The name and value of a protocol cookie. -/
structure CookieParam where
  name : Option String := none
  value : Option String := none
  deriving DecidableEq, Repr

/-- An entry of `params.associatedCookies`: a wrapper around `cookie`, or a
bare cookie carrying its own name and value. -/
structure AssociatedCookie where
  cookie : Option CookieParam := none
  name : Option String := none
  value : Option String := none
  blockedReasons : List String := []
  deriving DecidableEq, Repr

/-- A notification payload. Numbers that the engine only stores (timestamps)
are carried as integers. -/
structure Params where
  requestId : Option String := none
  frameId : Option String := none
  loaderId : Option String := none
  isNavigationRequest : Bool := false
  resourceType : Option String := none
  type : Option String := none
  wallTime : Option Int := none
  timestamp : Option Int := none
  redirectHasExtraInfo : Bool := false
  request : Option RequestDesc := none
  response : Option ResponseDesc := none
  redirectResponse : Option ResponseDesc := none
  interceptedRequestUrl : Option String := none
  documentURL : Option String := none
  headers : Option Headers := none
  associatedCookies : List AssociatedCookie := []
  siteHasCookieInOtherPartition : Bool := false
  interceptionId : Option String := none
  statusCode : Option Int := none
  encodedDataLength : Option Int := none
  errorText : Option String := none
  canceled : Bool := false
  deriving DecidableEq, Repr

/-- A property that is a string when present, as a record value. -/
def Val.ofOption : Option String → Val
  | some s => Val.str s
  | none => Val.undefined

/-- The static method `ExchangeRequest.extractCookiesFromRequestExtraInfo`
with `includeBlocked = false`: blocked cookies are dropped, so a cookie that
is kept carries only its name and value. -/
def ExchangeRequest.extractCookiesFromRequestExtraInfo (associatedCookies : List AssociatedCookie) :
    List Item :=
  (associatedCookies.filter (fun a => a.blockedReasons.length = 0)).map (fun a =>
    match a.cookie with
    | some src => Item.obj [("name", Val.ofOption src.name), ("value", Val.ofOption src.value)]
    | none => Item.obj [("name", Val.ofOption a.name), ("value", Val.ofOption a.value)])

/-- The static method `Exchange.requestMethodFromParams`. -/
def Exchange.requestMethodFromParams (H : Host) (params : Params) : Option String :=
  if truthyStr (params.request.bind (·.method)) then params.request.bind (·.method)
  else match params.headers with
    | some headers =>
      if Exchange.headersHasHeaderName H headers ":method" then
        Exchange.headerValueIgnoreCase H headers ":method"
      else none
    | none => none

/-- The expression `a || b` on possibly absent strings. -/
def orStr (a b : Option String) : Option String := if truthyStr a then a else b

/-- The static method `Exchange.urlFromParams`. -/
def Exchange.urlFromParams (H : Host) (params : Params) : Option String :=
  if truthyStr (params.request.bind (·.url)) then params.request.bind (·.url)
  else if truthyStr (params.response.bind (·.url)) then params.response.bind (·.url)
  else if truthyStr params.interceptedRequestUrl then params.interceptedRequestUrl
  else if truthyStr params.documentURL then params.documentURL
  else match params.headers with
    | some headers =>
      if Exchange.headersHasHeaderName H headers ":path" then
        let scheme := (orStr (Exchange.headerValueIgnoreCase H headers ":scheme") (some "http")).getD ""
        let host := (orStr (orStr (Exchange.headerValueIgnoreCase H headers ":authority")
          (Exchange.headerValueIgnoreCase H headers "host")) (some "localhost")).getD ""
        let path := (orStr (Exchange.headerValueIgnoreCase H headers ":path") (some "/")).getD ""
        some (scheme ++ "://" ++ host ++ path)
      else none
    | none => none

/-! ## Request aggregator -/

/-- The record `_interceptedRequest`. -/
structure InterceptedRequest where
  method : Option String
  headers : Option Headers
  postData : Option String
  hasPostData : Bool
  interceptionId : Option String
  frameId : Option String
  deriving DecidableEq, Repr

/-- The fields of an `ExchangeRequest` object. -/
structure ExchangeRequest where
  url : Option String
  method : Option String := none
  headers : Headers := []
  requestCookies : List Item := []
  hasPostData : Bool := false
  postData : Option String := none
  /-- The text `JSON.parse` was applied to, standing for the parsed value. -/
  postDataParsed : Option String := none
  interceptionId : Option String := none
  interceptedRequest : Option InterceptedRequest := none
  siteHasCookieInOtherPartition : Bool := false
  deriving DecidableEq, Repr

/-- The static method `Exchange.stringLooksLikeJSON`. -/
def Exchange.stringLooksLikeJSON (str : String) : Bool :=
  match (jsTrim str).data with
  | [] => false
  | c :: cs =>
    let last := (c :: cs).getLast?.getD c
    (c = Char.ofNat 123 && last = Char.ofNat 125) || (c = '[' && last = ']')

namespace ExchangeRequest

/-- The method `mergeHeaders(newHeaders)`. -/
def mergeHeaders (H : Host) (r : ExchangeRequest) (newHeaders : Headers) : ExchangeRequest :=
  { r with headers := Exchange.mergeHeaders H (some r.headers) newHeaders }

/-- The method `mergeCookies(newCookies)`; `none` is a thrown `TypeError`. -/
def mergeCookies (H : Host) (r : ExchangeRequest) (newCookies : List Item) :
    Option ExchangeRequest :=
  (ExchangeRequest.mergeRequestCookies H (some r.requestCookies) (some newCookies)).map
    (fun merged => { r with requestCookies := merged })

/-- The setter `postData`. -/
def setPostData (H : Host) (r : ExchangeRequest) (value : String) : ExchangeRequest :=
  { r with
    hasPostData := true
    postData := some value
    postDataParsed :=
      if Exchange.stringLooksLikeJSON value && H.isValidJSON value then some value
      else r.postDataParsed }

/-- Merge the cookies of a `Cookie` header, when the map has one. -/
def mergeHeaderCookies (H : Host) (r : ExchangeRequest) (headers : Headers) :
    Option ExchangeRequest :=
  if Exchange.requestHasCookies H headers then
    mergeCookies H r (extractCookiesFromRequestHeaders H headers)
  else some r

/-- The part of `applyParams` that reads `params.request`. A thrown error
(`Except.error`) carries the request as it stands when the error is thrown. -/
def applyRequestDesc (H : Host) (r : ExchangeRequest) (params : Params) (eventType : EventType) :
    Except ExchangeRequest ExchangeRequest :=
  match params.request with
  | none => .ok r
  | some req =>
    let r := if truthyStr req.url then { r with url := req.url } else r
    let r := if truthyStr req.method then { r with method := req.method } else r
    let r := match req.headers with
      | some headers => r.mergeHeaders H headers
      | none => r
    let r := match req.postData with
      | some pd => if pd != "" then r.setPostData H pd else r
      | none => r
    let r := if truthyStr params.interceptionId then
      { r with interceptionId := params.interceptionId } else r
    match r.mergeHeaderCookies H (req.headers.getD []) with
    | none => .error r
    | some r =>
      let intercepted : InterceptedRequest :=
        { method := req.method
          headers := req.headers
          postData := if truthyStr req.postData then req.postData else none
          hasPostData := req.hasPostData
          interceptionId := if truthyStr params.interceptionId then params.interceptionId else none
          frameId := params.frameId }
      .ok (if eventType = EventType.RequestIntercepted then
        { r with interceptedRequest := some intercepted }
      else r)

/-- The part of `applyParams` that reads `params.headers`. -/
def applyHeaders (H : Host) (r : ExchangeRequest) (params : Params) :
    Except ExchangeRequest ExchangeRequest :=
  match params.headers with
  | none => .ok r
  | some headers =>
    match (r.mergeHeaders H headers).mergeHeaderCookies H headers with
    | none => .error (r.mergeHeaders H headers)
    | some r => .ok r

/-- The part of `applyParams` that reads `params.associatedCookies`. -/
def applyAssociatedCookies (H : Host) (r : ExchangeRequest) (params : Params) :
    Except ExchangeRequest ExchangeRequest :=
  if params.associatedCookies.length > 0 then
    match r.mergeCookies H (extractCookiesFromRequestExtraInfo params.associatedCookies) with
    | none => .error r
    | some r => .ok r
  else .ok r

/-- The method `applyParams` for a fragment that is not a redirect: the
statements after the redirect branch. -/
def applyFragment (H : Host) (r : ExchangeRequest) (params : Params) (eventType : EventType) :
    Except ExchangeRequest ExchangeRequest :=
  match applyRequestDesc H r params eventType with
  | .error r => .error r
  | .ok r =>
    match applyHeaders H r params with
    | .error r => .error r
    | .ok r =>
      match applyAssociatedCookies H r params with
      | .error r => .error r
      | .ok r =>
        .ok (if params.siteHasCookieInOtherPartition then
          { r with siteHasCookieInOtherPartition := true } else r)

end ExchangeRequest

/-! ## Response aggregator -/

/-- The record `_loadingFinished`. -/
structure LoadingFinishedInfo where
  timestamp : Option Int
  encodedDataLength : Option Int
  deriving DecidableEq, Repr

/-- The record `loadingFailed`. -/
structure LoadingFailedInfo where
  timestamp : Option Int
  errorText : Option String
  canceled : Bool
  deriving DecidableEq, Repr

/-- The fields of an `ExchangeResponse` object. `contentLength = none` is the
`NaN` that `parseInt` returns for a header without a leading number. -/
structure ExchangeResponse where
  status : Option Int := none
  statusText : Option String := none
  mimeType : Option String := none
  headers : Headers := []
  protocol : Option String := none
  responseCookies : List Item := []
  encodedDataLength : Int := 0
  contentLength : Option Int := some 0
  body : Option String := none
  bodyParsed : Option String := none
  hasContent : Bool := false
  bodyByteSize : Option Nat := none
  bodyLength : Option Nat := none
  loadingFinished : Option LoadingFinishedInfo := none
  loadingFailed : Option LoadingFailedInfo := none
  /-- The field `_bodyFile`: the name of the body file in the bodies directory. -/
  bodyFile : Option String := none
  deriving DecidableEq, Repr

/-- The response part of a redirect snapshot, as `filterResponseForRedirect`
builds it (every field is absent in the `{}` that `computeRedirectCookies`
creates). -/
structure RedirectResponse where
  status : Option Int := none
  statusText : Option String := none
  headers : Option Headers := none
  mimeType : Option String := none
  protocol : Option String := none
  responseCookies : Option (List Item) := none
  encodedDataLength : Option Int := none
  contentLength : Option Int := none
  deriving DecidableEq, Repr

namespace ExchangeResponse

/-- The getter `shouldHaveBody`, as the value the `&&` chain evaluates to;
`requestMethod` is the getter of that name, the current request's method. -/
def shouldHaveBody (r : ExchangeResponse) (requestMethod : Option String) : Val :=
  if r.status = some 204 then Val.bool false
  else if r.status = some 304 then Val.bool false
  else if r.status = some 205 then Val.bool false
  else if requestMethod = some "HEAD" then Val.bool false
  else if requestMethod = some "OPTIONS" then Val.bool false
  else if r.hasContent = false then Val.bool false
  else match r.mimeType with
    | none => Val.null
    | some mimeType =>
      if mimeType = "" then Val.str ""
      else Val.bool (jsIncludes mimeType "json" || jsIncludes mimeType "text"
        || jsIncludes mimeType "xml")

/-- The method `mergeHeaders(newHeaders)`. -/
def mergeHeaders (H : Host) (r : ExchangeResponse) (newHeaders : Headers) : ExchangeResponse :=
  { r with headers := Exchange.mergeHeaders H (some r.headers) newHeaders }

/-- The method `mergeCookies(newCookies)`; `none` is a thrown `TypeError`. -/
def mergeCookies (H : Host) (r : ExchangeResponse) (newCookies : Option (List Item)) :
    Option ExchangeResponse :=
  (ExchangeResponse.mergeResponseCookies H (some r.responseCookies) newCookies).map
    (fun merged => { r with responseCookies := merged })

/-- A string handed to `mergeCookies` where an array is expected: the empty
string is falsy, any other is iterated code point by code point. -/
def stringAsCookies (s : Option String) : Option (List Item) :=
  match s with
  | none => none
  | some s => if s = "" then none else some (s.data.map (fun c => Item.str (String.singleton c)))

/-- The static method `ExchangeResponse.filterResponseForRedirect` on a
response descriptor that is present. -/
def filterResponseForRedirect (H : Host) (response : ResponseDesc) : RedirectResponse :=
  let extracted : List Item :=
    match response.headers with
    | some headers => extractCookiesFromResponseHeaders H headers
    | none => []
  let fromHeaders : Option (List Item) := if extracted.length > 0 then some extracted else none
  let cookies : Option (List Item) :=
    match response.responseCookies with
    | some parsed =>
      if parsed.length > 0 then
        (match fromHeaders with
          | some c => some (c ++ parsed)
          | none => some parsed)
      else fromHeaders
    | none => fromHeaders
  { status := response.status
    statusText := some (if truthyStr response.statusText then response.statusText.getD "" else "")
    headers := some (response.headers.getD [])
    mimeType := response.mimeType
    protocol := response.protocol
    responseCookies := cookies
    encodedDataLength := response.encodedDataLength
    contentLength := response.contentLength }

/-- Merge the cookies of the `Set-Cookie` headers of a map, when there are any. -/
def mergeHeaderCookies (H : Host) (r : ExchangeResponse) (headers : Headers) :
    Option ExchangeResponse :=
  if (extractCookiesFromResponseHeaders H headers).length > 0 then
    r.mergeCookies H (some (extractCookiesFromResponseHeaders H headers))
  else some r

/-- The statement of `applyParams` that hands the value of the `Set-Cookie`
header, a string, to `mergeCookies`. -/
def mergeRawSetCookie (H : Host) (r : ExchangeResponse) (headers : Headers) :
    Option ExchangeResponse :=
  if Exchange.headersHasHeaderName H headers "Set-Cookie" then
    r.mergeCookies H (stringAsCookies (Exchange.headerValueIgnoreCase H headers "Set-Cookie"))
  else some r

/-- The statements of `applyParams` that record the encoded length and the
`Content-Length` header and derive `hasContent` from them. -/
def recordLengths (H : Host) (r : ExchangeResponse) (res : ResponseDesc) : ExchangeResponse :=
  let r := { r with encodedDataLength := res.encodedDataLength.getD 0 }
  let r := if Exchange.headersHasHeaderName H (res.headers.getD []) "Content-Length" then
    { r with contentLength :=
        H.parseInt ((Exchange.headerValueIgnoreCase H (res.headers.getD [])
          "Content-Length").getD "") }
    else r
  { r with hasContent := decide (r.encodedDataLength > 0)
      || (match r.contentLength with
          | some n => decide (n > 0)
          | none => false) }

/-- The part of `applyParams` that reads `params.response`. A thrown error
carries the response as it stands when the error is thrown. -/
def applyResponseDesc (H : Host) (r : ExchangeResponse) (res : ResponseDesc) :
    Except ExchangeResponse ExchangeResponse :=
  let r := match res.status with
    | some s => if s ≠ 0 then { r with status := some s } else r
    | none => r
  let r := if truthyStr res.statusText then { r with statusText := res.statusText } else r
  let r := if truthyStr res.mimeType then { r with mimeType := res.mimeType } else r
  let r := match res.headers with
    | some headers => r.mergeHeaders H headers
    | none => r
  let r := if truthyStr res.protocol then { r with protocol := res.protocol } else r
  match r.mergeHeaderCookies H (res.headers.getD []) with
  | none => .error r
  | some r =>
    match r.mergeRawSetCookie H (res.headers.getD []) with
    | none => .error r
    | some r => .ok (r.recordLengths H res)

end ExchangeResponse

/-! ## Exchange -/

/-- A redirect snapshot. `request` refers to a request object of the exchange
(see `Exchange.requestAt`): the snapshot holds the object itself, not a copy. -/
structure RedirectSnapshot where
  response : Option RedirectResponse
  request : Nat
  sequence : Option String := none
  deriving DecidableEq, Repr

/-- The fields of an `Exchange` object. The request objects the exchange has
created are `older ++ [request]`, oldest first: the current request is always
the newest one, and `originalRequest` and the snapshots refer to a request by
its position in that list. `completed` is `none` until an assignment defines
it. `methodFaults` counts the console lines `Error setting request method`
written by the catch block of the `requestMethod` setter. -/
structure Exchange where
  url : Option String
  finalUrl : Option String := none
  requestId : Option String := none
  frameId : Option String := none
  requestMethod : Option String := none
  loaderId : Option String := none
  type : Option String := none
  wallTime : Option Int := none
  timestamp : Option Int := none
  isNavigationRequest : Bool := false
  redirectHasExtraInfo : Bool := false
  resourceType : Option String := none
  older : List ExchangeRequest := []
  request : ExchangeRequest
  originalRequest : Option Nat := none
  response : ExchangeResponse := {}
  redirects : List RedirectSnapshot := []
  eventsFired : List EventType := []
  targetResponseReceived : Bool := false
  completed : Option Bool := none
  methodFaults : Nat := 0
  deriving DecidableEq, Repr

namespace Exchange

/-- The request object a reference denotes. -/
def requestAt (e : Exchange) (i : Nat) : Option ExchangeRequest := (e.older ++ [e.request])[i]?

/-- The reference of the current request, `this.request`. -/
def requestRef (e : Exchange) : Nat := e.older.length

/-- The setter `requestMethod`. -/
def setRequestMethod (e : Exchange) (value : String) : Exchange :=
  if e.requestMethod = none then
    { e with requestMethod := some value, request := { e.request with method := some value } }
  else if e.requestMethod = some "OPTIONS" ∧ value ≠ "OPTIONS" then
    { e with requestMethod := some value, request := { e.request with method := some value } }
  else if value ≠ "OPTIONS" then
    if some value ≠ e.requestMethod then
      { e with requestMethod := none, request := { e.request with method := none },
               methodFaults := e.methodFaults + 1 }
    else
      { e with requestMethod := some value, request := { e.request with method := some value } }
  else e

/-- The getter `isPreflight`. -/
def isPreflight (e : Exchange) : Bool := e.requestMethod = some "OPTIONS"

/-- The line `exchange._eventsFired[eventType] = this` of the `FiredEvent`
constructor, which `log` and `logError` run. -/
def log (e : Exchange) (eventType : EventType) : Exchange :=
  if eventType ∈ e.eventsFired then e else { e with eventsFired := e.eventsFired ++ [eventType] }

/-- The getter `hasRedirects`. -/
def hasRedirects (e : Exchange) : Bool := e.redirects.length > 0

end Exchange

/-- The method `ExchangeRequest.applyParams(params, eventType)`, called on the
current request of `e`. A thrown error carries the exchange as it stands when
the error is thrown. -/
def ExchangeRequest.applyParams (H : Host) (e : Exchange) (params : Params)
    (eventType : EventType) : Except Exchange Exchange :=
  match params.redirectResponse with
  | some redirectResponse =>
    let e := if e.originalRequest.isNone then { e with originalRequest := some e.requestRef } else e
    let newRequest : ExchangeRequest :=
      { url := orStr (params.request.bind (·.url)) e.request.url }
    match ExchangeRequest.applyFragment H newRequest { params with redirectResponse := none }
        eventType with
    | .error _ => .error e
    | .ok newRequest =>
      let redirectSnapshot : RedirectSnapshot :=
        { response := some (ExchangeResponse.filterResponseForRedirect H redirectResponse)
          request := e.requestRef + 1 }
      .ok { e with
        redirects := e.redirects ++ [redirectSnapshot]
        older := e.older ++ [e.request]
        request := newRequest }
  | none =>
    match ExchangeRequest.applyFragment H e.request params eventType with
    | .error r => .error { e with request := r }
    | .ok r => .ok { e with request := r }

/-- The statement `if (params.statusCode) this.status = params.statusCode`. -/
def ExchangeResponse.applyStatusCode (r : ExchangeResponse) (params : Params) :
    ExchangeResponse :=
  match params.statusCode with
  | some s => if s ≠ 0 then { r with status := some s } else r
  | none => r

/-- The part of `ExchangeResponse.applyParams` that reads `params.headers`. -/
def ExchangeResponse.applyHeaders (H : Host) (r : ExchangeResponse) (params : Params) :
    Except ExchangeResponse ExchangeResponse :=
  match params.headers with
  | none => .ok r
  | some headers =>
    match (r.mergeHeaders H headers).mergeHeaderCookies H headers with
    | none => .error (r.mergeHeaders H headers)
    | some r => .ok r

/-- The statements of `ExchangeResponse.applyParams` that do not depend on the
notification kind: they read `params.response`, `params.redirectResponse`,
`params.statusCode` and `params.headers`. A thrown error carries the response
as it stands when the error is thrown. -/
def ExchangeResponse.applyPayload (H : Host) (r : ExchangeResponse) (params : Params) :
    Except ExchangeResponse ExchangeResponse :=
  let afterResponse : Except ExchangeResponse ExchangeResponse :=
    match params.response with
    | some res => ExchangeResponse.applyResponseDesc H r res
    | none => .ok r
  match afterResponse with
  | .error r => .error r
  | .ok r =>
    -- `this.exchanges.redirects` is undefined on the registry: the push throws
    if params.redirectResponse.isSome then .error r
    else (r.applyStatusCode params).applyHeaders H params

/-- The statements of `ExchangeResponse.applyParams` that depend on the
notification kind; they write `completed` on the exchange and read the current
request's method. -/
def ExchangeResponse.applyKind (e : Exchange) (params : Params) (eventType : EventType) :
    Exchange :=
  let e := if eventType = EventType.ResponseReceivedExtraInfo then
      (if (e.response.shouldHaveBody e.request.method).truthy then { e with completed := some false }
       else { e with completed := some true })
    else e
  let finished : LoadingFinishedInfo :=
    { timestamp := params.timestamp, encodedDataLength := params.encodedDataLength }
  let e := if eventType = EventType.LoadingFinished then
      (let r := { e.response with loadingFinished := some finished }
       let r := match params.encodedDataLength with
         | some n => if n > 0 then { r with encodedDataLength := n, hasContent := true } else r
         | none => r
       { e with response := r, completed := some true })
    else e
  let failed : LoadingFailedInfo :=
    { timestamp := params.timestamp, errorText := params.errorText, canceled := params.canceled }
  if eventType = EventType.LoadingFailed then
    { e with
      response := { e.response with loadingFailed := some failed }
      completed := some true }
  else e

/-- The method `ExchangeResponse.applyParams(params, eventType)`, on the
response of `e`. A thrown error carries the exchange as it stands when the
error is thrown. -/
def ExchangeResponse.applyParams (H : Host) (e : Exchange) (params : Params)
    (eventType : EventType) : Except Exchange Exchange :=
  match ExchangeResponse.applyPayload H e.response params with
  | .error r => .error { e with response := r }
  | .ok r => .ok (ExchangeResponse.applyKind { e with response := r } params eventType)

/-- The state a call leaves behind, whether it returned or threw. -/
def stateAfter {σ : Type} : Except σ σ → σ
  | .ok s => s
  | .error s => s

/-- A freshly constructed exchange for `url`, before any notification. -/
def Exchange.fresh (url : Option String) : Exchange := { url := url, request := { url := url } }

/-! ## Identity registry -/

/-- A `Map` from identifiers to exchange references, in insertion order. -/
abbrev JSMap := List (String × Nat)

namespace JSMap

/-- The call `map.get(k)`. -/
def get (m : JSMap) (k : String) : Option Nat := JSObject.get m k

/-- The call `map.set(k, v)`: an existing key keeps its position. -/
def set (m : JSMap) (k : String) (v : Nat) : JSMap :=
  if (JSObject.get m k).isSome then JSObject.replaceKey k v m else m ++ [(k, v)]

/-- The call `map.delete(k)`. -/
def delete (m : JSMap) (k : String) : JSMap := m.filter (fun p => p.1 ≠ k)

end JSMap

/-- The fields of the `Exchanges` registry. `store` holds every `Exchange`
object constructed so far; a reference to an exchange is its position in
`store`, as the two maps and the handlers use it. `timers` lists the delays of
the export timers `exitCapture` has scheduled. -/
structure Exchanges where
  exitingCapture : Bool := false
  savedCaptures : Bool := false
  exitUrlPattern : String
  store : List Exchange := []
  exchanges : JSMap := []
  exchangesByFrameId : JSMap := []
  timers : List Nat := []
  deriving DecidableEq, Repr

namespace Exchanges

/-- The exchange object a reference denotes. -/
def deref (X : Exchanges) (ref : Nat) : Option Exchange := X.store[ref]?

/-- Mutate the exchange object `ref` denotes. -/
def update (X : Exchanges) (ref : Nat) (f : Exchange → Exchange) : Exchanges :=
  { X with store := X.store.modify f ref }

/-- The reference registered under a primary identifier, if it denotes an object. -/
def byRequestId (X : Exchanges) (requestId : String) : Option Nat :=
  (X.exchanges.get requestId).filter (fun ref => (X.deref ref).isSome)

/-- The reference registered under a frame identifier, if it denotes an object. -/
def byFrameId (X : Exchanges) (frameId : String) : Option Nat :=
  (X.exchangesByFrameId.get frameId).filter (fun ref => (X.deref ref).isSome)

end Exchanges

namespace Exchange

/-- The setter `requestId`, on the exchange `ref` denotes. -/
def setRequestId (X : Exchanges) (ref : Nat) (value : String) : Exchanges :=
  match X.deref ref with
  | none => X
  | some e =>
    if some value ≠ e.requestId then
      let registry :=
        if truthyStr e.requestId then X.exchanges.delete (e.requestId.getD "") else X.exchanges
      { X.update ref (fun e => { e with requestId := some value }) with
        exchanges := registry.set value ref }
    else X

/-- The setter `frameId`, on the exchange `ref` denotes. -/
def setFrameId (X : Exchanges) (ref : Nat) (value : String) : Exchanges :=
  match X.deref ref with
  | none => X
  | some e =>
    if some value ≠ e.frameId then
      let registry :=
        if truthyStr e.frameId then X.exchangesByFrameId.delete (e.frameId.getD "")
        else X.exchangesByFrameId
      { X.update ref (fun e => { e with frameId := some value }) with
        exchangesByFrameId := registry.set value ref }
    else X

/-- The fields `applyRequestParams` copies onto the exchange itself. -/
def applyOwnParams (e : Exchange) (params : Params) : Exchange :=
  let e : Exchange := if truthyStr params.loaderId then { e with loaderId := params.loaderId } else e
  let e : Exchange := if params.isNavigationRequest then { e with isNavigationRequest := true } else e
  let e : Exchange := if truthyStr params.resourceType then { e with resourceType := params.resourceType }
    else e
  let e : Exchange := match params.request.bind (·.method) with
    | some method => if method ≠ "" then e.setRequestMethod method else e
    | none => e
  let e : Exchange := if truthyStr params.type then { e with type := params.type } else e
  let e : Exchange := match params.wallTime with
    | some t => if t ≠ 0 then { e with wallTime := some t } else e
    | none => e
  let e : Exchange := match params.timestamp with
    | some t => if t ≠ 0 then { e with timestamp := some t } else e
    | none => e
  let e : Exchange := if params.redirectHasExtraInfo then { e with redirectHasExtraInfo := true } else e
  if e.redirects.length > 0 ∧ truthyStr (params.request.bind (·.url)) then
    { e with finalUrl := params.request.bind (·.url) }
  else e

/-- The statement `if (params.requestId) this.requestId = params.requestId`. -/
def applyRequestId (X : Exchanges) (ref : Nat) (params : Params) : Exchanges :=
  match params.requestId with
  | some requestId => if requestId ≠ "" then setRequestId X ref requestId else X
  | none => X

/-- The statement `if (params.frameId) this.frameId = params.frameId`. -/
def applyFrameId (X : Exchanges) (ref : Nat) (params : Params) : Exchanges :=
  match params.frameId with
  | some frameId => if frameId ≠ "" then setFrameId X ref frameId else X
  | none => X

/-- The method `applyRequestParams(params, eventType)`, on the exchange `ref`
denotes. -/
def applyRequestParams (X : Exchanges) (ref : Nat) (params : Params) : Exchanges :=
  (applyFrameId (applyRequestId X ref params) ref params).update ref
    (fun e => e.applyOwnParams params)

/-- The constructor `new Exchange(exchanges, params, url, eventType)`: the new
object's reference and the registry after it. -/
def new (X : Exchanges) (params : Params) (url : Option String) : Exchanges × Nat :=
  let ref := X.store.length
  (applyRequestParams { X with store := X.store ++ [Exchange.fresh url] } ref params, ref)

/-- The getter `isExitPattern`: the current request's URL contains the exit
pattern. -/
def isExitPattern (X : Exchanges) (e : Exchange) : Bool :=
  match e.request.url with
  | some url => url != "" && jsIncludes url X.exitUrlPattern
  | none => false

/-- The method `exitCapture()`: the export itself runs later, from the timer. -/
def exitCapture (X : Exchanges) (e : Exchange) : Exchanges :=
  { X with
    exitingCapture := true
    timers := X.timers ++ [if e.targetResponseReceived then 1000 else 10000] }

/-- The handler `requestWillBeSent(params, eventType)`, on the exchange `ref`
denotes. An error thrown by the request aggregator is caught and logged. -/
def requestWillBeSent (H : Host) (X : Exchanges) (ref : Nat) (params : Params) : Exchanges :=
  let X := X.update ref (fun e => e.log EventType.RequestWillBeSent)
  let X := applyRequestParams X ref params
  match X.deref ref with
  | none => X
  | some e =>
    match ExchangeRequest.applyParams H e params EventType.RequestWillBeSent with
    | .error e => X.update ref (fun _ => e.log EventType.RequestWillBeSent)
    | .ok e =>
      let X := X.update ref (fun _ => e)
      if isExitPattern X e then exitCapture X e else X

end Exchange

namespace Exchanges

/-- The two conditional assignments of `find` on the `requestId` candidate:
adopt the notification's URL when the exchange has none, and its method when
the exchange's is unset or the pre-flight `OPTIONS`. -/
def adopt (X : Exchanges) (ref : Nat) (url requestMethod : Option String) : Exchanges :=
  (X.update ref (fun e =>
      if truthyStr url ∧ ¬ truthyStr e.url then { e with url := url } else e)).update ref
    (fun e =>
      if truthyStr requestMethod ∧ (e.requestMethod = none ∨ e.requestMethod = some "OPTIONS")
      then e.setRequestMethod (requestMethod.getD "") else e)

/-- Whether `find` returns the `requestId` candidate: the notification has no
method, or it equals the candidate's. -/
def methodAgrees (X : Exchanges) (ref : Nat) (requestMethod : Option String) : Bool :=
  if truthyStr requestMethod then decide ((X.deref ref).bind (·.requestMethod) = requestMethod)
  else true

/-- Whether `find` returns the `frameId` candidate: the notification has no
URL, or it equals the candidate's. -/
def urlAgrees (X : Exchanges) (ref : Nat) (url : Option String) : Bool :=
  if truthyStr url then decide ((X.deref ref).bind (·.url) = url) else true

/-- The end of `find`: a candidate that conflicts with the notification's URL
or method is discarded; without a candidate an exchange is constructed when
`allowAdd` permits. -/
def resolve (X : Exchanges) (params : Params) (url requestMethod : Option String)
    (candidate : Option Nat) (allowAdd : Bool) : Exchanges × Option Nat :=
  let candidate := candidate.filter (fun ref =>
    ¬ (truthyStr url ∧ (X.deref ref).bind (·.url) ≠ url))
  let candidate := candidate.filter (fun ref =>
    ¬ (truthyStr requestMethod ∧ (X.deref ref).bind (·.requestMethod) ≠ requestMethod))
  match candidate with
  | some ref => (X, some ref)
  | none =>
    if allowAdd then ((Exchange.new X params url).1, some (Exchange.new X params url).2)
    else (X, none)

/-- The `frameId` step of `find`; `candidate` is the exchange the `requestId`
step left in `exchange`. -/
def findByFrame (X : Exchanges) (params : Params) (url requestMethod : Option String)
    (frameIdExchange candidate : Option Nat) (allowAdd : Bool) : Exchanges × Option Nat :=
  match frameIdExchange with
  | some ref =>
    if X.urlAgrees ref url then (X, some ref)
    else X.resolve params url requestMethod (some ref) allowAdd
  | none => X.resolve params url requestMethod candidate allowAdd

/-- The method `Exchanges.find(params, eventType, allowAdd)`: the registry
after the call and the reference it returns (`none` is `null`). -/
def find (H : Host) (X : Exchanges) (params : Params) (allowAdd : Bool) :
    Exchanges × Option Nat :=
  let url := Exchange.urlFromParams H params
  let requestMethod := Exchange.requestMethodFromParams H params
  let requestIdExchange : Option Nat :=
    if truthyStr params.requestId then X.byRequestId (params.requestId.getD "") else none
  let frameIdExchange : Option Nat :=
    if truthyStr params.frameId then X.byFrameId (params.frameId.getD "") else none
  match requestIdExchange with
  | some ref =>
    if (X.adopt ref url requestMethod).methodAgrees ref requestMethod then
      (X.adopt ref url requestMethod, some ref)
    else
      (X.adopt ref url requestMethod).findByFrame params url requestMethod frameIdExchange
        (some ref) allowAdd
  | none => X.findByFrame params url requestMethod frameIdExchange none allowAdd

end Exchanges

/-! ## Redirect export -/

namespace Exchange

/-- The cookies `ref?.requestCookies || []` of a possibly missing request. -/
def cookiesAt (e : Exchange) (ref : Option Nat) : List Item :=
  ((ref.bind e.requestAt).map (·.requestCookies)).getD []

/-- One round of the loop of `computeRedirectCookies`, for the snapshot at
`index`; `none` is a thrown `TypeError`. The loop writes only the `response`
of a snapshot, so the requests it reads are those of `e` before the loop. -/
def redirectCookiesAt (H : Host) (e : Exchange) (index : Nat) (redirect : RedirectSnapshot) :
    Option RedirectSnapshot :=
  let previousCookies : List Item :=
    if index = 0 then e.cookiesAt e.originalRequest
    else e.cookiesAt ((e.redirects[index - 1]?).map (·.request))
  let currentCookies : List Item := e.cookiesAt (some redirect.request)
  match ExchangeRequest.findNewCookies H previousCookies currentCookies with
  | none => none
  | some newCookies =>
    if newCookies.length > 0 then
      some { redirect with
        response := some { redirect.response.getD {} with responseCookies := some newCookies } }
    else some redirect

/-- The loop of `computeRedirectCookies` from position `index` on. A thrown
error carries the snapshots as they stand when the error is thrown. -/
def computeFrom (H : Host) (e : Exchange) :
    Nat → List RedirectSnapshot → Except (List RedirectSnapshot) (List RedirectSnapshot)
  | _, [] => .ok []
  | index, redirect :: rest =>
    match redirectCookiesAt H e index redirect with
    | none => .error (redirect :: rest)
    | some redirect =>
      match computeFrom H e (index + 1) rest with
      | .ok rest => .ok (redirect :: rest)
      | .error rest => .error (redirect :: rest)

/-- The method `computeRedirectCookies()`. -/
def computeRedirectCookies (H : Host) (e : Exchange) : Except Exchange Exchange :=
  if e.hasRedirects then
    match computeFrom H e 0 e.redirects with
    | .ok redirects => .ok { e with redirects := redirects }
    | .error redirects => .error { e with redirects := redirects }
  else .ok e

/-- The loop of `setRedirectsSequence` from position `index` on. -/
def labelFrom (origRequestSequence : Nat) : Nat → List RedirectSnapshot → List RedirectSnapshot
  | _, [] => []
  | index, redirect :: rest =>
    { redirect with
      sequence := some (toString origRequestSequence ++ "." ++ toString (index + 1)) }
      :: labelFrom origRequestSequence (index + 1) rest

/-- The method `setRedirectsSequence(origRequestSequence)`; the argument is the
exchange's index in the export. -/
def setRedirectsSequence (H : Host) (e : Exchange) (origRequestSequence : Nat) :
    Except Exchange Exchange :=
  if e.hasRedirects then
    match computeRedirectCookies H e with
    | .error e => .error e
    | .ok e => .ok { e with redirects := labelFrom origRequestSequence 0 e.redirects }
  else .ok e

end Exchange

/-- The registry after the handler `requestWillBeSent` has handled the
notifications of `ps`, in order, on the exchange `ref` denotes. -/
def handleAll (H : Host) (X : Exchanges) (ref : Nat) (ps : List Params) : Exchanges :=
  ps.foldl (fun X p => Exchange.requestWillBeSent H X ref p) X

/-- A step that leaves the request objects, the snapshots and the original
request of an exchange as they are, except for the method of the current
request. -/
def KeepsRequests (e e' : Exchange) : Prop :=
  e'.older = e.older ∧ e'.redirects = e.redirects ∧ e'.originalRequest = e.originalRequest ∧
  e'.request = { e.request with method := e'.request.method }

/-- The listener for `Network.requestWillBeSent` of `capture-endpoint.js`:
resolve the exchange with `find`, then let it handle the notification. The
result is the registry afterwards and the reference `find` returned. -/
def onRequestWillBeSent (H : Host) (X : Exchanges) (params : Params) : Exchanges × Option Nat :=
  match Exchanges.find H X params true with
  | (X, some ref) => (Exchange.requestWillBeSent H X ref params, some ref)
  | (X, none) => (X, none)

/-! ## Example data -/

namespace Example

/-- A registry holding one exchange for `https://x.test/a`, registered under
the identifiers `X` and `F`. -/
def registry : Exchanges :=
  { exitUrlPattern := "GetDetails"
    store := [{ Exchange.fresh (some "https://x.test/a") with
                requestId := some "X", frameId := some "F", requestMethod := some "GET"
                request := { url := some "https://x.test/a", method := some "GET" } }]
    exchanges := [("X", 0)]
    exchangesByFrameId := [("F", 0)] }

/-- A redirect-carrying `RequestWillBeSent`: 302 from `/a` to `/b`. -/
def redirectToB : Params :=
  { requestId := some "X", frameId := some "F"
    request := some { url := some "https://x.test/b", method := some "GET",
                      headers := some [("Cookie", "s=1; t=2")] }
    redirectResponse := some { status := some 302,
                               headers := some [("Location", "/b"), ("Set-Cookie", "t=2")] } }

/-- A redirect-carrying `RequestWillBeSent`: 302 from `/b` to `/c`. -/
def redirectToC : Params :=
  { requestId := some "X", frameId := some "F"
    request := some { url := some "https://x.test/c", method := some "GET" }
    redirectResponse := some { status := some 302, headers := some [("Location", "/c")] } }

/-- An empty registry. -/
def empty : Exchanges := { exitUrlPattern := "GetDetails" }

/-- A `RequestWillBeSent` for the primary id `id` in frame `F`. -/
def willBeSent (id method : String) : Params :=
  { requestId := some id, frameId := some "F"
    request := some { url := some "https://x.test/api", method := some method } }

end Example

/-- A step that leaves the resolved method, the fault count and the primary
identifier of an exchange as they are. -/
def SameKey (e e' : Exchange) : Prop :=
  e'.requestMethod = e.requestMethod ∧ e'.methodFaults = e.methodFaults ∧
  e'.requestId = e.requestId

/-- A step that leaves the URL and the frame identifier of an exchange as they
are. -/
def SameUrl (e e' : Exchange) : Prop :=
  e'.url = e.url ∧ e'.frameId = e.frameId

/-! ## Registry consistency -/

namespace Exchanges

/-- Whether the exchange `ref` denotes is, in the primary map, either absent
under its own `requestId` or registered there itself. -/
def entryConsistent (X : Exchanges) (ref : Nat) : Bool :=
  match X.deref ref with
  | none => true
  | some e =>
    match e.requestId with
    | none => true
    | some id => X.exchanges.get id = none || X.exchanges.get id = some ref

/-- The index-consistency property of the registry: every exchange stored in
the frame-id map is, in the primary map, either absent under its own
`requestId` or registered there itself. -/
def consistent (X : Exchanges) : Bool :=
  X.exchangesByFrameId.all (fun p => X.entryConsistent p.2)

end Exchanges

/-! ## Response handlers -/

/-- The getter `ExchangeResponse.shouldLoadBody`, on the response of `e`. The
exchange always has a request object, so the `&&` chain ends in a boolean. -/
def ExchangeResponse.shouldLoadBody (e : Exchange) : Bool :=
  e.response.hasContent && !e.isPreflight && !e.response.loadingFailed.isSome

namespace Exchange

/-- The handler `loadingFinished(params, eventType)` up to its `await`: the
exchange afterwards and whether `loadBody()` is called. An error thrown by the
response aggregator is caught and logged. -/
def loadingFinished (H : Host) (e : Exchange) (params : Params) : Exchange × Bool :=
  match ExchangeResponse.applyParams H (e.log EventType.LoadingFinished) params
      EventType.LoadingFinished with
  | .error e => (e.log EventType.LoadingFinished, false)
  | .ok e => (e, ExchangeResponse.shouldLoadBody e)

/-- The handler `loadingFailed(params, eventType)`. -/
def loadingFailed (H : Host) (e : Exchange) (params : Params) : Exchange :=
  match ExchangeResponse.applyParams H (e.log EventType.LoadingFailed) params
      EventType.LoadingFailed with
  | .error e => e.log EventType.LoadingFailed
  | .ok e => e

end Exchange

/-- The listener for `Network.loadingFinished` of `capture-endpoint.js`: the
exchange is looked up with `allowAdd = false`. The result is the registry
afterwards, the reference `find` returned and whether `loadBody()` is called. -/
def onLoadingFinished (H : Host) (X : Exchanges) (params : Params) :
    Exchanges × Option Nat × Bool :=
  match Exchanges.find H X params false with
  | (X, some ref) =>
    match X.deref ref with
    | some e =>
      (X.update ref (fun _ => (Exchange.loadingFinished H e params).1), some ref,
        (Exchange.loadingFinished H e params).2)
    | none => (X, some ref, false)
  | (X, none) => (X, none, false)

/-- The listener for `Network.loadingFailed` of `capture-endpoint.js`. -/
def onLoadingFailed (H : Host) (X : Exchanges) (params : Params) : Exchanges × Option Nat :=
  match Exchanges.find H X params false with
  | (X, some ref) =>
    match X.deref ref with
    | some e => (X.update ref (fun _ => Exchange.loadingFailed H e params), some ref)
    | none => (X, some ref)
  | (X, none) => (X, none)

/-! ## Export -/

namespace Exchange

/-- The static list `Exchange.IGNORE_ENDPOINTS`. -/
def IGNORE_ENDPOINTS : List String :=
  [ "my.bswhealth.com/scripts", "my.bswhealth.com/release/js", "my.bswhealth.com/tm/appUpdate",
    "sso.bswhealth.com/Andylitics", "mychart.bswhealth.com/DT/scripts",
    "mychart.bswhealth.com/DT/bundles", "andylitics.bswapi.com", "andylitics-dev.bswhive.com",
    "omnichannelengagementhub", "amplitude.com", "dc.services.visualstudio.com",
    "google-analytics.com", "googletagmanager.com", "qualtrics.com", "doubleclick.net",
    "facebook.com", "twitter.com", "fonts.googleapis.com", "fonts.gstatic.com",
    "DT/PerformanceMetrics", "mychart.bswhealth.com/DT/en-US/styles/bundles", "DT/Analytics",
    "bswcdndesign-prod.bswhealth.com", "DT/templates", "gtm.bswhealth.com", "/lotties/",
    ".min.js", ".css", ".woff", ".woff2", ".ttf", ".png", ".jpg", ".jpeg", ".gif", ".svg",
    ".ico" ]

/-- The static method `Exchange.shouldIgnoreUrl`; on a missing URL the call
`url.includes` throws and the catch block returns `false`. -/
def shouldIgnoreUrl (url : Option String) : Bool :=
  match url with
  | some url => IGNORE_ENDPOINTS.any (fun endpoint => jsIncludes url endpoint)
  | none => false

/-- The static method `Exchange.cookieIsMychartPersist`. -/
def cookieIsMychartPersist (cookie : Item) : Bool :=
  cookie.prop "name" = Val.str "MCPersist" || cookie.prop "name" = Val.str "MyChartPersistence"

/-- The getter `hasRequestCookies`, as a truth value. -/
def hasRequestCookies (e : Exchange) : Bool := e.request.requestCookies.length > 0

/-- The getter `hasResponseCookies`, as a truth value: the `forEach` loop
assigns `hasC` once per cookie. -/
def hasResponseCookies (e : Exchange) : Bool :=
  if e.response.responseCookies.length > 0 then
    e.response.responseCookies.foldl (fun _ cookie => !cookieIsMychartPersist cookie) true
  else false

/-- The getter `redirectsHaveCookies`; the response of a snapshot is never
missing when the aggregator has recorded it. -/
def redirectsHaveCookies (e : Exchange) : Bool :=
  e.redirects.any (fun redirect =>
    match redirect.response.bind (·.responseCookies) with
    | some cookies => cookies.length > 0
    | none => false)

/-- The getter `hasCookies`. -/
def hasCookies (e : Exchange) : Bool :=
  e.hasRequestCookies || e.hasResponseCookies || (e.hasRedirects && e.redirectsHaveCookies)

/-- The getter `hasBody`. -/
def hasBody (e : Exchange) : Bool :=
  match e.response.body with
  | some body => body.length > 0
  | none => false

end Exchange

/-- The method `Exchanges.urlIsExitPattern`; on a missing URL the call
`url.includes` throws and the catch block returns `false`. -/
def Exchanges.urlIsExitPattern (X : Exchanges) (url : Option String) : Bool :=
  if X.exitUrlPattern = "" then false
  else match url with
    | some url => jsIncludes url X.exitUrlPattern
    | none => false

namespace Exchange

/-- The getter `shouldCapture`. -/
def shouldCapture (X : Exchanges) (e : Exchange) : Bool :=
  let retval := true
  let retval := if !truthyStr e.url then false else retval
  let retval := if shouldIgnoreUrl e.url then false else retval
  let retval := if X.urlIsExitPattern e.url then true else retval
  let retval := if e.request.method = some "OPTIONS" then false else retval
  let retval := if e.request.method = some "HEAD" then false else retval
  if e.hasResponseCookies then true else retval

/-- The call `s.replace(re, '-')` for a global character-class pattern that
`keep` complements: one `-` per UTF-16 code unit replaced. -/
def replaceOutside (keep : Char → Bool) (s : String) : String :=
  String.mk (s.data.flatMap (fun c =>
    if keep c then [c] else if c.toNat ≥ 65536 then ['-', '-'] else ['-']))

/-- Whether the character list ends with `suffix`. -/
def endsWithChars (suffix cs : List Char) : Bool := startsWithChars suffix.reverse cs.reverse

/-- The lookup `mimeToExt[this.response.mimeType] || '.txt'` of `bodyFileName`,
as the string `filename += ext` appends. The table is an object literal, so
besides its own eight keys it answers the keys it inherits from
`Object.prototype` with a function (or the prototype object), which is truthy
and is appended as the host prints it. A missing MIME type reads the key
`undefined`, which the table does not have. -/
def mimeToExt (H : Host) (mimeType : Option String) : String :=
  match mimeType with
  | some "application/json" => ".json"
  | some "text/html" => ".html"
  | some "text/plain" => ".txt"
  | some "application/javascript" => ".js"
  | some "text/javascript" => ".js"
  | some "application/xml" => ".xml"
  | some "text/xml" => ".xml"
  | some "text/css" => ".css"
  | some key => if key ∈ objectPrototypeKeys then H.inheritedText key else ".txt"
  | none => ".txt"

/-- The `try` block of the getter `bodyFileName`, after `new URL(this.url)`
has returned `u`. -/
def fileNameOfURL (H : Host) (u : URLParts) (mimeType : Option String) : String :=
  let filename : String := ((jsSplit u.pathname '/').getLast?).getD ""
  if filename = "inside.asp" ∧ u.mode.isSome then
    "inside-asp-mode-" ++ u.mode.getD "" ++ ".html"
  else
    let filename : String :=
      if filename = "" then String.mk (u.hostname.data.map (fun c => if c = '.' then '-' else c))
      else filename
    let filename : String :=
      if endsWithChars ['.', 'g', 'z'] filename.data then String.mk (filename.data.take (filename.data.length - 3))
      else if endsWithChars ['.', 'b', 'r'] filename.data then String.mk (filename.data.take (filename.data.length - 3))
      else filename
    let filename : String :=
      replaceOutside (fun c => c.isAlphanum || c = '.' || c = '_' || c = '-') filename
    if !jsIncludes filename "." then filename ++ mimeToExt H mimeType else filename

/-- The getter `bodyFileName`. When the URL does not parse, the catch block
builds the name from `this.requestId`; `none` is the `TypeError` it throws
when the exchange has no request id. -/
def bodyFileName (H : Host) (e : Exchange) : Option String :=
  match e.url.bind H.parseURL with
  | some u => some (fileNameOfURL H u e.response.mimeType)
  | none => e.requestId.map (fun requestId =>
      "body-" ++ replaceOutside Char.isAlphanum requestId ++ ".txt")

end Exchange

/-- An element of the array `cookieData` of `saveCaptures`. -/
structure CookieRecord where
  seq : Nat
  requestId : Option String
  url : Option String
  requestCookies : List Item
  responseCookies : List Item
  deriving DecidableEq, Repr

/-- A redirect snapshot as the export serialises it, with the request object
it holds. -/
structure ExportedRedirect where
  response : Option RedirectResponse
  request : Option ExchangeRequest
  sequence : Option String
  deriving DecidableEq, Repr

/-- The object `result` that `saveCaptures` builds for one exchange. A field
that is `none` is `undefined` or not set, and `JSON.stringify` leaves it out
of the file. -/
structure ExportEntry where
  seq : Nat
  requestId : Option String
  url : Option String
  finalUrl : Option String
  request : ExchangeRequest
  response : ExchangeResponse
  redirects : Option (List ExportedRedirect)
  eventsFired : List EventType
  completed : Option Bool
  deriving DecidableEq, Repr

/-- The documents `captureData` and `allCaptureData` of `saveCaptures`,
without the wall-clock `captureTime`. -/
structure CaptureData where
  targetPattern : String
  totalExchanges : Nat
  completedExchanges : Nat
  failedExchanges : Nat
  ignoredPatterns : List String
  exchanges : List ExportEntry
  deriving DecidableEq, Repr

/-- The files one run of the export body writes: the cookies document, the
body files (name and content), the filtered document and the unfiltered one.
A document is `none` when an error ended the run before it was written. -/
structure Export where
  cookies : Option (List CookieRecord) := none
  bodies : List (String × String) := []
  captures : Option CaptureData := none
  all : Option CaptureData := none
  deriving DecidableEq, Repr

namespace Exchanges

/-- The array `Array.from(this.exchanges.values())`, as references. -/
def allExchanges (X : Exchanges) : List Nat :=
  (X.exchanges.map (·.2)).filter (fun ref => (X.deref ref).isSome)

/-- The elements of `refs` whose exchange satisfies the getter `p`. -/
def select (X : Exchanges) (p : Exchange → Bool) (refs : List Nat) : List Nat :=
  refs.filter (fun ref =>
    match X.deref ref with
    | some e => p e
    | none => false)

/-- The callback of `cookieExchanges.map`, from position `index` on. -/
def cookieData (X : Exchanges) : Nat → List Nat → List CookieRecord
  | _, [] => []
  | index, ref :: rest =>
    match X.deref ref with
    | some e =>
      let originalRequest : ExchangeRequest :=
        match e.originalRequest with
        | some i => (e.requestAt i).getD e.request
        | none => e.request
      { seq := index, requestId := e.requestId, url := e.url
        requestCookies := originalRequest.requestCookies
        responseCookies := e.response.responseCookies } :: cookieData X (index + 1) rest
    | none => cookieData X (index + 1) rest

/-- The loop `bodyExchanges.forEach`: each body is written to the file
`bodyFileName` names, and the name is recorded on the response. The result is
the registry, the files written and whether the loop ran to its end (it stops
when `bodyFileName` throws). A write is taken to succeed: in the source
`fs.writeFileSync` can throw as well, which ends the export in the same catch
block. -/
def writeBodies (H : Host) (X : Exchanges) :
    List Nat → Exchanges × List (String × String) × Bool
  | [] => (X, [], true)
  | ref :: rest =>
    match X.deref ref with
    | some e =>
      match e.bodyFileName H with
      | some safeFilename =>
        match writeBodies H (X.update ref (fun e =>
            { e with response := { e.response with bodyFile := some safeFilename } })) rest with
        | (X, bodies, done) => (X, (safeFilename, e.response.body.getD "") :: bodies, done)
      | none => (X, [], false)
    | none => writeBodies H X rest

/-- The calls `exchange.setRedirectsSequence(index)` of `captureExchanges.map`,
from position `index` on. A thrown error carries the registry as it stands
when the error is thrown. -/
def sequenceFrom (H : Host) (X : Exchanges) : Nat → List Nat → Except Exchanges Exchanges
  | _, [] => .ok X
  | index, ref :: rest =>
    match X.deref ref with
    | some e =>
      match e.setRedirectsSequence H index with
      | .error e => .error (X.update ref (fun _ => e))
      | .ok e => sequenceFrom H (X.update ref (fun _ => e)) (index + 1) rest
    | none => sequenceFrom H X (index + 1) rest

/-- The object `result` for the exchange `e` at position `index`. -/
def entryOf (index : Nat) (e : Exchange) : ExportEntry :=
  { seq := index
    requestId := e.requestId
    url := e.url
    finalUrl := if truthyStr e.finalUrl then e.finalUrl else none
    request :=
      match e.originalRequest with
      | some i => (e.requestAt i).getD e.request
      | none => e.request
    response := e.response
    redirects :=
      if e.redirects.length > 0 then
        some (e.redirects.map (fun redirect =>
          { response := redirect.response, request := e.requestAt redirect.request,
            sequence := redirect.sequence }))
      else none
    eventsFired := e.eventsFired
    completed := e.completed }

/-- The array `exchanges` of an export document, from position `index` on. The
document is serialised after the whole array is built, so the entries show the
exchanges as the registry `X` holds them then. -/
def entriesFrom (X : Exchanges) : Nat → List Nat → List ExportEntry
  | _, [] => []
  | index, ref :: rest =>
    match X.deref ref with
    | some e => entryOf index e :: entriesFrom X (index + 1) rest
    | none => entriesFrom X (index + 1) rest

/-- An export document for the exchanges `refs`; the counts of `captureInfo`
are those of the registry `X0`, in which they are computed. -/
def captureData (X0 X : Exchanges) (refs : List Nat) : CaptureData :=
  { targetPattern := X.exitUrlPattern
    totalExchanges := refs.length
    completedExchanges := (X0.select (fun e => e.completed = some true) refs).length
    failedExchanges := (X0.select (fun e => e.completed ≠ some true) refs).length
    ignoredPatterns := Exchange.IGNORE_ENDPOINTS
    exchanges := entriesFrom X 0 refs }

/-- The body of `saveCaptures` after the guard: the registry afterwards and
the files written. The field `save_all_captures` is `true` from the
constructor on. An error thrown on the way is caught and logged, and ends the
run. -/
def exportBody (H : Host) (X : Exchanges) : Exchanges × Export :=
  let allExchanges := X.allExchanges
  let cookieExchanges := X.select Exchange.hasCookies allExchanges
  let bodyExchanges := X.select Exchange.hasBody allExchanges
  let captureExchanges := X.select (Exchange.shouldCapture X) allExchanges
  let out : Export := { cookies := some (X.cookieData 0 cookieExchanges) }
  match X.writeBodies H bodyExchanges with
  | (X1, bodies, false) => (X1, { out with bodies := bodies })
  | (X1, bodies, true) =>
    match X1.sequenceFrom H 0 captureExchanges with
    | .error X2 => (X2, { out with bodies := bodies })
    | .ok X2 =>
      (X2, { out with
        bodies := bodies
        captures := some (captureData X1 X2 captureExchanges)
        all := some (captureData X2 X2 allExchanges) })

/-- The method `saveCaptures()`: the registry afterwards and what the call
wrote; `none` when the guard returned before the export body. -/
def saveCaptures (H : Host) (X : Exchanges) : Exchanges × Option Export :=
  if X.savedCaptures then (X, none)
  else
    match exportBody H { X with savedCaptures := true } with
    | (X, out) => (X, some out)

/-- The results of `n` successive calls of `saveCaptures()`, oldest first, and
the registry after them. -/
def saveCapturesTimes (H : Host) (X : Exchanges) : Nat → Exchanges × List (Option Export)
  | 0 => (X, [])
  | n + 1 =>
    match saveCaptures H X with
    | (X, out) =>
      match saveCapturesTimes H X n with
      | (X, outs) => (X, out :: outs)

end Exchanges

/-- Two registries with the same maps and the same request id on every
exchange. -/
def SameIndex (X X' : Exchanges) : Prop :=
  X'.exchanges = X.exchanges ∧ X'.exchangesByFrameId = X.exchangesByFrameId ∧
  X'.store.length = X.store.length ∧
  ∀ ref, (X'.deref ref).map (·.requestId) = (X.deref ref).map (·.requestId)

/-! ## Further example data -/

namespace Example

/-- The registry after `find` has constructed an exchange for a notification
that carries the frame id `F` and neither a primary id nor a URL. -/
def urlless : Exchanges :=
  (Exchanges.find Host.ascii Example.empty { frameId := some "F" } true).1

/-- A notification for frame `F` that carries a URL and no primary id. -/
def framed (url : String) : Params :=
  { frameId := some "F", request := some { url := some url } }

/-- A pre-flight notification for the primary id `X` that carries no frame
id. -/
def preflight : Params :=
  { requestId := some "X"
    request := some { url := some "https://x.test/a", method := some "OPTIONS" } }

/-- A `RequestWillBeSent` for the primary id `id` that carries no frame id. -/
def bare (id method : String) : Params :=
  { requestId := some id
    request := some { url := some "https://x.test/api", method := some method } }

/-- An exchange for a `GET` of an image, after its `ResponseReceived`. -/
def image : Exchange :=
  stateAfter (ExchangeResponse.applyParams Host.ascii
    { Exchange.fresh (some "https://x.test/logo") with
      requestId := some "X", requestMethod := some "GET"
      request := { url := some "https://x.test/logo", method := some "GET" } }
    { requestId := some "X"
      response := some { status := some 200, mimeType := some "image/png",
                         encodedDataLength := some 100 } }
    EventType.ResponseReceived)

/-- An exchange for a `GET` of a JSON document, after its `ResponseReceived`. -/
def json : Exchange :=
  stateAfter (ExchangeResponse.applyParams Host.ascii
    { Exchange.fresh (some "https://x.test/api") with
      requestId := some "X", requestMethod := some "GET"
      request := { url := some "https://x.test/api", method := some "GET" } }
    { requestId := some "X"
      response := some { status := some 200, mimeType := some "application/json",
                         encodedDataLength := some 100 } }
    EventType.ResponseReceived)

/-- The registry after a `RequestWillBeSent` for `X` and nothing else: the
exchange has received no response notification. -/
def pending : Exchanges :=
  (onRequestWillBeSent Host.ascii Example.empty (Example.willBeSent "X" "GET")).1

end Example


/-! ## Request extra information -/

/-- The handler `requestWillBeSentExtraInfo(params, eventType)`, on the
exchange `ref` denotes. An error thrown by the request aggregator is caught
and logged. -/
def Exchange.requestWillBeSentExtraInfo (H : Host) (X : Exchanges) (ref : Nat)
    (params : Params) : Exchanges :=
  let X := X.update ref (fun e => e.log EventType.RequestWillBeSentExtraInfo)
  let X := Exchange.applyRequestParams X ref params
  match X.deref ref with
  | none => X
  | some e =>
    match ExchangeRequest.applyParams H e params EventType.RequestWillBeSentExtraInfo with
    | .error e => X.update ref (fun _ => e.log EventType.RequestWillBeSentExtraInfo)
    | .ok e => X.update ref (fun _ => e)

namespace Example

/-- The registry `registry` after the redirect to `/b`: one snapshot. -/
def redirected : Exchanges :=
  Exchange.requestWillBeSent Host.ascii Example.registry 0 Example.redirectToB

/-- The registry `registry` after the redirects to `/b` and to `/c`: two
snapshots. -/
def redirectedTwice : Exchanges :=
  Exchange.requestWillBeSent Host.ascii Example.redirected 0 Example.redirectToC

/-- A `RequestWillBeSentExtraInfo` for `X` with a header and a cookie. -/
def extraInfo : Params :=
  { requestId := some "X"
    headers := some [("X-Extra", "1")]
    associatedCookies := [{ cookie := some { name := some "u", value := some "3" } }] }

end Example

/-- The static method `ExchangeRequest.findNewCookies` on arrays that may be
absent (`null` or `undefined`). -/
def ExchangeRequest.findNewCookiesOf (H : Host) (oldCookies newCookies : Option (List Item)) :
    Option (List Item) :=
  match oldCookies with
  | none => some (newCookies.getD [])
  | some old =>
    if old.length = 0 then some (newCookies.getD [])
    else match newCookies with
      | none => some []
      | some new => ExchangeRequest.findNewCookies H old new

namespace Example

/-- A session cookie, which is no persistence cookie. -/
def sessionCookie : Item := Item.obj [("name", Val.str "JSESSIONID"), ("value", Val.str "abc")]

/-- A persistence cookie. -/
def persistCookie : Item := Item.obj [("name", Val.str "MCPersist"), ("value", Val.str "1")]

/-- An exchange whose response holds the cookies `cookies`. -/
def withCookies (cookies : List Item) : Exchange :=
  { Exchange.fresh (some "https://x.test/api") with
    response := { responseCookies := cookies } }

end Example

namespace Example

/-- The exchange of `redirected`: its one snapshot carries the explicit cookie
`t` of the redirect response, and the request to `/b` the cookies `s` and `t`. -/
def hop : Exchange := (Example.redirected.deref 0).getD (Exchange.fresh none)

end Example

namespace Exchange

/-- The character class `[a-zA-Z0-9._-]`. -/
def safeChar (c : Char) : Bool := c.isAlphanum || c = '.' || c = '_' || c = '-'

/-- A non-empty string of characters of the class `[a-zA-Z0-9._-]`. -/
def safeSegment (s : String) : Bool := !s.data.isEmpty && s.data.all safeChar

end Exchange

namespace Example

/-- An exchange for the page `inside.asp` whose `mode` holds path separators. -/
def insideAsp : Exchange :=
  { Exchange.fresh (some "https://my.bswhealth.com/inside.asp?mode=/../../x") with
    requestId := some "X" }

/-- An exchange whose response carries the MIME type `toString`, the name of
a property that plain objects inherit. -/
def inheritedMime : Exchange :=
  { Exchange.fresh (some "https://x.test/api") with
    requestId := some "X"
    response := { mimeType := some "toString" } }

end Example


namespace Example

/-- A registry holding one exchange for a `POST` to `https://x.test/form`,
registered under the identifiers `X` and `F`, with no redirect so far. -/
def posted : Exchanges :=
  { exitUrlPattern := "GetDetails"
    store := [{ Exchange.fresh (some "https://x.test/form") with
                requestId := some "X", frameId := some "F", requestMethod := some "POST"
                request := { url := some "https://x.test/form", method := some "POST" } }]
    exchanges := [("X", 0)]
    exchangesByFrameId := [("F", 0)] }

/-- A redirect-carrying `RequestWillBeSent`: 303 from the form to `/done`,
which the browser fetches with `GET`. -/
def seeOther : Params :=
  { requestId := some "X", frameId := some "F"
    request := some { url := some "https://x.test/done", method := some "GET" }
    redirectResponse := some { status := some 303, headers := some [("Location", "/done")] } }

end Example
/-! ## Plain objects: lemmas -/

namespace JSObject

variable {α : Type}

theorem get_isSome_iff (o : JSObject α) (k : String) : (get o k).isSome ↔ k ∈ keys o := by
  induction o with
  | nil => simp [get, keys]
  | cons p rest ih =>
    obtain ⟨k', v⟩ := p
    by_cases h : k' = k
    · simp [get, keys, h]
    · have h2 : ¬ k = k' := fun e => h e.symm
      simp only [get, h, if_false, ih, keys, List.map_cons, List.mem_cons, h2, false_or]

theorem get_eq_none_iff (o : JSObject α) (k : String) : get o k = none ↔ k ∉ keys o := by
  rw [← get_isSome_iff]
  cases get o k <;> simp

theorem keys_replaceKey (k : String) (v : α) (o : JSObject α) :
    keys (replaceKey k v o) = keys o := by
  induction o with
  | nil => rfl
  | cons p rest ih =>
    obtain ⟨k', v'⟩ := p
    by_cases h : k' = k
    · simp [replaceKey, keys, h]
    · simp only [replaceKey, h, if_false, keys, List.map_cons] at ih ⊢
      rw [ih]

theorem get_replaceKey (k : String) (v : α) (o : JSObject α) (k' : String) :
    get (replaceKey k v o) k' =
      if k' = k then (if (get o k).isSome then some v else none) else get o k' := by
  induction o with
  | nil => simp [replaceKey, get]
  | cons p rest ih =>
    obtain ⟨k₀, v₀⟩ := p
    by_cases h : k₀ = k
    · subst h
      by_cases h' : k' = k₀
      · simp [replaceKey, get, h']
      · have : ¬ k₀ = k' := fun e => h' e.symm
        simp [replaceKey, get, h', this]
    · by_cases h' : k' = k
      · subst h'
        simp only [replaceKey, h, if_false, get, ih, if_true]
      · by_cases h₀ : k₀ = k' <;> simp [replaceKey, h, get, ih, h', h₀]

theorem perm_insertIndex (n : Nat) (k : String) (v : α) (o : JSObject α) :
    List.Perm (insertIndex n k v o) ((k, v) :: o) := by
  induction o with
  | nil => simp [insertIndex]
  | cons p rest ih =>
    obtain ⟨k', v'⟩ := p
    simp only [insertIndex]
    split
    · split
      · exact (List.Perm.cons _ ih).trans (List.Perm.swap _ _ _)
      · exact List.Perm.refl _
    · exact List.Perm.refl _

theorem get_insertIndex (n : Nat) (k : String) (v : α) (o : JSObject α) (k' : String)
    (hk : get o k = none) :
    get (insertIndex n k v o) k' = if k' = k then some v else get o k' := by
  induction o with
  | nil =>
    by_cases h : k = k'
    · simp [insertIndex, get, h]
    · have : ¬ k' = k := fun e => h e.symm
      simp [insertIndex, get, h, this]
  | cons p rest ih =>
    obtain ⟨k₀, v₀⟩ := p
    have hne : ¬ k₀ = k := by
      intro e; simp [get, e] at hk
    have hrest : get rest k = none := by
      simpa [get, hne] using hk
    have key : get ((k, v) :: (k₀, v₀) :: rest) k' =
        if k' = k then some v else get ((k₀, v₀) :: rest) k' := by
      by_cases h : k = k'
      · simp [get, h]
      · have : ¬ k' = k := fun e => h e.symm
        simp [get, h, this]
    simp only [insertIndex]
    split
    · split
      · by_cases h₀ : k₀ = k'
        · have : ¬ k' = k := fun e => hne (h₀.trans e)
          simp [get, h₀, this]
        · simp only [get, h₀, if_false, ih hrest]
      · exact key
    · exact key

theorem get_set (o : JSObject α) (k : String) (v : α) (k' : String) :
    get (set o k v) k' = if k' = k then some v else get o k' := by
  unfold set
  by_cases hs : (get o k).isSome
  · simp only [hs, if_true, get_replaceKey]
  · have hk : get o k = none := by
      cases h : get o k with
      | none => rfl
      | some w => simp [h] at hs
    simp only [hs]
    cases arrayIndex? k with
    | some n => simpa using get_insertIndex n k v o k' hk
    | none =>
      simp only [Bool.false_eq_true, if_false]
      induction o with
      | nil =>
        by_cases h : k = k'
        · simp [get, h]
        · have : ¬ k' = k := fun e => h e.symm
          simp [get, h, this]
      | cons p rest ih =>
        obtain ⟨k₀, v₀⟩ := p
        have hne : ¬ k₀ = k := by
          intro e; simp [get, e] at hk
        have hrest : get rest k = none := by
          simpa [get, hne] using hk
        have hs' : ¬ (get rest k).isSome = true := by simp [hrest]
        by_cases h₀ : k₀ = k'
        · have : ¬ k' = k := fun e => hne (h₀.trans e)
          simp [get, h₀, this]
        · simp only [List.cons_append, get, h₀, if_false]
          exact ih hs' hrest

theorem mem_keys_set (o : JSObject α) (k : String) (v : α) (k' : String) :
    k' ∈ keys (set o k v) ↔ k' = k ∨ k' ∈ keys o := by
  rw [← get_isSome_iff, get_set, ← get_isSome_iff]
  by_cases h : k' = k <;> simp [h]

theorem nodup_keys_set (o : JSObject α) (k : String) (v : α) (h : (keys o).Nodup) :
    (keys (set o k v)).Nodup := by
  unfold set
  by_cases hs : (get o k).isSome
  · simp only [hs, if_true, keys_replaceKey]; exact h
  · have hk : k ∉ keys o := by rwa [← get_isSome_iff]
    have hcons : (keys ((k, v) :: o)).Nodup := by
      simp only [keys, List.map_cons, List.nodup_cons]
      exact ⟨hk, h⟩
    simp only [hs]
    cases arrayIndex? k with
    | some n =>
      exact ((perm_insertIndex n k v o).map Prod.fst).nodup_iff.mpr hcons
    | none =>
      simp only [Bool.false_eq_true, if_false, keys, List.map_append, List.map_cons, List.map_nil]
      exact (List.perm_append_singleton k (List.map Prod.fst o)).nodup_iff.mpr hcons

theorem get_assign (o : JSObject α) (k : String) (v : α) (k' : String) :
    get (assign o k v) k' =
      if k = "__proto__" then get o k' else if k' = k then some v else get o k' := by
  unfold assign
  by_cases h : k = "__proto__"
  · simp only [h, if_true]
  · simp only [h, if_false, get_set]

theorem nodup_keys_assign (o : JSObject α) (k : String) (v : α) (h : (keys o).Nodup) :
    (keys (assign o k v)).Nodup := by
  unfold assign
  split
  · exact h
  · exact nodup_keys_set o k v h

theorem proto_not_mem_keys_assign (o : JSObject α) (k : String) (v : α)
    (h : "__proto__" ∉ keys o) : "__proto__" ∉ keys (assign o k v) := by
  unfold assign
  split
  · exact h
  · rename_i hk
    rw [mem_keys_set]
    rintro (e | e)
    · exact hk e.symm
    · exact h e

end JSObject

/-! ## Header merge -/

theorem lastValueCI_isSome_iff (H : Host) (hs : Headers) (k : String) :
    (lastValueCI H hs k).isSome ↔ ∃ p ∈ hs, H.toLowerCase p.1 = k := by
  induction hs with
  | nil => simp [lastValueCI]
  | cons p rest ih =>
    obtain ⟨k', v⟩ := p
    simp only [lastValueCI, List.mem_cons, exists_eq_or_imp]
    cases h : lastValueCI H rest k with
    | some w =>
      have := ih.mp (by simp [h])
      simp [this]
    | none =>
      have hno : ¬ ∃ p ∈ rest, H.toLowerCase p.1 = k := by
        intro hex
        have := ih.mpr hex
        simp [h] at this
      by_cases hk : H.toLowerCase k' = k <;> simp [hk, hno]

theorem get_lowerInto (H : Host) (hs target : Headers) (k : String) (hk : k ≠ "__proto__") :
    JSObject.get (lowerInto H target hs) k =
      match lastValueCI H hs k with
      | some w => some w
      | none => JSObject.get target k := by
  induction hs generalizing target with
  | nil => simp [lowerInto, lastValueCI]
  | cons p rest ih =>
    obtain ⟨k', v⟩ := p
    have hstep : lowerInto H target ((k', v) :: rest) =
        lowerInto H (JSObject.assign target (H.toLowerCase k') v) rest := rfl
    rw [hstep, ih, JSObject.get_assign]
    simp only [lastValueCI]
    cases lastValueCI H rest k with
    | some w => rfl
    | none =>
      have hk' : ¬ "__proto__" = k := fun e => hk e.symm
      by_cases hkk : H.toLowerCase k' = k
      · subst hkk
        simp [hk]
      · have : ¬ k = H.toLowerCase k' := fun e => hkk e.symm
        by_cases hp : H.toLowerCase k' = "__proto__"
        · simp [hkk, hp, hk']
        · simp [hkk, this, hp]

theorem nodup_keys_lowerInto (H : Host) (hs target : Headers)
    (h : (JSObject.keys target).Nodup) : (JSObject.keys (lowerInto H target hs)).Nodup := by
  induction hs generalizing target with
  | nil => exact h
  | cons p rest ih => exact ih _ (JSObject.nodup_keys_assign _ _ _ h)

/-- The loop never gives its target an own `__proto__`. -/
theorem proto_not_mem_lowerInto (H : Host) (hs target : Headers)
    (h : "__proto__" ∉ JSObject.keys target) :
    "__proto__" ∉ JSObject.keys (lowerInto H target hs) := by
  induction hs generalizing target with
  | nil => exact h
  | cons p rest ih => exact ih _ (JSObject.proto_not_mem_keys_assign _ _ _ h)

theorem get_rebuild (merged : Headers) (ks : List String) (acc : Headers) (k : String) :
    JSObject.get (ks.foldl (fun sorted key =>
        JSObject.assign sorted key ((JSObject.get merged key).getD "")) acc) k =
      if k ∈ ks ∧ k ≠ "__proto__" then some ((JSObject.get merged k).getD "")
      else JSObject.get acc k := by
  induction ks generalizing acc with
  | nil => simp
  | cons a rest ih =>
    simp only [List.foldl_cons, ih, JSObject.get_assign, List.mem_cons]
    by_cases h4 : k = "__proto__"
    · simp only [h4, ne_eq, not_true_eq_false, and_false, if_false]
      split
      · rfl
      · rename_i hne
        have : ¬ "__proto__" = a := fun e => hne e.symm
        simp [this]
    · by_cases h1 : k ∈ rest
      · simp [h1, h4]
      · by_cases h2 : k = a
        · have h3 : ¬ a = "__proto__" := fun e => h4 (h2.trans e)
          simp [h1, h2, h3]
        · simp [h1, h2, h4]

theorem nodup_keys_rebuild (merged : Headers) (ks : List String) (acc : Headers)
    (h : (JSObject.keys acc).Nodup) :
    (JSObject.keys (ks.foldl (fun sorted key =>
        JSObject.assign sorted key ((JSObject.get merged key).getD "")) acc)).Nodup := by
  induction ks generalizing acc with
  | nil => exact h
  | cons a rest ih => exact ih _ (JSObject.nodup_keys_assign _ _ _ h)

theorem proto_not_mem_rebuild (merged : Headers) (ks : List String) (acc : Headers)
    (h : "__proto__" ∉ JSObject.keys acc) :
    "__proto__" ∉ JSObject.keys (ks.foldl (fun sorted key =>
        JSObject.assign sorted key ((JSObject.get merged key).getD "")) acc) := by
  induction ks generalizing acc with
  | nil => exact h
  | cons a rest ih => exact ih _ (JSObject.proto_not_mem_keys_assign _ _ _ h)

/-- A merge with a non-null original has no own `__proto__`. -/
theorem proto_not_mem_mergeHeaders (H : Host) (orig new : Headers) :
    "__proto__" ∉ JSObject.keys (Exchange.mergeHeaders H (some orig) new) := by
  simp only [Exchange.mergeHeaders]
  exact proto_not_mem_rebuild _ _ _ (by simp [JSObject.keys])

/-- Reading a key of a merge with a non-null original: the new map's value
for a case-variant of the key if it has one, otherwise the original's. -/
theorem get_mergeHeaders (H : Host) (orig new : Headers) (k : String) (hk : k ≠ "__proto__") :
    JSObject.get (Exchange.mergeHeaders H (some orig) new) k =
      match lastValueCI H new k with
      | some w => some w
      | none => lastValueCI H orig k := by
  simp only [Exchange.mergeHeaders]
  rw [get_rebuild]
  have hm : JSObject.get (lowerInto H (lowerInto H [] orig) new) k =
      match lastValueCI H new k with
      | some w => some w
      | none => lastValueCI H orig k := by
    rw [get_lowerInto H new _ k hk, get_lowerInto H orig _ k hk]
    cases lastValueCI H new k with
    | some w => rfl
    | none =>
      cases lastValueCI H orig k with
      | some w => rfl
      | none => rfl
  have hmem : k ∈ jsSort H.localeCompare (JSObject.keys (lowerInto H (lowerInto H [] orig) new))
      ↔ (JSObject.get (lowerInto H (lowerInto H [] orig) new) k).isSome := by
    rw [jsSort, List.mem_insertionSort, JSObject.get_isSome_iff]
  by_cases hs : (JSObject.get (lowerInto H (lowerInto H [] orig) new) k).isSome
  · rw [if_pos ⟨hmem.mpr hs, hk⟩, ← hm]
    cases h : JSObject.get (lowerInto H (lowerInto H [] orig) new) k with
    | some w => rfl
    | none => simp [h] at hs
  · rw [if_neg (fun h => hs (hmem.mp h.1)), ← hm]
    cases h : JSObject.get (lowerInto H (lowerInto H [] orig) new) k with
    | some w => simp [h] at hs
    | none => rfl

theorem nodup_keys_mergeHeaders (H : Host) (orig new : Headers) :
    (JSObject.keys (Exchange.mergeHeaders H (some orig) new)).Nodup := by
  simp only [Exchange.mergeHeaders]
  exact nodup_keys_rebuild _ _ _ List.nodup_nil

theorem mem_keys_mergeHeaders (H : Host) (orig new : Headers) (k : String) :
    k ∈ JSObject.keys (Exchange.mergeHeaders H (some orig) new) ↔
      k ≠ "__proto__" ∧ ∃ p ∈ orig ++ new, H.toLowerCase p.1 = k := by
  by_cases hk : k = "__proto__"
  · subst hk
    constructor
    · intro h
      exact absurd h (proto_not_mem_mergeHeaders H orig new)
    · intro h
      exact absurd rfl h.1
  · rw [← JSObject.get_isSome_iff, get_mergeHeaders H orig new k hk]
    simp only [List.mem_append, or_and_right, exists_or]
    rw [← lastValueCI_isSome_iff, ← lastValueCI_isSome_iff]
    cases lastValueCI H new k with
    | some w => simp [hk]
    | none => simp [hk]

/-- On a map whose keys are distinct and already lower-case, the
case-insensitive read is the plain read. -/
theorem lastValueCI_eq_get (H : Host) (o : Headers) (hn : (JSObject.keys o).Nodup)
    (hl : ∀ k ∈ JSObject.keys o, H.toLowerCase k = k) (k : String) :
    lastValueCI H o k = JSObject.get o k := by
  induction o with
  | nil => rfl
  | cons p rest ih =>
    obtain ⟨k', v⟩ := p
    simp only [JSObject.keys, List.map_cons, List.nodup_cons, List.mem_cons,
      forall_eq_or_imp] at hn hl
    have ih' := ih hn.2 hl.2
    simp only [lastValueCI, JSObject.get, hl.1]
    by_cases hk : k' = k
    · subst hk
      have : JSObject.get rest k' = none := (JSObject.get_eq_none_iff rest k').mpr hn.1
      rw [ih', this]
    · rw [ih']
      cases JSObject.get rest k with
      | some w => simp [hk]
      | none => simp [hk]

theorem lower_fixed_mergeHeaders (H : Host)
    (hLower : ∀ s, H.toLowerCase (H.toLowerCase s) = H.toLowerCase s)
    (orig new : Headers) :
    ∀ k ∈ JSObject.keys (Exchange.mergeHeaders H (some orig) new), H.toLowerCase k = k := by
  intro k hk
  obtain ⟨_, p, _, hp⟩ := (mem_keys_mergeHeaders H orig new k).mp hk
  rw [← hp, hLower]

/-- A key that no later notification sets keeps its value through the later
merges. -/
theorem get_mergeAll_of_unset (H : Host)
    (hLower : ∀ s, H.toLowerCase (H.toLowerCase s) = H.toLowerCase s)
    (post : List Headers) (acc : Headers) (k : String) (hk : k ≠ "__proto__")
    (hn : (JSObject.keys acc).Nodup) (hl : ∀ k ∈ JSObject.keys acc, H.toLowerCase k = k)
    (hpost : ∀ h ∈ post, lastValueCI H h k = none) :
    JSObject.get (mergeAll H acc post) k = JSObject.get acc k := by
  induction post generalizing acc with
  | nil => rfl
  | cons h rest ih =>
    have hstep : mergeAll H acc (h :: rest) =
        mergeAll H (Exchange.mergeHeaders H (some acc) h) rest := rfl
    rw [hstep, ih _ (nodup_keys_mergeHeaders H acc h) (lower_fixed_mergeHeaders H hLower acc h)
      (fun h' hh => hpost h' (List.mem_cons_of_mem _ hh)), get_mergeHeaders H acc h k hk,
      hpost h (List.mem_cons_self _ _)]
    exact lastValueCI_eq_get H acc hn hl k

theorem mergeAll_append (H : Host) (orig : Headers) (pre post : List Headers) :
    mergeAll H orig (pre ++ post) = mergeAll H (mergeAll H orig pre) post := by
  simp [mergeAll, List.foldl_append]

theorem toLower_toLower (c : Char) : c.toLower.toLower = c.toLower := by
  by_cases h : c.toNat ≥ 65 ∧ c.toNat ≤ 90
  · have hc : c = Char.ofNat c.toNat := (Char.ofNat_toNat c).symm
    obtain ⟨h1, h2⟩ := h
    generalize c.toNat = n at hc h1 h2
    subst hc
    interval_cases n <;> rfl
  · have : c.toLower = c := by
      unfold Char.toLower
      simp only [h, if_false]
    rw [this, this]

theorem Host.ascii_toLowerCase_idem (s : String) :
    Host.ascii.toLowerCase (Host.ascii.toLowerCase s) = Host.ascii.toLowerCase s := by
  simp only [Host.ascii, List.map_map]
  congr 1
  apply List.map_congr_left
  intro c _
  exact toLower_toLower c

/-- C1 (as amended). For a non-null original header map `orig` and a header
map `new`, the map `mergeHeaders(orig, new)` has only lower-case keys, each
once, and no two of them differ only by case; its key set is exactly the
lower-cased keys of `orig` and `new` other than `__proto__`, which is never a
key of the result; the value under a key is the one `new` gives for its last
key equal to it ignoring case when `new` has such a key, otherwise the one
`orig` gives; and after merging a sequence of notifications one by one, a key
other than `__proto__` holds the value of the last notification that set it.
(`toLowerCase` is assumed idempotent, as Unicode lower-casing is.) -/
theorem mergeHeaders_lowercase_last_wins (H : Host)
    (hLower : ∀ s, H.toLowerCase (H.toLowerCase s) = H.toLowerCase s)
    (orig new : Headers) :
    (∀ k ∈ JSObject.keys (Exchange.mergeHeaders H (some orig) new), H.toLowerCase k = k) ∧
    (JSObject.keys (Exchange.mergeHeaders H (some orig) new)).Nodup ∧
    (∀ k₁ ∈ JSObject.keys (Exchange.mergeHeaders H (some orig) new),
      ∀ k₂ ∈ JSObject.keys (Exchange.mergeHeaders H (some orig) new),
        H.toLowerCase k₁ = H.toLowerCase k₂ → k₁ = k₂) ∧
    (∀ k, k ∈ JSObject.keys (Exchange.mergeHeaders H (some orig) new) ↔
      k ≠ "__proto__" ∧ ∃ p ∈ orig ++ new, H.toLowerCase p.1 = k) ∧
    (∀ k, k ≠ "__proto__" →
      JSObject.get (Exchange.mergeHeaders H (some orig) new) k =
        match lastValueCI H new k with
        | some v => some v
        | none => lastValueCI H orig k) ∧
    (∀ (pre post : List Headers) (n : Headers) (k : String), k ≠ "__proto__" →
      (lastValueCI H n k).isSome → (∀ n' ∈ post, lastValueCI H n' k = none) →
      JSObject.get (mergeAll H orig (pre ++ n :: post)) k = lastValueCI H n k) := by
  have hfix := lower_fixed_mergeHeaders H hLower orig new
  refine ⟨hfix, nodup_keys_mergeHeaders H orig new, ?_, mem_keys_mergeHeaders H orig new,
    get_mergeHeaders H orig new, ?_⟩
  · intro k₁ h₁ k₂ h₂ he
    rw [hfix k₁ h₁, hfix k₂ h₂] at he
    exact he
  · intro pre post n k hk hset hpost
    have hsplit : mergeAll H orig (pre ++ n :: post) =
        mergeAll H (Exchange.mergeHeaders H (some (mergeAll H orig pre)) n) post := by
      rw [mergeAll_append]; rfl
    rw [hsplit, get_mergeAll_of_unset H hLower post _ k hk (nodup_keys_mergeHeaders H _ n)
      (lower_fixed_mergeHeaders H hLower _ n) hpost, get_mergeHeaders H _ n k hk]
    cases h : lastValueCI H n k with
    | some w => rfl
    | none => simp [h] at hset

/-- C1 as stated fails on a header named `__proto__`: the new map has the two
names `__proto__` and `b`, and the merged map has the one key `b`, whatever
the original map holds. The assignment `merged['__proto__'] = 'x'` goes to
the accessor of `Object.prototype` and creates no property. -/
theorem mergeHeaders_drops_proto :
    Exchange.mergeHeaders Host.ascii (some []) [("__proto__", "x"), ("b", "1")] = [("b", "1")] ∧
    (∃ p ∈ ([] : Headers) ++ [("__proto__", "x"), ("b", "1")],
      Host.ascii.toLowerCase p.1 = "__proto__") ∧
    "__proto__" ∉ JSObject.keys
      (Exchange.mergeHeaders Host.ascii (some []) [("__proto__", "x"), ("b", "1")]) ∧
    Exchange.mergeHeaders Host.ascii (some [("a", "0")]) [("__PROTO__", "x")] = [("a", "0")] ∧
    Exchange.mergeHeaders Host.ascii none [("__proto__", "x"), ("b", "1")] = [("b", "1")] := by
  refine ⟨by decide, ⟨("__proto__", "x"), by decide, by decide⟩, by decide, by decide, by decide⟩

/-- C1 (as amended) at a concrete input: `Content-Type` arrives in two case
variants and `Accept` is later overwritten through an upper-case variant. -/
theorem mergeHeaders_lowercase_last_wins_witness :
    (∀ s, Host.ascii.toLowerCase (Host.ascii.toLowerCase s) = Host.ascii.toLowerCase s) ∧
    Exchange.mergeHeaders Host.ascii (some [("Content-Type", "a"), ("accept", "x")])
        [("content-type", "b"), ("ACCEPT", "y")]
      = [("accept", "y"), ("content-type", "b")] ∧
    JSObject.get (mergeAll Host.ascii [("Content-Type", "a"), ("accept", "x")]
        ([] ++ [("ACCEPT", "y")] :: [[("content-type", "b")]])) "accept" = some "y" :=
  ⟨Host.ascii_toLowerCase_idem, by decide,
    by
      rw [(mergeHeaders_lowercase_last_wins Host.ascii Host.ascii_toLowerCase_idem
        [("Content-Type", "a"), ("accept", "x")] []).2.2.2.2.2 [] [[("content-type", "b")]]
        [("ACCEPT", "y")] "accept" (by decide) (by decide) (by decide)]
      decide⟩

/-! ## The merge loop -/

section MergeLoop

variable {α κ : Type} [DecidableEq κ] (key : α → κ)

theorem any_same_iff (l : List α) (x : α) :
    l.any (fun c => decide (key c = key x)) = true ↔ key x ∈ l.map key := by
  simp only [List.any_eq_true, decide_eq_true_eq, List.mem_map]

theorem map_key_replaceFirst (l : List α) (x : α) :
    (replaceFirst (fun c => decide (key c = key x)) x l).map key = l.map key := by
  induction l with
  | nil => rfl
  | cons a l ih =>
    by_cases h : key a = key x
    · simp [replaceFirst, h]
    · simp [replaceFirst, h, ih]

theorem replaceFirst_eq_map (l : List α) (x : α) (hn : (l.map key).Nodup) :
    replaceFirst (fun c => decide (key c = key x)) x l =
      l.map (fun e => if key e = key x then x else e) := by
  induction l with
  | nil => rfl
  | cons a l ih =>
    simp only [List.map_cons, List.nodup_cons] at hn
    by_cases h : key a = key x
    · have hrest : ∀ e ∈ l, ¬ key e = key x := by
        intro e he hk
        exact hn.1 (List.mem_map.mpr ⟨e, he, hk.trans h.symm⟩)
      have : l.map (fun e => if key e = key x then x else e) = l := by
        conv_rhs => rw [← List.map_id l]
        apply List.map_congr_left
        intro e he
        simp [hrest e he]
      simp [replaceFirst, h, this]
    · simp [replaceFirst, h, ih hn.2]

theorem upsert_of_mem (l : List α) (x : α) (hn : (l.map key).Nodup) (hx : key x ∈ l.map key) :
    upsert (fun c y => decide (key c = key y)) l x =
      l.map (fun e => if key e = key x then x else e) := by
  unfold upsert
  rw [if_pos ((any_same_iff key l x).mpr hx), replaceFirst_eq_map key l x hn]

theorem upsert_of_not_mem (l : List α) (x : α) (hx : key x ∉ l.map key) :
    upsert (fun c y => decide (key c = key y)) l x = l ++ [x] := by
  unfold upsert
  rw [if_neg (fun h => hx ((any_same_iff key l x).mp h))]

theorem mem_keys_upsert (l : List α) (x : α) (k : κ) :
    k ∈ (upsert (fun c y => decide (key c = key y)) l x).map key ↔ k = key x ∨ k ∈ l.map key := by
  unfold upsert
  by_cases h : l.any (fun c => decide (key c = key x)) = true
  · rw [if_pos h, map_key_replaceFirst]
    have := (any_same_iff key l x).mp h
    constructor
    · exact Or.inr
    · rintro (rfl | h') <;> assumption
  · rw [if_neg h]
    simp only [List.map_append, List.map_cons, List.map_nil, List.mem_append, List.mem_singleton]
    tauto

theorem nodup_keys_upsert (l : List α) (x : α) (hn : (l.map key).Nodup) :
    ((upsert (fun c y => decide (key c = key y)) l x).map key).Nodup := by
  unfold upsert
  by_cases h : l.any (fun c => decide (key c = key x)) = true
  · rw [if_pos h, map_key_replaceFirst]; exact hn
  · rw [if_neg h]
    have hx : key x ∉ l.map key := fun hx => h ((any_same_iff key l x).mpr hx)
    simp only [List.map_append, List.map_cons, List.map_nil]
    exact List.Nodup.append hn (List.nodup_singleton _) (by simpa using hx)

theorem mem_upsert (l : List α) (x e : α) (hn : (l.map key).Nodup)
    (he : e ∈ upsert (fun c y => decide (key c = key y)) l x) :
    e = x ∨ (e ∈ l ∧ key e ≠ key x) := by
  by_cases hx : key x ∈ l.map key
  · rw [upsert_of_mem key l x hn hx, List.mem_map] at he
    obtain ⟨a, ha, rfl⟩ := he
    by_cases hk : key a = key x
    · simp [hk]
    · simp only [hk, if_false]
      exact Or.inr ⟨ha, hk⟩
  · rw [upsert_of_not_mem key l x hx, List.mem_append, List.mem_singleton] at he
    rcases he with he | he
    · right
      refine ⟨he, fun hk => hx ?_⟩
      exact List.mem_map.mpr ⟨e, he, hk⟩
    · exact Or.inl he

theorem lastWithKey_eq_none_iff (l : List α) (k : κ) :
    lastWithKey key l k = none ↔ k ∉ l.map key := by
  induction l with
  | nil => simp [lastWithKey]
  | cons c rest ih =>
    simp only [lastWithKey, List.map_cons, List.mem_cons, not_or]
    cases h : lastWithKey key rest k with
    | some e =>
      have hm : ¬ (k ∉ rest.map key) := fun hn => by rw [ih.mpr hn] at h; cases h
      constructor
      · intro h'; cases h'
      · intro h'; exact absurd h'.2 hm
    | none =>
      have hm := ih.mp h
      by_cases hk : key c = k
      · constructor
        · intro h'; simp [hk] at h'
        · intro h'; exact absurd hk.symm h'.1
      · constructor
        · intro _; exact ⟨fun e => hk e.symm, hm⟩
        · intro _; simp [hk]

theorem lastWithKey_key (l : List α) (k : κ) (e : α) (h : lastWithKey key l k = some e) :
    e ∈ l ∧ key e = k := by
  induction l with
  | nil => simp [lastWithKey] at h
  | cons c rest ih =>
    simp only [lastWithKey] at h
    cases h' : lastWithKey key rest k with
    | some e' =>
      rw [h'] at h
      cases h
      exact ⟨List.mem_cons_of_mem _ (ih h').1, (ih h').2⟩
    | none =>
      rw [h'] at h
      by_cases hk : key c = k
      · simp only [hk, if_true, Option.some.injEq] at h
        subst h
        exact ⟨List.mem_cons_self _ _, hk⟩
      · simp [hk] at h

theorem nodup_keys_foldl_upsert (B l : List α) (hn : (l.map key).Nodup) :
    ((B.foldl (upsert (fun c y => decide (key c = key y))) l).map key).Nodup := by
  induction B generalizing l with
  | nil => exact hn
  | cons c rest ih => exact ih _ (nodup_keys_upsert key l c hn)

theorem mem_keys_foldl_upsert (B l : List α) (k : κ) :
    k ∈ (B.foldl (upsert (fun c y => decide (key c = key y))) l).map key ↔
      k ∈ l.map key ∨ k ∈ B.map key := by
  induction B generalizing l with
  | nil => simp
  | cons c rest ih =>
    rw [List.foldl_cons, ih, mem_keys_upsert]
    simp only [List.map_cons, List.mem_cons]
    tauto

/-- Every entry the loop leaves is the last element of `B` with its key, or,
when `B` has no element with that key, an entry of the original list. -/
theorem mem_foldl_upsert (B l : List α) (hn : (l.map key).Nodup) (e : α)
    (he : e ∈ B.foldl (upsert (fun c y => decide (key c = key y))) l) :
    (key e ∈ B.map key → lastWithKey key B (key e) = some e) ∧
    (key e ∉ B.map key → e ∈ l) := by
  induction B generalizing l with
  | nil => exact ⟨fun h => by simp at h, fun _ => he⟩
  | cons c rest ih =>
    rw [List.foldl_cons] at he
    obtain ⟨ih1, ih2⟩ := ih _ (nodup_keys_upsert key l c hn) he
    by_cases hr : key e ∈ rest.map key
    · refine ⟨fun _ => ?_, fun h => (h (List.mem_cons_of_mem _ hr)).elim⟩
      simp only [lastWithKey, ih1 hr]
    · have hnone := (lastWithKey_eq_none_iff key rest (key e)).mpr hr
      rcases mem_upsert key l c e hn (ih2 hr) with rfl | ⟨hel, hne⟩
      · refine ⟨fun _ => ?_, fun h => (h (List.mem_cons_self _ _)).elim⟩
        simp only [lastWithKey, hnone, if_true]
      · refine ⟨fun h => ?_, fun _ => hel⟩
        simp only [List.map_cons, List.mem_cons] at h
        rcases h with h | h
        · exact absurd h hne
        · exact absurd h hr

/-- When every key of `B` is already present, the loop only overwrites. -/
theorem foldl_upsert_eq_map (B l : List α) (hn : (l.map key).Nodup)
    (hB : ∀ c ∈ B, key c ∈ l.map key) :
    B.foldl (upsert (fun c y => decide (key c = key y))) l =
      l.map (fun e => (lastWithKey key B (key e)).getD e) := by
  induction B generalizing l with
  | nil => simp [lastWithKey]
  | cons c rest ih =>
    have hc := hB c (List.mem_cons_self _ _)
    have hkeys : (upsert (fun c y => decide (key c = key y)) l c).map key = l.map key := by
      unfold upsert
      rw [if_pos ((any_same_iff key l c).mpr hc), map_key_replaceFirst]
    rw [List.foldl_cons, ih _ (nodup_keys_upsert key l c hn)
      (fun c' hc' => by rw [hkeys]; exact hB c' (List.mem_cons_of_mem _ hc')),
      upsert_of_mem key l c hn hc, List.map_map]
    apply List.map_congr_left
    intro e _
    simp only [Function.comp, lastWithKey]
    by_cases hk : key e = key c
    · simp only [hk, if_true]
      cases lastWithKey key rest (key c) <;> rfl
    · have : ¬ key c = key e := fun h => hk h.symm
      simp only [hk, if_false, this]
      cases lastWithKey key rest (key e) <;> rfl

/-- Running the loop again over the same `B` changes nothing. -/
theorem foldl_upsert_fixed (B l m : List α) (hn : (l.map key).Nodup)
    (hm : List.Perm m (B.foldl (upsert (fun c y => decide (key c = key y))) l)) :
    B.foldl (upsert (fun c y => decide (key c = key y))) m = m := by
  have hnm : (m.map key).Nodup :=
    (hm.map key).nodup_iff.mpr (nodup_keys_foldl_upsert key B l hn)
  have hB : ∀ c ∈ B, key c ∈ m.map key := by
    intro c hc
    rw [(hm.map key).mem_iff, mem_keys_foldl_upsert]
    exact Or.inr (List.mem_map.mpr ⟨c, hc, rfl⟩)
  rw [foldl_upsert_eq_map key B m hnm hB]
  conv_rhs => rw [← List.map_id m]
  apply List.map_congr_left
  intro e he
  obtain ⟨h1, _⟩ := mem_foldl_upsert key B l hn e (hm.mem_iff.mp he)
  by_cases hk : key e ∈ B.map key
  · simp [h1 hk]
  · simp [(lastWithKey_eq_none_iff key B (key e)).mpr hk]

end MergeLoop

theorem mem_replaceFirst {α : Type} (p : α → Bool) (x e : α) (l : List α)
    (he : e ∈ replaceFirst p x l) : e = x ∨ e ∈ l := by
  induction l with
  | nil => simp [replaceFirst] at he
  | cons a l ih =>
    simp only [replaceFirst] at he
    split at he
    · rcases List.mem_cons.mp he with h | h
      · exact Or.inl h
      · exact Or.inr (List.mem_cons_of_mem _ h)
    · rcases List.mem_cons.mp he with h | h
      · exact Or.inr (h ▸ List.mem_cons_self _ _)
      · rcases ih h with h' | h'
        · exact Or.inl h'
        · exact Or.inr (List.mem_cons_of_mem _ h')

theorem mem_foldl_upsert_subset {α β : Type} (same : α → α → Bool) (g : β → α)
    (B : List β) (l : List α) (e : α)
    (he : e ∈ B.foldl (fun m w => upsert same m (g w)) l) : e ∈ l ∨ e ∈ B.map g := by
  induction B generalizing l with
  | nil => exact Or.inl he
  | cons c rest ih =>
    rw [List.foldl_cons] at he
    rcases ih _ he with h | h
    · have h' : e = g c ∨ e ∈ l := by
        unfold upsert at h
        split at h
        · exact mem_replaceFirst _ _ _ _ h
        · rcases List.mem_append.mp h with h | h
          · exact Or.inr h
          · exact Or.inl (List.mem_singleton.mp h)
      rcases h' with h' | h'
      · exact Or.inr (by simp [h'])
      · exact Or.inl h'
    · exact Or.inr (by simp only [List.map_cons]; exact List.mem_cons_of_mem _ h)

/-! ## Sorting -/

section Sorting

variable {α : Type}

theorem perm_orderedInsertM (cmp : α → α → Option Int) (a : α) (l s : List α)
    (h : orderedInsertM cmp a l = some s) : List.Perm s (a :: l) := by
  induction l generalizing s with
  | nil =>
    simp only [orderedInsertM, Option.some.injEq] at h
    subst h; exact List.Perm.refl _
  | cons b l ih =>
    simp only [orderedInsertM] at h
    cases hc : cmp a b with
    | none => simp [hc] at h
    | some c =>
      simp only [hc] at h
      by_cases hle : c ≤ 0
      · simp only [hle, if_true, Option.some.injEq] at h
        subst h; exact List.Perm.refl _
      · simp only [hle, if_false] at h
        cases hr : orderedInsertM cmp a l with
        | none => simp [hr] at h
        | some t =>
          simp only [hr, Option.map_some', Option.some.injEq] at h
          subst h
          exact ((ih t hr).cons b).trans (List.Perm.swap a b l)

theorem perm_jsSortM (cmp : α → α → Option Int) (l s : List α)
    (h : jsSortM cmp l = some s) : List.Perm s l := by
  induction l generalizing s with
  | nil =>
    simp only [jsSortM, Option.some.injEq] at h
    subst h; exact List.Perm.refl _
  | cons a l ih =>
    simp only [jsSortM] at h
    cases hr : jsSortM cmp l with
    | none => simp [hr] at h
    | some t =>
      simp only [hr] at h
      exact (perm_orderedInsertM cmp a t s h).trans ((ih t hr).cons a)

theorem orderedInsertM_eq_some (cmp : α → α → Option Int) (f : α → α → Int) (a : α)
    (l : List α) (ha : ∀ b, cmp a b = some (f a b)) :
    orderedInsertM cmp a l = some (List.orderedInsert (fun x y => f x y ≤ 0) a l) := by
  induction l with
  | nil => rfl
  | cons b l ih =>
    simp only [orderedInsertM, ha, List.orderedInsert]
    by_cases hle : f a b ≤ 0
    · simp [hle]
    · simp [hle, ih]

/-- When no comparison can throw, the throwing sort is the plain sort. -/
theorem jsSortM_eq_some (cmp : α → α → Option Int) (f : α → α → Int) (l : List α)
    (hl : ∀ a ∈ l, ∀ b, cmp a b = some (f a b)) :
    jsSortM cmp l = some (jsSort f l) := by
  induction l with
  | nil => rfl
  | cons a l ih =>
    simp only [jsSortM, ih (fun x hx => hl x (List.mem_cons_of_mem _ hx))]
    exact orderedInsertM_eq_some cmp f a _ (hl a (List.mem_cons_self _ _))

theorem chain'_orderedInsert (r : α → α → Prop) [DecidableRel r] (a : α) (l : List α)
    (ht : ∀ b ∈ l, r a b ∨ r b a) (hc : List.Chain' r l) :
    List.Chain' r (List.orderedInsert r a l) := by
  induction l with
  | nil => simp
  | cons b l ih =>
    simp only [List.orderedInsert]
    by_cases hab : r a b
    · simp only [hab, if_true]
      exact List.Chain'.cons hab hc
    · simp only [hab, if_false]
      have hba : r b a := (ht b (List.mem_cons_self _ _)).resolve_left hab
      have ih' := ih (fun x hx => ht x (List.mem_cons_of_mem _ hx)) hc.tail
      cases l with
      | nil => simpa using hba
      | cons c l =>
        simp only [List.orderedInsert] at ih' ⊢
        by_cases hac : r a c
        · simp only [hac, if_true] at ih' ⊢
          exact List.Chain'.cons hba ih'
        · simp only [hac, if_false] at ih' ⊢
          exact List.Chain'.cons (List.chain'_cons.mp hc).1 ih'

theorem chain'_insertionSort (r : α → α → Prop) [DecidableRel r] (l : List α)
    (ht : ∀ a ∈ l, ∀ b ∈ l, r a b ∨ r b a) : List.Chain' r (List.insertionSort r l) := by
  induction l with
  | nil => simp
  | cons a l ih =>
    simp only [List.insertionSort]
    apply chain'_orderedInsert
    · intro b hb
      exact ht a (List.mem_cons_self _ _) b
        (List.mem_cons_of_mem _ ((List.mem_insertionSort r).mp hb))
    · exact ih (fun x hx y hy => ht x (List.mem_cons_of_mem _ hx) y (List.mem_cons_of_mem _ hy))

theorem insertionSort_of_chain' (r : α → α → Prop) [DecidableRel r] (l : List α)
    (hc : List.Chain' r l) : List.insertionSort r l = l := by
  induction l with
  | nil => rfl
  | cons a l ih =>
    simp only [List.insertionSort, ih hc.tail]
    cases l with
    | nil => rfl
    | cons b l =>
      simp only [List.orderedInsert, (List.chain'_cons.mp hc).1, if_true]

/-- Sorting the output of a sort again returns it unchanged, for a comparator
that orders any two elements of the list one way or the other. -/
theorem jsSort_jsSort (f : α → α → Int) (l : List α)
    (ht : ∀ a ∈ l, ∀ b ∈ l, f a b ≤ 0 ∨ f b a ≤ 0) : jsSort f (jsSort f l) = jsSort f l :=
  insertionSort_of_chain' _ _ (chain'_insertionSort _ l ht)

end Sorting

/-! ## Cookie merges -/

theorem compareCookies_of_sortable (H : Host) (a b : Item) (ha : a.sortable = true) :
    compareCookies H a b = some ((compareCookies H a b).getD 0) := by
  unfold Item.sortable at ha
  simp only [Bool.and_eq_true] at ha
  obtain ⟨hd, hn⟩ := ha
  unfold compareCookies localeCompareVal
  split
  · split at hd
    · rfl
    · cases hd
  · split at hn
    · rfl
    · cases hn

theorem compareCookies_total (H : Host) (hT : H.CompareTotal) (a b : Item)
    (ha : a.sortable = true) (hb : b.sortable = true) :
    (compareCookies H a b).getD 0 ≤ 0 ∨ (compareCookies H b a).getD 0 ≤ 0 := by
  unfold Item.sortable at ha hb
  simp only [Bool.and_eq_true] at ha hb
  obtain ⟨had, han⟩ := ha
  obtain ⟨hbd, hbn⟩ := hb
  unfold compareCookies localeCompareVal
  by_cases hd : a.prop "domain" = b.prop "domain"
  · have hd' : b.prop "domain" = a.prop "domain" := hd.symm
    simp only [hd, ne_eq, not_true_eq_false, if_false]
    split at han
    · split at hbn
      · rename_i s hs _ t ht
        simp only [hs, ht, Val.toStr, Option.getD_some]
        exact hT s t
      · cases hbn
    · cases han
  · have hd' : ¬ b.prop "domain" = a.prop "domain" := fun e => hd e.symm
    simp only [hd, hd', ne_eq, not_false_eq_true, if_true]
    split at had
    · split at hbd
      · rename_i s hs _ t ht
        simp only [hs, ht, Val.toStr, Option.getD_some]
        exact hT s t
      · cases hbd
    · cases had

theorem compareChars_total (a b : List Char) : compareChars a b ≤ 0 ∨ compareChars b a ≤ 0 := by
  induction a generalizing b with
  | nil => cases b <;> simp [compareChars]
  | cons x xs ih =>
    cases b with
    | nil => simp [compareChars]
    | cons y ys =>
      simp only [compareChars]
      by_cases h1 : x.toNat < y.toNat
      · simp [h1]
      · by_cases h2 : y.toNat < x.toNat
        · simp [h2]
        · simp only [h1, h2, if_false]
          exact ih ys

theorem Host.ascii_compareTotal : Host.ascii.CompareTotal :=
  fun s t => compareChars_total s.data t.data

/-- The request merge is the plain sort of the loop's list when every cookie
involved can be ordered. -/
theorem mergeRequestCookies_eq_some (H : Host) (A B : List Item)
    (hs : ∀ i ∈ A ++ B, i.sortable = true) :
    ExchangeRequest.mergeRequestCookies H (some A) (some B) =
      some (jsSort (fun a b => (compareCookies H a b).getD 0)
        (B.foldl (upsert (fun c y => decide (Item.name c = Item.name y))) A)) := by
  unfold ExchangeRequest.mergeRequestCookies
  simp only [Option.getD_some]
  apply jsSortM_eq_some
  intro a ha b
  apply compareCookies_of_sortable
  apply hs
  have := mem_foldl_upsert_subset (fun c y => decide (Item.name c = Item.name y)) id B A a ha
  simpa using this

section SortingOrder

variable {α : Type}

theorem pairwise_orderedInsert (r : α → α → Prop) [DecidableRel r] (a : α) (l : List α)
    (htot : ∀ b ∈ l, r a b ∨ r b a)
    (htr : ∀ b ∈ l, ∀ c ∈ l, r a b → r b c → r a c)
    (hp : l.Pairwise r) : (l.orderedInsert r a).Pairwise r := by
  induction l with
  | nil => simp
  | cons b l ih =>
    simp only [List.orderedInsert]
    have hb := List.pairwise_cons.mp hp
    by_cases hab : r a b
    · simp only [hab, if_true]
      refine List.pairwise_cons.mpr ⟨?_, hp⟩
      intro x hx
      rcases List.mem_cons.mp hx with e | e
      · rw [e]; exact hab
      · exact htr b (List.mem_cons_self _ _) x (List.mem_cons_of_mem _ e) hab (hb.1 x e)
    · simp only [hab, if_false]
      have hba : r b a := (htot b (List.mem_cons_self _ _)).resolve_left hab
      refine List.pairwise_cons.mpr ⟨?_, ?_⟩
      · intro x hx
        rcases (List.mem_orderedInsert r).mp hx with e | e
        · rw [e]; exact hba
        · exact hb.1 x e
      · exact ih (fun x hx => htot x (List.mem_cons_of_mem _ hx))
          (fun x hx y hy => htr x (List.mem_cons_of_mem _ hx) y (List.mem_cons_of_mem _ hy)) hb.2

theorem pairwise_insertionSort (r : α → α → Prop) [DecidableRel r] (l : List α)
    (htot : ∀ a ∈ l, ∀ b ∈ l, r a b ∨ r b a)
    (htr : ∀ a ∈ l, ∀ b ∈ l, ∀ c ∈ l, r a b → r b c → r a c) :
    (l.insertionSort r).Pairwise r := by
  induction l with
  | nil => simp
  | cons a l ih =>
    simp only [List.insertionSort]
    have hmem : ∀ x, x ∈ l.insertionSort r → x ∈ l := fun x hx => (List.mem_insertionSort r).mp hx
    apply pairwise_orderedInsert
    · intro b hb
      exact htot a (List.mem_cons_self _ _) b (List.mem_cons_of_mem _ (hmem b hb))
    · intro b hb c hc
      exact htr a (List.mem_cons_self _ _) b (List.mem_cons_of_mem _ (hmem b hb)) c
        (List.mem_cons_of_mem _ (hmem c hc))
    · exact ih (fun x hx y hy => htot x (List.mem_cons_of_mem _ hx) y (List.mem_cons_of_mem _ hy))
        (fun x hx y hy z hz => htr x (List.mem_cons_of_mem _ hx) y (List.mem_cons_of_mem _ hy) z
          (List.mem_cons_of_mem _ hz))

/-- Two reorderings of one list that a relation leaves sorted are equal when
the relation ties no two distinct elements. -/
theorem eq_of_perm_of_pairwise (r : α → α → Prop) (l₁ l₂ : List α) (hp : List.Perm l₁ l₂)
    (h1 : l₁.Pairwise r) (h2 : l₂.Pairwise r)
    (has : ∀ a ∈ l₁, ∀ b ∈ l₁, r a b → r b a → a = b) : l₁ = l₂ := by
  induction l₁ generalizing l₂ with
  | nil => exact (List.Perm.nil_eq hp)
  | cons a l ih =>
    cases l₂ with
    | nil => exact absurd hp.symm (List.nil_perm.not.mpr (List.cons_ne_nil _ _)) 
    | cons b m =>
      have h1' := List.pairwise_cons.mp h1
      have h2' := List.pairwise_cons.mp h2
      have hab : a = b := by
        have ha : a ∈ b :: m := hp.subset (List.mem_cons_self _ _)
        have hb : b ∈ a :: l := hp.symm.subset (List.mem_cons_self _ _)
        rcases List.mem_cons.mp ha with e | e
        · exact e
        · rcases List.mem_cons.mp hb with e' | e'
          · exact e'.symm
          · exact has a (List.mem_cons_self _ _) b hb (h1'.1 b e') (h2'.1 a e)
      subst hab
      have hp' : List.Perm l m := (List.perm_cons a).mp hp
      rw [ih m hp' h1'.2 h2'.2
        (fun x hx y hy => has x (List.mem_cons_of_mem _ hx) y (List.mem_cons_of_mem _ hy))]

end SortingOrder
theorem wellFormed_iff (i : Item) :
    i.wellFormed = true ↔
      (∃ n, i.prop "name" = Val.str n) ∧
      (i.prop "domain" = Val.undefined ∨ ∃ s, s ≠ "" ∧ i.prop "domain" = Val.str s) := by
  unfold Item.wellFormed
  cases hn : i.prop "name" <;> cases hd : i.prop "domain" <;> simp

theorem nameKey_of_str (i : Item) (n : String) (h : i.prop "name" = Val.str n) :
    i.nameKey = n ∧ (i.prop "name").orEmpty = Val.str n := by
  unfold Item.nameKey Val.orEmpty
  rw [h]
  by_cases hn : n = ""
  · subst hn
    simp [Val.truthy, Val.toStr]
  · simp [Val.truthy, Val.toStr, hn]

theorem domainKey_of_wellFormed (i : Item) (h : i.wellFormed = true) :
    (i.prop "domain").orEmpty = Val.str i.domainKey ∧
    (i.prop "domain" = Val.undefined ∧ i.domainKey = "" ∨
      i.prop "domain" = Val.str i.domainKey ∧ i.domainKey ≠ "") := by
  obtain ⟨_, hd⟩ := (wellFormed_iff i).mp h
  unfold Item.domainKey Val.orEmpty
  rcases hd with hd | ⟨s, hs, hd⟩
  · rw [hd]
    simp [Val.truthy, Val.toStr]
  · rw [hd]
    simp [Val.truthy, Val.toStr, hs]

theorem domain_eq_iff (a b : Item) (ha : a.wellFormed = true) (hb : b.wellFormed = true) :
    a.prop "domain" = b.prop "domain" ↔ a.domainKey = b.domainKey := by
  constructor
  · intro h
    unfold Item.domainKey
    rw [h]
  · intro h
    rcases (domainKey_of_wellFormed a ha).2 with ⟨h1, h2⟩ | ⟨h1, h2⟩ <;>
      rcases (domainKey_of_wellFormed b hb).2 with ⟨h3, h4⟩ | ⟨h3, h4⟩
    · rw [h1, h3]
    · exact absurd (h ▸ h2) h4
    · exact absurd (h ▸ h4) h2
    · rw [h1, h3, h]

theorem name_eq_iff (a b : Item) (ha : a.wellFormed = true) (hb : b.wellFormed = true) :
    a.prop "name" = b.prop "name" ↔ a.nameKey = b.nameKey := by
  obtain ⟨⟨n, hn⟩, _⟩ := (wellFormed_iff a).mp ha
  obtain ⟨⟨m, hm⟩, _⟩ := (wellFormed_iff b).mp hb
  rw [(nameKey_of_str a n hn).1, (nameKey_of_str b m hm).1, hn, hm]
  constructor
  · intro h; exact Val.str.inj h
  · intro h; rw [h]

theorem sortable_of_wellFormed (i : Item) (h : i.wellFormed = true) : i.sortable = true := by
  obtain ⟨⟨n, hn⟩, _⟩ := (wellFormed_iff i).mp h
  unfold Item.sortable
  rw [(domainKey_of_wellFormed i h).1, (nameKey_of_str i n hn).2]
  rfl

/-- On cookies as the protocol describes them the comparator never throws: it
compares the domains when they differ and the names otherwise. -/
theorem compareCookies_wellFormed (H : Host) (a b : Item) (ha : a.wellFormed = true)
    (hb : b.wellFormed = true) :
    compareCookies H a b = some
      (if a.domainKey ≠ b.domainKey then H.localeCompare a.domainKey b.domainKey
       else H.localeCompare a.nameKey b.nameKey) := by
  obtain ⟨⟨n, hn⟩, _⟩ := (wellFormed_iff a).mp ha
  unfold compareCookies
  by_cases hd : a.prop "domain" = b.prop "domain"
  · have hk : a.domainKey = b.domainKey := (domain_eq_iff a b ha hb).mp hd
    simp only [hd, ne_eq, not_true_eq_false, if_false, hk]
    rw [(nameKey_of_str a n hn).2]
    simp only [localeCompareVal, (nameKey_of_str a n hn).1]
    rfl
  · have hk : ¬ a.domainKey = b.domainKey := fun e => hd ((domain_eq_iff a b ha hb).mpr e)
    simp only [hd, ne_eq, not_false_eq_true, if_true, hk]
    rw [(domainKey_of_wellFormed a ha).1]
    simp only [localeCompareVal]
    rfl

theorem compareOrder_total (H : Host) (hO : H.CompareOrder) : H.CompareTotal := by
  intro s t
  by_cases h : H.localeCompare s t ≤ 0
  · exact Or.inl h
  · have : 0 < H.localeCompare s t := by omega
    exact Or.inr (le_of_lt ((hO.1 t s).mpr this))

theorem compareOrder_antisymm (H : Host) (hO : H.CompareOrder) (s t : String)
    (h1 : H.localeCompare s t ≤ 0) (h2 : H.localeCompare t s ≤ 0) : s = t := by
  apply hO.2.2
  by_cases h : H.localeCompare s t < 0
  · have := (hO.1 s t).mp h
    omega
  · omega

theorem compareCookies_trans (H : Host) (hO : H.CompareOrder) (a b c : Item)
    (ha : a.wellFormed = true) (hb : b.wellFormed = true) (hc : c.wellFormed = true)
    (hab : (compareCookies H a b).getD 0 ≤ 0) (hbc : (compareCookies H b c).getD 0 ≤ 0) :
    (compareCookies H a c).getD 0 ≤ 0 := by
  have htr := hO.2.1
  have has := compareOrder_antisymm H hO
  rw [compareCookies_wellFormed H _ _ ha hb, Option.getD_some] at hab
  rw [compareCookies_wellFormed H _ _ hb hc, Option.getD_some] at hbc
  rw [compareCookies_wellFormed H _ _ ha hc, Option.getD_some]
  by_cases h1 : a.domainKey = b.domainKey
  · by_cases h2 : b.domainKey = c.domainKey
    · have h3 : a.domainKey = c.domainKey := h1.trans h2
      simp only [h1, h2, h3, ne_eq, not_true_eq_false, if_false] at hab hbc ⊢
      exact htr _ _ _ hab hbc
    · have h3 : ¬ a.domainKey = c.domainKey := fun e => h2 (h1.symm.trans e)
      simp only [h2, h3, ne_eq, not_false_eq_true, if_true] at hbc ⊢
      rw [h1]
      exact hbc
  · by_cases h2 : b.domainKey = c.domainKey
    · have h3 : ¬ a.domainKey = c.domainKey := fun e => h1 (e.trans h2.symm)
      simp only [h1, h3, ne_eq, not_false_eq_true, if_true] at hab ⊢
      rw [← h2]
      exact hab
    · simp only [h1, h2, ne_eq, not_false_eq_true, if_true] at hab hbc
      have hac := htr _ _ _ hab hbc
      by_cases h3 : a.domainKey = c.domainKey
      · exfalso
        rw [← h3] at hbc
        exact h1 (has _ _ hab hbc)
      · simp only [h3, ne_eq, not_false_eq_true, if_true]
        exact hac

/-- Two cookies the comparator orders both ways have the same domain and the
same name. -/
theorem compareCookies_antisymm (H : Host) (hO : H.CompareOrder) (a b : Item)
    (ha : a.wellFormed = true) (hb : b.wellFormed = true)
    (hab : (compareCookies H a b).getD 0 ≤ 0) (hba : (compareCookies H b a).getD 0 ≤ 0) :
    a.prop "name" = b.prop "name" := by
  have has := compareOrder_antisymm H hO
  rw [compareCookies_wellFormed H _ _ ha hb, Option.getD_some] at hab
  rw [compareCookies_wellFormed H _ _ hb ha, Option.getD_some] at hba
  by_cases h1 : a.domainKey = b.domainKey
  · have h2 : b.domainKey = a.domainKey := h1.symm
    simp only [h1, ne_eq, not_true_eq_false, if_false] at hab hba
    exact (name_eq_iff a b ha hb).mpr (has _ _ hab hba)
  · have h2 : ¬ b.domainKey = a.domainKey := fun e => h1 e.symm
    simp only [h1, h2, ne_eq, not_false_eq_true, if_true] at hab hba
    exact absurd (has _ _ hab hba) h1

theorem compareChars_trans (a b c : List Char) (hab : compareChars a b ≤ 0)
    (hbc : compareChars b c ≤ 0) : compareChars a c ≤ 0 := by
  induction a generalizing b c with
  | nil => cases c <;> simp [compareChars]
  | cons x xs ih =>
    cases b with
    | nil => simp [compareChars] at hab
    | cons y ys =>
      cases c with
      | nil => simp [compareChars] at hbc
      | cons z zs =>
        simp only [compareChars] at hab hbc ⊢
        by_cases hxy : x.toNat < y.toNat
        · by_cases hyz : y.toNat < z.toNat
          · have : x.toNat < z.toNat := by omega
            simp [this]
          · by_cases hzy : z.toNat < y.toNat
            · simp [hyz, hzy] at hbc
            · have : x.toNat < z.toNat := by omega
              simp [this]
        · by_cases hyx : y.toNat < x.toNat
          · simp [hxy, hyx] at hab
          · simp only [hxy, hyx, if_false] at hab
            by_cases hyz : y.toNat < z.toNat
            · have : x.toNat < z.toNat := by omega
              simp [this]
            · by_cases hzy : z.toNat < y.toNat
              · simp [hyz, hzy] at hbc
              · simp only [hyz, hzy, if_false] at hbc
                have h1 : ¬ x.toNat < z.toNat := by omega
                have h2 : ¬ z.toNat < x.toNat := by omega
                simp only [h1, h2, if_false]
                exact ih ys zs hab hbc

theorem compareChars_antisymm (a b : List Char) (hab : compareChars a b ≤ 0)
    (hba : compareChars b a ≤ 0) : a = b := by
  induction a generalizing b with
  | nil =>
    cases b with
    | nil => rfl
    | cons y ys => simp [compareChars] at hba
  | cons x xs ih =>
    cases b with
    | nil => simp [compareChars] at hab
    | cons y ys =>
      simp only [compareChars] at hab hba
      by_cases hxy : x.toNat < y.toNat
      · have : ¬ y.toNat < x.toNat := by omega
        simp [hxy, this] at hba
      · by_cases hyx : y.toNat < x.toNat
        · simp [hxy, hyx] at hab
        · simp only [hxy, hyx, if_false] at hab hba
          have hn : x.toNat = y.toNat := by omega
          have hx : x = y := by
            rw [← Char.ofNat_toNat x, ← Char.ofNat_toNat y, hn]
          rw [hx, ih ys hab hba]

theorem compareChars_sign (a b : List Char) : compareChars a b < 0 ↔ 0 < compareChars b a := by
  induction a generalizing b with
  | nil => cases b <;> simp [compareChars]
  | cons x xs ih =>
    cases b with
    | nil => simp [compareChars]
    | cons y ys =>
      simp only [compareChars]
      by_cases hxy : x.toNat < y.toNat
      · have : ¬ y.toNat < x.toNat := by omega
        simp [hxy, this]
      · by_cases hyx : y.toNat < x.toNat
        · simp [hxy, hyx]
        · simp only [hxy, hyx, if_false]
          exact ih ys

theorem Host.ascii_compareOrder : Host.ascii.CompareOrder := by
  refine ⟨fun s t => compareChars_sign s.data t.data,
    fun s t u h1 h2 => compareChars_trans s.data t.data u.data h1 h2, ?_⟩
  intro s t h
  have h0 : compareChars s.data t.data = 0 := h
  have h1 : compareChars s.data t.data ≤ 0 := by omega
  have h2 : compareChars t.data s.data ≤ 0 := by
    by_cases hlt : 0 < compareChars t.data s.data
    · have := (compareChars_sign s.data t.data).mpr hlt
      omega
    · omega
  exact String.ext (compareChars_antisymm s.data t.data h1 h2)

/-- C2 (as amended). Cookie merging is idempotent on a cookie jar whose names
are pairwise distinct, for cookies as the protocol describes them (the name a
string, the domain absent or a non-empty string) and a `localeCompare` that is
a consistent total order on strings. The first merge returns a list `M` and merging `B`
into `M` again returns `M`, in length, content and order. This does not
depend on how the engine sorts: no comparison throws, every reordering of the
loop's list that the comparator leaves sorted is `M`, the loop of the second
merge leaves `M` as it is, and every sorted reordering of `M` is `M`. -/
theorem mergeRequestCookies_idempotent (H : Host) (hO : H.CompareOrder) (A B : List Item)
    (hw : ∀ i ∈ A ++ B, i.wellFormed = true) (hn : (A.map Item.name).Nodup) :
    ∃ M, ExchangeRequest.mergeRequestCookies H (some A) (some B) = some M ∧
      ExchangeRequest.mergeRequestCookies H (some M) (some B) = some M ∧
      (∀ a ∈ B.foldl (upsert (fun c cookie => decide (c.prop "name" = cookie.prop "name"))) A,
        ∀ b ∈ B.foldl (upsert (fun c cookie => decide (c.prop "name" = cookie.prop "name"))) A,
          (compareCookies H a b).isSome = true) ∧
      (∀ S, SortedBy (compareCookies H)
          (B.foldl (upsert (fun c cookie => decide (c.prop "name" = cookie.prop "name"))) A) S →
        S = M) ∧
      B.foldl (upsert (fun c cookie => decide (c.prop "name" = cookie.prop "name"))) M = M ∧
      (∀ S, SortedBy (compareCookies H) M S → S = M) := by
  have hs : ∀ i ∈ A ++ B, i.sortable = true := fun i hi => sortable_of_wellFormed i (hw i hi)
  have hLw : ∀ i ∈ B.foldl (upsert (fun c y => decide (Item.name c = Item.name y))) A,
      i.wellFormed = true := by
    intro i hi
    apply hw
    have := mem_foldl_upsert_subset (fun c y => decide (Item.name c = Item.name y)) id B A i hi
    simpa using this
  have hLn := nodup_keys_foldl_upsert Item.name B A hn
  have hperm : List.Perm (jsSort (fun a b => (compareCookies H a b).getD 0)
      (B.foldl (upsert (fun c y => decide (Item.name c = Item.name y))) A))
      (B.foldl (upsert (fun c y => decide (Item.name c = Item.name y))) A) :=
    List.perm_insertionSort _ _
  have hMw : ∀ i ∈ jsSort (fun a b => (compareCookies H a b).getD 0)
      (B.foldl (upsert (fun c y => decide (Item.name c = Item.name y))) A),
      i.wellFormed = true := fun i hi => hLw i (hperm.mem_iff.mp hi)
  have htot : ∀ a ∈ B.foldl (upsert (fun c y => decide (Item.name c = Item.name y))) A,
      ∀ b ∈ B.foldl (upsert (fun c y => decide (Item.name c = Item.name y))) A,
      (compareCookies H a b).getD 0 ≤ 0 ∨ (compareCookies H b a).getD 0 ≤ 0 :=
    fun a ha b hb => compareCookies_total H (compareOrder_total H hO) a b
      (sortable_of_wellFormed a (hLw a ha)) (sortable_of_wellFormed b (hLw b hb))
  have hMsorted : (jsSort (fun a b => (compareCookies H a b).getD 0)
      (B.foldl (upsert (fun c y => decide (Item.name c = Item.name y))) A)).Pairwise
      (fun a b => (compareCookies H a b).getD 0 ≤ 0) :=
    pairwise_insertionSort _ _ htot
      (fun a ha b hb c hc => compareCookies_trans H hO a b c (hLw a ha) (hLw b hb) (hLw c hc))
  have huniq : ∀ S, SortedBy (compareCookies H)
      (B.foldl (upsert (fun c y => decide (Item.name c = Item.name y))) A) S →
      S = jsSort (fun a b => (compareCookies H a b).getD 0)
        (B.foldl (upsert (fun c y => decide (Item.name c = Item.name y))) A) := by
    intro S hS
    obtain ⟨hSp, hSs⟩ := hS
    have hSs' : S.Pairwise (fun a b => (compareCookies H a b).getD 0 ≤ 0) := by
      apply hSs.imp
      rintro a b ⟨c, hc, hle⟩
      rw [hc]
      exact hle
    apply eq_of_perm_of_pairwise _ S _ (hSp.trans hperm.symm) hSs' hMsorted
    intro a ha b hb hab hba
    have ha' := hSp.mem_iff.mp ha
    have hb' := hSp.mem_iff.mp hb
    exact List.inj_on_of_nodup_map hLn ha' hb'
      (compareCookies_antisymm H hO a b (hLw a ha') (hLw b hb') hab hba)
  have hfixed := foldl_upsert_fixed Item.name B A _ hn hperm
  refine ⟨_, mergeRequestCookies_eq_some H A B hs, ?_, ?_, huniq, hfixed, ?_⟩
  · have hsM : ∀ i ∈ jsSort (fun a b => (compareCookies H a b).getD 0)
        (B.foldl (upsert (fun c y => decide (Item.name c = Item.name y))) A) ++ B,
        i.sortable = true := by
      intro i hi
      rcases List.mem_append.mp hi with h | h
      · exact sortable_of_wellFormed i (hMw i h)
      · exact hs i (List.mem_append_right _ h)
    rw [mergeRequestCookies_eq_some H _ B hsM, hfixed, jsSort_jsSort _ _ htot]
  · intro a ha b hb
    rw [compareCookies_wellFormed H a b (hLw a ha) (hLw b hb)]
    rfl
  · intro S hS
    exact huniq S ⟨hS.1.trans hperm, hS.2⟩

/-- C2 as stated fails: with two same-named cookies already in `A`, the sort
by domain moves the overwritten slot, so the second merge overwrites the
other one. -/
theorem mergeRequestCookies_not_idempotent :
    (ExchangeRequest.mergeRequestCookies Host.ascii
        (some [Item.obj [("name", Val.str "a"), ("value", Val.str "1")],
          Item.obj [("name", Val.str "a"), ("value", Val.str "2"), ("domain", Val.str "a.com")]])
        (some [Item.obj [("name", Val.str "a"), ("value", Val.str "3"),
          ("domain", Val.str "z.com")]])
      = some [Item.obj [("name", Val.str "a"), ("value", Val.str "2"), ("domain", Val.str "a.com")],
          Item.obj [("name", Val.str "a"), ("value", Val.str "3"), ("domain", Val.str "z.com")]]) ∧
    (ExchangeRequest.mergeRequestCookies Host.ascii
        (some [Item.obj [("name", Val.str "a"), ("value", Val.str "2"), ("domain", Val.str "a.com")],
          Item.obj [("name", Val.str "a"), ("value", Val.str "3"), ("domain", Val.str "z.com")]])
        (some [Item.obj [("name", Val.str "a"), ("value", Val.str "3"),
          ("domain", Val.str "z.com")]])
      = some [Item.obj [("name", Val.str "a"), ("value", Val.str "3"), ("domain", Val.str "z.com")],
          Item.obj [("name", Val.str "a"), ("value", Val.str "3"), ("domain", Val.str "z.com")]]) ∧
    (ExchangeRequest.mergeRequestCookies Host.ascii
        (some [Item.obj [("name", Val.str "a"), ("value", Val.str "1")],
          Item.obj [("name", Val.str "a"), ("value", Val.str "2"), ("domain", Val.str "a.com")]])
        (some [Item.obj [("name", Val.str "a"), ("value", Val.str "3"),
          ("domain", Val.str "z.com")]])).bind
      (fun M => ExchangeRequest.mergeRequestCookies Host.ascii (some M)
        (some [Item.obj [("name", Val.str "a"), ("value", Val.str "3"),
          ("domain", Val.str "z.com")]]))
      ≠ ExchangeRequest.mergeRequestCookies Host.ascii
        (some [Item.obj [("name", Val.str "a"), ("value", Val.str "1")],
          Item.obj [("name", Val.str "a"), ("value", Val.str "2"), ("domain", Val.str "a.com")]])
        (some [Item.obj [("name", Val.str "a"), ("value", Val.str "3"),
          ("domain", Val.str "z.com")]]) := by
  refine ⟨?_, ?_, ?_⟩ <;> decide

/-- C2 (as amended) at a concrete input: a jar with `sid` and `lang`, merged
with a new `sid` and a new `theme`. -/
theorem mergeRequestCookies_idempotent_witness :
    Host.ascii.CompareOrder ∧
    (∃ M, ExchangeRequest.mergeRequestCookies Host.ascii
        (some [Item.obj [("name", Val.str "sid"), ("value", Val.str "1")],
          Item.obj [("name", Val.str "lang"), ("value", Val.str "en")]])
        (some [Item.obj [("name", Val.str "sid"), ("value", Val.str "2")],
          Item.obj [("name", Val.str "theme"), ("value", Val.str "dark")]]) = some M ∧
      ExchangeRequest.mergeRequestCookies Host.ascii (some M)
        (some [Item.obj [("name", Val.str "sid"), ("value", Val.str "2")],
          Item.obj [("name", Val.str "theme"), ("value", Val.str "dark")]]) = some M) :=
  ⟨Host.ascii_compareOrder,
    match mergeRequestCookies_idempotent Host.ascii Host.ascii_compareOrder
      [Item.obj [("name", Val.str "sid"), ("value", Val.str "1")],
        Item.obj [("name", Val.str "lang"), ("value", Val.str "en")]]
      [Item.obj [("name", Val.str "sid"), ("value", Val.str "2")],
        Item.obj [("name", Val.str "theme"), ("value", Val.str "dark")]]
      (by decide) (by decide) with
    | ⟨M, h1, h2, _⟩ => ⟨M, h1, h2⟩⟩

/-- A merge that returns has permuted the loop's list. -/
theorem mergeRequestCookies_perm (H : Host) (A B M : List Item)
    (h : ExchangeRequest.mergeRequestCookies H (some A) (some B) = some M) :
    List.Perm M (B.foldl (upsert (fun c y => decide (Item.name c = Item.name y))) A) :=
  perm_jsSortM _ _ _ h

/-- C3. Request cookies are deduplicated by name, last write wins: when the
names in `A` are pairwise distinct, whatever list `mergeRequestCookies(A, B)`
returns has exactly one cookie per name occurring in `A` or `B`; a cookie
whose name occurs in `B` is the last cookie of `B` with that name, any other
is the cookie of `A`; and the call does return on cookies whose domain and
name are strings when present. -/
theorem mergeRequestCookies_dedup_by_name (H : Host) (A B : List Item)
    (hn : (A.map Item.name).Nodup) :
    (∀ M, ExchangeRequest.mergeRequestCookies H (some A) (some B) = some M →
      (M.map Item.name).Nodup ∧
      (∀ n, n ∈ M.map Item.name ↔ n ∈ A.map Item.name ∨ n ∈ B.map Item.name) ∧
      (∀ e ∈ M, (e.name ∈ B.map Item.name → lastWithKey Item.name B e.name = some e) ∧
        (e.name ∉ B.map Item.name → e ∈ A))) ∧
    ((∀ i ∈ A ++ B, i.sortable = true) →
      ∃ M, ExchangeRequest.mergeRequestCookies H (some A) (some B) = some M) := by
  refine ⟨fun M hM => ?_, fun hs => ⟨_, mergeRequestCookies_eq_some H A B hs⟩⟩
  have hperm := mergeRequestCookies_perm H A B M hM
  refine ⟨(hperm.map Item.name).nodup_iff.mpr (nodup_keys_foldl_upsert Item.name B A hn), ?_, ?_⟩
  · intro n
    rw [(hperm.map Item.name).mem_iff, mem_keys_foldl_upsert]
  · intro e he
    exact mem_foldl_upsert Item.name B A hn e (hperm.mem_iff.mp he)

/-- C3 at a concrete input: `sid` is set twice by `B`, the second value stays. -/
theorem mergeRequestCookies_dedup_by_name_witness :
    ExchangeRequest.mergeRequestCookies Host.ascii
        (some [Item.obj [("name", Val.str "sid"), ("value", Val.str "1")],
          Item.obj [("name", Val.str "lang"), ("value", Val.str "en")]])
        (some [Item.obj [("name", Val.str "sid"), ("value", Val.str "2")],
          Item.obj [("name", Val.str "sid"), ("value", Val.str "3")]])
      = some [Item.obj [("name", Val.str "lang"), ("value", Val.str "en")],
          Item.obj [("name", Val.str "sid"), ("value", Val.str "3")]] ∧
    ([Item.obj [("name", Val.str "lang"), ("value", Val.str "en")],
          Item.obj [("name", Val.str "sid"), ("value", Val.str "3")]].map Item.name).Nodup :=
  ⟨by decide,
    ((mergeRequestCookies_dedup_by_name Host.ascii
      [Item.obj [("name", Val.str "sid"), ("value", Val.str "1")],
        Item.obj [("name", Val.str "lang"), ("value", Val.str "en")]]
      [Item.obj [("name", Val.str "sid"), ("value", Val.str "2")],
        Item.obj [("name", Val.str "sid"), ("value", Val.str "3")]] (by decide)).1 _
      (by decide)).1⟩

theorem same_triple_eq :
    (fun c cookie : Item => decide (c.prop "name" = cookie.prop "name")
      && decide (c.prop "domain" = cookie.prop "domain")
      && decide (c.prop "path" = cookie.prop "path")) =
    (fun c y => decide (Item.triple c = Item.triple y)) := by
  funext c y
  simp only [Item.triple, Prod.mk.injEq, Bool.decide_and, Bool.and_assoc]

theorem mergeResponseCookies_loop (B A : List Item) :
    B.foldl (fun m cookieWrapper =>
        upsert (fun c cookie => decide (c.prop "name" = cookie.prop "name")
            && decide (c.prop "domain" = cookie.prop "domain")
            && decide (c.prop "path" = cookie.prop "path")) m cookieWrapper.unwrap) A =
      (B.map Item.unwrap).foldl (upsert (fun c y => decide (Item.triple c = Item.triple y))) A := by
  rw [same_triple_eq, List.foldl_map]

theorem mergeResponseCookies_perm (H : Host) (A B M : List Item)
    (h : ExchangeResponse.mergeResponseCookies H (some A) (some B) = some M) :
    List.Perm M
      ((B.map Item.unwrap).foldl (upsert (fun c y => decide (Item.triple c = Item.triple y))) A) := by
  rw [← mergeResponseCookies_loop]
  exact perm_jsSortM _ _ _ h

theorem mergeResponseCookies_eq_some (H : Host) (A B : List Item)
    (hs : ∀ i ∈ A ++ B.map Item.unwrap, i.sortable = true) :
    ExchangeResponse.mergeResponseCookies H (some A) (some B) =
      some (jsSort (fun a b => (compareCookies H a b).getD 0)
        ((B.map Item.unwrap).foldl
          (upsert (fun c y => decide (Item.triple c = Item.triple y))) A)) := by
  unfold ExchangeResponse.mergeResponseCookies
  simp only [Option.getD_some]
  rw [mergeResponseCookies_loop]
  apply jsSortM_eq_some
  intro a ha b
  apply compareCookies_of_sortable
  apply hs
  have := mem_foldl_upsert_subset (fun c y => decide (Item.triple c = Item.triple y)) id
    (B.map Item.unwrap) A a ha
  simpa using this

/-- C4. Response cookies are deduplicated by `(name, domain, path)`: when the
triples in `A` are pairwise distinct, whatever list
`mergeResponseCookies(A, B)` returns has exactly one cookie per triple
occurring in `A` or in `B` (unwrapped); a cookie whose triple occurs in `B`
is the last such cookie of `B`, any other is the cookie of `A`; two cookies
that share a name but differ in domain or path are kept as two different
entries; and the call does return on cookies whose domain and name are
strings when present. -/
theorem mergeResponseCookies_dedup_by_triple (H : Host) (A B : List Item)
    (hn : (A.map Item.triple).Nodup) :
    (∀ M, ExchangeResponse.mergeResponseCookies H (some A) (some B) = some M →
      (M.map Item.triple).Nodup ∧
      (∀ t, t ∈ M.map Item.triple ↔
        t ∈ A.map Item.triple ∨ t ∈ (B.map Item.unwrap).map Item.triple) ∧
      (∀ e ∈ M,
        (e.triple ∈ (B.map Item.unwrap).map Item.triple →
          lastWithKey Item.triple (B.map Item.unwrap) e.triple = some e) ∧
        (e.triple ∉ (B.map Item.unwrap).map Item.triple → e ∈ A)) ∧
      (∀ c₁ ∈ A ++ B.map Item.unwrap, ∀ c₂ ∈ A ++ B.map Item.unwrap,
        c₁.name = c₂.name → c₁.triple ≠ c₂.triple →
        ∃ e₁ ∈ M, ∃ e₂ ∈ M, e₁ ≠ e₂ ∧ e₁.triple = c₁.triple ∧ e₂.triple = c₂.triple)) ∧
    ((∀ i ∈ A ++ B.map Item.unwrap, i.sortable = true) →
      ∃ M, ExchangeResponse.mergeResponseCookies H (some A) (some B) = some M) := by
  refine ⟨fun M hM => ?_, fun hs => ⟨_, mergeResponseCookies_eq_some H A B hs⟩⟩
  have hperm := mergeResponseCookies_perm H A B M hM
  have hkeys : ∀ t, t ∈ M.map Item.triple ↔
      t ∈ A.map Item.triple ∨ t ∈ (B.map Item.unwrap).map Item.triple := by
    intro t
    rw [(hperm.map Item.triple).mem_iff, mem_keys_foldl_upsert]
  refine ⟨(hperm.map Item.triple).nodup_iff.mpr
    (nodup_keys_foldl_upsert Item.triple _ A hn), hkeys, ?_, ?_⟩
  · intro e he
    exact mem_foldl_upsert Item.triple _ A hn e (hperm.mem_iff.mp he)
  · intro c₁ h₁ c₂ h₂ _ hne
    have hin : ∀ c ∈ A ++ B.map Item.unwrap, ∃ e ∈ M, e.triple = c.triple := by
      intro c hc
      have : c.triple ∈ M.map Item.triple := by
        rw [hkeys]
        rcases List.mem_append.mp hc with h | h
        · exact Or.inl (List.mem_map.mpr ⟨c, h, rfl⟩)
        · exact Or.inr (List.mem_map.mpr ⟨c, h, rfl⟩)
      obtain ⟨e, he, hte⟩ := List.mem_map.mp this
      exact ⟨e, he, hte⟩
    obtain ⟨e₁, he₁, ht₁⟩ := hin c₁ h₁
    obtain ⟨e₂, he₂, ht₂⟩ := hin c₂ h₂
    refine ⟨e₁, he₁, e₂, he₂, ?_, ht₁, ht₂⟩
    intro heq
    apply hne
    rw [← ht₁, ← ht₂, heq]

/-- C4 at a concrete input: cookie `a` for path `/` is set twice and once for
path `/api`; the later `/` value and the `/api` cookie are both kept. -/
theorem mergeResponseCookies_dedup_by_triple_witness :
    ExchangeResponse.mergeResponseCookies Host.ascii
        (some [Item.obj [("name", Val.str "a"), ("value", Val.str "1"), ("path", Val.str "/")]])
        (some [Item.obj [("name", Val.str "a"), ("value", Val.str "2"), ("path", Val.str "/api")],
          Item.wrapper [("name", Val.str "a"), ("value", Val.str "3"), ("path", Val.str "/")]])
      = some [Item.obj [("name", Val.str "a"), ("value", Val.str "3"), ("path", Val.str "/")],
          Item.obj [("name", Val.str "a"), ("value", Val.str "2"), ("path", Val.str "/api")]] ∧
    ([Item.obj [("name", Val.str "a"), ("value", Val.str "3"), ("path", Val.str "/")],
      Item.obj [("name", Val.str "a"), ("value", Val.str "2"), ("path", Val.str "/api")]].map
        Item.triple).Nodup :=
  ⟨by decide,
    ((mergeResponseCookies_dedup_by_triple Host.ascii
      [Item.obj [("name", Val.str "a"), ("value", Val.str "1"), ("path", Val.str "/")]]
      [Item.obj [("name", Val.str "a"), ("value", Val.str "2"), ("path", Val.str "/api")],
        Item.wrapper [("name", Val.str "a"), ("value", Val.str "3"), ("path", Val.str "/")]]
      (by decide)).1 _ (by decide)).1⟩

/-! ## Body eligibility -/

/-- C5. For a response whose status is 204, 304 or 205 the getter
`shouldHaveBody` is `false`, whatever the request method, the MIME type, the
`hasContent` flag and the content lengths are. -/
theorem shouldHaveBody_false_of_bodiless_status (r : ExchangeResponse)
    (requestMethod : Option String)
    (h : r.status = some 204 ∨ r.status = some 304 ∨ r.status = some 205) :
    r.shouldHaveBody requestMethod = Val.bool false := by
  unfold ExchangeResponse.shouldHaveBody
  rcases h with h | h | h <;> simp [h]

/-- C5 at a concrete input: a 304 answer to a `GET` with a JSON type and
content. -/
theorem shouldHaveBody_false_of_bodiless_status_witness :
    ExchangeResponse.shouldHaveBody
      { status := some 304, mimeType := some "application/json", hasContent := true,
        encodedDataLength := 120 } (some "GET") = Val.bool false :=
  shouldHaveBody_false_of_bodiless_status _ _ (Or.inr (Or.inl rfl))

/-- The conditions under which the getter `shouldHaveBody` is truthy. -/
theorem shouldHaveBody_truthy (r : ExchangeResponse) (requestMethod : Option String) :
    (r.shouldHaveBody requestMethod).truthy = true ↔
      (r.status ≠ some 204 ∧ r.status ≠ some 304 ∧ r.status ≠ some 205) ∧
      (requestMethod ≠ some "HEAD" ∧ requestMethod ≠ some "OPTIONS") ∧
      r.hasContent = true ∧
      ∃ mimeType, r.mimeType = some mimeType ∧
        (jsIncludes mimeType "json" = true ∨ jsIncludes mimeType "text" = true
          ∨ jsIncludes mimeType "xml" = true) := by
  unfold ExchangeResponse.shouldHaveBody
  by_cases h1 : r.status = some 204
  · simp [h1, Val.truthy]
  by_cases h2 : r.status = some 304
  · simp [h2, Val.truthy]
  by_cases h3 : r.status = some 205
  · simp [h3, Val.truthy]
  by_cases h4 : requestMethod = some "HEAD"
  · simp [h4, Val.truthy]
  by_cases h5 : requestMethod = some "OPTIONS"
  · simp [h5, Val.truthy]
  by_cases h6 : r.hasContent = false
  · simp [h1, h2, h3, h4, h5, h6, Val.truthy]
  have h6' : r.hasContent = true := by simpa using h6
  simp only [h1, h2, h3, h4, h5, h6, if_false, ne_eq, not_false_eq_true, and_self, true_and, h6']
  cases hm : r.mimeType with
  | none => simp [Val.truthy]
  | some m =>
    by_cases he : m = ""
    · subst he
      simp only [if_true, Val.truthy, Option.some.injEq, exists_eq_left']
      constructor
      · intro h; simp at h
      · intro h
        rcases h with h | h | h <;> simp [jsIncludes, includesChars] at h
    · simp [he, Val.truthy, or_assoc]

theorem mergeCookies_content (H : Host) (r r' : ExchangeResponse) (new : Option (List Item))
    (h : r.mergeCookies H new = some r') :
    r'.hasContent = r.hasContent ∧ r'.encodedDataLength = r.encodedDataLength ∧
    r'.contentLength = r.contentLength := by
  unfold ExchangeResponse.mergeCookies at h
  cases hm : ExchangeResponse.mergeResponseCookies H (some r.responseCookies) new with
  | none => simp [hm] at h
  | some merged =>
    simp only [hm, Option.map_some', Option.some.injEq] at h
    subst h
    exact ⟨rfl, rfl, rfl⟩

theorem mergeHeaderCookies_content (H : Host) (r r' : ExchangeResponse) (headers : Headers)
    (h : r.mergeHeaderCookies H headers = some r') :
    r'.hasContent = r.hasContent ∧ r'.encodedDataLength = r.encodedDataLength ∧
    r'.contentLength = r.contentLength := by
  unfold ExchangeResponse.mergeHeaderCookies at h
  split at h
  · exact mergeCookies_content H r r' _ h
  · simp only [Option.some.injEq] at h
    subst h
    exact ⟨rfl, rfl, rfl⟩

theorem applyResponseDesc_hasContent (H : Host) (r r' : ExchangeResponse) (res : ResponseDesc)
    (h : ExchangeResponse.applyResponseDesc H r res = .ok r') :
    r'.hasContent = (decide (r'.encodedDataLength > 0) ||
      match r'.contentLength with
      | some n => decide (n > 0)
      | none => false) := by
  unfold ExchangeResponse.applyResponseDesc at h
  lift_lets at h
  extract_lets r1 r2 r3 r4 r5 at h
  cases hc : r5.mergeHeaderCookies H (res.headers.getD []) with
  | none => simp [hc] at h
  | some r6 =>
    simp only [hc] at h
    cases hraw : r6.mergeRawSetCookie H (res.headers.getD []) with
    | none => simp [hraw] at h
    | some r7 =>
      simp only [hraw, Except.ok.injEq] at h
      subst h
      rfl

theorem applyPayload_hasContent (H : Host) (r r' : ExchangeResponse) (params : Params)
    (res : ResponseDesc) (hres : params.response = some res)
    (h : ExchangeResponse.applyPayload H r params = .ok r') :
    r'.hasContent = (decide (r'.encodedDataLength > 0) ||
      match r'.contentLength with
      | some n => decide (n > 0)
      | none => false) := by
  unfold ExchangeResponse.applyPayload at h
  rw [hres] at h
  simp only at h
  cases hd : ExchangeResponse.applyResponseDesc H r res with
  | error r1 => simp [hd] at h
  | ok r1 =>
    have h1 := applyResponseDesc_hasContent H r r1 res hd
    simp only [hd] at h
    split at h
    · cases h
    · have h2 : (r1.applyStatusCode params).hasContent = r1.hasContent ∧
          (r1.applyStatusCode params).encodedDataLength = r1.encodedDataLength ∧
          (r1.applyStatusCode params).contentLength = r1.contentLength := by
        unfold ExchangeResponse.applyStatusCode
        split
        · split <;> exact ⟨rfl, rfl, rfl⟩
        · exact ⟨rfl, rfl, rfl⟩
      obtain ⟨a1, a2, a3⟩ := h2
      unfold ExchangeResponse.applyHeaders at h
      split at h
      · simp only [Except.ok.injEq] at h
        subst h
        rw [a1, a2, a3]
        exact h1
      · rename_i headers _
        cases hm : ((r1.applyStatusCode params).mergeHeaders H headers).mergeHeaderCookies H
            headers with
        | none => simp [hm] at h
        | some r3 =>
          simp only [hm, Except.ok.injEq] at h
          subst h
          obtain ⟨b1, b2, b3⟩ := mergeHeaderCookies_content H _ _ headers hm
          rw [b1, b2, b3]
          show (r1.applyStatusCode params).hasContent =
            (decide ((r1.applyStatusCode params).encodedDataLength > 0) ||
              match (r1.applyStatusCode params).contentLength with
              | some n => decide (n > 0)
              | none => false)
          rw [a1, a2, a3]
          exact h1

/-- C6. The getter `shouldHaveBody` is truthy exactly when the status is none
of 204, 304, 205, the request method is neither `HEAD` nor `OPTIONS`, the
`hasContent` flag is set, and the MIME type is present and contains `json`,
`text` or `xml`; and `hasContent` is the flag for an observed content length
greater than zero: when `applyParams` has recorded a response descriptor, the
flag is set exactly when the encoded data length or the `Content-Length` it
recorded is greater than zero. -/
theorem shouldHaveBody_truthy_iff (r : ExchangeResponse) (requestMethod : Option String) :
    ((r.shouldHaveBody requestMethod).truthy = true ↔
      (r.status ≠ some 204 ∧ r.status ≠ some 304 ∧ r.status ≠ some 205) ∧
      (requestMethod ≠ some "HEAD" ∧ requestMethod ≠ some "OPTIONS") ∧
      r.hasContent = true ∧
      ∃ mimeType, r.mimeType = some mimeType ∧
        (jsIncludes mimeType "json" = true ∨ jsIncludes mimeType "text" = true
          ∨ jsIncludes mimeType "xml" = true)) ∧
    (∀ (H : Host) (e e' : Exchange) (params : Params) (res : ResponseDesc),
      params.response = some res →
      ExchangeResponse.applyParams H e params EventType.ResponseReceived = .ok e' →
      e'.response.hasContent = (decide (e'.response.encodedDataLength > 0) ||
        match e'.response.contentLength with
        | some n => decide (n > 0)
        | none => false)) := by
  refine ⟨shouldHaveBody_truthy r requestMethod, ?_⟩
  intro H e e' params res hres h
  unfold ExchangeResponse.applyParams at h
  cases hp : ExchangeResponse.applyPayload H e.response params with
  | error r1 => simp [hp] at h
  | ok r1 =>
    simp only [hp, Except.ok.injEq] at h
    subst h
    have := applyPayload_hasContent H e.response r1 params res hres hp
    simpa [ExchangeResponse.applyKind] using this

/-- C6 at a concrete input: a 200 JSON answer to a `GET` whose descriptor
reports 10 encoded bytes is body-eligible once recorded. -/
theorem shouldHaveBody_truthy_iff_witness :
    (stateAfter (ExchangeResponse.applyParams Host.ascii
      { Exchange.fresh (some "https://x.test/api") with
        request := { url := some "https://x.test/api", method := some "GET" } }
      { response := some { status := some 200, mimeType := some "application/json",
                           encodedDataLength := some 10 } }
      EventType.ResponseReceived)).response.hasContent = true :=
  ((shouldHaveBody_truthy_iff {} none).2 Host.ascii
    { Exchange.fresh (some "https://x.test/api") with
      request := { url := some "https://x.test/api", method := some "GET" } } _
    { response := some { status := some 200, mimeType := some "application/json",
                         encodedDataLength := some 10 } }
    { status := some 200, mimeType := some "application/json", encodedDataLength := some 10 }
    rfl rfl).trans (by decide)

/-! ## Completion -/

/-- C7 (as amended). A true `completed` flag survives every response
notification except a body-eligible `ResponseReceivedExtraInfo`: when
`applyParams` throws the flag is untouched; when it returns, the flag is still
true for every kind other than `ResponseReceivedExtraInfo`, and for
`ResponseReceivedExtraInfo` it is the negation of `shouldHaveBody`, evaluated
on the response as updated. -/
theorem applyParams_completed (H : Host) (e : Exchange) (params : Params)
    (eventType : EventType) (hc : e.completed = some true) :
    (∀ e', ExchangeResponse.applyParams H e params eventType = .error e' →
      e'.completed = some true) ∧
    (∀ e', ExchangeResponse.applyParams H e params eventType = .ok e' →
      (eventType ≠ EventType.ResponseReceivedExtraInfo → e'.completed = some true) ∧
      (eventType = EventType.ResponseReceivedExtraInfo →
        e'.completed = some (!(e'.response.shouldHaveBody e'.request.method).truthy))) := by
  unfold ExchangeResponse.applyParams
  constructor
  · intro e' h
    split at h
    · cases h; exact hc
    · cases h
  · intro e' h
    split at h
    · cases h
    · cases h
      unfold ExchangeResponse.applyKind
      cases eventType <;> simp [hc]
      split <;> simp_all

/-- C7 as stated fails: a JSON response to a `GET` is completed by
`LoadingFinished`, and a `ResponseReceivedExtraInfo` that arrives afterwards
finds it body-eligible and writes `completed = false`. -/
theorem applyParams_extraInfo_uncompletes :
    (stateAfter (ExchangeResponse.applyParams Host.ascii
      (stateAfter (ExchangeResponse.applyParams Host.ascii
        { Exchange.fresh (some "https://x.test/api") with
          requestMethod := some "GET"
          request := { url := some "https://x.test/api", method := some "GET" } }
        { requestId := some "X"
          response := some { status := some 200, mimeType := some "application/json",
                             encodedDataLength := some 10 } }
        EventType.ResponseReceived))
      { requestId := some "X", encodedDataLength := some 10 }
      EventType.LoadingFinished)).completed = some true ∧
    (stateAfter (ExchangeResponse.applyParams Host.ascii
      (stateAfter (ExchangeResponse.applyParams Host.ascii
        (stateAfter (ExchangeResponse.applyParams Host.ascii
          { Exchange.fresh (some "https://x.test/api") with
            requestMethod := some "GET"
            request := { url := some "https://x.test/api", method := some "GET" } }
          { requestId := some "X"
            response := some { status := some 200, mimeType := some "application/json",
                               encodedDataLength := some 10 } }
          EventType.ResponseReceived))
        { requestId := some "X", encodedDataLength := some 10 }
        EventType.LoadingFinished))
      { requestId := some "X", statusCode := some 200 }
      EventType.ResponseReceivedExtraInfo)).completed = some false := by
  constructor <;> decide

/-- C7 (as amended) at a concrete input: a completed exchange receives a
`LoadingFailed` notification and stays completed. -/
theorem applyParams_completed_witness :
    (stateAfter (ExchangeResponse.applyParams Host.ascii
      { Exchange.fresh (some "https://x.test/api") with completed := some true }
      { requestId := some "X", errorText := some "net::ERR_ABORTED", canceled := true }
      EventType.LoadingFailed)).completed = some true :=
  ((applyParams_completed Host.ascii
    { Exchange.fresh (some "https://x.test/api") with completed := some true }
    { requestId := some "X", errorText := some "net::ERR_ABORTED", canceled := true }
    EventType.LoadingFailed rfl).2 _ rfl).1 (by decide)

/-! ## Set-Cookie headers on a response -/

/-- C8, the specification's scenario evaluated on the code: the response
header `Set-Cookie: a=1; Path=/` newline `b=2; Path=/api`, applied to a fresh
response, leaves three entries in `responseCookies`. After the two parsed
cookies are merged, `applyParams` hands the raw header string to
`mergeCookies`, whose loop iterates it character by character; the characters
all share the key `(undefined, undefined, undefined)`, so the last one, `i`,
stays as a third entry. -/
theorem applyParams_setCookie_scenario :
    (stateAfter (ExchangeResponse.applyParams Host.ascii (Exchange.fresh none)
      { response := some { headers := some [("Set-Cookie", "a=1; Path=/\nb=2; Path=/api")] } }
      EventType.ResponseReceived)).response.responseCookies =
    [Item.str "i",
     Item.obj [("name", Val.str "a"), ("value", Val.str "1"), ("path", Val.str "/")],
     Item.obj [("name", Val.str "b"), ("value", Val.str "2"), ("path", Val.str "/api")]] := by
  decide

/-! ## Redirect chains -/

theorem keepsRequests_refl (e : Exchange) : KeepsRequests e e := ⟨rfl, rfl, rfl, rfl⟩

theorem keepsRequests_trans {a b c : Exchange} (h1 : KeepsRequests a b) (h2 : KeepsRequests b c) :
    KeepsRequests a c := by
  obtain ⟨o1, r1, g1, q1⟩ := h1
  obtain ⟨o2, r2, g2, q2⟩ := h2
  refine ⟨o2.trans o1, r2.trans r1, g2.trans g1, ?_⟩
  rw [q2, q1]

theorem keepsRequests_setRequestMethod (e : Exchange) (value : String) :
    KeepsRequests e (e.setRequestMethod value) := by
  unfold Exchange.setRequestMethod
  split
  · exact ⟨rfl, rfl, rfl, rfl⟩
  · split
    · exact ⟨rfl, rfl, rfl, rfl⟩
    · split
      · split <;> exact ⟨rfl, rfl, rfl, rfl⟩
      · exact ⟨rfl, rfl, rfl, rfl⟩

theorem keepsRequests_applyOwnParams (e : Exchange) (p : Params) :
    KeepsRequests e (e.applyOwnParams p) := by
  unfold Exchange.applyOwnParams
  lift_lets
  intro e1 e2 e3 e4 e5 e6 e7 e8
  have h1 : KeepsRequests e e1 := by
    simp only [e1]; split <;> exact ⟨rfl, rfl, rfl, rfl⟩
  have h2 : KeepsRequests e1 e2 := by
    simp only [e2]; split <;> exact ⟨rfl, rfl, rfl, rfl⟩
  have h3 : KeepsRequests e2 e3 := by
    simp only [e3]; split <;> exact ⟨rfl, rfl, rfl, rfl⟩
  have h4 : KeepsRequests e3 e4 := by
    simp only [e4]
    split
    · split
      · exact keepsRequests_setRequestMethod _ _
      · exact keepsRequests_refl _
    · exact keepsRequests_refl _
  have h5 : KeepsRequests e4 e5 := by
    simp only [e5]; split <;> exact ⟨rfl, rfl, rfl, rfl⟩
  have h6 : KeepsRequests e5 e6 := by
    simp only [e6]
    split
    · split <;> exact ⟨rfl, rfl, rfl, rfl⟩
    · exact keepsRequests_refl _
  have h7 : KeepsRequests e6 e7 := by
    simp only [e7]
    split
    · split <;> exact ⟨rfl, rfl, rfl, rfl⟩
    · exact keepsRequests_refl _
  have h8 : KeepsRequests e7 e8 := by
    simp only [e8]; split <;> exact ⟨rfl, rfl, rfl, rfl⟩
  have h9 := keepsRequests_trans (keepsRequests_trans (keepsRequests_trans (keepsRequests_trans
    (keepsRequests_trans (keepsRequests_trans (keepsRequests_trans h1 h2) h3) h4) h5) h6) h7) h8
  split
  · exact keepsRequests_trans h9 ⟨rfl, rfl, rfl, rfl⟩
  · exact h9

theorem keepsRequests_log (e : Exchange) (t : EventType) : KeepsRequests e (e.log t) := by
  unfold Exchange.log
  split <;> exact ⟨rfl, rfl, rfl, rfl⟩

theorem deref_update (X : Exchanges) (ref : Nat) (f : Exchange → Exchange) :
    (X.update ref f).deref ref = (X.deref ref).map f := by
  simp [Exchanges.update, Exchanges.deref, List.getElem?_modify_eq]

theorem deref_update_ne (X : Exchanges) (ref ref' : Nat) (f : Exchange → Exchange)
    (h : ref ≠ ref') : (X.update ref f).deref ref' = X.deref ref' := by
  simp [Exchanges.update, Exchanges.deref, List.getElem?_modify_ne _ _ h]

theorem deref_setRequestId (X : Exchanges) (ref : Nat) (value : String) (e : Exchange)
    (h : X.deref ref = some e) :
    ∃ e', (Exchange.setRequestId X ref value).deref ref = some e' ∧ KeepsRequests e e' := by
  unfold Exchange.setRequestId
  rw [h]
  simp only
  split
  · refine ⟨{ e with requestId := some value }, ?_, ⟨rfl, rfl, rfl, rfl⟩⟩
    have := deref_update X ref (fun e => { e with requestId := some value })
    rw [h] at this
    exact this
  · exact ⟨e, h, keepsRequests_refl e⟩

theorem deref_setFrameId (X : Exchanges) (ref : Nat) (value : String) (e : Exchange)
    (h : X.deref ref = some e) :
    ∃ e', (Exchange.setFrameId X ref value).deref ref = some e' ∧ KeepsRequests e e' := by
  unfold Exchange.setFrameId
  rw [h]
  simp only
  split
  · refine ⟨{ e with frameId := some value }, ?_, ⟨rfl, rfl, rfl, rfl⟩⟩
    have := deref_update X ref (fun e => { e with frameId := some value })
    rw [h] at this
    exact this
  · exact ⟨e, h, keepsRequests_refl e⟩

theorem deref_applyRequestParams (X : Exchanges) (ref : Nat) (p : Params) (e : Exchange)
    (h : X.deref ref = some e) :
    ∃ e', (Exchange.applyRequestParams X ref p).deref ref = some e' ∧ KeepsRequests e e' := by
  have h1 : ∃ e1, (Exchange.applyRequestId X ref p).deref ref = some e1 ∧ KeepsRequests e e1 := by
    unfold Exchange.applyRequestId
    split
    · split
      · exact deref_setRequestId X ref _ e h
      · exact ⟨e, h, keepsRequests_refl e⟩
    · exact ⟨e, h, keepsRequests_refl e⟩
  obtain ⟨e1, hd1, hk1⟩ := h1
  have h2 : ∃ e2, (Exchange.applyFrameId (Exchange.applyRequestId X ref p) ref p).deref ref
      = some e2 ∧ KeepsRequests e e2 := by
    unfold Exchange.applyFrameId
    split
    · split
      · obtain ⟨e2, hd2, hk2⟩ := deref_setFrameId _ ref _ e1 hd1
        exact ⟨e2, hd2, keepsRequests_trans hk1 hk2⟩
      · exact ⟨e1, hd1, hk1⟩
    · exact ⟨e1, hd1, hk1⟩
  obtain ⟨e2, hd2, hk2⟩ := h2
  refine ⟨e2.applyOwnParams p, ?_, keepsRequests_trans hk2 (keepsRequests_applyOwnParams e2 p)⟩
  unfold Exchange.applyRequestParams
  rw [deref_update, hd2]
  rfl

theorem sortable_name_value (s : String) (v : Val) :
    (Item.obj [("name", Val.str s), ("value", v)]).sortable = true := by
  have hd : Item.prop (Item.obj [("name", Val.str s), ("value", v)]) "domain" = Val.undefined := by
    simp [Item.prop, JSObject.get]
  have hn : Item.prop (Item.obj [("name", Val.str s), ("value", v)]) "name" = Val.str s := by
    simp [Item.prop, JSObject.get]
  unfold Item.sortable
  rw [hd, hn]
  by_cases hs : s = "" <;> simp [Val.orEmpty, Val.truthy, hs]

theorem sortable_ofOption (n : Option String) (v : Val) :
    (Item.obj [("name", Val.ofOption n), ("value", v)]).sortable = true := by
  cases n with
  | some s => exact sortable_name_value s v
  | none =>
    have hd : Item.prop (Item.obj [("name", Val.ofOption none), ("value", v)]) "domain"
        = Val.undefined := by
      simp [Item.prop, JSObject.get]
    have hn : Item.prop (Item.obj [("name", Val.ofOption none), ("value", v)]) "name"
        = Val.undefined := by
      simp [Item.prop, JSObject.get, Val.ofOption]
    unfold Item.sortable
    rw [hd, hn]
    simp [Val.orEmpty, Val.truthy]

theorem sortable_extractCookiesFromRequestHeaders (H : Host) (headers : Headers) :
    ExchangeRequest.CookiesSortable (ExchangeRequest.extractCookiesFromRequestHeaders H headers) := by
  unfold ExchangeRequest.extractCookiesFromRequestHeaders
  suffices h : ∀ (acc : List Item), ExchangeRequest.CookiesSortable acc →
      ExchangeRequest.CookiesSortable (headers.foldl (fun cookies p =>
        if H.toLowerCase p.1 = "cookie" then
          cookies ++ (((jsSplit p.2 ';').map jsTrim).filter (fun c => c.length > 0)).map
            (fun pair =>
              let pieces := jsSplit pair '='
              Item.obj [("name", Val.str (pieces.headD "")), ("value", secondPiece pieces)])
        else cookies) acc) from h [] (fun c hc => by simp at hc)
  induction headers with
  | nil => intro acc h; exact h
  | cons p rest ih =>
    intro acc h
    simp only [List.foldl_cons]
    apply ih
    split
    · intro c hc
      rcases List.mem_append.mp hc with hc | hc
      · exact h c hc
      · obtain ⟨pair, _, rfl⟩ := List.mem_map.mp hc
        exact sortable_name_value _ _
    · exact h

theorem sortable_extractCookiesFromRequestExtraInfo (cs : List AssociatedCookie) :
    ExchangeRequest.CookiesSortable (ExchangeRequest.extractCookiesFromRequestExtraInfo cs) := by
  intro c hc
  unfold ExchangeRequest.extractCookiesFromRequestExtraInfo at hc
  obtain ⟨a, _, rfl⟩ := List.mem_map.mp hc
  split <;> exact sortable_ofOption _ _

theorem mergeCookies_sortable (H : Host) (r : ExchangeRequest) (new : List Item)
    (hr : ExchangeRequest.CookiesSortable r.requestCookies)
    (hn : ExchangeRequest.CookiesSortable new) :
    ∃ r', r.mergeCookies H new = some r' ∧ ExchangeRequest.CookiesSortable r'.requestCookies := by
  have hs : ∀ i ∈ r.requestCookies ++ new, i.sortable = true := by
    intro i hi
    rcases List.mem_append.mp hi with h | h
    · exact hr i h
    · exact hn i h
  unfold ExchangeRequest.mergeCookies
  rw [mergeRequestCookies_eq_some H _ _ hs]
  refine ⟨_, rfl, ?_⟩
  intro c hc
  simp only at hc
  have hc' := (List.perm_insertionSort _ _).mem_iff.mp hc
  have := mem_foldl_upsert_subset (fun c y => decide (Item.name c = Item.name y)) id new
    r.requestCookies c hc'
  apply hs
  simpa using this

theorem mergeHeaderCookies_sortable (H : Host) (r : ExchangeRequest) (headers : Headers)
    (hr : ExchangeRequest.CookiesSortable r.requestCookies) :
    ∃ r', r.mergeHeaderCookies H headers = some r' ∧
      ExchangeRequest.CookiesSortable r'.requestCookies := by
  unfold ExchangeRequest.mergeHeaderCookies
  split
  · exact mergeCookies_sortable H r _ hr (sortable_extractCookiesFromRequestHeaders H headers)
  · exact ⟨r, rfl, hr⟩

theorem applyRequestDesc_sortable (H : Host) (r : ExchangeRequest) (p : Params) (t : EventType)
    (hr : ExchangeRequest.CookiesSortable r.requestCookies) :
    ∃ r', ExchangeRequest.applyRequestDesc H r p t = .ok r' ∧
      ExchangeRequest.CookiesSortable r'.requestCookies := by
  unfold ExchangeRequest.applyRequestDesc
  split
  · exact ⟨r, rfl, hr⟩
  · rename_i req _
    lift_lets
    intro r1 r2 r3 r4 r5
    have h1 : ExchangeRequest.CookiesSortable r1.requestCookies := by
      simp only [r1]; split <;> exact hr
    have h2 : ExchangeRequest.CookiesSortable r2.requestCookies := by
      simp only [r2]; split <;> exact h1
    have h3 : ExchangeRequest.CookiesSortable r3.requestCookies := by
      simp only [r3]; split <;> exact h2
    have h4 : ExchangeRequest.CookiesSortable r4.requestCookies := by
      simp only [r4]
      split
      · split <;> exact h3
      · exact h3
    have h5 : ExchangeRequest.CookiesSortable r5.requestCookies := by
      simp only [r5]; split <;> exact h4
    obtain ⟨r6, hm, h6⟩ := mergeHeaderCookies_sortable H r5 (req.headers.getD []) h5
    rw [hm]
    simp only
    split
    · exact ⟨_, rfl, h6⟩
    · exact ⟨_, rfl, h6⟩

theorem applyHeaders_sortable (H : Host) (r : ExchangeRequest) (p : Params)
    (hr : ExchangeRequest.CookiesSortable r.requestCookies) :
    ∃ r', ExchangeRequest.applyHeaders H r p = .ok r' ∧
      ExchangeRequest.CookiesSortable r'.requestCookies := by
  unfold ExchangeRequest.applyHeaders
  split
  · exact ⟨r, rfl, hr⟩
  · rename_i headers _
    obtain ⟨r2, hm, h2⟩ := mergeHeaderCookies_sortable H (r.mergeHeaders H headers) headers hr
    rw [hm]
    exact ⟨r2, rfl, h2⟩

theorem applyAssociatedCookies_sortable (H : Host) (r : ExchangeRequest) (p : Params)
    (hr : ExchangeRequest.CookiesSortable r.requestCookies) :
    ∃ r', ExchangeRequest.applyAssociatedCookies H r p = .ok r' ∧
      ExchangeRequest.CookiesSortable r'.requestCookies := by
  unfold ExchangeRequest.applyAssociatedCookies
  split
  · obtain ⟨r3, hm, h3⟩ := mergeCookies_sortable H r _ hr
      (sortable_extractCookiesFromRequestExtraInfo p.associatedCookies)
    rw [hm]
    exact ⟨r3, rfl, h3⟩
  · exact ⟨r, rfl, hr⟩

/-- A fragment applied to a request whose cookies can be ordered never throws,
and leaves cookies that can be ordered. -/
theorem applyFragment_sortable (H : Host) (r : ExchangeRequest) (p : Params) (t : EventType)
    (hr : ExchangeRequest.CookiesSortable r.requestCookies) :
    ∃ r', ExchangeRequest.applyFragment H r p t = .ok r' ∧
      ExchangeRequest.CookiesSortable r'.requestCookies := by
  unfold ExchangeRequest.applyFragment
  obtain ⟨r1, hd, h1⟩ := applyRequestDesc_sortable H r p t hr
  obtain ⟨r2, he2, h2⟩ := applyHeaders_sortable H r1 p h1
  obtain ⟨r3, he3, h3⟩ := applyAssociatedCookies_sortable H r2 p h2
  rw [hd]
  simp only
  rw [he2]
  simp only
  rw [he3]
  simp only
  split
  · exact ⟨_, rfl, h3⟩
  · exact ⟨_, rfl, h3⟩

theorem applyParams_redirect (H : Host) (e : Exchange) (p : Params) (t : EventType)
    (rr : ResponseDesc) (hp : p.redirectResponse = some rr) :
    ∃ nr snap, ExchangeRequest.applyParams H e p t =
        .ok { e with
          originalRequest := some (e.originalRequest.getD e.older.length)
          redirects := e.redirects ++ [snap]
          older := e.older ++ [e.request]
          request := nr } ∧
      snap.request = e.older.length + 1 ∧
      ExchangeRequest.CookiesSortable nr.requestCookies := by
  unfold ExchangeRequest.applyParams
  rw [hp]
  simp only
  obtain ⟨nr, hnr, hs⟩ := applyFragment_sortable H
    { url := orStr (p.request.bind (·.url)) e.request.url } { p with redirectResponse := none } t
    (fun c hc => by simp at hc)
  cases ho : e.originalRequest with
  | none =>
    simp only [Option.isNone_none, if_true, Exchange.requestRef]
    rw [hnr]
    exact ⟨nr, { response := some (ExchangeResponse.filterResponseForRedirect H rr),
                 request := e.older.length + 1 }, rfl, rfl, hs⟩
  | some o =>
    simp only [Option.isNone_some, Bool.false_eq_true, if_false, Exchange.requestRef]
    rw [hnr]
    refine ⟨nr, { response := some (ExchangeResponse.filterResponseForRedirect H rr),
                  request := e.older.length + 1 }, ?_, rfl, hs⟩
    simp only [ho, Option.getD_some]

theorem deref_exitCapture (X : Exchanges) (e : Exchange) (ref : Nat) :
    (Exchange.exitCapture X e).deref ref = X.deref ref := rfl

/-- One redirect-carrying `RequestWillBeSent`: the current request is retired
with at most its method rewritten, a snapshot of the new request is appended,
and the original request is fixed if it was not yet. -/
theorem requestWillBeSent_redirect (H : Host) (X : Exchanges) (ref : Nat) (p : Params)
    (e : Exchange) (rr : ResponseDesc) (hd : X.deref ref = some e)
    (hp : p.redirectResponse = some rr) :
    ∃ e' r0 snap, (Exchange.requestWillBeSent H X ref p).deref ref = some e' ∧
      r0 = { e.request with method := r0.method } ∧
      e'.older = e.older ++ [r0] ∧
      e'.redirects = e.redirects ++ [snap] ∧
      snap.request = e.older.length + 1 ∧
      e'.originalRequest = some (e.originalRequest.getD e.older.length) ∧
      ExchangeRequest.CookiesSortable e'.request.requestCookies := by
  unfold Exchange.requestWillBeSent
  lift_lets
  intro X1 X2
  have h1 : X1.deref ref = some (e.log EventType.RequestWillBeSent) := by
    simp only [X1]
    rw [deref_update, hd]
    rfl
  obtain ⟨e2, hd2, hk2⟩ := deref_applyRequestParams X1 ref p _ h1
  have hk := keepsRequests_trans (keepsRequests_log e EventType.RequestWillBeSent) hk2
  obtain ⟨ho, hr, hg, hq⟩ := hk
  simp only [X2] at hd2 ⊢
  rw [hd2]
  simp only
  obtain ⟨nr, snap, happ, hsnap, hs⟩ := applyParams_redirect H e2 p EventType.RequestWillBeSent rr hp
  rw [happ]
  simp only
  have hfin : ((Exchange.applyRequestParams X1 ref p).update ref (fun _ =>
      { e2 with
        originalRequest := some (e2.originalRequest.getD e2.older.length)
        redirects := e2.redirects ++ [snap]
        older := e2.older ++ [e2.request]
        request := nr })).deref ref = some
      { e2 with
        originalRequest := some (e2.originalRequest.getD e2.older.length)
        redirects := e2.redirects ++ [snap]
        older := e2.older ++ [e2.request]
        request := nr } := by
    rw [deref_update, hd2]
    rfl
  refine ⟨{ e2 with
        originalRequest := some (e2.originalRequest.getD e2.older.length)
        redirects := e2.redirects ++ [snap]
        older := e2.older ++ [e2.request]
        request := nr }, e2.request, snap, ?_, hq, ?_, ?_, ?_, ?_, hs⟩
  · split
    · rw [deref_exitCapture]; exact hfin
    · exact hfin
  · simp only [ho]
  · simp only [hr]
  · rw [hsnap, ho]
  · simp only [hg, ho]

theorem requestAt_of_lt (e : Exchange) (i : Nat) (h : i < e.older.length) :
    e.requestAt i = e.older[i]? := by
  unfold Exchange.requestAt
  exact List.getElem?_append_left h

theorem requestAt_length (e : Exchange) : e.requestAt e.older.length = some e.request := by
  unfold Exchange.requestAt
  simp

/-- A chain of redirect-carrying notifications, from any exchange. -/
theorem handleAll_redirects (H : Host) (ref : Nat) (ps : List Params)
    (hps : ∀ p ∈ ps, p.redirectResponse.isSome = true) :
    ∀ (X : Exchanges) (e : Exchange), X.deref ref = some e →
    ∃ e', (handleAll H X ref ps).deref ref = some e' ∧
      e'.redirects.length = e.redirects.length + ps.length ∧
      (∀ o, e.originalRequest = some o → e'.originalRequest = some o) ∧
      (ps ≠ [] → e'.originalRequest = some (e.originalRequest.getD e.older.length)) ∧
      (∃ r, e'.requestAt e.older.length = some r ∧ r = { e.request with method := r.method }) ∧
      (∀ i, i < e.older.length → e'.requestAt i = e.requestAt i) ∧
      (∀ snap ∈ e'.redirects, snap ∈ e.redirects ∨
        (e.older.length < snap.request ∧
          ∃ r, e'.requestAt snap.request = some r ∧
            ExchangeRequest.CookiesSortable r.requestCookies)) := by
  induction ps with
  | nil =>
    intro X e hd
    exact ⟨e, hd, rfl, fun o ho => ho, fun h => absurd rfl h,
      ⟨e.request, requestAt_length e, rfl⟩, fun _ _ => rfl, fun snap hs => Or.inl hs⟩
  | cons p rest ih =>
    intro X e hd
    have hp := hps p (List.mem_cons_self _ _)
    obtain ⟨rr, hrr⟩ := Option.isSome_iff_exists.mp hp
    obtain ⟨e1, r0, snap1, hd1, hr0, hold, hred, hsnap, horig, hsort⟩ :=
      requestWillBeSent_redirect H X ref p e rr hd hrr
    obtain ⟨e', hd', hlen, horig', _, ⟨r1, hr1at, hr1⟩, hfix, hsnaps⟩ :=
      ih (fun q hq => hps q (List.mem_cons_of_mem _ hq)) _ e1 hd1
    have hlt : e.older.length < e1.older.length := by rw [hold]; simp
    have hat0 : e1.requestAt e.older.length = some r0 := by
      rw [requestAt_of_lt e1 _ hlt, hold]
      simp
    refine ⟨e', hd', ?_, ?_, ?_, ?_, ?_, ?_⟩
    · rw [hlen, hred]
      simp only [List.length_append, List.length_cons, List.length_nil]
      omega
    · intro o ho
      rw [horig' _ horig, ho]
      rfl
    · intro _
      exact horig' _ horig
    · exact ⟨r0, by rw [hfix _ hlt, hat0], hr0⟩
    · intro i hi
      rw [hfix i (Nat.lt_trans hi hlt), requestAt_of_lt e1 i (Nat.lt_trans hi hlt), hold,
        requestAt_of_lt e i hi]
      exact List.getElem?_append_left hi
    · intro snap hs
      rcases hsnaps snap hs with h | ⟨h1, h2⟩
      · rw [hred] at h
        rcases List.mem_append.mp h with h | h
        · exact Or.inl h
        · right
          have hsn : snap = snap1 := by simpa using h
          subst hsn
          refine ⟨by rw [hsnap]; exact Nat.lt_succ_self _, r1, ?_, ?_⟩
          · rw [hsnap]
            have : e.older.length + 1 = e1.older.length := by rw [hold]; simp
            rw [this]
            exact hr1at
          · rw [hr1]
            exact hsort
      · exact Or.inr ⟨Nat.lt_trans hlt h1, h2⟩

theorem lowerName_isSome (H : Host) (c : Item) (h : c.sortable = true) :
    ∃ s, ExchangeRequest.lowerName H c = some s := by
  unfold Item.sortable at h
  simp only [Bool.and_eq_true] at h
  unfold ExchangeRequest.lowerName
  obtain ⟨_, hn⟩ := h
  split at hn
  · exact ⟨_, rfl⟩
  · cases hn

theorem mapM_lowerName_isSome (H : Host) (cs : List Item)
    (h : ExchangeRequest.CookiesSortable cs) :
    ∃ names, ExchangeRequest.lowerNames H cs = some names := by
  induction cs with
  | nil => exact ⟨[], rfl⟩
  | cons c rest ih =>
    obtain ⟨s, hs⟩ := lowerName_isSome H c (h c (List.mem_cons_self _ _))
    obtain ⟨names, hn⟩ := ih (fun x hx => h x (List.mem_cons_of_mem _ hx))
    exact ⟨s :: names, by simp only [ExchangeRequest.lowerNames, hs, hn]⟩

theorem findNewCookies_isSome (H : Host) (old new : List Item)
    (ho : ExchangeRequest.CookiesSortable old) (hn : ExchangeRequest.CookiesSortable new) :
    ∃ l, ExchangeRequest.findNewCookies H old new = some l := by
  unfold ExchangeRequest.findNewCookies
  split
  · exact ⟨_, rfl⟩
  · split
    · exact ⟨_, rfl⟩
    · obtain ⟨names, hnames⟩ := mapM_lowerName_isSome H old ho
      rw [hnames]
      simp only
      suffices h : ∀ (cs : List Item), ExchangeRequest.CookiesSortable cs → ∀ kept : List Item,
          ∃ l, cs.foldl (fun acc c =>
            match acc, ExchangeRequest.lowerName H c with
            | some kept, some cookieName =>
              some (if cookieName ∈ names then kept else kept ++ [c])
            | _, _ => none) (some kept) = some l from h new hn []
      intro cs
      induction cs with
      | nil => intro _ kept; exact ⟨kept, rfl⟩
      | cons c rest ih =>
        intro hcs kept
        obtain ⟨s, hs⟩ := lowerName_isSome H c (hcs c (List.mem_cons_self _ _))
        simp only [List.foldl_cons, hs]
        exact ih (fun x hx => hcs x (List.mem_cons_of_mem _ hx)) _

theorem computeFrom_length (H : Host) (e : Exchange) (l : List RedirectSnapshot) :
    ∀ (k : Nat) (l' : List RedirectSnapshot), Exchange.computeFrom H e k l = .ok l' →
      l'.length = l.length := by
  induction l with
  | nil =>
    intro k l' h
    simp only [Exchange.computeFrom, Except.ok.injEq] at h
    subst h; rfl
  | cons r rest ih =>
    intro k l' h
    simp only [Exchange.computeFrom] at h
    split at h
    · cases h
    · split at h
      · rename_i rest' hrest
        simp only [Except.ok.injEq] at h
        subst h
        simp [ih _ _ hrest]
      · cases h

theorem computeFrom_isOk (H : Host) (e : Exchange) (l : List RedirectSnapshot)
    (hl : ∀ r ∈ l, ∀ k, ∃ r', Exchange.redirectCookiesAt H e k r = some r') :
    ∀ k, ∃ l', Exchange.computeFrom H e k l = .ok l' := by
  induction l with
  | nil => intro k; exact ⟨[], rfl⟩
  | cons r rest ih =>
    intro k
    obtain ⟨r', hr'⟩ := hl r (List.mem_cons_self _ _) k
    obtain ⟨rest', hrest⟩ := ih (fun x hx => hl x (List.mem_cons_of_mem _ hx)) (k + 1)
    exact ⟨r' :: rest', by simp only [Exchange.computeFrom, hr', hrest]⟩

theorem labelFrom_length (s : Nat) (l : List RedirectSnapshot) :
    ∀ k, (Exchange.labelFrom s k l).length = l.length := by
  induction l with
  | nil => intro k; rfl
  | cons r rest ih => intro k; simp [Exchange.labelFrom, ih]

theorem labelFrom_sequence (s : Nat) (l : List RedirectSnapshot) :
    ∀ k i, i < l.length →
      ((Exchange.labelFrom s k l)[i]?).map (·.sequence) =
        some (some (toString s ++ "." ++ toString (k + i + 1))) := by
  induction l with
  | nil => intro k i h; simp at h
  | cons r rest ih =>
    intro k i h
    cases i with
    | zero => simp [Exchange.labelFrom]
    | succ j =>
      simp only [Exchange.labelFrom, List.getElem?_cons_succ]
      rw [ih (k + 1) j (by simpa using h)]
      have : k + 1 + j + 1 = k + (j + 1) + 1 := by omega
      rw [this]

theorem setRedirectsSequence_labels (H : Host) (e e'' : Exchange) (s : Nat)
    (h : e.setRedirectsSequence H s = .ok e'') :
    e''.redirects.length = e.redirects.length ∧
    ∀ i, i < e.redirects.length →
      (e''.redirects[i]?).map (·.sequence) = some (some (toString s ++ "." ++ toString (i + 1))) := by
  unfold Exchange.setRedirectsSequence at h
  split at h
  · unfold Exchange.computeRedirectCookies at h
    rename_i hhas
    simp only [hhas, if_true] at h
    cases hc : Exchange.computeFrom H e 0 e.redirects with
    | error l => simp [hc] at h
    | ok l =>
      simp only [hc, Except.ok.injEq] at h
      subst h
      have hlen := computeFrom_length H e e.redirects 0 l hc
      refine ⟨by simp only [labelFrom_length, hlen], ?_⟩
      intro i hi
      have := labelFrom_sequence s l 0 i (by rw [hlen]; exact hi)
      simpa using this
  · rename_i hhas
    simp only [Except.ok.injEq] at h
    subst h
    refine ⟨rfl, ?_⟩
    intro i hi
    simp only [Exchange.hasRedirects, decide_eq_true_eq] at hhas
    omega

theorem setRedirectsSequence_isOk (H : Host) (e : Exchange) (s : Nat)
    (ho : ExchangeRequest.CookiesSortable (e.cookiesAt e.originalRequest))
    (hs : ∀ snap ∈ e.redirects, ExchangeRequest.CookiesSortable (e.cookiesAt (some snap.request))) :
    ∃ e'', e.setRedirectsSequence H s = .ok e'' := by
  have hprev : ∀ k, ExchangeRequest.CookiesSortable
      (if k = 0 then e.cookiesAt e.originalRequest
       else e.cookiesAt ((e.redirects[k - 1]?).map (·.request))) := by
    intro k
    split
    · exact ho
    · cases hk : e.redirects[k - 1]? with
      | none => intro c hc; simp [Exchange.cookiesAt] at hc
      | some snap =>
        exact hs snap (List.getElem?_mem hk)
  have hall : ∀ r ∈ e.redirects, ∀ k, ∃ r', Exchange.redirectCookiesAt H e k r = some r' := by
    intro r hr k
    unfold Exchange.redirectCookiesAt
    obtain ⟨l, hl⟩ := findNewCookies_isSome H _ _ (hprev k) (hs r hr)
    simp only [hl]
    split
    · exact ⟨_, rfl⟩
    · exact ⟨_, rfl⟩
  obtain ⟨l', hl'⟩ := computeFrom_isOk H e e.redirects hall 0
  unfold Exchange.setRedirectsSequence Exchange.computeRedirectCookies
  split
  · simp only [hl']
    exact ⟨_, rfl⟩
  · exact ⟨_, rfl⟩

/-- C9. From an exchange with no redirects whose current request is `r0`
(`_originalRequest` is still unset, or already refers to `r0`: with no
redirect it can hold nothing else), handling `N ≥ 1` successive redirect-carrying
`RequestWillBeSent` notifications leaves exactly `N` snapshots and makes
`_originalRequest` the object `r0` (the very object that was current, of
which only the method may have been rewritten by the `requestMethod` setter);
whenever `setRedirectsSequence(s)` then returns, the `i`-th snapshot (1-based)
is labelled `s + '.' + i`; and it does return when the cookie names of `r0`
are strings. -/
theorem redirect_chain_snapshots (H : Host) (X : Exchanges) (ref : Nat) (e : Exchange)
    (ps : List Params) (hd : X.deref ref = some e) (hr : e.redirects = [])
    (ho : e.originalRequest = none ∨ e.originalRequest = some e.requestRef)
    (hps : ∀ p ∈ ps, p.redirectResponse.isSome = true) (hN : 1 ≤ ps.length) :
    ∃ e', (handleAll H X ref ps).deref ref = some e' ∧
      e'.redirects.length = ps.length ∧
      e'.originalRequest = some e.requestRef ∧
      (∃ r0, e'.requestAt e.requestRef = some r0 ∧ r0 = { e.request with method := r0.method }) ∧
      (∀ s e'', e'.setRedirectsSequence H s = .ok e'' →
        e''.redirects.length = ps.length ∧
        ∀ i, i < ps.length →
          (e''.redirects[i]?).map (·.sequence) =
            some (some (toString s ++ "." ++ toString (i + 1)))) ∧
      (ExchangeRequest.CookiesSortable e.request.requestCookies →
        ∀ s, ∃ e'', e'.setRedirectsSequence H s = .ok e'') := by
  obtain ⟨e', hd', hlen, hkeep, horig, ⟨r0, hat, hr0⟩, _, hsnaps⟩ :=
    handleAll_redirects H ref ps hps X e hd
  have hne : ps ≠ [] := by
    intro h; rw [h] at hN; simp at hN
  have hlen' : e'.redirects.length = ps.length := by
    rw [hlen, hr]; simp
  have horig' : e'.originalRequest = some e.requestRef := by
    rcases ho with ho | ho
    · rw [horig hne, ho]; rfl
    · exact hkeep _ ho
  refine ⟨e', hd', hlen', horig', ⟨r0, hat, hr0⟩, ?_, ?_⟩
  · intro s e'' h
    have := setRedirectsSequence_labels H e' e'' s h
    rw [hlen'] at this
    exact this
  · intro hcs s
    apply setRedirectsSequence_isOk
    · rw [horig']
      have : e'.cookiesAt (some e.requestRef) = r0.requestCookies := by
        simp [Exchange.cookiesAt, Exchange.requestRef, hat]
      rw [this, hr0]
      exact hcs
    · intro snap hs
      rcases hsnaps snap hs with h | ⟨_, r, hrat, hrs⟩
      · rw [hr] at h; simp at h
      · have : e'.cookiesAt (some snap.request) = r.requestCookies := by
          simp [Exchange.cookiesAt, hrat]
        rw [this]
        exact hrs

/-- C9 at a concrete input: two redirect hops on an exchange registered under
`X`. -/
theorem redirect_chain_snapshots_witness :
    ∃ e', (handleAll Host.ascii Example.registry 0
        [Example.redirectToB, Example.redirectToC]).deref 0 = some e' ∧
      e'.redirects.length = 2 ∧
      e'.originalRequest = some 0 ∧
      (stateAfter (e'.setRedirectsSequence Host.ascii 7)).redirects.map (·.sequence)
        = [some "7.1", some "7.2"] := by
  obtain ⟨e', h1, h2, h3, _, _, _⟩ := redirect_chain_snapshots Host.ascii Example.registry 0
    { Exchange.fresh (some "https://x.test/a") with
      requestId := some "X", frameId := some "F", requestMethod := some "GET"
      request := { url := some "https://x.test/a", method := some "GET" } }
    [Example.redirectToB, Example.redirectToC] (by decide) (by decide) (Or.inl rfl) (by decide)
    (by decide)
  refine ⟨e', h1, h2, h3, ?_⟩
  have he : ∀ e, (handleAll Host.ascii Example.registry 0
      [Example.redirectToB, Example.redirectToC]).deref 0 = some e →
      (stateAfter (e.setRedirectsSequence Host.ascii 7)).redirects.map (·.sequence)
        = [some "7.1", some "7.2"] := by decide
  exact he e' h1

/-- C9 fails on a `POST` that is answered with `303`: before the notification
the current request `r0` is the `POST` to the form and the exchange has no
redirect; the notification for the `GET` of `/done` leaves one snapshot and
makes `_originalRequest` the object `r0`, but the `requestMethod` setter has
run before the redirect branch, so the method of `r0` is now `null` and one
correlation fault is counted: the original request is no longer equal to
`r0` as it stood. -/
theorem redirect_rewrites_original_method :
    (Example.posted.deref 0).map
        (fun e => (e.request.method, e.request.url, e.redirects.length, e.methodFaults)) =
      some (some "POST", some "https://x.test/form", 0, 0) ∧
    ((Exchange.requestWillBeSent Host.ascii Example.posted 0 Example.seeOther).deref 0).map
        (fun e => (e.redirects.length, e.originalRequest, e.methodFaults)) =
      some (1, some 0, 1) ∧
    ((Exchange.requestWillBeSent Host.ascii Example.posted 0 Example.seeOther).deref 0).map
        (fun e => (e.originalRequest.bind e.requestAt).map (fun r => (r.method, r.url))) =
      some (some (none, some "https://x.test/form")) := by
  refine ⟨?_, ?_, ?_⟩ <;> decide

/-! ## Pre-flight then request -/

theorem sameKey_refl (e : Exchange) : SameKey e e := ⟨rfl, rfl, rfl⟩

theorem sameKey_trans {a b c : Exchange} (h1 : SameKey a b) (h2 : SameKey b c) : SameKey a c :=
  ⟨h2.1.trans h1.1, h2.2.1.trans h1.2.1, h2.2.2.trans h1.2.2⟩

theorem sameKey_setRequestMethod (e e' : Exchange) (h : SameKey e e') (m : String) :
    SameKey (e.setRequestMethod m) (e'.setRequestMethod m) := by
  obtain ⟨h1, h2, h3⟩ := h
  unfold Exchange.setRequestMethod
  rw [h1, h2]
  split
  · exact ⟨rfl, rfl, h3⟩
  · split
    · exact ⟨rfl, rfl, h3⟩
    · split
      · split
        · exact ⟨rfl, rfl, h3⟩
        · exact ⟨rfl, rfl, h3⟩
      · exact ⟨h1, h2, h3⟩

theorem setRequestMethod_requestId (e : Exchange) (m : String) :
    (e.setRequestMethod m).requestId = e.requestId := by
  unfold Exchange.setRequestMethod
  split
  · rfl
  · split
    · rfl
    · split
      · split <;> rfl
      · rfl

/-- What `applyOwnParams` does to the resolved method: one call of the
`requestMethod` setter with the notification's method. -/
theorem sameKey_applyOwnParams (e : Exchange) (p : Params) (m : String)
    (hm : p.request.bind (·.method) = some m) (hne : m ≠ "") :
    SameKey (e.setRequestMethod m) (e.applyOwnParams p) := by
  unfold Exchange.applyOwnParams
  lift_lets
  intro e1 e2 e3 e4 e5 e6 e7 e8
  have h1 : SameKey e e1 := by
    simp only [e1]; split <;> exact ⟨rfl, rfl, rfl⟩
  have h2 : SameKey e1 e2 := by
    simp only [e2]; split <;> exact ⟨rfl, rfl, rfl⟩
  have h3 : SameKey e2 e3 := by
    simp only [e3]; split <;> exact ⟨rfl, rfl, rfl⟩
  have h4 : SameKey (e.setRequestMethod m) e4 := by
    simp only [e4, hm, hne, ne_eq, not_false_eq_true, if_true]
    exact sameKey_setRequestMethod e e3 (sameKey_trans (sameKey_trans h1 h2) h3) m
  have h5 : SameKey e4 e5 := by
    simp only [e5]; split <;> exact ⟨rfl, rfl, rfl⟩
  have h6 : SameKey e5 e6 := by
    simp only [e6]
    split
    · split <;> exact ⟨rfl, rfl, rfl⟩
    · exact sameKey_refl _
  have h7 : SameKey e6 e7 := by
    simp only [e7]
    split
    · split <;> exact ⟨rfl, rfl, rfl⟩
    · exact sameKey_refl _
  have h8 : SameKey e7 e8 := by
    simp only [e8]; split <;> exact ⟨rfl, rfl, rfl⟩
  have h9 := sameKey_trans (sameKey_trans (sameKey_trans (sameKey_trans h4 h5) h6) h7) h8
  split
  · exact sameKey_trans h9 ⟨rfl, rfl, rfl⟩
  · exact h9

theorem sameKey_log (e : Exchange) (t : EventType) : SameKey e (e.log t) := by
  unfold Exchange.log
  split <;> exact ⟨rfl, rfl, rfl⟩

theorem sameKey_applyParams (H : Host) (e : Exchange) (p : Params) (t : EventType) :
    SameKey e (stateAfter (ExchangeRequest.applyParams H e p t)) := by
  unfold ExchangeRequest.applyParams
  split
  · by_cases ho : e.originalRequest.isNone = true
    · simp only [ho, if_true]
      split <;> exact ⟨rfl, rfl, rfl⟩
    · simp only [ho, Bool.false_eq_true, if_false]
      split <;> exact ⟨rfl, rfl, rfl⟩
  · split <;> exact ⟨rfl, rfl, rfl⟩

theorem JSMap.get_set_self (m : JSMap) (k : String) (v : Nat) :
    JSMap.get (JSMap.set m k v) k = some v := by
  unfold JSMap.get JSMap.set
  by_cases h : (JSObject.get m k).isSome = true
  · rw [if_pos h, JSObject.get_replaceKey]
    simp [h]
  · rw [if_neg h]
    have hk : JSObject.get m k = none := by
      cases hg : JSObject.get m k with
      | none => rfl
      | some w => simp [hg] at h
    clear h
    induction m with
    | nil => simp [JSObject.get]
    | cons p rest ih =>
      obtain ⟨k', v'⟩ := p
      have hne : ¬ k' = k := by
        intro e; simp [JSObject.get, e] at hk
      have hrest : JSObject.get rest k = none := by
        simpa [JSObject.get, hne] using hk
      simp only [List.cons_append, JSObject.get, hne, if_false]
      exact ih hrest

theorem deref_lt (X : Exchanges) (ref : Nat) (e : Exchange) (h : X.deref ref = some e) :
    ref < X.store.length := by
  unfold Exchanges.deref at h
  exact (List.getElem?_eq_some_iff.mp h).1

theorem byFrameId_lt (X : Exchanges) (f : String) (ref : Nat) (h : X.byFrameId f = some ref) :
    ref < X.store.length := by
  unfold Exchanges.byFrameId at h
  obtain ⟨_, hs⟩ := Option.filter_eq_some.mp h
  obtain ⟨e, he⟩ := Option.isSome_iff_exists.mp hs
  exact deref_lt X ref e he

theorem setFrameId_view (X : Exchanges) (ref : Nat) (value : String) (e : Exchange)
    (h : X.deref ref = some e) :
    (Exchange.setFrameId X ref value).exchanges = X.exchanges ∧
    ∃ e', (Exchange.setFrameId X ref value).deref ref = some e' ∧ SameKey e e' := by
  unfold Exchange.setFrameId
  rw [h]
  simp only
  split
  · refine ⟨rfl, { e with frameId := some value }, ?_, ⟨rfl, rfl, rfl⟩⟩
    have := deref_update X ref (fun e => { e with frameId := some value })
    rw [h] at this
    exact this
  · exact ⟨rfl, e, h, sameKey_refl e⟩

theorem applyFrameId_view (X : Exchanges) (ref : Nat) (p : Params) (e : Exchange)
    (h : X.deref ref = some e) :
    (Exchange.applyFrameId X ref p).exchanges = X.exchanges ∧
    ∃ e', (Exchange.applyFrameId X ref p).deref ref = some e' ∧ SameKey e e' := by
  unfold Exchange.applyFrameId
  split
  · split
    · exact setFrameId_view X ref _ e h
    · exact ⟨rfl, e, h, sameKey_refl e⟩
  · exact ⟨rfl, e, h, sameKey_refl e⟩

theorem setRequestId_same (X : Exchanges) (ref : Nat) (id : String) (e : Exchange)
    (h : X.deref ref = some e) (hid : e.requestId = some id) :
    Exchange.setRequestId X ref id = X := by
  unfold Exchange.setRequestId
  rw [h]
  simp [hid]

/-- The handler on an exchange that already carries the notification's
primary id: the registry's primary map is untouched and the resolved method
goes through one call of the `requestMethod` setter. -/
theorem requestWillBeSent_sameId (H : Host) (X : Exchanges) (ref : Nat) (p : Params)
    (e : Exchange) (id m : String) (hd : X.deref ref = some e) (hid : e.requestId = some id)
    (hp : p.requestId = some id) (hm : p.request.bind (·.method) = some m) (hne : m ≠ "") :
    (Exchange.requestWillBeSent H X ref p).exchanges = X.exchanges ∧
    ∃ e', (Exchange.requestWillBeSent H X ref p).deref ref = some e' ∧
      SameKey (e.setRequestMethod m) e' := by
  unfold Exchange.requestWillBeSent
  lift_lets
  intro X1 X2
  have h1 : X1.deref ref = some (e.log EventType.RequestWillBeSent) := by
    simp only [X1]
    rw [deref_update, hd]
    rfl
  have hx1 : X1.exchanges = X.exchanges := rfl
  have hlog := sameKey_log e EventType.RequestWillBeSent
  have hsame : Exchange.applyRequestId X1 ref p = X1 := by
    unfold Exchange.applyRequestId
    rw [hp]
    simp only
    split
    · exact setRequestId_same X1 ref id _ h1 (hlog.2.2.trans hid)
    · rfl
  have h2 : X2.exchanges = X.exchanges ∧
      ∃ e2, X2.deref ref = some e2 ∧ SameKey (e.setRequestMethod m) e2 := by
    simp only [X2, Exchange.applyRequestParams]
    rw [hsame]
    obtain ⟨hx, ef, hdf, hkf⟩ := applyFrameId_view X1 ref p _ h1
    refine ⟨hx.trans hx1, ef.applyOwnParams p, ?_, ?_⟩
    · rw [deref_update, hdf]; rfl
    · exact sameKey_trans (sameKey_setRequestMethod e ef (sameKey_trans hlog hkf) m)
        (sameKey_applyOwnParams ef p m hm hne)
  obtain ⟨hx2, e2, hd2, hk2⟩ := h2
  rw [hd2]
  simp only
  have hk3 := sameKey_applyParams H e2 p EventType.RequestWillBeSent
  cases happ : ExchangeRequest.applyParams H e2 p EventType.RequestWillBeSent with
  | error e3 =>
    rw [happ] at hk3
    simp only
    refine ⟨hx2, e3.log EventType.RequestWillBeSent, ?_, ?_⟩
    · rw [deref_update, hd2]; rfl
    · exact sameKey_trans (sameKey_trans hk2 hk3) (sameKey_log e3 _)
  | ok e3 =>
    rw [happ] at hk3
    simp only
    have hfin : (X2.update ref (fun _ => e3)).deref ref = some e3 := by
      rw [deref_update, hd2]; rfl
    split
    · exact ⟨hx2, e3, by rw [deref_exitCapture]; exact hfin, sameKey_trans hk2 hk3⟩
    · exact ⟨hx2, e3, hfin, sameKey_trans hk2 hk3⟩

theorem resolve_lt_or_new (X : Exchanges) (p : Params) (url m : Option String)
    (candidate : Option Nat) (hc : ∀ ref, candidate = some ref → ref < X.store.length)
    (h : (X.resolve p url m candidate true).2 = some X.store.length) :
    X.resolve p url m candidate true = ((Exchange.new X p url).1, some X.store.length) := by
  unfold Exchanges.resolve at h ⊢
  lift_lets at h ⊢
  intro c1 c2
  cases hc2 : c2 with
  | some ref =>
    exfalso
    have hlt : ref < X.store.length := by
      apply hc
      have h2 : c1 = some ref := (Option.filter_eq_some.mp hc2).1
      exact (Option.filter_eq_some.mp h2).1
    simp only [c2, c1] at hc2
    simp only [hc2, Option.some.injEq] at h
    omega
  | none =>
    simp only [c2, c1] at hc2
    simp only [hc2, if_true]
    rfl

/-- When `find` returns a reference that did not exist before, for a primary
id that is not registered, it has constructed the exchange. -/
theorem find_new (H : Host) (X : Exchanges) (p : Params) (id : String)
    (hp : p.requestId = some id) (hun : X.exchanges.get id = none)
    (h : (Exchanges.find H X p true).2 = some X.store.length) :
    Exchanges.find H X p true =
      ((Exchange.new X p (Exchange.urlFromParams H p)).1, some X.store.length) := by
  have hby : (if truthyStr p.requestId then X.byRequestId (p.requestId.getD "") else none)
      = none := by
    split
    · simp [hp, Exchanges.byRequestId, hun]
    · rfl
  unfold Exchanges.find at h ⊢
  simp only [hby] at h ⊢
  unfold Exchanges.findByFrame at h ⊢
  cases hf : (if truthyStr p.frameId then X.byFrameId (p.frameId.getD "") else none) with
  | none =>
    simp only [hf] at h ⊢
    exact resolve_lt_or_new X p _ _ none (fun ref hr => by cases hr) h
  | some ref =>
    have hlt : ref < X.store.length := by
      split at hf
      · exact byFrameId_lt X _ ref hf
      · cases hf
    simp only [hf] at h ⊢
    split at h
    · simp only [Option.some.injEq] at h
      omega
    · rename_i hne
      simp only [hne, Bool.false_eq_true, if_false]
      exact resolve_lt_or_new X p _ _ (some ref)
        (fun r hr => by cases hr; exact hlt) h

theorem setRequestMethod_of_none (e : Exchange) (m : String) (h : e.requestMethod = none) :
    (e.setRequestMethod m).requestMethod = some m ∧
    (e.setRequestMethod m).methodFaults = e.methodFaults := by
  unfold Exchange.setRequestMethod
  simp [h]

theorem setRequestMethod_of_options (e : Exchange) (m : String)
    (h : e.requestMethod = some "OPTIONS") (hm : m ≠ "OPTIONS") :
    (e.setRequestMethod m).requestMethod = some m ∧
    (e.setRequestMethod m).methodFaults = e.methodFaults := by
  unfold Exchange.setRequestMethod
  simp [h, hm]

theorem setRequestMethod_options (e : Exchange) (h : e.requestMethod = some "OPTIONS") :
    e.setRequestMethod "OPTIONS" = e := by
  unfold Exchange.setRequestMethod
  simp [h]

theorem setRequestMethod_same (e : Exchange) (m : String) (h : e.requestMethod = some m)
    (hm : m ≠ "OPTIONS") :
    (e.setRequestMethod m).requestMethod = some m ∧
    (e.setRequestMethod m).methodFaults = e.methodFaults := by
  unfold Exchange.setRequestMethod
  simp [h, hm]

/-- The exchange `find` constructs for a notification carrying a primary id
and a method: registered under the id, with that method and no fault. -/
theorem new_registered (X : Exchanges) (p : Params) (url : Option String) (id m : String)
    (hp : p.requestId = some id) (hid : id ≠ "")
    (hm : p.request.bind (·.method) = some m) (hne : m ≠ "") :
    (Exchange.new X p url).2 = X.store.length ∧
    (Exchange.new X p url).1.exchanges.get id = some X.store.length ∧
    ∃ e, (Exchange.new X p url).1.deref X.store.length = some e ∧
      e.requestMethod = some m ∧ e.methodFaults = 0 ∧ e.requestId = some id := by
  refine ⟨rfl, ?_⟩
  unfold Exchange.new Exchange.applyRequestParams
  simp only
  have hd0 : ({ X with store := X.store ++ [Exchange.fresh url] } : Exchanges).deref X.store.length
      = some (Exchange.fresh url) := by
    simp [Exchanges.deref]
  have h1 : Exchange.applyRequestId { X with store := X.store ++ [Exchange.fresh url] }
      X.store.length p =
      { ({ X with store := X.store ++ [Exchange.fresh url] } : Exchanges).update X.store.length
          (fun e => { e with requestId := some id }) with
        exchanges := X.exchanges.set id X.store.length } := by
    unfold Exchange.applyRequestId
    rw [hp]
    simp only [hid, ne_eq, not_false_eq_true, if_true]
    unfold Exchange.setRequestId
    rw [hd0]
    simp [Exchange.fresh, truthyStr]
  have hd1 : (Exchange.applyRequestId { X with store := X.store ++ [Exchange.fresh url] }
      X.store.length p).deref X.store.length
      = some { Exchange.fresh url with requestId := some id } := by
    rw [h1]
    have := deref_update { X with store := X.store ++ [Exchange.fresh url] } X.store.length
      (fun e => { e with requestId := some id })
    rw [hd0] at this
    exact this
  obtain ⟨hx, ef, hdf, hkf⟩ := applyFrameId_view _ X.store.length p _ hd1
  constructor
  · show JSMap.get ((Exchange.applyFrameId _ X.store.length p).update X.store.length _).exchanges
      id = some X.store.length
    have : ((Exchange.applyFrameId (Exchange.applyRequestId
        { X with store := X.store ++ [Exchange.fresh url] } X.store.length p)
        X.store.length p).update X.store.length (fun e => e.applyOwnParams p)).exchanges
        = X.exchanges.set id X.store.length := by
      show (Exchange.applyFrameId _ X.store.length p).exchanges = _
      rw [hx, h1]
    rw [this]
    exact JSMap.get_set_self _ _ _
  · refine ⟨ef.applyOwnParams p, ?_, ?_⟩
    · rw [deref_update, hdf]; rfl
    · have hk := sameKey_applyOwnParams ef p m hm hne
      have hnone : ef.requestMethod = none := hkf.1
      obtain ⟨s1, s2⟩ := setRequestMethod_of_none ef m hnone
      refine ⟨hk.1.trans s1, ?_, ?_⟩
      · rw [hk.2.1, s2, hkf.2.1]; rfl
      · rw [hk.2.2, setRequestMethod_requestId, hkf.2.2]

theorem requestMethodFromParams_of_request (H : Host) (p : Params) (m : String)
    (hm : p.request.bind (·.method) = some m) (hne : m ≠ "") :
    Exchange.requestMethodFromParams H p = some m := by
  unfold Exchange.requestMethodFromParams
  have : truthyStr (some m) = true := by simp [truthyStr, hne]
  rw [hm]
  simp only [this, if_true]

/-- The lookup `find` performs for a registered primary id whose exchange
still has the pre-flight method: the notification's method is adopted and the
exchange returned. -/
theorem find_adopts (H : Host) (X : Exchanges) (p : Params) (id m : String) (ref : Nat)
    (e : Exchange) (b : Bool) (hp : p.requestId = some id) (hid : id ≠ "")
    (hreg : X.exchanges.get id = some ref) (hd : X.deref ref = some e)
    (he : e.requestMethod = some "OPTIONS")
    (hm : p.request.bind (·.method) = some m) (hne : m ≠ "") (hno : m ≠ "OPTIONS") :
    (Exchanges.find H X p b).2 = some ref ∧
    (Exchanges.find H X p b).1.exchanges = X.exchanges ∧
    ∃ e', (Exchanges.find H X p b).1.deref ref = some e' ∧
      e'.requestMethod = some m ∧ e'.methodFaults = e.methodFaults ∧
      e'.requestId = e.requestId := by
  have hby : (if truthyStr p.requestId then X.byRequestId (p.requestId.getD "") else none)
      = some ref := by
    have : truthyStr (some id) = true := by simp [truthyStr, hid]
    rw [hp]
    simp only [this, if_true, Option.getD_some, Exchanges.byRequestId, hreg]
    simp [Option.filter, hd]
  have hmeth := requestMethodFromParams_of_request H p m hm hne
  have htr : truthyStr (some m) = true := by simp [truthyStr, hne]
  have hadopt : ∃ e', (X.adopt ref (Exchange.urlFromParams H p) (some m)).deref ref = some e' ∧
      e'.requestMethod = some m ∧ e'.methodFaults = e.methodFaults ∧
      e'.requestId = e.requestId := by
    unfold Exchanges.adopt
    rw [deref_update, deref_update, hd]
    simp only [Option.map_some']
    refine ⟨_, rfl, ?_⟩
    have h1 : SameKey e (if truthyStr (Exchange.urlFromParams H p) = true ∧ ¬ truthyStr e.url = true
        then { e with url := Exchange.urlFromParams H p } else e) := by
      split <;> exact ⟨rfl, rfl, rfl⟩
    obtain ⟨k1, k2, k3⟩ := h1
    have hopt := k1.trans he
    simp only [htr, hopt, or_true, and_self, if_true, Option.getD_some]
    obtain ⟨s1, s2⟩ := setRequestMethod_of_options _ m hopt hno
    exact ⟨s1, s2.trans k2, (setRequestMethod_requestId _ _).trans k3⟩
  obtain ⟨e', hd', hm', hf', hi'⟩ := hadopt
  have hagree : (X.adopt ref (Exchange.urlFromParams H p) (some m)).methodAgrees ref (some m)
      = true := by
    unfold Exchanges.methodAgrees
    simp [htr, hd', hm']
  have hx : (X.adopt ref (Exchange.urlFromParams H p) (some m)).exchanges = X.exchanges := rfl
  unfold Exchanges.find
  simp only [hby, hmeth, hagree, if_true]
  exact ⟨trivial, hx, e', hd', hm', hf', hi'⟩

/-- C10 (as amended). For a primary id `X` that is not registered, when
`Exchanges.find` constructs the exchange for the first notification (it does
not resolve to an existing exchange through its frame id): after a
`RequestWillBeSent` with method `OPTIONS` for `X` and then another for `X`
with method `POST`, both notifications resolve to that same exchange, its
resolved method is `POST`, and the fault branch of the `requestMethod` setter
has not run. -/
theorem options_then_post (H : Host) (X : Exchanges) (id : String) (n1 n2 : Params)
    (hid : id ≠ "") (hun : X.exchanges.get id = none)
    (h1id : n1.requestId = some id) (h1m : n1.request.bind (·.method) = some "OPTIONS")
    (h2id : n2.requestId = some id) (h2m : n2.request.bind (·.method) = some "POST")
    (hnew : (Exchanges.find H X n1 true).2 = some X.store.length) :
    (onRequestWillBeSent H X n1).2 = some X.store.length ∧
    (onRequestWillBeSent H (onRequestWillBeSent H X n1).1 n2).2 = some X.store.length ∧
    ∃ e, (onRequestWillBeSent H (onRequestWillBeSent H X n1).1 n2).1.deref X.store.length
        = some e ∧
      e.requestMethod = some "POST" ∧ e.methodFaults = 0 := by
  have hfind := find_new H X n1 id h1id hun hnew
  obtain ⟨_, hreg, e1, hd1, hm1, hf1, hi1⟩ :=
    new_registered X n1 (Exchange.urlFromParams H n1) id "OPTIONS" h1id hid h1m (by decide)
  obtain ⟨hx1, e1', hd1', hk1⟩ := requestWillBeSent_sameId H _ X.store.length n1 e1 id "OPTIONS"
    hd1 hi1 h1id h1m (by decide)
  rw [setRequestMethod_options e1 hm1] at hk1
  have hstep1 : onRequestWillBeSent H X n1 =
      (Exchange.requestWillBeSent H (Exchange.new X n1 (Exchange.urlFromParams H n1)).1
        X.store.length n1, some X.store.length) := by
    unfold onRequestWillBeSent
    rw [hfind]
  rw [hstep1]
  refine ⟨rfl, ?_⟩
  simp only
  obtain ⟨hr2, hx2, e2, hd2, hm2, hf2, hi2⟩ := find_adopts H
    (Exchange.requestWillBeSent H (Exchange.new X n1 (Exchange.urlFromParams H n1)).1
      X.store.length n1) n2 id "POST" X.store.length e1' true h2id hid
    (by rw [hx1]; exact hreg) hd1' (hk1.1.trans hm1) h2m (by decide) (by decide)
  rcases hF : Exchanges.find H
    (Exchange.requestWillBeSent H (Exchange.new X n1 (Exchange.urlFromParams H n1)).1
      X.store.length n1) n2 true with ⟨Xf, r⟩
  rw [hF] at hr2 hd2
  simp only at hr2 hd2
  subst hr2
  have hstep2 : onRequestWillBeSent H
      (Exchange.requestWillBeSent H (Exchange.new X n1 (Exchange.urlFromParams H n1)).1
        X.store.length n1) n2 =
      (Exchange.requestWillBeSent H Xf X.store.length n2, some X.store.length) := by
    unfold onRequestWillBeSent
    rw [hF]
  rw [hstep2]
  refine ⟨rfl, ?_⟩
  obtain ⟨_, e3, hd3, hk3⟩ := requestWillBeSent_sameId H Xf X.store.length n2 e2 id "POST"
    hd2 (hi2.trans (hk1.2.2.trans hi1)) h2id h2m (by decide)
  obtain ⟨s1, s2⟩ := setRequestMethod_same e2 "POST" hm2 (by decide)
  refine ⟨e3, hd3, hk3.1.trans s1, ?_⟩
  rw [hk3.2.1, s2, hf2, hk1.2.1, hf1]

/-- C10 as stated fails: the id `X` is not registered, but the pre-flight
notification resolves through its frame id to the exchange of an earlier
`GET` for the same URL; `OPTIONS` does not overwrite `GET`, so the `POST`
that follows is a method mismatch: a fault is logged and the resolved method
is reset to `null`. -/
theorem options_then_post_fault :
    (onRequestWillBeSent Host.ascii Example.empty (Example.willBeSent "W" "GET")).1.exchanges.get "X"
      = none ∧
    (onRequestWillBeSent Host.ascii
      (onRequestWillBeSent Host.ascii Example.empty (Example.willBeSent "W" "GET")).1
      (Example.willBeSent "X" "OPTIONS")).2 = some 0 ∧
    (onRequestWillBeSent Host.ascii
      (onRequestWillBeSent Host.ascii
        (onRequestWillBeSent Host.ascii Example.empty (Example.willBeSent "W" "GET")).1
        (Example.willBeSent "X" "OPTIONS")).1
      (Example.willBeSent "X" "POST")).2 = some 0 ∧
    ((onRequestWillBeSent Host.ascii
      (onRequestWillBeSent Host.ascii
        (onRequestWillBeSent Host.ascii Example.empty (Example.willBeSent "W" "GET")).1
        (Example.willBeSent "X" "OPTIONS")).1
      (Example.willBeSent "X" "POST")).1.deref 0).map
        (fun e => (e.requestMethod, e.methodFaults)) = some (none, 1) := by
  refine ⟨?_, ?_, ?_, ?_⟩ <;> decide

/-- C10 (as amended) at a concrete input: the two notifications arrive at an
empty registry. -/
theorem options_then_post_witness :
    (onRequestWillBeSent Host.ascii Example.empty (Example.willBeSent "X" "OPTIONS")).2 = some 0 ∧
    (onRequestWillBeSent Host.ascii
      (onRequestWillBeSent Host.ascii Example.empty (Example.willBeSent "X" "OPTIONS")).1
      (Example.willBeSent "X" "POST")).2 = some 0 ∧
    ∃ e, (onRequestWillBeSent Host.ascii
        (onRequestWillBeSent Host.ascii Example.empty (Example.willBeSent "X" "OPTIONS")).1
        (Example.willBeSent "X" "POST")).1.deref 0 = some e ∧
      e.requestMethod = some "POST" ∧ e.methodFaults = 0 :=
  options_then_post Host.ascii Example.empty "X" (Example.willBeSent "X" "OPTIONS")
    (Example.willBeSent "X" "POST") (by decide) (by decide) rfl rfl rfl rfl (by decide)
/-! ## The `requestMethod` setter -/

/-- C13. The transition table of the setter `requestMethod`, for a current
method `c` (`e.requestMethod`) and an assigned value `v`: from unset the method
becomes `v`; from `OPTIONS` with `v` not `OPTIONS` it becomes `v`; a concrete
method stays when `v` is `OPTIONS` or equals it; two different concrete methods
reset the method to `null` (the setter returns, and its catch block has run
once); and whenever the resolved method changes, the method of the current
request is the new resolved method. -/
theorem setRequestMethod_table (e : Exchange) (v : String) :
    (e.requestMethod = none → (e.setRequestMethod v).requestMethod = some v) ∧
    (e.requestMethod = some "OPTIONS" → v ≠ "OPTIONS" →
      (e.setRequestMethod v).requestMethod = some v) ∧
    (∀ c, e.requestMethod = some c → c ≠ "OPTIONS" → v = "OPTIONS" →
      (e.setRequestMethod v).requestMethod = some c) ∧
    (∀ c, e.requestMethod = some c → c ≠ "OPTIONS" → v = c →
      (e.setRequestMethod v).requestMethod = some c) ∧
    (∀ c, e.requestMethod = some c → c ≠ "OPTIONS" → v ≠ "OPTIONS" → v ≠ c →
      (e.setRequestMethod v).requestMethod = none ∧
      (e.setRequestMethod v).methodFaults = e.methodFaults + 1) ∧
    ((e.setRequestMethod v).requestMethod ≠ e.requestMethod →
      (e.setRequestMethod v).request.method = (e.setRequestMethod v).requestMethod) := by
  refine ⟨?_, ?_, ?_, ?_, ?_, ?_⟩
  · intro h
    simp [Exchange.setRequestMethod, h]
  · intro h hv
    simp [Exchange.setRequestMethod, h, hv]
  · intro c h hc hv
    simp [Exchange.setRequestMethod, h, hc, hv]
  · intro c h hc hv
    subst hv
    simp [Exchange.setRequestMethod, h, hc]
  · intro c h hc hv hne
    simp [Exchange.setRequestMethod, h, hc, hv, hne]
  · unfold Exchange.setRequestMethod
    split
    · intro _; rfl
    · split
      · intro _; rfl
      · split
        · split
          · intro _; rfl
          · intro _; rfl
        · intro h; exact absurd rfl h

/-- C13 at a concrete input: `POST` assigned to an exchange whose method is
`GET` resets the method and counts one fault. -/
theorem setRequestMethod_table_witness :
    ({ Exchange.fresh (some "https://x.test/api") with requestMethod := some "GET" }
      : Exchange).requestMethod = some "GET" ∧
    (({ Exchange.fresh (some "https://x.test/api") with requestMethod := some "GET" }
      : Exchange).setRequestMethod "POST").requestMethod = none ∧
    (({ Exchange.fresh (some "https://x.test/api") with requestMethod := some "GET" }
      : Exchange).setRequestMethod "POST").methodFaults = 0 + 1 :=
  ⟨rfl, (setRequestMethod_table
    { Exchange.fresh (some "https://x.test/api") with requestMethod := some "GET" }
    "POST").2.2.2.2.1 "GET" rfl (by decide) (by decide) (by decide)⟩
/-! ## Re-keying the primary identifier -/

theorem jsget_append_of_none (m : JSMap) (k : String) (v : Nat) (k' : String) :
    JSObject.get (m ++ [(k, v)]) k' =
      if (JSObject.get m k').isSome then JSObject.get m k'
      else if k = k' then some v else none := by
  induction m with
  | nil => simp [JSObject.get]
  | cons p rest ih =>
    obtain ⟨k₀, v₀⟩ := p
    by_cases h : k₀ = k'
    · simp [JSObject.get, h]
    · simp only [List.cons_append, JSObject.get, h, if_false]
      exact ih

theorem jsmap_get_set (m : JSMap) (k : String) (v : Nat) (k' : String) :
    JSMap.get (JSMap.set m k v) k' = if k' = k then some v else JSMap.get m k' := by
  by_cases hk : k' = k
  · subst hk
    simp [JSMap.get_set_self]
  · unfold JSMap.get JSMap.set
    simp only [hk, if_false]
    split
    · rw [JSObject.get_replaceKey]
      simp [hk]
    · rw [jsget_append_of_none]
      have hk2 : ¬ k = k' := fun h => hk h.symm
      cases hg : JSObject.get m k' <;> simp [hk2]

theorem jsmap_get_delete (m : JSMap) (k k' : String) :
    JSMap.get (JSMap.delete m k) k' = if k' = k then none else JSMap.get m k' := by
  unfold JSMap.get JSMap.delete
  induction m with
  | nil => simp [JSObject.get]
  | cons p rest ih =>
    obtain ⟨k₀, v₀⟩ := p
    by_cases h0 : k₀ = k
    · subst h0
      simp only [List.filter, ne_eq, not_true_eq_false, decide_False]
      rw [ih]
      by_cases hk : k' = k₀
      · simp [hk]
      · have : ¬ k₀ = k' := fun h => hk h.symm
        simp [hk, JSObject.get, this]
    · simp only [List.filter, ne_eq, h0, not_false_eq_true, decide_True]
      by_cases hk : k₀ = k'
      · subst hk
        simp [JSObject.get, h0]
      · simp only [JSObject.get, hk, if_false]
        exact ih

/-- C16. Re-keying is one step of the setter `requestId`: for an exchange
registered in the primary map under its identifier `a` and an identifier `b`
other than `a`, after `E.requestId = b` the primary map has no entry for `a`,
maps `b` to the exchange, and answers every other key as before; the exchange
carries `b` and the frame-id map is untouched. -/
theorem setRequestId_rekeys (X : Exchanges) (ref : Nat) (e : Exchange) (a b : String)
    (hd : X.deref ref = some e) (hid : e.requestId = some a) (ha : a ≠ "")
    (hreg : X.exchanges.get a = some ref) (hab : b ≠ a) :
    X.exchanges.get a = some ref ∧
    (Exchange.setRequestId X ref b).exchanges.get a = none ∧
    (Exchange.setRequestId X ref b).exchanges.get b = some ref ∧
    (∀ k, k ≠ a → k ≠ b → (Exchange.setRequestId X ref b).exchanges.get k = X.exchanges.get k) ∧
    ((Exchange.setRequestId X ref b).deref ref).map (·.requestId) = some (some b) ∧
    (Exchange.setRequestId X ref b).exchangesByFrameId = X.exchangesByFrameId := by
  have htr : truthyStr (some a) = true := by simp [truthyStr, ha]
  have hne : some b ≠ e.requestId := by
    rw [hid]; intro h; exact hab (Option.some.inj h)
  have hX : Exchange.setRequestId X ref b =
      { X.update ref (fun e => { e with requestId := some b }) with
        exchanges := (X.exchanges.delete a).set b ref } := by
    unfold Exchange.setRequestId
    rw [hd]
    have hne2 : ¬ some b = some a := fun h => hab (Option.some.inj h)
    simp only [ne_eq, hid, hne2, not_false_eq_true, if_true, htr, Option.getD_some]
  rw [hX]
  refine ⟨hreg, ?_, ?_, ?_, ?_, rfl⟩
  · show JSMap.get ((X.exchanges.delete a).set b ref) a = none
    rw [jsmap_get_set, jsmap_get_delete]
    have : ¬ a = b := fun h => hab h.symm
    simp [this]
  · exact JSMap.get_set_self _ _ _
  · intro k hka hkb
    show JSMap.get ((X.exchanges.delete a).set b ref) k = JSMap.get X.exchanges k
    rw [jsmap_get_set, jsmap_get_delete]
    simp [hka, hkb]
  · show ((X.update ref (fun e => { e with requestId := some b })).deref ref).map _ = _
    rw [deref_update, hd]
    rfl

/-- C16 at a concrete input: the exchange registered under `X` is re-keyed
to `Y`. -/
theorem setRequestId_rekeys_witness :
    Example.registry.exchanges.get "X" = some 0 ∧
    (Exchange.setRequestId Example.registry 0 "Y").exchanges.get "X" = none ∧
    (Exchange.setRequestId Example.registry 0 "Y").exchanges.get "Y" = some 0 ∧
    (∀ k, k ≠ "X" → k ≠ "Y" →
      (Exchange.setRequestId Example.registry 0 "Y").exchanges.get k
        = Example.registry.exchanges.get k) ∧
    ((Exchange.setRequestId Example.registry 0 "Y").deref 0).map (·.requestId)
      = some (some "Y") ∧
    (Exchange.setRequestId Example.registry 0 "Y").exchangesByFrameId
      = Example.registry.exchangesByFrameId :=
  setRequestId_rekeys Example.registry 0 _ "X" "Y" rfl rfl (by decide) (by decide) (by decide)
/-! ## Lookup miss -/

theorem byRequestId_of_unregistered (X : Exchanges) (p : Params)
    (h : p.requestId = none ∨ ∃ id, p.requestId = some id ∧ X.exchanges.get id = none) :
    (if truthyStr p.requestId then X.byRequestId (p.requestId.getD "") else none) = none := by
  split
  · rcases h with h | ⟨id, h, hg⟩
    · simp [h, truthyStr] at *
    · simp [h, Exchanges.byRequestId, hg]
  · rfl

theorem byFrameId_of_unregistered (X : Exchanges) (p : Params)
    (h : p.frameId = none ∨ ∃ f, p.frameId = some f ∧ X.exchangesByFrameId.get f = none) :
    (if truthyStr p.frameId then X.byFrameId (p.frameId.getD "") else none) = none := by
  split
  · rcases h with h | ⟨f, h, hg⟩
    · simp [h, truthyStr] at *
    · simp [h, Exchanges.byFrameId, hg]
  · rfl

/-- C14. A lookup miss fabricates nothing: when the notification's primary id
is absent or not registered, and its frame id is absent or not registered,
`find(params, eventType, false)` returns `null` and leaves the registry, with
both of its maps, as it was; the listeners for `Network.loadingFinished` and
`Network.loadingFailed`, which look up this way, then do nothing. -/
theorem find_miss (H : Host) (X : Exchanges) (p : Params)
    (hreq : p.requestId = none ∨ ∃ id, p.requestId = some id ∧ X.exchanges.get id = none)
    (hframe : p.frameId = none ∨
      ∃ f, p.frameId = some f ∧ X.exchangesByFrameId.get f = none) :
    Exchanges.find H X p false = (X, none) ∧
    (Exchanges.find H X p false).1.exchanges = X.exchanges ∧
    (Exchanges.find H X p false).1.exchangesByFrameId = X.exchangesByFrameId ∧
    onLoadingFinished H X p = (X, none, false) ∧
    onLoadingFailed H X p = (X, none) := by
  have hfind : Exchanges.find H X p false = (X, none) := by
    unfold Exchanges.find
    simp only [byRequestId_of_unregistered X p hreq, byFrameId_of_unregistered X p hframe]
    unfold Exchanges.findByFrame Exchanges.resolve
    simp
  refine ⟨hfind, by rw [hfind], by rw [hfind], ?_, ?_⟩
  · unfold onLoadingFinished
    rw [hfind]
  · unfold onLoadingFailed
    rw [hfind]

/-- C14 at a concrete input: a `LoadingFinished` for the unknown ids `Z` and
`G` arrives at a registry that holds an exchange under `X` and `F`. -/
theorem find_miss_witness :
    Exchanges.find Host.ascii Example.registry { requestId := some "Z", frameId := some "G" }
      false = (Example.registry, none) ∧
    (Exchanges.find Host.ascii Example.registry { requestId := some "Z", frameId := some "G" }
      false).1.exchanges = Example.registry.exchanges ∧
    (Exchanges.find Host.ascii Example.registry { requestId := some "Z", frameId := some "G" }
      false).1.exchangesByFrameId = Example.registry.exchangesByFrameId ∧
    onLoadingFinished Host.ascii Example.registry { requestId := some "Z", frameId := some "G" }
      = (Example.registry, none, false) ∧
    onLoadingFailed Host.ascii Example.registry { requestId := some "Z", frameId := some "G" }
      = (Example.registry, none) :=
  find_miss Host.ascii Example.registry { requestId := some "Z", frameId := some "G" }
    (Or.inr ⟨"Z", rfl, by decide⟩) (Or.inr ⟨"G", rfl, by decide⟩)
/-! ## Secondary-id resolution -/

theorem byFrameId_of_registered (X : Exchanges) (p : Params) (f : String) (ref : Nat)
    (e : Exchange) (hf : p.frameId = some f) (hfne : f ≠ "")
    (hreg : X.exchangesByFrameId.get f = some ref) (hd : X.deref ref = some e) :
    (if truthyStr p.frameId then X.byFrameId (p.frameId.getD "") else none) = some ref := by
  have : truthyStr (some f) = true := by simp [truthyStr, hfne]
  rw [hf]
  simp only [this, if_true, Option.getD_some, Exchanges.byFrameId, hreg]
  simp [Option.filter, hd]

/-- C17 (as amended). When the notification's primary id is absent or not
registered and its frame id is registered to an exchange `E`, `find` returns
`E`, and leaves the registry as it was, whenever the notification supplies no
URL or `E`'s URL equals the notification's URL. When the notification supplies
a URL that is not `E`'s (in particular when `E`'s URL is unset), `E` is not
returned: `find` constructs a new exchange when `allowAdd` is set and returns
`null` otherwise. -/
theorem find_by_frame (H : Host) (X : Exchanges) (p : Params) (f : String) (ref : Nat)
    (e : Exchange)
    (hreq : p.requestId = none ∨ ∃ id, p.requestId = some id ∧ X.exchanges.get id = none)
    (hf : p.frameId = some f) (hfne : f ≠ "")
    (hreg : X.exchangesByFrameId.get f = some ref) (hd : X.deref ref = some e) :
    ((truthyStr (Exchange.urlFromParams H p) = false ∨ e.url = Exchange.urlFromParams H p) →
      ∀ allowAdd, Exchanges.find H X p allowAdd = (X, some ref)) ∧
    (truthyStr (Exchange.urlFromParams H p) = true → e.url ≠ Exchange.urlFromParams H p →
      Exchanges.find H X p true =
        ((Exchange.new X p (Exchange.urlFromParams H p)).1, some X.store.length) ∧
      Exchanges.find H X p false = (X, none)) := by
  have hby := byRequestId_of_unregistered X p hreq
  have hbf := byFrameId_of_registered X p f ref e hf hfne hreg hd
  constructor
  · intro hu allowAdd
    unfold Exchanges.find
    simp only [hby, hbf]
    unfold Exchanges.findByFrame
    have : X.urlAgrees ref (Exchange.urlFromParams H p) = true := by
      unfold Exchanges.urlAgrees
      rcases hu with hu | hu
      · simp [hu]
      · simp [hd, hu]
    simp only [this, if_true]
  · intro hu hne
    have hagree : X.urlAgrees ref (Exchange.urlFromParams H p) = false := by
      unfold Exchanges.urlAgrees
      simp [hu, hd, hne]
    have hres : ∀ b, X.resolve p (Exchange.urlFromParams H p)
        (Exchange.requestMethodFromParams H p) (some ref) b =
        if b then ((Exchange.new X p (Exchange.urlFromParams H p)).1,
          some (Exchange.new X p (Exchange.urlFromParams H p)).2) else (X, none) := by
      intro b
      unfold Exchanges.resolve
      simp [Option.filter, hd, hu, hne]
    constructor
    · unfold Exchanges.find
      simp only [hby, hbf]
      unfold Exchanges.findByFrame
      simp only [hagree, Bool.false_eq_true, if_false, hres, if_true]
      rfl
    · unfold Exchanges.find
      simp only [hby, hbf]
      unfold Exchanges.findByFrame
      simp only [hagree, Bool.false_eq_true, if_false, hres]

/-- C17 as stated fails: the frame id `F` is registered to an exchange whose
URL is unset, the notification carries `F`, a URL and no primary id, and
`find` does not return that exchange: it constructs a second one. -/
theorem find_by_frame_urlless :
    Example.urlless.exchangesByFrameId.get "F" = some 0 ∧
    (Example.urlless.deref 0).map (·.url) = some none ∧
    Example.urlless.store.length = 1 ∧
    (Exchanges.find Host.ascii Example.urlless (Example.framed "https://x.test/api") true).2
      = some 1 ∧
    (Exchanges.find Host.ascii Example.urlless
      (Example.framed "https://x.test/api") true).1.store.length = 2 := by
  refine ⟨?_, ?_, ?_, ?_, ?_⟩ <;> decide

/-- C17 (as amended) at a concrete input: the frame id `F` is registered to
the exchange for `https://x.test/a`; a notification with that URL resolves to
it, one with another URL does not. -/
theorem find_by_frame_witness :
    ((truthyStr (Exchange.urlFromParams Host.ascii (Example.framed "https://x.test/a")) = false ∨
        some "https://x.test/a"
          = Exchange.urlFromParams Host.ascii (Example.framed "https://x.test/a")) →
      ∀ allowAdd, Exchanges.find Host.ascii Example.registry (Example.framed "https://x.test/a")
        allowAdd = (Example.registry, some 0)) ∧
    (Exchanges.find Host.ascii Example.registry (Example.framed "https://x.test/b") true).2
      = some 1 :=
  ⟨(find_by_frame Host.ascii Example.registry (Example.framed "https://x.test/a") "F" 0
      _ (Or.inl rfl) rfl (by decide) (by decide) rfl).1,
   by
    have h := (find_by_frame Host.ascii Example.registry (Example.framed "https://x.test/b") "F" 0
      _ (Or.inl rfl) rfl (by decide) (by decide) rfl).2 (by decide) (by decide)
    rw [h.1]
    rfl⟩
/-! ## Pre-flight notification for a resolved exchange -/

theorem deref_setRequestId_ne (X : Exchanges) (ref ref' : Nat) (value : String)
    (h : ref ≠ ref') : (Exchange.setRequestId X ref value).deref ref' = X.deref ref' := by
  unfold Exchange.setRequestId
  split
  · rfl
  · split
    · exact deref_update_ne X ref ref' _ h
    · rfl

theorem deref_setFrameId_ne (X : Exchanges) (ref ref' : Nat) (value : String)
    (h : ref ≠ ref') : (Exchange.setFrameId X ref value).deref ref' = X.deref ref' := by
  unfold Exchange.setFrameId
  split
  · rfl
  · split
    · exact deref_update_ne X ref ref' _ h
    · rfl

theorem deref_applyRequestParams_ne (X : Exchanges) (ref ref' : Nat) (p : Params)
    (h : ref ≠ ref') : (Exchange.applyRequestParams X ref p).deref ref' = X.deref ref' := by
  unfold Exchange.applyRequestParams
  rw [deref_update_ne _ ref ref' _ h]
  have h1 : (Exchange.applyRequestId X ref p).deref ref' = X.deref ref' := by
    unfold Exchange.applyRequestId
    split
    · split
      · exact deref_setRequestId_ne X ref ref' _ h
      · rfl
    · rfl
  unfold Exchange.applyFrameId
  split
  · split
    · rw [deref_setFrameId_ne _ ref ref' _ h, h1]
    · exact h1
  · exact h1

/-- The constructor leaves every exchange that existed before as it was. -/
theorem deref_new_of_lt (X : Exchanges) (p : Params) (url : Option String) (ref : Nat)
    (h : ref < X.store.length) : (Exchange.new X p url).1.deref ref = X.deref ref := by
  unfold Exchange.new
  simp only
  rw [deref_applyRequestParams_ne _ _ ref p (by omega)]
  simp [Exchanges.deref, List.getElem?_append_left h]

theorem setFrameId_exchanges (X : Exchanges) (ref : Nat) (value : String) :
    (Exchange.setFrameId X ref value).exchanges = X.exchanges := by
  unfold Exchange.setFrameId
  split
  · rfl
  · split <;> rfl

theorem applyFrameId_exchanges (X : Exchanges) (ref : Nat) (p : Params) :
    (Exchange.applyFrameId X ref p).exchanges = X.exchanges := by
  unfold Exchange.applyFrameId
  split
  · split
    · exact setFrameId_exchanges X ref _
    · rfl
  · rfl

/-- The constructor registers the new exchange under the notification's
primary id. -/
theorem new_primary (X : Exchanges) (p : Params) (url : Option String) (id : String)
    (hp : p.requestId = some id) (hid : id ≠ "") :
    (Exchange.new X p url).1.exchanges = X.exchanges.set id X.store.length := by
  unfold Exchange.new Exchange.applyRequestParams
  simp only
  show (Exchange.applyFrameId _ X.store.length p).exchanges = _
  rw [applyFrameId_exchanges]
  unfold Exchange.applyRequestId
  rw [hp]
  simp only [hid, ne_eq, not_false_eq_true, if_true]
  unfold Exchange.setRequestId
  have hd0 : ({ X with store := X.store ++ [Exchange.fresh url] } : Exchanges).deref X.store.length
      = some (Exchange.fresh url) := by
    simp [Exchanges.deref]
  rw [hd0]
  simp [Exchange.fresh, truthyStr]

/-- The two conditional assignments of `find` on a candidate whose method is
concrete: only the URL can change. -/
theorem adopt_concrete (X : Exchanges) (ref : Nat) (e : Exchange)
    (url requestMethod : Option String) (m : String) (hd : X.deref ref = some e)
    (he : e.requestMethod = some m) (hm : m ≠ "OPTIONS") :
    (X.adopt ref url requestMethod).exchanges = X.exchanges ∧
    (X.adopt ref url requestMethod).exchangesByFrameId = X.exchangesByFrameId ∧
    (X.adopt ref url requestMethod).store.length = X.store.length ∧
    ∃ e1, (X.adopt ref url requestMethod).deref ref = some e1 ∧
      e1.requestMethod = some m ∧ e1.methodFaults = e.methodFaults ∧
      e1.requestId = e.requestId ∧ e1.frameId = e.frameId ∧
      e1.url = (if truthyStr url = true ∧ ¬ truthyStr e.url = true then url else e.url) := by
  refine ⟨rfl, rfl, ?_, ?_⟩
  · simp [Exchanges.adopt, Exchanges.update]
  · have h1 : (if truthyStr url = true ∧ ¬ truthyStr e.url = true then { e with url := url }
        else e).requestMethod = some m := by
      split <;> exact he
    refine ⟨if truthyStr url = true ∧ ¬ truthyStr e.url = true then { e with url := url }
        else e, ?_, h1, ?_, ?_, ?_, ?_⟩
    · unfold Exchanges.adopt
      rw [deref_update, deref_update, hd]
      simp only [Option.map_some']
      congr 1
      rw [if_neg]
      rw [h1]
      intro h
      rcases h.2 with h2 | h2
      · cases h2
      · exact hm (Option.some.inj h2)
    · split <;> rfl
    · split <;> rfl
    · split <;> rfl
    · split <;> rfl

/-- C12 (as amended). For a registry in which the primary id `X` is registered
to an exchange `E` whose resolved method is a concrete method `m`, and a
notification that carries `X` and the method `OPTIONS`: whatever `find`
returns, `E`'s resolved method is still `m` and no fault is counted. `find`
returns `E`, with the primary map untouched, when the notification's frame id
is registered to `E` and the notification has no URL, or `E`'s URL, or `E`
has no URL yet. When the notification's frame id is absent or not registered,
`find` does not return `E`: without `allowAdd` it returns `null`, and with
`allowAdd` it constructs a new exchange and registers it under `X` in place
of `E`. -/
theorem find_options (H : Host) (X : Exchanges) (p : Params) (id m : String) (ref : Nat)
    (e : Exchange) (hp : p.requestId = some id) (hid : id ≠ "")
    (hreg : X.exchanges.get id = some ref) (hd : X.deref ref = some e)
    (he : e.requestMethod = some m) (hm : m ≠ "OPTIONS")
    (hpm : Exchange.requestMethodFromParams H p = some "OPTIONS") :
    (∀ allowAdd, ∃ e', (Exchanges.find H X p allowAdd).1.deref ref = some e' ∧
      e'.requestMethod = some m ∧ e'.methodFaults = e.methodFaults) ∧
    (∀ f, p.frameId = some f → f ≠ "" → X.exchangesByFrameId.get f = some ref →
      (truthyStr (Exchange.urlFromParams H p) = false ∨ e.url = Exchange.urlFromParams H p ∨
        truthyStr e.url = false) →
      ∀ allowAdd, (Exchanges.find H X p allowAdd).2 = some ref ∧
        (Exchanges.find H X p allowAdd).1.exchanges = X.exchanges) ∧
    ((p.frameId = none ∨ ∃ f, p.frameId = some f ∧ X.exchangesByFrameId.get f = none) →
      (Exchanges.find H X p false).2 = none ∧
      (Exchanges.find H X p true).2 = some X.store.length ∧
      (Exchanges.find H X p true).1.exchanges.get id = some X.store.length) := by
  have hby : (if truthyStr p.requestId then X.byRequestId (p.requestId.getD "") else none)
      = some ref := by
    have : truthyStr (some id) = true := by simp [truthyStr, hid]
    rw [hp]
    simp only [this, if_true, Option.getD_some, Exchanges.byRequestId, hreg]
    simp [Option.filter, hd]
  obtain ⟨ax, af, al, e1, ad, hmeth, hfaults, _, _, hurl1⟩ :=
    adopt_concrete X ref e (Exchange.urlFromParams H p) (some "OPTIONS") m hd he hm
  generalize hXa : X.adopt ref (Exchange.urlFromParams H p) (some "OPTIONS") = Xa at *
  generalize hu0 : Exchange.urlFromParams H p = url at *
  have hlt : ref < X.store.length := deref_lt X ref e hd
  have hne : ¬ some m = some "OPTIONS" := fun h => hm (Option.some.inj h)
  have htr : truthyStr (some "OPTIONS") = true := by decide
  have hagree : Xa.methodAgrees ref (some "OPTIONS") = false := by
    unfold Exchanges.methodAgrees
    rw [ad]
    simp [htr, hmeth, hm]
  have hres : ∀ (c : Option Nat) (b : Bool), c = some ref ∨ c = none →
      Xa.resolve p url (some "OPTIONS") c b =
      if b then ((Exchange.new Xa p url).1, some X.store.length) else (Xa, none) := by
    intro c b hc
    unfold Exchanges.resolve
    lift_lets
    intro c1 c2
    have h2 : c2 = none := by
      cases hc1 : c1 with
      | none => simp [c2, hc1]
      | some r =>
        have hr : r = ref := by
          have := (Option.filter_eq_some.mp hc1).1
          rcases hc with hc | hc
          · rw [hc] at this; exact (Option.some.inj this).symm
          · rw [hc] at this; cases this
        subst hr
        simp [c2, hc1, Option.filter, ad, hmeth, htr, hm]
    simp only [h2]
    cases b <;> simp [Exchange.new, al]
  have hfind : ∀ b, Exchanges.find H X p b =
      Xa.findByFrame p url (some "OPTIONS")
        (if truthyStr p.frameId then X.byFrameId (p.frameId.getD "") else none) (some ref) b := by
    intro b
    unfold Exchanges.find
    simp only [hby, hpm, hu0, hXa, hagree, Bool.false_eq_true, if_false]
  refine ⟨?_, ?_, ?_⟩
  · intro b
    rw [hfind]
    unfold Exchanges.findByFrame
    have hnew : ∃ e', (Exchange.new Xa p url).1.deref ref = some e' ∧
        e'.requestMethod = some m ∧ e'.methodFaults = e.methodFaults := by
      rw [deref_new_of_lt _ _ _ _ (by rw [al]; exact hlt)]
      exact ⟨_, ad, hmeth, hfaults⟩
    have hkeep : ∀ (c : Option Nat),
        ∃ e', (Xa.resolve p url (some "OPTIONS") c b).1.deref ref = some e' ∧
          e'.requestMethod = some m ∧ e'.methodFaults = e.methodFaults := by
      intro c
      unfold Exchanges.resolve
      lift_lets
      intro c1 c2
      cases hc2 : c2 with
      | some r2 => exact ⟨_, ad, hmeth, hfaults⟩
      | none =>
        simp only
        cases b
        · exact ⟨_, ad, hmeth, hfaults⟩
        · simpa using hnew
    split
    · split
      · exact ⟨_, ad, hmeth, hfaults⟩
      · exact hkeep _
    · exact hkeep _
  · intro f hf hfne hfr hurl b
    rw [hfind]
    have hbf := byFrameId_of_registered X p f ref e hf hfne hfr hd
    rw [hbf]
    unfold Exchanges.findByFrame
    have : Xa.urlAgrees ref url = true := by
      unfold Exchanges.urlAgrees
      rw [ad]
      by_cases ht : truthyStr url = true
      · have h1 : e1.url = url := by
          rw [hurl1]
          rcases hurl with hu | hu | hu
          · rw [ht] at hu; cases hu
          · split
            · rfl
            · exact hu
          · rw [if_pos ⟨ht, by simp [hu]⟩]
        simp [ht, h1]
      · simp [ht]
    simp only [this, if_true]
    exact ⟨trivial, ax⟩
  · intro hframe
    have hbf := byFrameId_of_unregistered X p hframe
    rw [hfind, hfind, hbf]
    unfold Exchanges.findByFrame
    simp only
    rw [hres (some ref) false (Or.inl rfl), hres (some ref) true (Or.inl rfl)]
    refine ⟨rfl, rfl, ?_⟩
    simp only [if_true]
    rw [new_primary _ p _ id hp hid, al]
    exact JSMap.get_set_self _ _ _

/-- C12 as stated fails: `X` is registered to an exchange whose method is
`GET`; a pre-flight notification for `X` without a frame id does not resolve
to it. `find` constructs a second exchange and re-registers `X` to it; without
`allowAdd` it returns `null`. -/
theorem find_options_displaces :
    Example.registry.exchanges.get "X" = some 0 ∧
    (Example.registry.deref 0).map (·.requestMethod) = some (some "GET") ∧
    (Exchanges.find Host.ascii Example.registry Example.preflight true).2 = some 1 ∧
    (Exchanges.find Host.ascii Example.registry Example.preflight true).1.exchanges.get "X"
      = some 1 ∧
    (Exchanges.find Host.ascii Example.registry Example.preflight false).2 = none := by
  refine ⟨?_, ?_, ?_, ?_, ?_⟩ <;> decide

/-- C12 (as amended) at a concrete input: the pre-flight notification for `X`
without a frame id, at the registry that holds `X` with method `GET`. -/
theorem find_options_witness :
    (∀ allowAdd, ∃ e', (Exchanges.find Host.ascii Example.registry Example.preflight
        allowAdd).1.deref 0 = some e' ∧
      e'.requestMethod = some "GET" ∧ e'.methodFaults = 0) ∧
    (Exchanges.find Host.ascii Example.registry Example.preflight false).2 = none ∧
    (Exchanges.find Host.ascii Example.registry Example.preflight true).2 = some 1 ∧
    (Exchanges.find Host.ascii Example.registry Example.preflight true).1.exchanges.get "X"
      = some 1 :=
  ⟨(find_options Host.ascii Example.registry Example.preflight "X" "GET" 0 _ rfl (by decide)
      (by decide) rfl rfl (by decide) (by decide)).1,
   (find_options Host.ascii Example.registry Example.preflight "X" "GET" 0 _ rfl (by decide)
      (by decide) rfl rfl (by decide) (by decide)).2.2 (Or.inl rfl)⟩
/-! ## Method conflict -/

theorem sameUrl_refl (e : Exchange) : SameUrl e e := ⟨rfl, rfl⟩

theorem sameUrl_trans {a b c : Exchange} (h1 : SameUrl a b) (h2 : SameUrl b c) : SameUrl a c :=
  ⟨h2.1.trans h1.1, h2.2.trans h1.2⟩

theorem sameUrl_setRequestMethod (e : Exchange) (m : String) :
    SameUrl e (e.setRequestMethod m) := by
  unfold Exchange.setRequestMethod
  split
  · exact ⟨rfl, rfl⟩
  · split
    · exact ⟨rfl, rfl⟩
    · split
      · split <;> exact ⟨rfl, rfl⟩
      · exact ⟨rfl, rfl⟩

theorem sameUrl_applyOwnParams (e : Exchange) (p : Params) : SameUrl e (e.applyOwnParams p) := by
  unfold Exchange.applyOwnParams
  lift_lets
  intro e1 e2 e3 e4 e5 e6 e7 e8
  have h1 : SameUrl e e1 := by
    simp only [e1]; split <;> exact ⟨rfl, rfl⟩
  have h2 : SameUrl e1 e2 := by
    simp only [e2]; split <;> exact ⟨rfl, rfl⟩
  have h3 : SameUrl e2 e3 := by
    simp only [e3]; split <;> exact ⟨rfl, rfl⟩
  have h4 : SameUrl e3 e4 := by
    simp only [e4]
    split
    · split
      · exact sameUrl_setRequestMethod _ _
      · exact sameUrl_refl _
    · exact sameUrl_refl _
  have h5 : SameUrl e4 e5 := by
    simp only [e5]; split <;> exact ⟨rfl, rfl⟩
  have h6 : SameUrl e5 e6 := by
    simp only [e6]
    split
    · split <;> exact ⟨rfl, rfl⟩
    · exact sameUrl_refl _
  have h7 : SameUrl e6 e7 := by
    simp only [e7]
    split
    · split <;> exact ⟨rfl, rfl⟩
    · exact sameUrl_refl _
  have h8 : SameUrl e7 e8 := by
    simp only [e8]; split <;> exact ⟨rfl, rfl⟩
  have h9 := sameUrl_trans (sameUrl_trans (sameUrl_trans (sameUrl_trans (sameUrl_trans
    (sameUrl_trans (sameUrl_trans h1 h2) h3) h4) h5) h6) h7) h8
  split
  · exact sameUrl_trans h9 ⟨rfl, rfl⟩
  · exact h9

theorem sameUrl_log (e : Exchange) (t : EventType) : SameUrl e (e.log t) := by
  unfold Exchange.log
  split <;> exact ⟨rfl, rfl⟩

theorem sameUrl_applyParams (H : Host) (e : Exchange) (p : Params) (t : EventType) :
    SameUrl e (stateAfter (ExchangeRequest.applyParams H e p t)) := by
  unfold ExchangeRequest.applyParams
  split
  · by_cases ho : e.originalRequest.isNone = true
    · simp only [ho, if_true]
      split <;> exact ⟨rfl, rfl⟩
    · simp only [ho, Bool.false_eq_true, if_false]
      split <;> exact ⟨rfl, rfl⟩
  · split <;> exact ⟨rfl, rfl⟩

theorem setFrameId_same (X : Exchanges) (ref : Nat) (f : String) (e : Exchange)
    (h : X.deref ref = some e) (hf : e.frameId = some f) :
    Exchange.setFrameId X ref f = X := by
  unfold Exchange.setFrameId
  rw [h]
  simp [hf]

/-- The handler on an exchange that already carries the notification's
primary id and frame id: both maps are untouched, the URL of the exchange
stays, and the resolved method goes through one call of the `requestMethod`
setter. -/
theorem requestWillBeSent_sameIds (H : Host) (X : Exchanges) (ref : Nat) (p : Params)
    (e : Exchange) (id f m : String) (hd : X.deref ref = some e) (hid : e.requestId = some id)
    (hfr : e.frameId = some f) (hp : p.requestId = some id) (hpf : p.frameId = some f)
    (hm : p.request.bind (·.method) = some m) (hne : m ≠ "") :
    (Exchange.requestWillBeSent H X ref p).exchanges = X.exchanges ∧
    (Exchange.requestWillBeSent H X ref p).exchangesByFrameId = X.exchangesByFrameId ∧
    ∃ e', (Exchange.requestWillBeSent H X ref p).deref ref = some e' ∧
      SameKey (e.setRequestMethod m) e' ∧ SameUrl e e' := by
  unfold Exchange.requestWillBeSent
  lift_lets
  intro X1 X2
  have h1 : X1.deref ref = some (e.log EventType.RequestWillBeSent) := by
    simp only [X1]
    rw [deref_update, hd]
    rfl
  have hlog := sameKey_log e EventType.RequestWillBeSent
  have hlogu := sameUrl_log e EventType.RequestWillBeSent
  have hsame : Exchange.applyRequestId X1 ref p = X1 := by
    unfold Exchange.applyRequestId
    rw [hp]
    simp only
    split
    · exact setRequestId_same X1 ref id _ h1 (hlog.2.2.trans hid)
    · rfl
  have hsamef : Exchange.applyFrameId X1 ref p = X1 := by
    unfold Exchange.applyFrameId
    rw [hpf]
    simp only
    split
    · exact setFrameId_same X1 ref f _ h1 (hlogu.2.trans hfr)
    · rfl
  have hX2 : X2 = X1.update ref (fun e => e.applyOwnParams p) := by
    simp only [X2, Exchange.applyRequestParams]
    rw [hsame, hsamef]
  have hd2 : X2.deref ref = some ((e.log EventType.RequestWillBeSent).applyOwnParams p) := by
    rw [hX2, deref_update, h1]
    rfl
  have hk2 : SameKey (e.setRequestMethod m) ((e.log EventType.RequestWillBeSent).applyOwnParams p) :=
    sameKey_trans (sameKey_setRequestMethod e _ hlog m) (sameKey_applyOwnParams _ p m hm hne)
  have hu2 : SameUrl e ((e.log EventType.RequestWillBeSent).applyOwnParams p) :=
    sameUrl_trans hlogu (sameUrl_applyOwnParams _ p)
  have hx2 : X2.exchanges = X.exchanges := by rw [hX2]; rfl
  have hf2 : X2.exchangesByFrameId = X.exchangesByFrameId := by rw [hX2]; rfl
  generalize (e.log EventType.RequestWillBeSent).applyOwnParams p = e2 at hd2 hk2 hu2
  rw [hd2]
  simp only
  have hk3 := sameKey_applyParams H e2 p EventType.RequestWillBeSent
  have hu3 := sameUrl_applyParams H e2 p EventType.RequestWillBeSent
  cases happ : ExchangeRequest.applyParams H e2 p EventType.RequestWillBeSent with
  | error e3 =>
    rw [happ] at hk3 hu3
    simp only
    refine ⟨hx2, hf2, e3.log EventType.RequestWillBeSent, ?_, ?_, ?_⟩
    · rw [deref_update, hd2]; rfl
    · exact sameKey_trans (sameKey_trans hk2 hk3) (sameKey_log e3 _)
    · exact sameUrl_trans (sameUrl_trans hu2 hu3) (sameUrl_log e3 _)
  | ok e3 =>
    rw [happ] at hk3 hu3
    simp only
    have hfin : (X2.update ref (fun _ => e3)).deref ref = some e3 := by
      rw [deref_update, hd2]; rfl
    split
    · exact ⟨hx2, hf2, e3, by rw [deref_exitCapture]; exact hfin, sameKey_trans hk2 hk3,
        sameUrl_trans hu2 hu3⟩
    · exact ⟨hx2, hf2, e3, hfin, sameKey_trans hk2 hk3, sameUrl_trans hu2 hu3⟩

theorem setRequestMethod_mismatch (e : Exchange) (c v : String) (h : e.requestMethod = some c)
    (hc : c ≠ "OPTIONS") (hv : v ≠ "OPTIONS") (hne : v ≠ c) :
    (e.setRequestMethod v).requestMethod = none ∧
    (e.setRequestMethod v).methodFaults = e.methodFaults + 1 := by
  unfold Exchange.setRequestMethod
  simp [h, hc, hv, hne]

theorem setFrameId_frames (X : Exchanges) (ref : Nat) (f : String) (e : Exchange)
    (h : X.deref ref = some e) (hf : e.frameId = none) :
    (Exchange.setFrameId X ref f).exchangesByFrameId = X.exchangesByFrameId.set f ref ∧
    (Exchange.setFrameId X ref f).deref ref = some { e with frameId := some f } := by
  have hX : Exchange.setFrameId X ref f =
      { X.update ref (fun e => { e with frameId := some f }) with
        exchangesByFrameId := X.exchangesByFrameId.set f ref } := by
    unfold Exchange.setFrameId
    rw [h]
    simp [hf, truthyStr]
  rw [hX]
  refine ⟨rfl, ?_⟩
  have := deref_update X ref (fun e => { e with frameId := some f })
  rw [h] at this
  exact this

/-- The exchange `find` constructs for a notification that carries a primary
id, a frame id and a method: registered under both ids, with the URL `find`
passed, that method and no fault. -/
theorem new_framed (X : Exchanges) (p : Params) (url : Option String) (id f m : String)
    (hp : p.requestId = some id) (hid : id ≠ "") (hpf : p.frameId = some f) (hf : f ≠ "")
    (hm : p.request.bind (·.method) = some m) (hne : m ≠ "") :
    (Exchange.new X p url).1.exchanges.get id = some X.store.length ∧
    (Exchange.new X p url).1.exchangesByFrameId.get f = some X.store.length ∧
    ∃ e, (Exchange.new X p url).1.deref X.store.length = some e ∧
      e.requestMethod = some m ∧ e.methodFaults = 0 ∧ e.requestId = some id ∧
      e.frameId = some f ∧ e.url = url := by
  have hprim := new_primary X p url id hp hid
  refine ⟨by rw [hprim]; exact JSMap.get_set_self _ _ _, ?_⟩
  unfold Exchange.new Exchange.applyRequestParams
  simp only
  have hd0 : ({ X with store := X.store ++ [Exchange.fresh url] } : Exchanges).deref X.store.length
      = some (Exchange.fresh url) := by
    simp [Exchanges.deref]
  have h1 : Exchange.applyRequestId { X with store := X.store ++ [Exchange.fresh url] }
      X.store.length p =
      { ({ X with store := X.store ++ [Exchange.fresh url] } : Exchanges).update X.store.length
          (fun e => { e with requestId := some id }) with
        exchanges := X.exchanges.set id X.store.length } := by
    unfold Exchange.applyRequestId
    rw [hp]
    simp only [hid, ne_eq, not_false_eq_true, if_true]
    unfold Exchange.setRequestId
    rw [hd0]
    simp [Exchange.fresh, truthyStr]
  have hd1 : (Exchange.applyRequestId { X with store := X.store ++ [Exchange.fresh url] }
      X.store.length p).deref X.store.length
      = some { Exchange.fresh url with requestId := some id } := by
    rw [h1]
    have := deref_update { X with store := X.store ++ [Exchange.fresh url] } X.store.length
      (fun e => { e with requestId := some id })
    rw [hd0] at this
    exact this
  have h2 : Exchange.applyFrameId (Exchange.applyRequestId
      { X with store := X.store ++ [Exchange.fresh url] } X.store.length p) X.store.length p
      = Exchange.setFrameId (Exchange.applyRequestId
      { X with store := X.store ++ [Exchange.fresh url] } X.store.length p) X.store.length f := by
    unfold Exchange.applyFrameId
    rw [hpf]
    simp only [hf, ne_eq, not_false_eq_true, if_true]
  obtain ⟨hfm, hdf⟩ := setFrameId_frames _ X.store.length f _ hd1 rfl
  rw [h2]
  constructor
  · show JSMap.get (Exchange.setFrameId _ X.store.length f).exchangesByFrameId f = _
    rw [hfm]
    exact JSMap.get_set_self _ _ _
  · refine ⟨_, by rw [deref_update, hdf]; rfl, ?_⟩
    have hk := sameKey_applyOwnParams
      { Exchange.fresh url with requestId := some id, frameId := some f } p m hm hne
    have hu := sameUrl_applyOwnParams
      { Exchange.fresh url with requestId := some id, frameId := some f } p
    obtain ⟨s1, s2⟩ := setRequestMethod_of_none
      { Exchange.fresh url with requestId := some id, frameId := some f } m rfl
    refine ⟨hk.1.trans s1, ?_, ?_, hu.2, hu.1⟩
    · rw [hk.2.1, s2]; rfl
    · rw [hk.2.2, setRequestMethod_requestId]

/-- C11 (as amended). For a primary id `Y` that is not registered, when
`Exchanges.find` constructs the exchange for the first notification and both
notifications carry the same frame id and the same URL: after a
`RequestWillBeSent` for `Y` with a concrete method (`GET`) and another for `Y`
with a different concrete method (`POST`), both notifications resolve to that
exchange, which stays registered under `Y`; the mismatch branch of the
`requestMethod` setter has run once and the resolved method is `null`. -/
theorem method_conflict (H : Host) (X : Exchanges) (id f u m1 m2 : String) (n1 n2 : Params)
    (hid : id ≠ "") (hun : X.exchanges.get id = none)
    (h1id : n1.requestId = some id) (h1m : n1.request.bind (·.method) = some m1)
    (h2id : n2.requestId = some id) (h2m : n2.request.bind (·.method) = some m2)
    (hm1 : m1 ≠ "" ∧ m1 ≠ "OPTIONS") (hm2 : m2 ≠ "" ∧ m2 ≠ "OPTIONS") (hm12 : m2 ≠ m1)
    (hf : f ≠ "") (h1f : n1.frameId = some f) (h2f : n2.frameId = some f)
    (hu : u ≠ "") (h1u : Exchange.urlFromParams H n1 = some u)
    (h2u : Exchange.urlFromParams H n2 = some u)
    (hnew : (Exchanges.find H X n1 true).2 = some X.store.length) :
    (onRequestWillBeSent H X n1).2 = some X.store.length ∧
    (onRequestWillBeSent H (onRequestWillBeSent H X n1).1 n2).2 = some X.store.length ∧
    (onRequestWillBeSent H (onRequestWillBeSent H X n1).1 n2).1.exchanges.get id
      = some X.store.length ∧
    ∃ e, (onRequestWillBeSent H (onRequestWillBeSent H X n1).1 n2).1.deref X.store.length
        = some e ∧
      e.requestMethod = none ∧ e.methodFaults = 1 := by
  have hfind := find_new H X n1 id h1id hun hnew
  rw [h1u] at hfind
  obtain ⟨hreg, hfreg, e1, hd1, hme1, hf1, hi1, hfr1, hu1⟩ :=
    new_framed X n1 (some u) id f m1 h1id hid h1f hf h1m hm1.1
  obtain ⟨hx1, hxf1, e1', hd1', hk1, hku1⟩ := requestWillBeSent_sameIds H _ X.store.length n1 e1
    id f m1 hd1 hi1 hfr1 h1id h1f h1m hm1.1
  obtain ⟨sm1, sf1⟩ := setRequestMethod_same e1 m1 hme1 hm1.2
  have hstep1 : onRequestWillBeSent H X n1 =
      (Exchange.requestWillBeSent H (Exchange.new X n1 (some u)).1 X.store.length n1,
        some X.store.length) := by
    unfold onRequestWillBeSent
    rw [hfind]
  rw [hstep1]
  refine ⟨rfl, ?_⟩
  simp only
  generalize Exchange.requestWillBeSent H (Exchange.new X n1 (some u)).1 X.store.length n1 = X1
    at hx1 hxf1 hd1'
  -- the state after the first notification
  have hmeth1 : e1'.requestMethod = some m1 := hk1.1.trans sm1
  have hfaults1 : e1'.methodFaults = 0 := by rw [hk1.2.1, sf1, hf1]
  have hid1 : e1'.requestId = some id := by
    rw [hk1.2.2, setRequestMethod_requestId, hi1]
  have hurl1 : e1'.url = some u := hku1.1.trans hu1
  have hfr1' : e1'.frameId = some f := hku1.2.trans hfr1
  have hreg1 : X1.exchanges.get id = some X.store.length := by rw [hx1]; exact hreg
  have hfreg1 : X1.exchangesByFrameId.get f = some X.store.length := by rw [hxf1]; exact hfreg
  -- the second lookup
  obtain ⟨ax, af, al, ea, ad, hma, hfa, hia, hfra, hua⟩ :=
    adopt_concrete X1 X.store.length e1' (some u) (Exchange.requestMethodFromParams H n2) m1
      hd1' hmeth1 hm1.2
  have htru : truthyStr (some u) = true := by simp [truthyStr, hu]
  have hua' : ea.url = some u := by
    rw [hua, hurl1]
    simp
  have hmeth2 := requestMethodFromParams_of_request H n2 m2 h2m hm2.1
  have hF : Exchanges.find H X1 n2 true =
      (X1.adopt X.store.length (some u) (some m2), some X.store.length) := by
    have hby : (if truthyStr n2.requestId then X1.byRequestId (n2.requestId.getD "") else none)
        = some X.store.length := by
      have : truthyStr (some id) = true := by simp [truthyStr, hid]
      rw [h2id]
      simp only [this, if_true, Option.getD_some, Exchanges.byRequestId, hreg1]
      simp [Option.filter, hd1']
    have hbf := byFrameId_of_registered X1 n2 f X.store.length e1' h2f hf hfreg1 hd1'
    rw [hmeth2] at ad
    have hagree : (X1.adopt X.store.length (some u) (some m2)).methodAgrees X.store.length
        (some m2) = false := by
      unfold Exchanges.methodAgrees
      rw [ad]
      have : ¬ m1 = m2 := fun h => hm12 h.symm
      simp [truthyStr, hm2.1, hma, this]
    have hurlag : (X1.adopt X.store.length (some u) (some m2)).urlAgrees X.store.length
        (some u) = true := by
      unfold Exchanges.urlAgrees
      rw [ad]
      simp [htru, hua']
    unfold Exchanges.find
    simp only [hby, hbf, h2u, hmeth2, hagree, Bool.false_eq_true, if_false]
    unfold Exchanges.findByFrame
    simp only [hurlag, if_true]
  rw [hmeth2] at ad ax
  have hstep2 : onRequestWillBeSent H X1 n2 =
      (Exchange.requestWillBeSent H (X1.adopt X.store.length (some u) (some m2))
        X.store.length n2, some X.store.length) := by
    unfold onRequestWillBeSent
    rw [hF]
  rw [hstep2]
  refine ⟨rfl, ?_⟩
  obtain ⟨hx3, _, e3, hd3, hk3, _⟩ := requestWillBeSent_sameIds H
    (X1.adopt X.store.length (some u) (some m2)) X.store.length n2 ea id f m2 ad
    (hia.trans hid1) (hfra.trans hfr1') h2id h2f h2m hm2.1
  obtain ⟨s1, s2⟩ := setRequestMethod_mismatch ea m1 m2 hma hm1.2 hm2.2 hm12
  refine ⟨?_, e3, hd3, hk3.1.trans s1, ?_⟩
  · simp only
    rw [hx3, ax]
    exact hreg1
  · rw [hk3.2.1, s2, hfa, hfaults1]

/-- C11 as stated fails: the id `Y` is not registered and the two
notifications carry no frame id. The `POST` does not resolve to the exchange
of the `GET`: `find` constructs a second exchange and registers it under `Y`.
No fault is counted on either exchange, and the resolved method of the one
registered under `Y` is `POST`. -/
theorem method_conflict_second_exchange :
    Example.empty.exchanges.get "Y" = none ∧
    (onRequestWillBeSent Host.ascii Example.empty (Example.bare "Y" "GET")).2 = some 0 ∧
    (onRequestWillBeSent Host.ascii
      (onRequestWillBeSent Host.ascii Example.empty (Example.bare "Y" "GET")).1
      (Example.bare "Y" "POST")).2 = some 1 ∧
    (onRequestWillBeSent Host.ascii
      (onRequestWillBeSent Host.ascii Example.empty (Example.bare "Y" "GET")).1
      (Example.bare "Y" "POST")).1.exchanges.get "Y" = some 1 ∧
    ((onRequestWillBeSent Host.ascii
      (onRequestWillBeSent Host.ascii Example.empty (Example.bare "Y" "GET")).1
      (Example.bare "Y" "POST")).1.store.map
        (fun e => (e.requestMethod, e.methodFaults)))
      = [(some "GET", 0), (some "POST", 0)] := by
  refine ⟨?_, ?_, ?_, ?_, ?_⟩ <;> decide

/-- C11 (as amended) at a concrete input: the two notifications, both in
frame `F`, arrive at an empty registry. -/
theorem method_conflict_witness :
    (onRequestWillBeSent Host.ascii Example.empty (Example.willBeSent "Y" "GET")).2 = some 0 ∧
    (onRequestWillBeSent Host.ascii
      (onRequestWillBeSent Host.ascii Example.empty (Example.willBeSent "Y" "GET")).1
      (Example.willBeSent "Y" "POST")).2 = some 0 ∧
    (onRequestWillBeSent Host.ascii
      (onRequestWillBeSent Host.ascii Example.empty (Example.willBeSent "Y" "GET")).1
      (Example.willBeSent "Y" "POST")).1.exchanges.get "Y" = some 0 ∧
    ∃ e, (onRequestWillBeSent Host.ascii
        (onRequestWillBeSent Host.ascii Example.empty (Example.willBeSent "Y" "GET")).1
        (Example.willBeSent "Y" "POST")).1.deref 0 = some e ∧
      e.requestMethod = none ∧ e.methodFaults = 1 :=
  method_conflict Host.ascii Example.empty "Y" "F" "https://x.test/api" "GET" "POST"
    (Example.willBeSent "Y" "GET") (Example.willBeSent "Y" "POST") (by decide) (by decide)
    rfl rfl rfl rfl (by decide) (by decide) (by decide) (by decide) rfl rfl (by decide)
    (by decide) (by decide) (by decide)
/-! ## Registry index consistency -/

theorem consistent_iff (X : Exchanges) :
    X.consistent = true ↔
      ∀ q ∈ X.exchangesByFrameId, ∀ e id, X.deref q.2 = some e → e.requestId = some id →
        X.exchanges.get id = none ∨ X.exchanges.get id = some q.2 := by
  unfold Exchanges.consistent
  rw [List.all_eq_true]
  constructor
  · intro h q hq e id hd hid
    have := h q hq
    unfold Exchanges.entryConsistent at this
    rw [hd] at this
    simp only [hid] at this
    simpa using this
  · intro h q hq
    unfold Exchanges.entryConsistent
    cases hd : X.deref q.2 with
    | none => simp
    | some e =>
      simp only
      cases hid : e.requestId with
      | none => simp
      | some id => simpa using h q hq e id hd hid

theorem sameIndex_refl (X : Exchanges) : SameIndex X X := ⟨rfl, rfl, rfl, fun _ => rfl⟩

theorem sameIndex_consistent (X X' : Exchanges) (h : SameIndex X X')
    (hc : X.consistent = true) : X'.consistent = true := by
  rw [consistent_iff] at hc ⊢
  obtain ⟨h1, h2, _, h4⟩ := h
  intro q hq e id hd hid
  rw [h2] at hq
  rw [h1]
  have := h4 q.2
  rw [hd] at this
  cases hd0 : X.deref q.2 with
  | none => rw [hd0] at this; cases this
  | some e0 =>
    rw [hd0] at this
    simp only [Option.map_some', Option.some.injEq] at this
    exact hc q hq e0 id hd0 (this ▸ hid)

theorem sameIndex_adopt (X : Exchanges) (ref : Nat) (url requestMethod : Option String) :
    SameIndex X (X.adopt ref url requestMethod) := by
  refine ⟨rfl, rfl, ?_, ?_⟩
  · simp [Exchanges.adopt, Exchanges.update]
  · intro r
    unfold Exchanges.adopt
    by_cases hr : ref = r
    · subst hr
      rw [deref_update, deref_update]
      have hf1 : ∀ e : Exchange, (if truthyStr url = true ∧ ¬ truthyStr e.url = true
          then { e with url := url } else e).requestId = e.requestId := by
        intro e; split <;> rfl
      have hf2 : ∀ e : Exchange, (if truthyStr requestMethod = true ∧
          (e.requestMethod = none ∨ e.requestMethod = some "OPTIONS")
          then e.setRequestMethod (requestMethod.getD "") else e).requestId = e.requestId := by
        intro e
        split
        · exact setRequestMethod_requestId _ _
        · rfl
      cases X.deref ref with
      | none => rfl
      | some e =>
        simp only [Option.map_some', Option.some.injEq]
        rw [hf2, hf1]
    · rw [deref_update_ne _ _ _ _ hr, deref_update_ne _ _ _ _ hr]

/-- The shape of what `find` does: it leaves the maps and the request ids as
they are and returns, or constructs an exchange on top of such a registry. -/
theorem find_shape (H : Host) (X : Exchanges) (p : Params) :
    ∃ X', SameIndex X X' ∧
      ((Exchanges.find H X p true).1 = X' ∨
        Exchanges.find H X p true =
          ((Exchange.new X' p (Exchange.urlFromParams H p)).1, some X'.store.length)) := by
  have hres : ∀ (X' : Exchanges) (c : Option Nat), SameIndex X X' →
      ∃ Y, SameIndex X Y ∧
        ((X'.resolve p (Exchange.urlFromParams H p) (Exchange.requestMethodFromParams H p)
            c true).1 = Y ∨
          X'.resolve p (Exchange.urlFromParams H p) (Exchange.requestMethodFromParams H p)
            c true =
            ((Exchange.new Y p (Exchange.urlFromParams H p)).1, some Y.store.length)) := by
    intro X' c hs
    refine ⟨X', hs, ?_⟩
    unfold Exchanges.resolve
    lift_lets
    intro c1 c2
    cases c2 with
    | some r => exact Or.inl rfl
    | none => exact Or.inr rfl
  have hfr : ∀ (X' : Exchanges) (fr c : Option Nat), SameIndex X X' →
      ∃ Y, SameIndex X Y ∧
        ((X'.findByFrame p (Exchange.urlFromParams H p) (Exchange.requestMethodFromParams H p)
            fr c true).1 = Y ∨
          X'.findByFrame p (Exchange.urlFromParams H p) (Exchange.requestMethodFromParams H p)
            fr c true =
            ((Exchange.new Y p (Exchange.urlFromParams H p)).1, some Y.store.length)) := by
    intro X' fr c hs
    unfold Exchanges.findByFrame
    split
    · split
      · exact ⟨X', hs, Or.inl rfl⟩
      · exact hres X' _ hs
    · exact hres X' _ hs
  simp only [Exchanges.find]
  cases (if truthyStr p.requestId = true then X.byRequestId (p.requestId.getD "") else none) with
  | none => exact hfr X _ none (sameIndex_refl X)
  | some ref =>
    simp only
    by_cases hag : (X.adopt ref (Exchange.urlFromParams H p)
        (Exchange.requestMethodFromParams H p)).methodAgrees ref
        (Exchange.requestMethodFromParams H p) = true
    · rw [if_pos hag]
      exact ⟨_, sameIndex_adopt X ref _ _, Or.inl rfl⟩
    · rw [if_neg hag]
      exact hfr _ _ (some ref) (sameIndex_adopt X ref _ _)

theorem mem_jsmap_set (m : JSMap) (k : String) (v : Nat) (q : String × Nat)
    (h : q ∈ JSMap.set m k v) : q ∈ m ∨ q = (k, v) := by
  unfold JSMap.set at h
  split at h
  · clear * - h
    induction m with
    | nil => simp [JSObject.replaceKey] at h
    | cons a rest ih =>
      obtain ⟨k', v'⟩ := a
      unfold JSObject.replaceKey at h
      split at h
      · rename_i hk
        rcases List.mem_cons.mp h with h | h
        · right; rw [h, hk]
        · left; exact List.mem_cons_of_mem _ h
      · rcases List.mem_cons.mp h with h | h
        · left; rw [h]; exact List.mem_cons_self _ _
        · rcases ih h with h | h
          · left; exact List.mem_cons_of_mem _ h
          · right; exact h
  · rcases List.mem_append.mp h with h | h
    · exact Or.inl h
    · right; simpa using h

theorem mem_jsmap_delete (m : JSMap) (k : String) (q : String × Nat)
    (h : q ∈ JSMap.delete m k) : q ∈ m := by
  unfold JSMap.delete at h
  exact (List.mem_filter.mp h).1

theorem setFrameId_mem (X : Exchanges) (ref : Nat) (value : String) (q : String × Nat)
    (h : q ∈ (Exchange.setFrameId X ref value).exchangesByFrameId) :
    q ∈ X.exchangesByFrameId ∨ q.2 = ref := by
  unfold Exchange.setFrameId at h
  split at h
  · exact Or.inl h
  · split at h
    · simp only at h
      rcases mem_jsmap_set _ _ _ _ h with h | h
      · left
        split at h
        · exact mem_jsmap_delete _ _ _ h
        · exact h
      · right; rw [h]
    · exact Or.inl h

theorem setRequestId_frames (X : Exchanges) (ref : Nat) (value : String) :
    (Exchange.setRequestId X ref value).exchangesByFrameId = X.exchangesByFrameId := by
  unfold Exchange.setRequestId
  split
  · rfl
  · split <;> rfl

theorem applyOwnParams_requestId (e : Exchange) (p : Params) :
    (e.applyOwnParams p).requestId = e.requestId := by
  unfold Exchange.applyOwnParams
  lift_lets
  intro e1 e2 e3 e4 e5 e6 e7 e8
  have h1 : e1.requestId = e.requestId := by
    simp only [e1]; split <;> rfl
  have h2 : e2.requestId = e1.requestId := by
    simp only [e2]; split <;> rfl
  have h3 : e3.requestId = e2.requestId := by
    simp only [e3]; split <;> rfl
  have h4 : e4.requestId = e3.requestId := by
    simp only [e4]
    split
    · split
      · exact setRequestMethod_requestId _ _
      · rfl
    · rfl
  have h5 : e5.requestId = e4.requestId := by
    simp only [e5]; split <;> rfl
  have h6 : e6.requestId = e5.requestId := by
    simp only [e6]
    split
    · split <;> rfl
    · rfl
  have h7 : e7.requestId = e6.requestId := by
    simp only [e7]
    split
    · split <;> rfl
    · rfl
  have h8 : e8.requestId = e7.requestId := by
    simp only [e8]; split <;> rfl
  have h9 : e8.requestId = e.requestId := by
    rw [h8, h7, h6, h5, h4, h3, h2, h1]
  split
  · exact h9
  · exact h9

/-- The registry the constructor leaves: the maps gain at most entries for
the new exchange, the exchanges that existed are as they were, and the new
exchange carries the notification's primary id, registered to it. -/
theorem new_view (X : Exchanges) (p : Params) (url : Option String) :
    (∀ q ∈ (Exchange.new X p url).1.exchangesByFrameId,
      q ∈ X.exchangesByFrameId ∨ q.2 = X.store.length) ∧
    (∀ r, r ≠ X.store.length → ∀ e, (Exchange.new X p url).1.deref r = some e →
      X.deref r = some e) ∧
    (∀ e id, (Exchange.new X p url).1.deref X.store.length = some e → e.requestId = some id →
      p.requestId = some id ∧ id ≠ "") ∧
    (∀ id, p.requestId = some id → id ≠ "" →
      (Exchange.new X p url).1.exchanges = X.exchanges.set id X.store.length) ∧
    ((p.requestId = none ∨ p.requestId = some "") →
      (Exchange.new X p url).1.exchanges = X.exchanges) := by
  have hd0 : ({ X with store := X.store ++ [Exchange.fresh url] } : Exchanges).deref X.store.length
      = some (Exchange.fresh url) := by
    simp [Exchanges.deref]
  refine ⟨?_, ?_, ?_, ?_, ?_⟩
  · intro q hq
    unfold Exchange.new Exchange.applyRequestParams at hq
    simp only at hq
    have hq' : q ∈ (Exchange.applyFrameId (Exchange.applyRequestId
        { X with store := X.store ++ [Exchange.fresh url] } X.store.length p)
        X.store.length p).exchangesByFrameId := hq
    have hrf : (Exchange.applyRequestId { X with store := X.store ++ [Exchange.fresh url] }
        X.store.length p).exchangesByFrameId = X.exchangesByFrameId := by
      unfold Exchange.applyRequestId
      split
      · split
        · exact setRequestId_frames _ _ _
        · rfl
      · rfl
    unfold Exchange.applyFrameId at hq'
    split at hq'
    · split at hq'
      · rcases setFrameId_mem _ _ _ _ hq' with h | h
        · left; rw [hrf] at h; exact h
        · exact Or.inr h
      · left; rw [hrf] at hq'; exact hq'
    · left; rw [hrf] at hq'; exact hq'
  · intro r hr e hd
    unfold Exchange.new at hd
    simp only at hd
    rw [deref_applyRequestParams_ne _ _ r p (fun h => hr h.symm)] at hd
    unfold Exchanges.deref at hd ⊢
    simp only at hd
    have hlt : r < (X.store ++ [Exchange.fresh url]).length :=
      (List.getElem?_eq_some_iff.mp hd).1
    have hlt' : r < X.store.length := by
      simp only [List.length_append, List.length_singleton] at hlt
      omega
    rw [List.getElem?_append_left hlt'] at hd
    exact hd
  · intro e id hd hid
    unfold Exchange.new Exchange.applyRequestParams at hd
    simp only at hd
    rw [deref_update] at hd
    have h1 : ∃ e1, (Exchange.applyRequestId { X with store := X.store ++ [Exchange.fresh url] }
        X.store.length p).deref X.store.length = some e1 ∧
        (e1.requestId = some id → p.requestId = some id ∧ id ≠ "") := by
      unfold Exchange.applyRequestId
      split
      · rename_i rid hrid
        split
        · rename_i hne
          unfold Exchange.setRequestId
          rw [hd0]
          simp only
          split
          · refine ⟨{ Exchange.fresh url with requestId := some rid }, ?_, ?_⟩
            · have := deref_update { X with store := X.store ++ [Exchange.fresh url] }
                X.store.length (fun e => { e with requestId := some rid })
              rw [hd0] at this
              exact this
            · intro h
              have : rid = id := Option.some.inj h
              subst this
              exact ⟨hrid, hne⟩
          · exact ⟨_, hd0, fun h => by cases h⟩
        · exact ⟨_, hd0, fun h => by cases h⟩
      · exact ⟨_, hd0, fun h => by cases h⟩
    obtain ⟨e1, hd1, hi1⟩ := h1
    obtain ⟨_, e2, hd2, hk2⟩ := applyFrameId_view _ X.store.length p e1 hd1
    rw [hd2] at hd
    simp only [Option.map_some', Option.some.injEq] at hd
    subst hd
    rw [applyOwnParams_requestId, hk2.2.2] at hid
    exact hi1 hid
  · intro id hp hid
    exact new_primary X p url id hp hid
  · intro hp
    unfold Exchange.new Exchange.applyRequestParams
    simp only
    show (Exchange.applyFrameId _ X.store.length p).exchanges = _
    rw [applyFrameId_exchanges]
    unfold Exchange.applyRequestId
    rcases hp with hp | hp
    · rw [hp]
    · rw [hp]
      simp

/-- The constructor keeps the registry consistent when no exchange stored in
the frame-id map carries the notification's primary id. -/
theorem new_consistent (X : Exchanges) (p : Params) (url : Option String)
    (hc : X.consistent = true)
    (hsafe : ∀ q ∈ X.exchangesByFrameId, ∀ e, X.deref q.2 = some e →
      e.requestId = none ∨ e.requestId ≠ p.requestId) :
    (Exchange.new X p url).1.consistent = true := by
  rw [consistent_iff] at hc ⊢
  obtain ⟨hmem, hold, hnew, hset, hkeep⟩ := new_view X p url
  intro q hq e id hd hid
  by_cases hn : q.2 = X.store.length
  · rw [hn] at hd ⊢
    obtain ⟨hp, hne⟩ := hnew e id hd hid
    right
    rw [hset id hp hne]
    exact JSMap.get_set_self _ _ _
  · have hq0 : q ∈ X.exchangesByFrameId := by
      rcases hmem q hq with h | h
      · exact h
      · exact absurd h hn
    have hd0 := hold q.2 hn e hd
    have hc0 := hc q hq0 e id hd0 hid
    have hs := hsafe q hq0 e hd0
    have hget : (Exchange.new X p url).1.exchanges.get id = X.exchanges.get id := by
      cases hp : p.requestId with
      | none => rw [hkeep (Or.inl hp)]
      | some pid =>
        by_cases hpe : pid = ""
        · subst hpe
          rw [hkeep (Or.inr hp)]
        · rw [hset pid hp hpe]
          show JSMap.get (JSMap.set X.exchanges pid X.store.length) id = JSMap.get X.exchanges id
          rw [jsmap_get_set]
          have : ¬ id = pid := by
            intro h
            subst h
            rcases hs with hs | hs
            · rw [hid] at hs; cases hs
            · exact hs (hid.trans hp.symm)
          simp [this]
    rw [hget]
    exact hc0

/-- C15 (as amended). Index consistency (every exchange stored in the frame-id
map is, in the primary map, either absent under its own `requestId` or
registered there itself) is kept by `find(params, eventType, true)` whenever
`find` returns an exchange that already existed, and also when it constructs
one, provided no exchange stored in the frame-id map carries the
notification's primary id. -/
theorem find_consistent (H : Host) (X : Exchanges) (p : Params) (hc : X.consistent = true)
    (hsafe : (Exchanges.find H X p true).2 ≠ some X.store.length ∨
      ∀ q ∈ X.exchangesByFrameId, ∀ e, X.deref q.2 = some e →
        e.requestId = none ∨ e.requestId ≠ p.requestId) :
    (Exchanges.find H X p true).1.consistent = true := by
  obtain ⟨X', hs, hfind⟩ := find_shape H X p
  have hc' := sameIndex_consistent X X' hs hc
  rcases hfind with hfind | hfind
  · rw [hfind]
    exact hc'
  · rw [hfind]
    simp only
    rw [hfind] at hsafe
    rcases hsafe with h | h
    · exact absurd (by simp only; rw [hs.2.2.1]) h
    · apply new_consistent X' p _ hc'
      intro q hq e hd
      rw [hs.2.1] at hq
      have h4 := hs.2.2.2 q.2
      rw [hd] at h4
      cases hd0 : X.deref q.2 with
      | none => rw [hd0] at h4; cases h4
      | some e0 =>
        rw [hd0] at h4
        simp only [Option.map_some', Option.some.injEq] at h4
        rw [h4]
        exact h q hq e0 hd0

/-- C15 as stated fails: the registry holds one exchange, registered under
`Y` and under the frame id `F`, and is consistent. A `POST` for `Y` without a
frame id makes `find` construct a second exchange and register it under `Y`;
the exchange stored under `F` still carries `Y`, which the primary map now
gives to the other exchange. -/
theorem find_breaks_consistency :
    (onRequestWillBeSent Host.ascii Example.empty (Example.willBeSent "Y" "GET")).1.consistent
      = true ∧
    (Exchanges.find Host.ascii
      (onRequestWillBeSent Host.ascii Example.empty (Example.willBeSent "Y" "GET")).1
      (Example.bare "Y" "POST") true).1.consistent = false ∧
    (Exchanges.find Host.ascii
      (onRequestWillBeSent Host.ascii Example.empty (Example.willBeSent "Y" "GET")).1
      (Example.bare "Y" "POST") true).1.exchangesByFrameId.get "F" = some 0 ∧
    (Exchanges.find Host.ascii
      (onRequestWillBeSent Host.ascii Example.empty (Example.willBeSent "Y" "GET")).1
      (Example.bare "Y" "POST") true).1.exchanges.get "Y" = some 1 := by
  refine ⟨?_, ?_, ?_, ?_⟩ <;> decide

/-- C15 (as amended) at a concrete input: a notification for the new ids `Z`
and `G` arrives at the registry that holds `X` and `F`. -/
theorem find_consistent_witness :
    Example.registry.consistent = true ∧
    (Exchanges.find Host.ascii Example.registry
      { requestId := some "Z", frameId := some "G"
        request := some { url := some "https://x.test/z", method := some "GET" } }
      true).1.consistent = true :=
  ⟨by decide, find_consistent Host.ascii Example.registry
    { requestId := some "Z", frameId := some "G"
      request := some { url := some "https://x.test/z", method := some "GET" } }
    (by decide) (Or.inr (by decide))⟩
/-! ## Body retrieval -/

theorem applyKind_loadingFinished (e : Exchange) (p : Params) :
    (ExchangeResponse.applyKind e p EventType.LoadingFinished).completed = some true := by
  unfold ExchangeResponse.applyKind
  simp only [reduceCtorEq, if_false, if_true]

/-- C20 (as amended). When the handler `loadingFinished` triggers body
retrieval (`shouldLoadBody` is truthy after the `LoadingFinished` notification
has been applied), the response has content (`hasContent`), the exchange's
resolved method is not the pre-flight `OPTIONS`, no load failure is recorded
and the exchange is completed. `shouldHaveBody` is then truthy exactly when,
in addition, the status is none of 204, 304, 205, the current request's method
is neither `HEAD` nor `OPTIONS`, and the MIME type is present and contains
`json`, `text` or `xml`. -/
theorem loadingFinished_triggers (H : Host) (e : Exchange) (p : Params)
    (h : (Exchange.loadingFinished H e p).2 = true) :
    (Exchange.loadingFinished H e p).1.response.hasContent = true ∧
    (Exchange.loadingFinished H e p).1.requestMethod ≠ some "OPTIONS" ∧
    (Exchange.loadingFinished H e p).1.response.loadingFailed = none ∧
    (Exchange.loadingFinished H e p).1.completed = some true ∧
    (((Exchange.loadingFinished H e p).1.response.shouldHaveBody
        (Exchange.loadingFinished H e p).1.request.method).truthy = true ↔
      ((Exchange.loadingFinished H e p).1.response.status ≠ some 204 ∧
        (Exchange.loadingFinished H e p).1.response.status ≠ some 304 ∧
        (Exchange.loadingFinished H e p).1.response.status ≠ some 205) ∧
      ((Exchange.loadingFinished H e p).1.request.method ≠ some "HEAD" ∧
        (Exchange.loadingFinished H e p).1.request.method ≠ some "OPTIONS") ∧
      ∃ mimeType, (Exchange.loadingFinished H e p).1.response.mimeType = some mimeType ∧
        (jsIncludes mimeType "json" = true ∨ jsIncludes mimeType "text" = true
          ∨ jsIncludes mimeType "xml" = true)) := by
  unfold Exchange.loadingFinished at h ⊢
  cases happ : ExchangeResponse.applyParams H (e.log EventType.LoadingFinished) p
      EventType.LoadingFinished with
  | error e1 =>
    rw [happ] at h
    simp at h
  | ok e1 =>
    rw [happ] at h
    simp only at h ⊢
    unfold ExchangeResponse.shouldLoadBody at h
    simp only [Bool.and_eq_true, Bool.not_eq_true', Exchange.isPreflight,
      decide_eq_false_iff_not] at h
    obtain ⟨⟨h1, h2⟩, h3'⟩ := h
    have h3 : e1.response.loadingFailed = none := by
      cases hl : e1.response.loadingFailed with
      | none => rfl
      | some v => rw [hl] at h3'; cases h3'
    have hc : e1.completed = some true := by
      unfold ExchangeResponse.applyParams at happ
      split at happ
      · cases happ
      · simp only [Except.ok.injEq] at happ
        rw [← happ]
        exact applyKind_loadingFinished _ _
    refine ⟨h1, h2, h3, hc, ?_⟩
    rw [shouldHaveBody_truthy]
    constructor
    · rintro ⟨a, b, _, d⟩
      exact ⟨a, b, d⟩
    · rintro ⟨a, b, d⟩
      exact ⟨a, b, h1, d⟩

/-- C20 as stated fails: a `GET` of an image has received its
`ResponseReceived` (status 200, `image/png`); the `LoadingFinished` that
reports 100 encoded bytes triggers body retrieval although `shouldHaveBody`
is false for this MIME type. -/
theorem loadingFinished_loads_image :
    (Exchange.loadingFinished Host.ascii Example.image
      { requestId := some "X", encodedDataLength := some 100 }).2 = true ∧
    ((Exchange.loadingFinished Host.ascii Example.image
      { requestId := some "X", encodedDataLength := some 100 }).1.response.shouldHaveBody
      (Exchange.loadingFinished Host.ascii Example.image
        { requestId := some "X", encodedDataLength := some 100 }).1.request.method).truthy
      = false := by
  refine ⟨?_, ?_⟩ <;> decide

/-- C20 (as amended) at a concrete input: the `LoadingFinished` of a JSON
document. -/
theorem loadingFinished_triggers_witness :
    (Exchange.loadingFinished Host.ascii Example.json
      { requestId := some "X", encodedDataLength := some 100 }).2 = true ∧
    (Exchange.loadingFinished Host.ascii Example.json
      { requestId := some "X", encodedDataLength := some 100 }).1.response.hasContent = true ∧
    (Exchange.loadingFinished Host.ascii Example.json
      { requestId := some "X", encodedDataLength := some 100 }).1.completed = some true :=
  ⟨by decide,
   (loadingFinished_triggers Host.ascii Example.json
      { requestId := some "X", encodedDataLength := some 100 } (by decide)).1,
   (loadingFinished_triggers Host.ascii Example.json
      { requestId := some "X", encodedDataLength := some 100 } (by decide)).2.2.2.1⟩
/-! ## Export -/

theorem writeBodies_savedCaptures (H : Host) (refs : List Nat) :
    ∀ X : Exchanges, (X.writeBodies H refs).1.savedCaptures = X.savedCaptures := by
  induction refs with
  | nil => intro X; rfl
  | cons ref rest ih =>
    intro X
    unfold Exchanges.writeBodies
    cases X.deref ref with
    | none => exact ih X
    | some e =>
      simp only
      cases e.bodyFileName H with
      | none => rfl
      | some name =>
        simp only
        exact ih _

theorem sequenceFrom_savedCaptures (H : Host) (refs : List Nat) :
    ∀ (X : Exchanges) (index : Nat),
      (stateAfter (X.sequenceFrom H index refs)).savedCaptures = X.savedCaptures := by
  induction refs with
  | nil => intro X index; rfl
  | cons ref rest ih =>
    intro X index
    unfold Exchanges.sequenceFrom
    cases X.deref ref with
    | none => exact ih X _
    | some e =>
      simp only
      cases e.setRedirectsSequence H index with
      | error e1 => rfl
      | ok e1 =>
        simp only
        exact ih _ _

/-- The export body does not write the flag `savedCaptures`. -/
theorem exportBody_savedCaptures (H : Host) (X : Exchanges) :
    (Exchanges.exportBody H X).1.savedCaptures = X.savedCaptures := by
  unfold Exchanges.exportBody
  lift_lets
  intro allExchanges cookieExchanges bodyExchanges captureExchanges out
  have hw := writeBodies_savedCaptures H bodyExchanges X
  rcases hwb : X.writeBodies H bodyExchanges with ⟨X1, bodies, done⟩
  rw [hwb] at hw
  simp only at hw
  cases done with
  | false => exact hw
  | true =>
    simp only
    have hs := sequenceFrom_savedCaptures H captureExchanges X1 0
    cases hsq : X1.sequenceFrom H 0 captureExchanges with
    | error X2 =>
      rw [hsq] at hs
      exact hs.trans hw
    | ok X2 =>
      rw [hsq] at hs
      exact hs.trans hw

theorem saveCaptures_saved (H : Host) (X : Exchanges) :
    (Exchanges.saveCaptures H X).1.savedCaptures = true := by
  unfold Exchanges.saveCaptures
  by_cases h : X.savedCaptures = true
  · rw [if_pos h]
    exact h
  · rw [if_neg h]
    exact exportBody_savedCaptures H { X with savedCaptures := true }

theorem saveCaptures_of_saved (H : Host) (X : Exchanges) (h : X.savedCaptures = true) :
    Exchanges.saveCaptures H X = (X, none) := by
  unfold Exchanges.saveCaptures
  rw [if_pos h]

theorem saveCapturesTimes_of_saved (H : Host) (n : Nat) :
    ∀ X : Exchanges, X.savedCaptures = true →
      Exchanges.saveCapturesTimes H X n = (X, List.replicate n none) := by
  induction n with
  | zero => intro X _; rfl
  | succ n ih =>
    intro X h
    unfold Exchanges.saveCapturesTimes
    rw [saveCaptures_of_saved H X h]
    simp only
    rw [ih X h]
    rfl

/-- C18. The export happens at most once. After any call of `saveCaptures`
the flag `savedCaptures` is true; a call made when it is already true returns
at the guard, writes no file and leaves the registry as it is; and in every
sequence of calls, from any registry, every call after the first returns at
the guard, so the export body runs in at most one call and the flag is true
from the first call on. -/
theorem saveCaptures_once (H : Host) (X : Exchanges) :
    (Exchanges.saveCaptures H X).1.savedCaptures = true ∧
    (X.savedCaptures = true → Exchanges.saveCaptures H X = (X, none)) ∧
    ∀ n, (Exchanges.saveCapturesTimes H X (n + 1)).2 =
        (Exchanges.saveCaptures H X).2 :: List.replicate n none ∧
      (Exchanges.saveCapturesTimes H X (n + 1)).1 = (Exchanges.saveCaptures H X).1 ∧
      (((Exchanges.saveCapturesTimes H X (n + 1)).2.filter Option.isSome).length ≤ 1) ∧
      (Exchanges.saveCapturesTimes H X (n + 1)).1.savedCaptures = true := by
  refine ⟨saveCaptures_saved H X, saveCaptures_of_saved H X, ?_⟩
  intro n
  have h1 : Exchanges.saveCapturesTimes H X (n + 1) =
      ((Exchanges.saveCaptures H X).1, (Exchanges.saveCaptures H X).2 :: List.replicate n none) := by
    unfold Exchanges.saveCapturesTimes
    rcases hs : Exchanges.saveCaptures H X with ⟨X1, out⟩
    simp only
    have hsaved : X1.savedCaptures = true := by
      have := saveCaptures_saved H X
      rw [hs] at this
      exact this
    rw [saveCapturesTimes_of_saved H n X1 hsaved]
  rw [h1]
  refine ⟨rfl, rfl, ?_, saveCaptures_saved H X⟩
  simp only [List.filter_cons]
  have hrep : (List.replicate n (none : Option Export)).filter Option.isSome = [] := by
    rw [List.filter_eq_nil_iff]
    intro a ha
    rw [List.eq_of_mem_replicate ha]
    simp
  split
  · rw [hrep]; simp
  · rw [hrep]; simp

/-- C18 at a concrete input: two calls of `saveCaptures` on a registry that
holds one exchange; the second returns at the guard. -/
theorem saveCaptures_once_witness :
    (Exchanges.saveCaptures Host.ascii Example.pending).1.savedCaptures = true ∧
    Exchanges.saveCaptures Host.ascii (Exchanges.saveCaptures Host.ascii Example.pending).1
      = ((Exchanges.saveCaptures Host.ascii Example.pending).1, none) :=
  ⟨(saveCaptures_once Host.ascii Example.pending).1,
   (saveCaptures_once Host.ascii (Exchanges.saveCaptures Host.ascii Example.pending).1).2.1
      (saveCaptures_once Host.ascii Example.pending).1⟩

/-- C19, the specification's scenario evaluated on the code: a registry holds
one exchange, created by a `RequestWillBeSent` and never touched by a response
notification. `saveCaptures` writes the unfiltered document with one entry for
that exchange, counted as failed, and the entry's `completed` is `undefined`,
not `false`: the constructor never defines the field, so the serialised entry
has no `completed` property at all. -/
theorem saveCaptures_pending_completed :
    (Example.pending.deref 0).map (fun e => (e.requestId, e.eventsFired, e.completed))
      = some (some "X", [EventType.RequestWillBeSent], none) ∧
    ((Exchanges.saveCaptures Host.ascii Example.pending).2.bind (·.all)).map
      (fun doc => doc.exchanges.map (fun entry => (entry.requestId, entry.completed)))
      = some [(some "X", none)] ∧
    ((Exchanges.saveCaptures Host.ascii Example.pending).2.bind (·.all)).map
      (fun doc => (doc.totalExchanges, doc.completedExchanges, doc.failedExchanges))
      = some (1, 0, 1) := by
  refine ⟨?_, ?_, ?_⟩ <;> decide

/-! ## Load failure -/

theorem mergeCookies_loadingFailed (H : Host) (r r' : ExchangeResponse)
    (new : Option (List Item)) (h : r.mergeCookies H new = some r') :
    r'.loadingFailed = r.loadingFailed := by
  unfold ExchangeResponse.mergeCookies at h
  cases hm : ExchangeResponse.mergeResponseCookies H (some r.responseCookies) new with
  | none => simp [hm] at h
  | some merged =>
    simp only [hm, Option.map_some', Option.some.injEq] at h
    subst h
    rfl

theorem mergeHeaderCookies_loadingFailed (H : Host) (r r' : ExchangeResponse)
    (headers : Headers) (h : r.mergeHeaderCookies H headers = some r') :
    r'.loadingFailed = r.loadingFailed := by
  unfold ExchangeResponse.mergeHeaderCookies at h
  split at h
  · exact mergeCookies_loadingFailed H r r' _ h
  · simp only [Option.some.injEq] at h
    subst h
    rfl

theorem mergeRawSetCookie_loadingFailed (H : Host) (r r' : ExchangeResponse)
    (headers : Headers) (h : r.mergeRawSetCookie H headers = some r') :
    r'.loadingFailed = r.loadingFailed := by
  unfold ExchangeResponse.mergeRawSetCookie at h
  split at h
  · exact mergeCookies_loadingFailed H r r' _ h
  · simp only [Option.some.injEq] at h
    subst h
    rfl

theorem recordLengths_loadingFailed (H : Host) (r : ExchangeResponse) (res : ResponseDesc) :
    (r.recordLengths H res).loadingFailed = r.loadingFailed := by
  unfold ExchangeResponse.recordLengths
  simp only
  split <;> rfl

theorem applyResponseDesc_loadingFailed (H : Host) (r : ExchangeResponse) (res : ResponseDesc) :
    (stateAfter (ExchangeResponse.applyResponseDesc H r res)).loadingFailed
      = r.loadingFailed := by
  unfold ExchangeResponse.applyResponseDesc
  lift_lets
  intro r1 r2 r3 r4 r5
  have h1 : r1.loadingFailed = r.loadingFailed := by
    simp only [r1]
    split
    · split <;> rfl
    · rfl
  have h2 : r2.loadingFailed = r1.loadingFailed := by
    simp only [r2]; split <;> rfl
  have h3 : r3.loadingFailed = r2.loadingFailed := by
    simp only [r3]; split <;> rfl
  have h4 : r4.loadingFailed = r3.loadingFailed := by
    simp only [r4]; split <;> rfl
  have h5 : r5.loadingFailed = r.loadingFailed := by
    rw [← h1, ← h2, ← h3, ← h4]
    simp only [r5]; split <;> rfl
  cases hc : r5.mergeHeaderCookies H (res.headers.getD []) with
  | none => exact h5
  | some r6 =>
    have h6 := mergeHeaderCookies_loadingFailed H r5 r6 _ hc
    simp only
    cases hraw : r6.mergeRawSetCookie H (res.headers.getD []) with
    | none => exact h6.trans h5
    | some r7 =>
      have h7 := mergeRawSetCookie_loadingFailed H r6 r7 _ hraw
      simp only [stateAfter]
      rw [recordLengths_loadingFailed, h7, h6, h5]

theorem applyStatusCode_loadingFailed (r : ExchangeResponse) (p : Params) :
    (r.applyStatusCode p).loadingFailed = r.loadingFailed := by
  unfold ExchangeResponse.applyStatusCode
  split
  · split <;> rfl
  · rfl

theorem applyHeaders_loadingFailed (H : Host) (r : ExchangeResponse) (p : Params) :
    (stateAfter (r.applyHeaders H p)).loadingFailed = r.loadingFailed := by
  unfold ExchangeResponse.applyHeaders
  split
  · rfl
  · rename_i headers _
    cases hm : (r.mergeHeaders H headers).mergeHeaderCookies H headers with
    | none => rfl
    | some r1 =>
      simp only [stateAfter]
      rw [mergeHeaderCookies_loadingFailed H _ r1 _ hm]
      rfl

/-- The statements of `applyParams` before the notification kind is looked at
leave the record `loadingFailed` as it is, whether they return or throw. -/
theorem applyPayload_loadingFailed (H : Host) (r : ExchangeResponse) (p : Params) :
    (stateAfter (ExchangeResponse.applyPayload H r p)).loadingFailed = r.loadingFailed := by
  unfold ExchangeResponse.applyPayload
  simp only
  cases p.response with
  | none =>
    simp only
    split
    · rfl
    · rw [applyHeaders_loadingFailed, applyStatusCode_loadingFailed]
  | some res =>
    simp only
    have h1 := applyResponseDesc_loadingFailed H r res
    cases hd : ExchangeResponse.applyResponseDesc H r res with
    | error r1 =>
      rw [hd] at h1
      exact h1
    | ok r1 =>
      rw [hd] at h1
      simp only [stateAfter] at h1
      simp only
      split
      · exact h1
      · rw [applyHeaders_loadingFailed, applyStatusCode_loadingFailed, h1]

/-- A recorded load failure stays recorded through every response
notification, whether `applyParams` returns or throws. -/
theorem applyParams_keeps_loadingFailed (H : Host) (e : Exchange) (p : Params) (t : EventType)
    (h : e.response.loadingFailed.isSome = true) :
    (stateAfter (ExchangeResponse.applyParams H e p t)).response.loadingFailed.isSome = true := by
  have hp := applyPayload_loadingFailed H e.response p
  unfold ExchangeResponse.applyParams
  cases hr : ExchangeResponse.applyPayload H e.response p with
  | error r1 =>
    rw [hr] at hp
    simp only [stateAfter] at hp ⊢
    rw [hp]; exact h
  | ok r1 =>
    rw [hr] at hp
    simp only [stateAfter] at hp ⊢
    have h1 : r1.loadingFailed.isSome = true := by rw [hp]; exact h
    cases t <;> simp only [ExchangeResponse.applyKind, reduceCtorEq, if_false, if_true]
    all_goals first
      | exact h1
      | rfl
      | (split <;> first | exact h1 | (split <;> exact h1))

/-- The handler `loadingFinished` does not trigger body retrieval on an
exchange with a recorded load failure. -/
theorem loadingFinished_after_failure (H : Host) (e : Exchange) (q : Params)
    (h : e.response.loadingFailed.isSome = true) : (Exchange.loadingFinished H e q).2 = false := by
  have hk := applyParams_keeps_loadingFailed H (e.log EventType.LoadingFinished) q
    EventType.LoadingFinished (by
      have : (e.log EventType.LoadingFinished).response = e.response := by
        unfold Exchange.log
        split <;> rfl
      rw [this]; exact h)
  unfold Exchange.loadingFinished
  cases hr : ExchangeResponse.applyParams H (e.log EventType.LoadingFinished) q
      EventType.LoadingFinished with
  | error e1 => rfl
  | ok e1 =>
    rw [hr] at hk
    simp only [stateAfter] at hk
    simp only [ExchangeResponse.shouldLoadBody, hk, Bool.not_true, Bool.and_false]

/-- C21. When `ExchangeResponse.applyParams(params, LoadingFailed)` returns,
the response records `params.errorText` and the cancellation flag (false when
absent), `completed` is true and `shouldLoadBody` is false; the handler
`loadingFailed` never calls `loadBody`, and no later `loadingFinished` handler
triggers body retrieval, because a recorded failure stays recorded through
every response notification. The call returns on every notification that
carries no response descriptor, redirect response or header map, as the
payload of `Network.loadingFailed` does. -/
theorem applyParams_loadingFailed (H : Host) (e : Exchange) (p : Params) :
    (∀ e', ExchangeResponse.applyParams H e p EventType.LoadingFailed = .ok e' →
      e'.response.loadingFailed =
        some { timestamp := p.timestamp, errorText := p.errorText, canceled := p.canceled } ∧
      e'.completed = some true ∧
      ExchangeResponse.shouldLoadBody e' = false ∧
      (∀ q, (Exchange.loadingFinished H e' q).2 = false) ∧
      (∀ q t, (Exchange.loadingFinished H
        (stateAfter (ExchangeResponse.applyParams H e' q t)) q).2 = false)) ∧
    (p.response = none → p.redirectResponse = none → p.headers = none →
      (∃ e', ExchangeResponse.applyParams H e p EventType.LoadingFailed = .ok e') ∧
      ExchangeResponse.shouldLoadBody (Exchange.loadingFailed H e p) = false ∧
      (Exchange.loadingFailed H e p).completed = some true) := by
  have hok : ∀ (e0 e' : Exchange),
      ExchangeResponse.applyParams H e0 p EventType.LoadingFailed = .ok e' →
      e'.response.loadingFailed =
        some { timestamp := p.timestamp, errorText := p.errorText, canceled := p.canceled } ∧
      e'.completed = some true := by
    intro e0 e' h
    unfold ExchangeResponse.applyParams at h
    split at h
    · cases h
    · simp only [Except.ok.injEq] at h
      subst h
      unfold ExchangeResponse.applyKind
      simp only [reduceCtorEq, if_false, if_true]
      trivial
  have hret : p.response = none → p.redirectResponse = none → p.headers = none →
      ∀ e0 : Exchange, ∃ e', ExchangeResponse.applyParams H e0 p EventType.LoadingFailed
        = .ok e' := by
    intro h1 h2 h3 e0
    unfold ExchangeResponse.applyParams ExchangeResponse.applyPayload
      ExchangeResponse.applyHeaders
    simp only [h1, h2, h3, Option.isSome_none, Bool.false_eq_true, if_false]
    exact ⟨_, rfl⟩
  constructor
  · intro e' h
    obtain ⟨h1, h2⟩ := hok e e' h
    have hs : e'.response.loadingFailed.isSome = true := by rw [h1]; rfl
    refine ⟨h1, h2, ?_, ?_, ?_⟩
    · simp only [ExchangeResponse.shouldLoadBody, hs, Bool.not_true, Bool.and_false]
    · intro q
      exact loadingFinished_after_failure H e' q hs
    · intro q t
      exact loadingFinished_after_failure H _ q (applyParams_keeps_loadingFailed H e' q t hs)
  · intro h1 h2 h3
    refine ⟨hret h1 h2 h3 e, ?_⟩
    obtain ⟨e', he'⟩ := hret h1 h2 h3 (e.log EventType.LoadingFailed)
    obtain ⟨a, b⟩ := hok _ e' he'
    have hs : e'.response.loadingFailed.isSome = true := by rw [a]; rfl
    unfold Exchange.loadingFailed
    rw [he']
    simp only
    exact ⟨by simp only [ExchangeResponse.shouldLoadBody, hs, Bool.not_true, Bool.and_false], b⟩

/-- C21 at a concrete input: a JSON response that has content receives a
`LoadingFailed` notification. -/
theorem applyParams_loadingFailed_witness :
    ExchangeResponse.shouldLoadBody Example.json = true ∧
    (∃ e', ExchangeResponse.applyParams Host.ascii Example.json
      { requestId := some "X", errorText := some "net::ERR_ABORTED" } EventType.LoadingFailed
        = .ok e') ∧
    ExchangeResponse.shouldLoadBody (Exchange.loadingFailed Host.ascii Example.json
      { requestId := some "X", errorText := some "net::ERR_ABORTED" }) = false ∧
    (Exchange.loadingFailed Host.ascii Example.json
      { requestId := some "X", errorText := some "net::ERR_ABORTED" }).completed = some true :=
  ⟨by decide, (applyParams_loadingFailed Host.ascii Example.json
    { requestId := some "X", errorText := some "net::ERR_ABORTED" }).2 rfl rfl rfl⟩
/-! ## Snapshots and later fragments -/

theorem applyParams_fragment (H : Host) (e : Exchange) (p : Params) (t : EventType)
    (hp : p.redirectResponse = none) :
    (stateAfter (ExchangeRequest.applyParams H e p t)).older = e.older ∧
    (stateAfter (ExchangeRequest.applyParams H e p t)).redirects = e.redirects := by
  unfold ExchangeRequest.applyParams
  rw [hp]
  simp only
  split <;> exact ⟨rfl, rfl⟩

/-- C22 (as amended). A non-redirect fragment handled by
`requestWillBeSentExtraInfo` leaves the list of snapshots as it is, and the
request stored in every snapshot other than the one that holds the exchange's
current request is the same after the fragment as before it, in URL, method,
headers and cookies. A snapshot that holds the current request (the latest
one) shows, after the fragment, the current request as the fragment has
updated it. -/
theorem snapshot_requests_kept (H : Host) (X : Exchanges) (ref : Nat) (e : Exchange)
    (p : Params) (hd : X.deref ref = some e) (hp : p.redirectResponse = none) :
    ∃ e', (Exchange.requestWillBeSentExtraInfo H X ref p).deref ref = some e' ∧
      e'.redirects = e.redirects ∧
      (∀ s ∈ e.redirects, s.request < e.older.length →
        e'.requestAt s.request = e.requestAt s.request) ∧
      (∀ s ∈ e.redirects, s.request = e.older.length →
        e'.requestAt s.request = some e'.request) := by
  unfold Exchange.requestWillBeSentExtraInfo
  lift_lets
  intro X1 X2
  have h1 : X1.deref ref = some (e.log EventType.RequestWillBeSentExtraInfo) := by
    simp only [X1]
    rw [deref_update, hd]
    rfl
  obtain ⟨e2, hd2, hk2⟩ := deref_applyRequestParams X1 ref p _ h1
  have hk := keepsRequests_trans (keepsRequests_log e EventType.RequestWillBeSentExtraInfo) hk2
  have hfin : ∀ e3 : Exchange, e3.older = e2.older → e3.redirects = e2.redirects →
      e3.redirects = e.redirects ∧
      (∀ s ∈ e.redirects, s.request < e.older.length →
        e3.requestAt s.request = e.requestAt s.request) ∧
      (∀ s ∈ e.redirects, s.request = e.older.length →
        e3.requestAt s.request = some e3.request) := by
    intro e3 ho hr
    have ho' : e3.older = e.older := ho.trans hk.1
    refine ⟨hr.trans hk.2.1, ?_, ?_⟩
    · intro s _ hlt
      rw [requestAt_of_lt e s.request hlt, requestAt_of_lt e3 s.request (by rw [ho']; exact hlt),
        ho']
    · intro s _ heq
      rw [heq, ← ho']
      exact requestAt_length e3
  have hlogo : ∀ e3 : Exchange, (e3.log EventType.RequestWillBeSentExtraInfo).older = e3.older ∧
      (e3.log EventType.RequestWillBeSentExtraInfo).redirects = e3.redirects := by
    intro e3
    unfold Exchange.log
    split <;> exact ⟨rfl, rfl⟩
  rw [hd2]
  simp only
  have hf := applyParams_fragment H e2 p EventType.RequestWillBeSentExtraInfo hp
  cases happ : ExchangeRequest.applyParams H e2 p EventType.RequestWillBeSentExtraInfo with
  | error e3 =>
    rw [happ] at hf
    simp only [stateAfter] at hf
    simp only
    refine ⟨e3.log EventType.RequestWillBeSentExtraInfo, ?_, ?_⟩
    · rw [deref_update, hd2]; rfl
    · exact hfin _ ((hlogo e3).1.trans hf.1) ((hlogo e3).2.trans hf.2)
  | ok e3 =>
    rw [happ] at hf
    simp only [stateAfter] at hf
    simp only
    refine ⟨e3, ?_, hfin e3 hf.1 hf.2⟩
    rw [deref_update, hd2]; rfl

/-- C22 as stated fails: after the redirect to `/b` the exchange has one
snapshot, whose request is the exchange's current request. The
`RequestWillBeSentExtraInfo` that follows carries a header and a cookie; they
are merged into that request, so the headers and the cookies of the request
stored in the snapshot change. -/
theorem snapshot_request_changes :
    ((Example.redirected.deref 0).map (fun e => e.redirects.map (·.request))) = some [1] ∧
    ((Example.redirected.deref 0).bind (fun e => e.requestAt 1)).map
        (fun r => (r.url, r.method, r.headers, r.requestCookies.map (·.name)))
      = some (some "https://x.test/b", some "GET", [("cookie", "s=1; t=2")],
          [Val.str "s", Val.str "t"]) ∧
    (((Exchange.requestWillBeSentExtraInfo Host.ascii Example.redirected 0
        Example.extraInfo).deref 0).bind (fun e => e.requestAt 1)).map
        (fun r => (r.url, r.method, r.headers, r.requestCookies.map (·.name)))
      = some (some "https://x.test/b", some "GET", [("cookie", "s=1; t=2"), ("x-extra", "1")],
          [Val.str "s", Val.str "t", Val.str "u"]) := by
  refine ⟨?_, ?_, ?_⟩ <;> decide

/-- C22 (as amended) at a concrete input: the extra information arrives after
the redirects to `/b` and to `/c`; the request stored in the first snapshot,
the one for `/b`, is as it was. -/
theorem snapshot_requests_kept_witness :
    ((Example.redirectedTwice.deref 0).map (fun e => e.redirects.map (·.request)))
      = some [1, 2] ∧
    ∃ e', (Exchange.requestWillBeSentExtraInfo Host.ascii Example.redirectedTwice 0
        Example.extraInfo).deref 0 = some e' ∧
      e'.requestAt 1 = (Example.redirectedTwice.deref 0).bind (fun e => e.requestAt 1) := by
  refine ⟨by decide, ?_⟩
  obtain ⟨e', h1, _, h3, _⟩ := snapshot_requests_kept Host.ascii Example.redirectedTwice 0
    ((Example.redirectedTwice.deref 0).getD (Exchange.fresh none)) Example.extraInfo
    (by decide) rfl
  have hs : ∃ s ∈ ((Example.redirectedTwice.deref 0).getD (Exchange.fresh none)).redirects,
      s.request = 1 := by decide
  obtain ⟨s, hs, hs1⟩ := hs
  have h := h3 s hs (by rw [hs1]; decide)
  rw [hs1] at h
  exact ⟨e', h1, h.trans (by decide)⟩
/-! ## Set-Cookie strings -/

theorem splitChars_of_not_mem (sep : Char) (cs : List Char) (h : sep ∉ cs) :
    splitChars sep cs = [cs] := by
  induction cs with
  | nil => rfl
  | cons c rest ih =>
    have hc : ¬ c = sep := fun e => h (by rw [e]; exact List.mem_cons_self _ _)
    have hr : sep ∉ rest := fun m => h (List.mem_cons_of_mem _ m)
    simp only [splitChars, hc, if_false, ih hr]

theorem jsSplit_of_not_mem (s : String) (sep : Char) (h : sep ∉ s.data) :
    jsSplit s sep = [s] := by
  unfold jsSplit
  rw [splitChars_of_not_mem sep s.data h]
  rfl

theorem jsTrim_subset (s : String) (c : Char) (h : c ∈ (jsTrim s).data) : c ∈ s.data := by
  unfold jsTrim at h
  simp only [List.mem_reverse] at h
  have h1 := (List.dropWhile_sublist isJSWhiteSpace).subset h
  simp only [List.mem_reverse] at h1
  exact (List.dropWhile_sublist isJSWhiteSpace).subset h1

theorem set_name_value (a b : Val) :
    JSObject.set (JSObject.set ([] : JSObject Val) "name" a) "value" b
      = [("name", a), ("value", b)] := by
  have h1 : arrayIndex? "name" = none := by decide
  have h2 : arrayIndex? "value" = none := by decide
  simp [JSObject.set, JSObject.get, h1, h2]

/-- The record `parseCookie` builds for a string without attributes. -/
theorem parseCookie_single (H : Host) (s : String) (h : ';' ∉ s.data) :
    Exchange.parseCookie H s =
      [("name", Val.str ((jsSplit (jsTrim s) '=').headD "")),
       ("value", secondPiece (jsSplit (jsTrim s) '='))] := by
  unfold Exchange.parseCookie
  simp only [jsSplit_of_not_mem s ';' h, List.map_cons, List.map_nil, List.headD_cons,
    List.tail_cons, List.foldl_nil]
  exact set_name_value _ _

/-- C23 (as amended). `Exchange.parseStringArrayOfCookies` skips nothing: for
every array of Set-Cookie strings it returns exactly one cookie for each
string, in input order, the record `parseCookie` builds for it. For a string
that contains neither `;` nor `=` that record has the trimmed string as its
name and `undefined` as its value. -/
theorem parseStringArrayOfCookies_all (H : Host) (l : List String) :
    (Exchange.parseStringArrayOfCookies H l).length = l.length ∧
    (∀ (i : Nat) (s : String), l[i]? = some s →
      (Exchange.parseStringArrayOfCookies H l)[i]? = some (Item.obj (Exchange.parseCookie H s))) ∧
    (∀ s : String, ';' ∉ s.data → '=' ∉ s.data →
      Exchange.parseCookie H s = [("name", Val.str (jsTrim s)), ("value", Val.undefined)]) := by
  refine ⟨?_, ?_, ?_⟩
  · simp [Exchange.parseStringArrayOfCookies]
  · intro i s h
    simp [Exchange.parseStringArrayOfCookies, h]
  · intro s h1 h2
    rw [parseCookie_single H s h1]
    have h3 : '=' ∉ (jsTrim s).data := fun m => h2 (jsTrim_subset s _ m)
    rw [jsSplit_of_not_mem _ '=' h3]
    rfl

/-- C23 as stated fails: of the three strings the first has no `=` and the
second has an empty name, and each of them still yields a cookie. -/
theorem parseStringArrayOfCookies_keeps_malformed :
    Exchange.parseStringArrayOfCookies Host.ascii ["novalue", "=x; Path=/", "a=1"] =
      [Item.obj [("name", Val.str "novalue"), ("value", Val.undefined)],
       Item.obj [("name", Val.str ""), ("value", Val.str "x"), ("path", Val.str "/")],
       Item.obj [("name", Val.str "a"), ("value", Val.str "1")]] := by
  decide

/-- C23 (as amended) at a concrete input: a string with neither `;` nor `=`. -/
theorem parseStringArrayOfCookies_all_witness :
    Exchange.parseCookie Host.ascii " novalue " =
      [("name", Val.str (jsTrim " novalue ")), ("value", Val.undefined)] :=
  (parseStringArrayOfCookies_all Host.ascii []).2.2 " novalue " (by decide) (by decide)
/-! ## Key order of merged headers -/

theorem keys_rebuild (merged : Headers) (ks : List String) (acc : Headers)
    (hn : ks.Nodup) (hi : ∀ k ∈ ks, arrayIndex? k = none)
    (hd : ∀ k ∈ ks, k ∉ JSObject.keys acc) (hp : "__proto__" ∉ ks) :
    JSObject.keys (ks.foldl (fun sorted key =>
        JSObject.assign sorted key ((JSObject.get merged key).getD "")) acc)
      = JSObject.keys acc ++ ks := by
  induction ks generalizing acc with
  | nil => simp
  | cons a rest ih =>
    simp only [List.foldl_cons]
    have ha : JSObject.get acc a = none :=
      (JSObject.get_eq_none_iff acc a).mpr (hd a (List.mem_cons_self _ _))
    have hpa : ¬ a = "__proto__" := fun e => hp (e ▸ List.mem_cons_self _ _)
    have hset : JSObject.assign acc a ((JSObject.get merged a).getD "")
        = acc ++ [(a, (JSObject.get merged a).getD "")] := by
      unfold JSObject.assign JSObject.set
      simp [ha, hi a (List.mem_cons_self _ _), hpa]
    rw [hset, ih]
    · simp [JSObject.keys]
    · exact (List.nodup_cons.mp hn).2
    · intro k hk
      exact hi k (List.mem_cons_of_mem _ hk)
    · intro k hk
      simp only [JSObject.keys, List.map_append, List.map_cons, List.map_nil, List.mem_append,
        List.mem_singleton, not_or]
      refine ⟨hd k (List.mem_cons_of_mem _ hk), ?_⟩
      intro e
      subst e
      exact (List.nodup_cons.mp hn).1 hk
    · exact fun h => hp (List.mem_cons_of_mem _ h)

theorem mem_keys_lowerInto (H : Host) (hs target : Headers) (k : String)
    (hp : "__proto__" ∉ JSObject.keys target)
    (h : k ∈ JSObject.keys (lowerInto H target hs)) :
    k ∈ JSObject.keys target ∨ ∃ p ∈ hs, H.toLowerCase p.1 = k := by
  have hk : k ≠ "__proto__" := fun e => proto_not_mem_lowerInto H hs target hp (e ▸ h)
  rw [← JSObject.get_isSome_iff, get_lowerInto H hs target k hk] at h
  cases hl : lastValueCI H hs k with
  | some w =>
    right
    exact (lastValueCI_isSome_iff H hs k).mp (by rw [hl]; rfl)
  | none =>
    left
    rw [hl] at h
    exact (JSObject.get_isSome_iff target k).mp h

/-- C24 (as amended). For a non-null `originalHeaders`, a `localeCompare` that
orders any two strings one way or the other, and header names none of which
lower-cases to an array index, the keys of the map `Exchange.mergeHeaders`
returns are the sorted keys: they enumerate in ascending order of
`localeCompare`. -/
theorem mergeHeaders_keys_sorted (H : Host) (hT : H.CompareTotal) (orig new : Headers)
    (hi : ∀ p ∈ orig ++ new, arrayIndex? (H.toLowerCase p.1) = none) :
    JSObject.keys (Exchange.mergeHeaders H (some orig) new) =
      jsSort H.localeCompare (JSObject.keys (lowerInto H (lowerInto H [] orig) new)) ∧
    List.Chain' (fun a b => H.localeCompare a b ≤ 0)
      (JSObject.keys (Exchange.mergeHeaders H (some orig) new)) := by
  have hnd : (JSObject.keys (lowerInto H (lowerInto H [] orig) new)).Nodup :=
    nodup_keys_lowerInto H _ _ (nodup_keys_lowerInto H _ _ List.nodup_nil)
  have hperm : List.Perm (jsSort H.localeCompare
      (JSObject.keys (lowerInto H (lowerInto H [] orig) new)))
      (JSObject.keys (lowerInto H (lowerInto H [] orig) new)) := List.perm_insertionSort _ _
  have hproto0 : "__proto__" ∉ JSObject.keys ([] : Headers) := by simp [JSObject.keys]
  have hproto1 := proto_not_mem_lowerInto H orig [] hproto0
  have hproto2 := proto_not_mem_lowerInto H new _ hproto1
  have hkeys : JSObject.keys (Exchange.mergeHeaders H (some orig) new) =
      jsSort H.localeCompare (JSObject.keys (lowerInto H (lowerInto H [] orig) new)) := by
    simp only [Exchange.mergeHeaders]
    rw [keys_rebuild]
    · rfl
    · exact hperm.nodup_iff.mpr hnd
    · intro k hk
      have hk' := hperm.subset hk
      rcases mem_keys_lowerInto H new _ k hproto1 hk' with h | ⟨p, hp, he⟩
      · rcases mem_keys_lowerInto H orig _ k hproto0 h with h | ⟨p, hp, he⟩
        · simp [JSObject.keys] at h
        · rw [← he]
          exact hi p (List.mem_append_left _ hp)
      · rw [← he]
        exact hi p (List.mem_append_right _ hp)
    · intro k _
      simp [JSObject.keys]
    · exact fun h => hproto2 (hperm.subset h)
  refine ⟨hkeys, ?_⟩
  rw [hkeys]
  exact chain'_insertionSort _ _ (fun a _ b _ => hT a b)

/-- C24 as stated fails. With a `null` original the keys keep the order of
`newHeaders`, lower-cased: no sort is applied. With a non-null original, keys
that are array indices enumerate first, in numeric order, whatever order the
sort has put them in: `9` comes before `10`, which `localeCompare` orders the
other way. -/
theorem mergeHeaders_keys_unsorted :
    JSObject.keys (Exchange.mergeHeaders Host.ascii none [("B", "1"), ("A", "2")])
      = ["b", "a"] ∧
    Host.ascii.localeCompare "b" "a" > 0 ∧
    JSObject.keys (Exchange.mergeHeaders Host.ascii (some []) [("9", "x"), ("10", "y")])
      = ["9", "10"] ∧
    Host.ascii.localeCompare "9" "10" > 0 := by
  refine ⟨?_, ?_, ?_, ?_⟩ <;> decide

/-- C24 (as amended) at a concrete input. -/
theorem mergeHeaders_keys_sorted_witness :
    JSObject.keys (Exchange.mergeHeaders Host.ascii (some [("Host", "x.test")])
      [("Cookie", "s=1"), ("Accept", "text/html")]) =
      jsSort Host.ascii.localeCompare (JSObject.keys (lowerInto Host.ascii
        (lowerInto Host.ascii [] [("Host", "x.test")]) [("Cookie", "s=1"), ("Accept", "text/html")])) ∧
    List.Chain' (fun a b => Host.ascii.localeCompare a b ≤ 0)
      (JSObject.keys (Exchange.mergeHeaders Host.ascii (some [("Host", "x.test")])
        [("Cookie", "s=1"), ("Accept", "text/html")])) :=
  mergeHeaders_keys_sorted Host.ascii Host.ascii_compareTotal [("Host", "x.test")]
    [("Cookie", "s=1"), ("Accept", "text/html")] (by decide)
/-! ## Cookie diff -/

theorem mem_lowerNames (H : Host) (cs : List Item) (names : List String)
    (h : ExchangeRequest.lowerNames H cs = some names) (n : String) :
    n ∈ names ↔ ∃ o ∈ cs, ExchangeRequest.lowerName H o = some n := by
  induction cs generalizing names with
  | nil =>
    simp only [ExchangeRequest.lowerNames, Option.some.injEq] at h
    subst h
    simp
  | cons c rest ih =>
    unfold ExchangeRequest.lowerNames at h
    cases hc : ExchangeRequest.lowerName H c with
    | none => simp [hc] at h
    | some s =>
      cases hr : ExchangeRequest.lowerNames H rest with
      | none => simp [hc, hr] at h
      | some rn =>
        simp only [hc, hr, Option.some.injEq] at h
        subst h
        simp only [List.mem_cons, exists_eq_or_imp, hc, Option.some.injEq, ih rn hr]
        constructor
        · rintro (h | h)
          · exact Or.inl h.symm
          · exact Or.inr h
        · rintro (h | h)
          · exact Or.inl h.symm
          · exact Or.inr h

theorem findNewCookies_loop (H : Host) (old : List Item) (names : List String)
    (hn : ExchangeRequest.lowerNames H old = some names) (cs : List Item) :
    ∀ kept r : List Item,
      cs.foldl (fun acc c =>
        match acc, ExchangeRequest.lowerName H c with
        | some kept, some cookieName =>
          some (if cookieName ∈ names then kept else kept ++ [c])
        | _, _ => none) (some kept) = some r →
      r = kept ++ cs.filter (fun c =>
        !old.any (fun o => decide (ExchangeRequest.lowerName H o = ExchangeRequest.lowerName H c))) := by
  induction cs with
  | nil =>
    intro kept r h
    simp only [List.foldl_nil, Option.some.injEq] at h
    simp [h]
  | cons c rest ih =>
    intro kept r h
    simp only [List.foldl_cons] at h
    cases hc : ExchangeRequest.lowerName H c with
    | none =>
      rw [hc] at h
      simp only at h
      have hnone : ∀ l : List Item, l.foldl (fun acc c =>
          match acc, ExchangeRequest.lowerName H c with
          | some kept, some cookieName =>
            some (if cookieName ∈ names then kept else kept ++ [c])
          | _, _ => none) none = none := by
        intro l
        induction l with
        | nil => rfl
        | cons a l ih2 => simp only [List.foldl_cons]; exact ih2
      rw [hnone] at h
      cases h
    | some cn =>
      rw [hc] at h
      simp only at h
      have hmem : cn ∈ names ↔ old.any (fun o =>
          decide (ExchangeRequest.lowerName H o = ExchangeRequest.lowerName H c)) = true := by
        rw [mem_lowerNames H old names hn, List.any_eq_true]
        simp only [hc, decide_eq_true_eq]
      have := ih _ r h
      rw [this]
      by_cases hm : cn ∈ names
      · have ha := hmem.mp hm
        simp [hm, List.filter_cons, ha]
      · have ha : old.any (fun o =>
            decide (ExchangeRequest.lowerName H o = ExchangeRequest.lowerName H c)) = false := by
          cases hb : old.any (fun o =>
            decide (ExchangeRequest.lowerName H o = ExchangeRequest.lowerName H c)) with
          | false => rfl
          | true => exact absurd (hmem.mpr hb) hm
        simp [hm, List.filter_cons, ha]

theorem findNewCookies_eq_filter (H : Host) (old new r : List Item)
    (h : ExchangeRequest.findNewCookies H old new = some r) :
    r = new.filter (fun c =>
      !old.any (fun o => decide (ExchangeRequest.lowerName H o = ExchangeRequest.lowerName H c))) := by
  unfold ExchangeRequest.findNewCookies at h
  split at h
  · rename_i h0
    simp only [Option.some.injEq] at h
    have : old = [] := List.length_eq_zero.mp h0
    subst this
    simp [← h]
  · split at h
    · rename_i h0
      simp only [Option.some.injEq] at h
      have : new = [] := List.length_eq_zero.mp h0
      subst this
      simp [← h]
    · cases hn : ExchangeRequest.lowerNames H old with
      | none => simp [hn] at h
      | some names =>
        simp only [hn] at h
        simpa using findNewCookies_loop H old names hn new [] r h

/-- C25. Whatever `ExchangeRequest.findNewCookies` returns is exactly the
cookies of `newCookies`, in their original order, whose name, lower-cased
(a missing name counts as the empty string), is the lower-cased name of no
cookie of `oldCookies`; it returns all of `newCookies` when `oldCookies` is
empty or absent and the empty list when `newCookies` is empty or absent; and
it returns whenever every cookie's name is a string or missing. -/
theorem findNewCookies_spec (H : Host) (old new : Option (List Item)) :
    (∀ r, ExchangeRequest.findNewCookiesOf H old new = some r →
      r = (new.getD []).filter (fun c => !(old.getD []).any (fun o =>
        decide (ExchangeRequest.lowerName H o = ExchangeRequest.lowerName H c)))) ∧
    ((old = none ∨ old = some []) →
      ExchangeRequest.findNewCookiesOf H old new = some (new.getD [])) ∧
    ((new = none ∨ new = some []) →
      ExchangeRequest.findNewCookiesOf H old new = some []) ∧
    ((∀ c ∈ old.getD [] ++ new.getD [], (ExchangeRequest.lowerName H c).isSome = true) →
      (ExchangeRequest.findNewCookiesOf H old new).isSome = true) := by
  refine ⟨?_, ?_, ?_, ?_⟩
  · intro r h
    unfold ExchangeRequest.findNewCookiesOf at h
    cases old with
    | none =>
      simp only [Option.some.injEq] at h
      simp [← h]
    | some o =>
      simp only at h
      split at h
      · rename_i h0
        have : o = [] := List.length_eq_zero.mp h0
        subst this
        simp only [Option.some.injEq] at h
        simp [← h]
      · cases new with
        | none =>
          simp only [Option.some.injEq] at h
          simp [← h]
        | some n => exact findNewCookies_eq_filter H o n r h
  · intro h
    unfold ExchangeRequest.findNewCookiesOf
    rcases h with h | h <;> subst h <;> simp
  · intro h
    unfold ExchangeRequest.findNewCookiesOf
    cases old with
    | none => rcases h with h | h <;> subst h <;> simp
    | some o =>
      simp only
      split
      · rcases h with h | h <;> subst h <;> simp
      · rcases h with h | h
        · subst h; rfl
        · subst h
          simp only [ExchangeRequest.findNewCookies]
          rename_i h0
          simp [h0]
  · intro h
    unfold ExchangeRequest.findNewCookiesOf
    cases old with
    | none => rfl
    | some o =>
      simp only
      split
      · rfl
      · cases new with
        | none => rfl
        | some n =>
          simp only
          have hlow : ∀ cs : List Item, (∀ c ∈ cs, (ExchangeRequest.lowerName H c).isSome = true) →
              ∃ names, ExchangeRequest.lowerNames H cs = some names := by
            intro cs hcs
            induction cs with
            | nil => exact ⟨[], rfl⟩
            | cons c rest ih =>
              obtain ⟨s, hs⟩ := Option.isSome_iff_exists.mp (hcs c (List.mem_cons_self _ _))
              obtain ⟨names, hn⟩ := ih (fun x hx => hcs x (List.mem_cons_of_mem _ hx))
              exact ⟨s :: names, by simp only [ExchangeRequest.lowerNames, hs, hn]⟩
          obtain ⟨names, hnames⟩ := hlow o (fun c hc => h c (by simp [hc]))
          unfold ExchangeRequest.findNewCookies
          split
          · rfl
          · split
            · rfl
            · rw [hnames]
              simp only
              suffices hs : ∀ (cs : List Item),
                  (∀ c ∈ cs, (ExchangeRequest.lowerName H c).isSome = true) →
                  ∀ kept : List Item, (cs.foldl (fun acc c =>
                    match acc, ExchangeRequest.lowerName H c with
                    | some kept, some cookieName =>
                      some (if cookieName ∈ names then kept else kept ++ [c])
                    | _, _ => none) (some kept)).isSome = true from
                hs n (fun c hc => h c (by simp [hc])) []
              intro cs
              induction cs with
              | nil => intro _ kept; rfl
              | cons c rest ih =>
                intro hcs kept
                obtain ⟨s, hs⟩ := Option.isSome_iff_exists.mp (hcs c (List.mem_cons_self _ _))
                simp only [List.foldl_cons, hs]
                exact ih (fun x hx => hcs x (List.mem_cons_of_mem _ hx)) _

/-- C25 at a concrete input: of the cookies `S`, `t` and `u`, the first is in
the old list under the name `s`. -/
theorem findNewCookies_spec_witness :
    ExchangeRequest.findNewCookiesOf Host.ascii
      (some [Item.obj [("name", Val.str "s"), ("value", Val.str "1")]])
      (some [Item.obj [("name", Val.str "S"), ("value", Val.str "2")],
             Item.obj [("name", Val.str "t"), ("value", Val.str "3")],
             Item.obj [("name", Val.str "u"), ("value", Val.str "4")]])
      = some [Item.obj [("name", Val.str "t"), ("value", Val.str "3")],
              Item.obj [("name", Val.str "u"), ("value", Val.str "4")]] ∧
    (ExchangeRequest.findNewCookiesOf Host.ascii
      (some [Item.obj [("name", Val.str "s"), ("value", Val.str "1")]])
      (some [Item.obj [("name", Val.str "S"), ("value", Val.str "2")],
             Item.obj [("name", Val.str "t"), ("value", Val.str "3")],
             Item.obj [("name", Val.str "u"), ("value", Val.str "4")]])).isSome = true :=
  ⟨by decide, (findNewCookies_spec Host.ascii
      (some [Item.obj [("name", Val.str "s"), ("value", Val.str "1")]])
      (some [Item.obj [("name", Val.str "S"), ("value", Val.str "2")],
             Item.obj [("name", Val.str "t"), ("value", Val.str "3")],
             Item.obj [("name", Val.str "u"), ("value", Val.str "4")]])).2.2.2 (by decide)⟩
/-! ## Response cookies of an exchange -/

theorem foldl_last_decides {α : Type} (f : α → Bool) (l : List α) (init : Bool) :
    l.foldl (fun _ c => f c) init =
      match l.getLast? with
      | some c => f c
      | none => init := by
  induction l generalizing init with
  | nil => rfl
  | cons a rest ih =>
    rw [List.foldl_cons, ih]
    cases rest with
    | nil => rfl
    | cons b rest2 =>
      rw [List.getLast?_cons_cons]
      cases hl : (b :: rest2).getLast? with
      | some c => rfl
      | none => exact absurd (List.getLast?_eq_none_iff.mp hl) (List.cons_ne_nil _ _)

/-- C26. The getter `hasResponseCookies` is decided by the last cookie of the
response alone: it is `true` exactly when the list is non-empty and its last
cookie is no persistence cookie, whatever the cookies before it are. -/
theorem hasResponseCookies_last (e : Exchange) :
    e.hasResponseCookies =
      match e.response.responseCookies.getLast? with
      | some cookie => !Exchange.cookieIsMychartPersist cookie
      | none => false := by
  unfold Exchange.hasResponseCookies
  by_cases h : e.response.responseCookies.length > 0
  · rw [if_pos h, foldl_last_decides]
    cases hl : e.response.responseCookies.getLast? with
    | some c => rfl
    | none =>
      rw [List.getLast?_eq_none_iff] at hl
      rw [hl] at h
      exact absurd h (by decide)
  · rw [if_neg h]
    have : e.response.responseCookies = [] := by
      cases hc : e.response.responseCookies with
      | nil => rfl
      | cons a l => rw [hc] at h; simp at h
    rw [this]
    rfl

/-- C26 fails on a response with a session cookie followed by a persistence
cookie: the list contains a cookie that is no persistence cookie, and the
getter is `false`; with the two cookies in the other order it is `true`. -/
theorem hasResponseCookies_order :
    (Example.withCookies [Example.sessionCookie, Example.persistCookie]).hasResponseCookies = false ∧
    (Example.withCookies [Example.persistCookie, Example.sessionCookie]).hasResponseCookies = true ∧
    [Example.sessionCookie, Example.persistCookie].any
      (fun cookie => !Exchange.cookieIsMychartPersist cookie) = true ∧
    Exchange.cookieIsMychartPersist Example.sessionCookie = false ∧
    Exchange.cookieIsMychartPersist Example.persistCookie = true := by
  decide
/-! ## The redirect-cookie-diff pass -/

theorem computeFrom_get (H : Host) (e : Exchange) (l : List RedirectSnapshot) :
    ∀ (k : Nat) (l' : List RedirectSnapshot), Exchange.computeFrom H e k l = .ok l' →
      ∀ (i : Nat) (r : RedirectSnapshot), l[i]? = some r →
        Exchange.redirectCookiesAt H e (k + i) r = l'[i]? := by
  induction l with
  | nil => intro k l' _ i r hi; simp at hi
  | cons a rest ih =>
    intro k l' h i r hi
    simp only [Exchange.computeFrom] at h
    cases ha : Exchange.redirectCookiesAt H e k a with
    | none => rw [ha] at h; cases h
    | some a' =>
      rw [ha] at h
      simp only at h
      cases hrest : Exchange.computeFrom H e (k + 1) rest with
      | error x => rw [hrest] at h; cases h
      | ok rest' =>
        rw [hrest] at h
        simp only [Except.ok.injEq] at h
        subst h
        cases i with
        | zero =>
          simp only [List.getElem?_cons_zero, Option.some.injEq] at hi
          subst hi
          simpa using ha
        | succ j =>
          simp only [List.getElem?_cons_succ] at hi ⊢
          have := ih (k + 1) rest' hrest j r hi
          rw [← this]
          congr 1
          omega

/-- C27, amended. Whenever `computeRedirectCookies` returns, the exchange has
as many snapshots as before and nothing but the snapshots has changed; for the
hop at position `i`, with `newCookies` the cookies of the hop's request that
are new relative to the request of the hop before (the original request for
the first hop): if `newCookies` is not empty the hop's `responseCookies`
become `newCookies`, whatever the snapshot response carried before, and if it
is empty the snapshot is left as it is. The method returns when the cookies of
the original request and of every hop's request can be ordered. -/
theorem computeRedirectCookies_hops (H : Host) (e : Exchange) :
    (∀ e', Exchange.computeRedirectCookies H e = .ok e' →
      e'.redirects.length = e.redirects.length ∧
      e' = { e with redirects := e'.redirects } ∧
      ∀ (i : Nat) (r : RedirectSnapshot), e.redirects[i]? = some r →
        ∃ newCookies,
          ExchangeRequest.findNewCookies H
            (if i = 0 then e.cookiesAt e.originalRequest
             else e.cookiesAt ((e.redirects[i - 1]?).map (·.request)))
            (e.cookiesAt (some r.request)) = some newCookies ∧
          (newCookies ≠ [] → e'.redirects[i]? = some { r with
            response := some { r.response.getD {} with responseCookies := some newCookies } }) ∧
          (newCookies = [] → e'.redirects[i]? = some r)) ∧
    (ExchangeRequest.CookiesSortable (e.cookiesAt e.originalRequest) →
      (∀ snap ∈ e.redirects, ExchangeRequest.CookiesSortable (e.cookiesAt (some snap.request))) →
      ∃ e', Exchange.computeRedirectCookies H e = .ok e') := by
  constructor
  · intro e' h
    unfold Exchange.computeRedirectCookies at h
    by_cases hhas : e.hasRedirects = true
    · rw [if_pos hhas] at h
      cases hc : Exchange.computeFrom H e 0 e.redirects with
      | error x => rw [hc] at h; cases h
      | ok l' =>
        rw [hc] at h
        simp only [Except.ok.injEq] at h
        subst h
        refine ⟨computeFrom_length H e e.redirects 0 l' hc, rfl, ?_⟩
        intro i r hi
        have hget := computeFrom_get H e e.redirects 0 l' hc i r hi
        rw [Nat.zero_add] at hget
        unfold Exchange.redirectCookiesAt at hget
        simp only at hget
        cases hf : ExchangeRequest.findNewCookies H
            (if i = 0 then e.cookiesAt e.originalRequest
             else e.cookiesAt ((e.redirects[i - 1]?).map (·.request)))
            (e.cookiesAt (some r.request)) with
        | none =>
          rw [hf] at hget
          simp only at hget
          have hlt : i < l'.length := by
            rw [computeFrom_length H e e.redirects 0 l' hc]
            exact (List.getElem?_eq_some_iff.mp hi).1
          rw [List.getElem?_eq_getElem hlt] at hget
          cases hget
        | some newCookies =>
          rw [hf] at hget
          simp only at hget
          refine ⟨newCookies, rfl, ?_, ?_⟩
          · intro hne
            have hpos : newCookies.length > 0 := List.length_pos.mpr hne
            rw [if_pos hpos] at hget
            exact hget.symm
          · intro heq
            subst heq
            simp only [List.length_nil, gt_iff_lt, Nat.lt_irrefl, if_false] at hget
            exact hget.symm
    · rw [if_neg hhas] at h
      simp only [Except.ok.injEq] at h
      subst h
      have hnil : e.redirects = [] := by
        cases hr : e.redirects with
        | nil => rfl
        | cons a l => simp [Exchange.hasRedirects, hr] at hhas
      refine ⟨rfl, rfl, ?_⟩
      intro i r hi
      rw [hnil] at hi
      simp at hi
  · intro ho hs
    have hprev : ∀ k, ExchangeRequest.CookiesSortable
        (if k = 0 then e.cookiesAt e.originalRequest
         else e.cookiesAt ((e.redirects[k - 1]?).map (·.request))) := by
      intro k
      split
      · exact ho
      · cases hk : e.redirects[k - 1]? with
        | none => intro c hc; simp [Exchange.cookiesAt] at hc
        | some snap => exact hs snap (List.getElem?_mem hk)
    have hall : ∀ r ∈ e.redirects, ∀ k, ∃ r', Exchange.redirectCookiesAt H e k r = some r' := by
      intro r hr k
      unfold Exchange.redirectCookiesAt
      obtain ⟨l, hl⟩ := findNewCookies_isSome H _ _ (hprev k) (hs r hr)
      simp only [hl]
      split
      · exact ⟨_, rfl⟩
      · exact ⟨_, rfl⟩
    obtain ⟨l', hl'⟩ := computeFrom_isOk H e e.redirects hall 0
    unfold Exchange.computeRedirectCookies
    split
    · simp only [hl']
      exact ⟨_, rfl⟩
    · exact ⟨_, rfl⟩

/-- C27 as stated fails on the exchange `Example.hop`: before the pass the
snapshot response carries the explicit cookie `t` of the redirect response;
the pass returns and the snapshot then carries `s` and `t`, the cookies of the
request to `/b`. -/
theorem computeRedirectCookies_overrides :
    Example.hop.redirects.map (fun snap => snap.response.bind (·.responseCookies)) =
      [some [Item.obj [("name", Val.str "t"), ("value", Val.str "2")]]] ∧
    (Exchange.computeRedirectCookies Host.ascii Example.hop).toOption.map
        (fun e => e.redirects.map (fun snap => snap.response.bind (·.responseCookies))) =
      some [some [Item.obj [("name", Val.str "s"), ("value", Val.str "1")],
                  Item.obj [("name", Val.str "t"), ("value", Val.str "2")]]] := by
  decide

/-- C27, amended, at the exchange `Example.hop`: the cookies of both requests
can be ordered, and the pass returns. -/
theorem computeRedirectCookies_hops_witness :
    ExchangeRequest.CookiesSortable (Example.hop.cookiesAt Example.hop.originalRequest) ∧
    (∀ snap ∈ Example.hop.redirects,
      ExchangeRequest.CookiesSortable (Example.hop.cookiesAt (some snap.request))) ∧
    ∃ e', Exchange.computeRedirectCookies Host.ascii Example.hop = .ok e' :=
  ⟨by unfold ExchangeRequest.CookiesSortable; decide,
   by unfold ExchangeRequest.CookiesSortable; decide,
   (computeRedirectCookies_hops Host.ascii Example.hop).2
     (by unfold ExchangeRequest.CookiesSortable; decide)
     (by unfold ExchangeRequest.CookiesSortable; decide)⟩
/-! ## The final URL of a redirected exchange -/

theorem setRequestMethod_finalUrl (e : Exchange) (m : String) :
    (e.setRequestMethod m).finalUrl = e.finalUrl ∧
    (e.setRequestMethod m).redirects = e.redirects := by
  unfold Exchange.setRequestMethod
  split
  · exact ⟨rfl, rfl⟩
  · split
    · exact ⟨rfl, rfl⟩
    · split
      · split <;> exact ⟨rfl, rfl⟩
      · exact ⟨rfl, rfl⟩

theorem applyOwnParams_finalUrl (e : Exchange) (p : Params) :
    (e.applyOwnParams p).redirects = e.redirects ∧
    (e.applyOwnParams p).finalUrl =
      if e.redirects.length > 0 ∧ truthyStr (p.request.bind (·.url)) = true
      then p.request.bind (·.url) else e.finalUrl := by
  unfold Exchange.applyOwnParams
  lift_lets
  intro e1 e2 e3 e4 e5 e6 e7 e8
  have h1 : e1.finalUrl = e.finalUrl ∧ e1.redirects = e.redirects := by
    simp only [e1]; split <;> exact ⟨rfl, rfl⟩
  have h2 : e2.finalUrl = e1.finalUrl ∧ e2.redirects = e1.redirects := by
    simp only [e2]; split <;> exact ⟨rfl, rfl⟩
  have h3 : e3.finalUrl = e2.finalUrl ∧ e3.redirects = e2.redirects := by
    simp only [e3]; split <;> exact ⟨rfl, rfl⟩
  have h4 : e4.finalUrl = e3.finalUrl ∧ e4.redirects = e3.redirects := by
    simp only [e4]
    split
    · split
      · exact setRequestMethod_finalUrl _ _
      · exact ⟨rfl, rfl⟩
    · exact ⟨rfl, rfl⟩
  have h5 : e5.finalUrl = e4.finalUrl ∧ e5.redirects = e4.redirects := by
    simp only [e5]; split <;> exact ⟨rfl, rfl⟩
  have h6 : e6.finalUrl = e5.finalUrl ∧ e6.redirects = e5.redirects := by
    simp only [e6]
    split
    · split <;> exact ⟨rfl, rfl⟩
    · exact ⟨rfl, rfl⟩
  have h7 : e7.finalUrl = e6.finalUrl ∧ e7.redirects = e6.redirects := by
    simp only [e7]
    split
    · split <;> exact ⟨rfl, rfl⟩
    · exact ⟨rfl, rfl⟩
  have h8 : e8.finalUrl = e7.finalUrl ∧ e8.redirects = e7.redirects := by
    simp only [e8]; split <;> exact ⟨rfl, rfl⟩
  have hf : e8.finalUrl = e.finalUrl := by
    rw [h8.1, h7.1, h6.1, h5.1, h4.1, h3.1, h2.1, h1.1]
  have hr : e8.redirects = e.redirects := by
    rw [h8.2, h7.2, h6.2, h5.2, h4.2, h3.2, h2.2, h1.2]
  rw [hr]
  by_cases hc : e.redirects.length > 0 ∧ truthyStr (p.request.bind (·.url)) = true
  · rw [if_pos hc, if_pos hc]
    exact ⟨rfl, rfl⟩
  · rw [if_neg hc, if_neg hc]
    exact ⟨hr, hf⟩

theorem setRequestId_finalUrl (X : Exchanges) (ref : Nat) (value : String) (e : Exchange)
    (h : X.deref ref = some e) :
    ∃ e', (Exchange.setRequestId X ref value).deref ref = some e' ∧
      e'.finalUrl = e.finalUrl ∧ e'.redirects = e.redirects := by
  unfold Exchange.setRequestId
  rw [h]
  simp only
  split
  · refine ⟨{ e with requestId := some value }, ?_, rfl, rfl⟩
    have := deref_update X ref (fun e => { e with requestId := some value })
    rw [h] at this
    exact this
  · exact ⟨e, h, rfl, rfl⟩

theorem setFrameId_finalUrl (X : Exchanges) (ref : Nat) (value : String) (e : Exchange)
    (h : X.deref ref = some e) :
    ∃ e', (Exchange.setFrameId X ref value).deref ref = some e' ∧
      e'.finalUrl = e.finalUrl ∧ e'.redirects = e.redirects := by
  unfold Exchange.setFrameId
  rw [h]
  simp only
  split
  · refine ⟨{ e with frameId := some value }, ?_, rfl, rfl⟩
    have := deref_update X ref (fun e => { e with frameId := some value })
    rw [h] at this
    exact this
  · exact ⟨e, h, rfl, rfl⟩

theorem applyRequestParams_finalUrl (X : Exchanges) (ref : Nat) (p : Params) (e : Exchange)
    (h : X.deref ref = some e) :
    ∃ e', (Exchange.applyRequestParams X ref p).deref ref = some e' ∧
      e'.redirects = e.redirects ∧
      e'.finalUrl =
        if e.redirects.length > 0 ∧ truthyStr (p.request.bind (·.url)) = true
        then p.request.bind (·.url) else e.finalUrl := by
  have h1 : ∃ e1, (Exchange.applyRequestId X ref p).deref ref = some e1 ∧
      e1.finalUrl = e.finalUrl ∧ e1.redirects = e.redirects := by
    unfold Exchange.applyRequestId
    split
    · split
      · exact setRequestId_finalUrl X ref _ e h
      · exact ⟨e, h, rfl, rfl⟩
    · exact ⟨e, h, rfl, rfl⟩
  obtain ⟨e1, hd1, hf1, hr1⟩ := h1
  have h2 : ∃ e2, (Exchange.applyFrameId (Exchange.applyRequestId X ref p) ref p).deref ref
      = some e2 ∧ e2.finalUrl = e.finalUrl ∧ e2.redirects = e.redirects := by
    unfold Exchange.applyFrameId
    split
    · split
      · obtain ⟨e2, hd2, hf2, hr2⟩ := setFrameId_finalUrl _ ref _ e1 hd1
        exact ⟨e2, hd2, hf2.trans hf1, hr2.trans hr1⟩
      · exact ⟨e1, hd1, hf1, hr1⟩
    · exact ⟨e1, hd1, hf1, hr1⟩
  obtain ⟨e2, hd2, hf2, hr2⟩ := h2
  refine ⟨e2.applyOwnParams p, ?_, ?_, ?_⟩
  · unfold Exchange.applyRequestParams
    rw [deref_update, hd2]
    rfl
  · rw [(applyOwnParams_finalUrl e2 p).1, hr2]
  · rw [(applyOwnParams_finalUrl e2 p).2, hr2, hf2]

/-- C28. The handler `requestWillBeSent`, on a redirect-carrying notification
whose request URL is the non-empty `u`, appends one snapshot and sets
`finalUrl` to `u` only when the exchange already had a snapshot before the
notification; on the first redirect of the exchange `finalUrl` keeps the
value it had. -/
theorem requestWillBeSent_finalUrl (H : Host) (X : Exchanges) (ref : Nat) (e : Exchange)
    (p : Params) (rr : ResponseDesc) (u : String) (hd : X.deref ref = some e)
    (hp : p.redirectResponse = some rr) (hu : p.request.bind (·.url) = some u) (hne : u ≠ "") :
    ∃ e', (Exchange.requestWillBeSent H X ref p).deref ref = some e' ∧
      e'.redirects.length = e.redirects.length + 1 ∧
      e'.finalUrl = if e.redirects = [] then e.finalUrl else some u := by
  unfold Exchange.requestWillBeSent
  lift_lets
  intro X1 X2
  have h1 : X1.deref ref = some (e.log EventType.RequestWillBeSent) := by
    simp only [X1]
    rw [deref_update, hd]
    rfl
  have hlog : (e.log EventType.RequestWillBeSent).finalUrl = e.finalUrl ∧
      (e.log EventType.RequestWillBeSent).redirects = e.redirects := by
    unfold Exchange.log
    split <;> exact ⟨rfl, rfl⟩
  obtain ⟨e2, hd2, hr2, hf2⟩ := applyRequestParams_finalUrl X1 ref p _ h1
  rw [hlog.1, hlog.2, hu] at hf2
  rw [hlog.2] at hr2
  simp only [X2] at hd2 ⊢
  rw [hd2]
  simp only
  obtain ⟨nr, snap, happ, _, _⟩ := applyParams_redirect H e2 p EventType.RequestWillBeSent rr hp
  rw [happ]
  simp only
  have hfin : ((Exchange.applyRequestParams X1 ref p).update ref (fun _ =>
      { e2 with
        originalRequest := some (e2.originalRequest.getD e2.older.length)
        redirects := e2.redirects ++ [snap]
        older := e2.older ++ [e2.request]
        request := nr })).deref ref = some
      { e2 with
        originalRequest := some (e2.originalRequest.getD e2.older.length)
        redirects := e2.redirects ++ [snap]
        older := e2.older ++ [e2.request]
        request := nr } := by
    rw [deref_update, hd2]
    rfl
  refine ⟨{ e2 with
        originalRequest := some (e2.originalRequest.getD e2.older.length)
        redirects := e2.redirects ++ [snap]
        older := e2.older ++ [e2.request]
        request := nr }, ?_, ?_, ?_⟩
  · split
    · rw [deref_exitCapture]; exact hfin
    · exact hfin
  · simp [hr2]
  · show e2.finalUrl = _
    rw [hf2]
    have ht : truthyStr (some u) = true := by simp [truthyStr, hne]
    cases hr : e.redirects with
    | nil => simp
    | cons a l => simp [ht]

/-- C28 fails on the first redirect of an exchange: after the redirect from
`/a` to `/b` the exchange has one snapshot and its current request is for
`/b`, but `finalUrl` is still unset; the second redirect, to `/c`, sets it. -/
theorem first_redirect_finalUrl_unset :
    (Example.registry.deref 0).map (fun e => (e.redirects.length, e.finalUrl)) = some (0, none) ∧
    Example.redirectToB.request.bind (·.url) = some "https://x.test/b" ∧
    (Example.redirected.deref 0).map (fun e => (e.redirects.length, e.request.url, e.finalUrl)) =
      some (1, some "https://x.test/b", none) ∧
    (Example.redirectedTwice.deref 0).map (fun e => (e.redirects.length, e.finalUrl)) =
      some (2, some "https://x.test/c") := by
  decide

/-- C28 at the second redirect of the example exchange: `finalUrl` becomes
the URL of the request to `/c`. -/
theorem requestWillBeSent_finalUrl_witness :
    ∃ e', (Exchange.requestWillBeSent Host.ascii Example.redirected 0 Example.redirectToC).deref 0
        = some e' ∧
      e'.redirects.length = Example.hop.redirects.length + 1 ∧
      e'.finalUrl = if Example.hop.redirects = [] then Example.hop.finalUrl
        else some "https://x.test/c" :=
  requestWillBeSent_finalUrl Host.ascii Example.redirected 0 Example.hop Example.redirectToC
    { status := some 302, headers := some [("Location", "/c")] } "https://x.test/c"
    (by decide) (by decide) (by decide) (by decide)
/-! ## Cookie names and values -/

theorem splitChars_append (sep : Char) (a b : List Char) (h : sep ∉ a) :
    splitChars sep (a ++ sep :: b) = a :: splitChars sep b := by
  induction a with
  | nil => simp [splitChars]
  | cons c rest ih =>
    have hc : ¬ c = sep := fun e => h (by rw [e]; exact List.mem_cons_self _ _)
    have hr : sep ∉ rest := fun m => h (List.mem_cons_of_mem _ m)
    have hi := ih hr
    simp only [List.cons_append, splitChars, hc, if_false, List.append_eq, hi]

theorem splitChars_head (sep : Char) (l : List Char) :
    ∃ ps, splitChars sep l = l.takeWhile (fun c => c != sep) :: ps := by
  induction l with
  | nil => exact ⟨[], rfl⟩
  | cons c rest ih =>
    obtain ⟨ps, hps⟩ := ih
    by_cases hc : c = sep
    · exact ⟨splitChars sep rest, by simp [splitChars, hc]⟩
    · exact ⟨ps, by simp [splitChars, hc, hps]⟩

theorem dropWhile_of_head (p : Char → Bool) (l : List Char)
    (h : ∀ c, l.head? = some c → p c = false) : l.dropWhile p = l := by
  cases l with
  | nil => rfl
  | cons c rest => simp [List.dropWhile_cons, h c rfl]

theorem head_of_dropWhile (p : Char → Bool) (l : List Char)
    (h : (l.dropWhile p).length = l.length) : ∀ c, l.head? = some c → p c = false := by
  intro c hc
  cases l with
  | nil => simp at hc
  | cons a rest =>
    simp only [List.head?_cons, Option.some.injEq] at hc
    subst hc
    cases hp : p a with
    | false => rfl
    | true =>
      rw [List.dropWhile_cons_of_pos hp] at h
      have := (List.dropWhile_sublist p : List.Sublist (rest.dropWhile p) rest).length_le
      simp only [List.length_cons] at h
      omega

theorem jsTrim_fixed_iff (s : String) :
    jsTrim s = s ↔
      (∀ c, s.data.head? = some c → isJSWhiteSpace c = false) ∧
      (∀ c, s.data.getLast? = some c → isJSWhiteSpace c = false) := by
  constructor
  · intro h
    have hd : ((s.data.dropWhile isJSWhiteSpace).reverse.dropWhile isJSWhiteSpace).reverse
        = s.data := by
      have := congrArg String.data h
      simpa [jsTrim] using this
    have hlen := congrArg List.length hd
    simp only [List.length_reverse] at hlen
    have h1 := (List.dropWhile_sublist isJSWhiteSpace : List.Sublist
      ((s.data.dropWhile isJSWhiteSpace).reverse.dropWhile isJSWhiteSpace)
      (s.data.dropWhile isJSWhiteSpace).reverse).length_le
    have h2 := (List.dropWhile_sublist isJSWhiteSpace : List.Sublist
      (s.data.dropWhile isJSWhiteSpace) s.data).length_le
    simp only [List.length_reverse] at h1
    have hfront : (s.data.dropWhile isJSWhiteSpace).length = s.data.length := by omega
    have hhead := head_of_dropWhile isJSWhiteSpace s.data hfront
    refine ⟨hhead, ?_⟩
    rw [dropWhile_of_head isJSWhiteSpace s.data hhead] at hlen
    have hback := head_of_dropWhile isJSWhiteSpace s.data.reverse
      (by simpa using hlen)
    intro c hc
    exact hback c (by simpa using hc)
  · rintro ⟨h1, h2⟩
    unfold jsTrim
    rw [dropWhile_of_head isJSWhiteSpace s.data h1,
      dropWhile_of_head isJSWhiteSpace s.data.reverse (by simpa using h2), List.reverse_reverse]

/-- A name, `=` and a value, neither with surrounding white space, trim to
themselves. -/
theorem jsTrim_pair (n v : String) (hn : jsTrim n = n) (hv : jsTrim v = v) :
    jsTrim (n ++ "=" ++ v) = n ++ "=" ++ v := by
  rw [jsTrim_fixed_iff] at hn hv ⊢
  have hdata : (n ++ "=" ++ v).data = n.data ++ '=' :: v.data := by
    simp [String.data_append]
  rw [hdata]
  constructor
  · intro c hc
    cases hnd : n.data with
    | nil =>
      rw [hnd] at hc
      simp only [List.nil_append, List.head?_cons, Option.some.injEq] at hc
      subst hc
      decide
    | cons a rest =>
      rw [hnd] at hc
      simp only [List.cons_append, List.head?_cons, Option.some.injEq] at hc
      exact hn.1 c (by rw [hnd]; simpa using hc)
  · intro c hc
    rw [List.getLast?_append_cons] at hc
    cases hvd : v.data with
    | nil =>
      rw [hvd] at hc
      simp only [List.getLast?_singleton, Option.some.injEq] at hc
      subst hc
      decide
    | cons a rest =>
      rw [hvd, List.getLast?_cons_cons] at hc
      exact hv.2 c (by rw [hvd]; exact hc)

theorem pieces_of_pair (n v : String) (hn : '=' ∉ n.data) :
    ∃ ps, jsSplit (n ++ "=" ++ v) '=' =
      n :: String.mk (v.data.takeWhile (fun c => c != '=')) :: ps := by
  have hdata : (n ++ "=" ++ v).data = n.data ++ '=' :: v.data := by
    simp [String.data_append]
  obtain ⟨ps, hps⟩ := splitChars_head '=' v.data
  refine ⟨ps.map String.mk, ?_⟩
  unfold jsSplit
  rw [hdata, splitChars_append '=' n.data v.data hn, hps]
  rfl

/-- C29. For a name `n` without `=`, `;` or surrounding white space and a
value `v` without `;` or surrounding white space, `Exchange.parseCookie` of
`n + '=' + v` has the name `n`, and its value is `v` cut before its first
`=`; on a host whose `toLowerCase` maps `Cookie` to `cookie`,
`extractCookiesFromRequestHeaders` of the one header `Cookie: n=v` returns
exactly one cookie, with that name and that value. The value is `v` when `v`
contains no `=`, and differs from `v` when it contains one. -/
theorem parseCookie_name_value (H : Host) (n v : String) (hn1 : '=' ∉ n.data)
    (hn2 : ';' ∉ n.data) (hn3 : jsTrim n = n) (hv1 : ';' ∉ v.data) (hv2 : jsTrim v = v) :
    Exchange.parseCookie H (n ++ "=" ++ v) =
      [("name", Val.str n),
       ("value", Val.str (String.mk (v.data.takeWhile (fun c => c != '='))))] ∧
    (H.toLowerCase "Cookie" = "cookie" →
      ExchangeRequest.extractCookiesFromRequestHeaders H [("Cookie", n ++ "=" ++ v)] =
        [Item.obj [("name", Val.str n),
                   ("value", Val.str (String.mk (v.data.takeWhile (fun c => c != '='))))]]) ∧
    ('=' ∉ v.data → String.mk (v.data.takeWhile (fun c => c != '=')) = v) ∧
    ('=' ∈ v.data → String.mk (v.data.takeWhile (fun c => c != '=')) ≠ v) := by
  have hdata : (n ++ "=" ++ v).data = n.data ++ '=' :: v.data := by
    simp [String.data_append]
  have hsemi : ';' ∉ (n ++ "=" ++ v).data := by
    rw [hdata]
    intro hm
    rcases List.mem_append.mp hm with h | h
    · exact hn2 h
    · rcases List.mem_cons.mp h with h | h
      · exact absurd h (by decide)
      · exact hv1 h
  have htrim := jsTrim_pair n v hn3 hv2
  obtain ⟨ps, hps⟩ := pieces_of_pair n v hn1
  refine ⟨?_, ?_, ?_, ?_⟩
  · rw [parseCookie_single H _ hsemi, htrim, hps]
    rfl
  · intro hlow
    unfold ExchangeRequest.extractCookiesFromRequestHeaders
    have hlen : (n ++ "=" ++ v).length > 0 := by
      show (n ++ "=" ++ v).data.length > 0
      rw [hdata]
      simp
    simp only [List.foldl_cons, List.foldl_nil, hlow, if_true,
      jsSplit_of_not_mem _ ';' hsemi, List.map_cons, List.map_nil, htrim, List.nil_append]
    rw [List.filter_cons_of_pos (by simpa using hlen)]
    simp only [List.filter_nil, List.map_cons, List.map_nil, hps]
    rfl
  · intro h
    have : v.data.takeWhile (fun c => c != '=') = v.data := by
      rw [List.takeWhile_eq_self_iff]
      intro c hc
      have : c ≠ '=' := fun e => h (e ▸ hc)
      simpa using this
    rw [this]
  · intro h heq
    have hd : v.data.takeWhile (fun c => c != '=') = v.data := congrArg String.data heq
    rw [← hd] at h
    have := List.mem_takeWhile_imp h
    simp at this

/-- C29 fails on a value that contains `=`: the value `abc==` of the cookie
`token` is cut to `abc`, by `parseCookie` and by the request-header
extraction alike. -/
theorem parseCookie_cuts_value :
    Exchange.parseCookie Host.ascii "token=abc==" =
      [("name", Val.str "token"), ("value", Val.str "abc")] ∧
    ExchangeRequest.extractCookiesFromRequestHeaders Host.ascii [("Cookie", "token=abc==")] =
      [Item.obj [("name", Val.str "token"), ("value", Val.str "abc")]] := by
  decide

/-- C29 at the name `sid` and the value `a1b2`, which contains no `=`. -/
theorem parseCookie_name_value_witness :
    Exchange.parseCookie Host.ascii ("sid" ++ "=" ++ "a1b2") =
      [("name", Val.str "sid"),
       ("value", Val.str (String.mk ("a1b2".data.takeWhile (fun c => c != '='))))] :=
  (parseCookie_name_value Host.ascii "sid" "a1b2" (by decide) (by decide) (by decide)
    (by decide) (by decide)).1
/-! ## Body file names -/

theorem all_safe_replaceOutside (keep : Char → Bool)
    (hk : ∀ c, keep c = true → Exchange.safeChar c = true) (s : String) :
    (Exchange.replaceOutside keep s).data.all Exchange.safeChar = true := by
  unfold Exchange.replaceOutside
  rw [List.all_eq_true]
  intro c hc
  simp only [List.mem_flatMap] at hc
  obtain ⟨a, _, ha⟩ := hc
  by_cases hka : keep a = true
  · rw [if_pos hka] at ha
    simp only [List.mem_singleton] at ha
    subst ha
    exact hk _ hka
  · rw [if_neg hka] at ha
    split at ha
    · simp only [List.mem_cons, List.mem_singleton, or_self, List.not_mem_nil, or_false] at ha
      subst ha
      decide
    · simp only [List.mem_singleton] at ha
      subst ha
      decide

theorem safe_mimeToExt (H : Host) (m : Option String)
    (h : ∀ key, m = some key → key ∉ objectPrototypeKeys) :
    Exchange.safeSegment (Exchange.mimeToExt H m) = true := by
  unfold Exchange.mimeToExt
  split
  case h_9 =>
    rw [if_neg (h _ rfl)]
    decide
  all_goals decide

theorem mimeToExt_inherited (H : Host) (key : String) (h : key ∈ objectPrototypeKeys) :
    Exchange.mimeToExt H (some key) = H.inheritedText key := by
  unfold Exchange.mimeToExt
  split
  case h_9 =>
    rename_i heq
    cases heq
    rw [if_pos h]
  case h_10 =>
    rename_i heq
    cases heq
  all_goals (rename_i heq; cases heq; exact absurd h (by decide))

theorem safe_append (a b : String) (ha : a.data.all Exchange.safeChar = true)
    (hb : Exchange.safeSegment b = true) : Exchange.safeSegment (a ++ b) = true := by
  unfold Exchange.safeSegment at hb ⊢
  simp only [Bool.and_eq_true, Bool.not_eq_true', List.isEmpty_eq_false_iff_exists_mem] at hb ⊢
  obtain ⟨⟨c, hc⟩, hall⟩ := hb
  refine ⟨⟨c, by simp [String.data_append, hc]⟩, ?_⟩
  simp only [String.data_append, List.all_append, Bool.and_eq_true]
  exact ⟨ha, hall⟩

theorem includesChars_nil (pat : List Char) (h : includesChars pat [] = true) : pat = [] := by
  simpa [includesChars] using h

theorem safe_fileNameOfURL (H : Host) (u : URLParts) (m : Option String)
    (h : ¬ (((jsSplit u.pathname '/').getLast?).getD "" = "inside.asp" ∧ u.mode.isSome = true))
    (hm : ∀ key, m = some key → key ∉ objectPrototypeKeys) :
    Exchange.safeSegment (Exchange.fileNameOfURL H u m) = true := by
  unfold Exchange.fileNameOfURL
  lift_lets
  intro filename f1 f2 f3
  have hbranch : ¬ (filename = "inside.asp" ∧ u.mode.isSome = true) := h
  rw [if_neg hbranch]
  have hall : f3.data.all Exchange.safeChar = true :=
    all_safe_replaceOutside _ (fun c hc => hc) f2
  by_cases hd : jsIncludes f3 "." = true
  · simp only [hd, Bool.not_true, Bool.false_eq_true, if_false]
    unfold Exchange.safeSegment
    rw [hall, Bool.and_true]
    cases hf : f3.data with
    | nil =>
      unfold jsIncludes at hd
      rw [hf] at hd
      have := includesChars_nil _ hd
      exact absurd this (by decide)
    | cons a l => rfl
  · have hd2 : jsIncludes f3 "." = false := by
      cases hj : jsIncludes f3 "." with
      | false => rfl
      | true => exact absurd hj hd
    simp only [hd2, Bool.not_false, if_true]
    exact safe_append _ _ hall (safe_mimeToExt H m hm)

/-- With a MIME type that names a property plain objects inherit, the name is
the sanitised last path segment when that has a dot, and otherwise that
segment followed by the text of the inherited value. -/
theorem fileNameOfURL_inherited (H : Host) (u : URLParts) (key : String)
    (h : ¬ (((jsSplit u.pathname '/').getLast?).getD "" = "inside.asp" ∧ u.mode.isSome = true))
    (hk : key ∈ objectPrototypeKeys) :
    ∃ stem : String, stem.data.all Exchange.safeChar = true ∧
      ((jsIncludes stem "." = true ∧ Exchange.fileNameOfURL H u (some key) = stem) ∨
       (jsIncludes stem "." = false ∧
        Exchange.fileNameOfURL H u (some key) = stem ++ H.inheritedText key)) := by
  unfold Exchange.fileNameOfURL
  lift_lets
  intro filename f1 f2 f3
  have hbranch : ¬ (filename = "inside.asp" ∧ u.mode.isSome = true) := h
  rw [if_neg hbranch]
  refine ⟨f3, all_safe_replaceOutside _ (fun c hc => hc) f2, ?_⟩
  cases hd : jsIncludes f3 "." with
  | true =>
    left
    simp only [Bool.not_true, Bool.false_eq_true, if_false, and_self]
  | false =>
    right
    simp only [Bool.not_false, if_true, true_and]
    rw [mimeToExt_inherited H key hk]

/-- C30. The getter `bodyFileName` is a non-empty string of characters of
`[a-zA-Z0-9._-]` when the URL parses, is not a page `inside.asp` with a
`mode` parameter, and the MIME type names no property that plain objects
inherit; and when the URL does not parse and the exchange has a request id.
For `inside.asp` with the `mode` value `m` the name is `inside-asp-mode-`
followed by `m` as it stands and `.html`. For a MIME type that names an
inherited property (`toString`, `constructor`, …) and a last path segment
without a dot, the name is that segment followed by the text of the inherited
value. When the URL does not parse and the exchange has no request id, the
getter throws. -/
theorem bodyFileName_safe (H : Host) (e : Exchange) :
    (∀ u, e.url.bind H.parseURL = some u →
      ¬ (((jsSplit u.pathname '/').getLast?).getD "" = "inside.asp" ∧ u.mode.isSome = true) →
      (∀ key, e.response.mimeType = some key → key ∉ objectPrototypeKeys) →
      ∃ name, Exchange.bodyFileName H e = some name ∧ Exchange.safeSegment name = true) ∧
    (e.url.bind H.parseURL = none → ∀ requestId, e.requestId = some requestId →
      ∃ name, Exchange.bodyFileName H e = some name ∧ Exchange.safeSegment name = true) ∧
    (∀ u m, e.url.bind H.parseURL = some u →
      ((jsSplit u.pathname '/').getLast?).getD "" = "inside.asp" → u.mode = some m →
      Exchange.bodyFileName H e = some ("inside-asp-mode-" ++ m ++ ".html")) ∧
    (∀ u key, e.url.bind H.parseURL = some u →
      ¬ (((jsSplit u.pathname '/').getLast?).getD "" = "inside.asp" ∧ u.mode.isSome = true) →
      e.response.mimeType = some key → key ∈ objectPrototypeKeys →
      ∃ stem : String, stem.data.all Exchange.safeChar = true ∧
        ((jsIncludes stem "." = true ∧ Exchange.bodyFileName H e = some stem) ∨
         (jsIncludes stem "." = false ∧
          Exchange.bodyFileName H e = some (stem ++ H.inheritedText key)))) ∧
    (e.url.bind H.parseURL = none → e.requestId = none → Exchange.bodyFileName H e = none) := by
  refine ⟨?_, ?_, ?_, ?_, ?_⟩
  · intro u hu h hm
    unfold Exchange.bodyFileName
    rw [hu]
    exact ⟨_, rfl, safe_fileNameOfURL H u _ h hm⟩
  · intro hu requestId hr
    unfold Exchange.bodyFileName
    rw [hu, hr]
    refine ⟨_, rfl, ?_⟩
    have h1 : Exchange.safeSegment
        (Exchange.replaceOutside Char.isAlphanum requestId ++ ".txt") = true :=
      safe_append _ _ (all_safe_replaceOutside _ (fun c hc => by simp [Exchange.safeChar, hc]) _)
        (by decide)
    have h2 := safe_append "body-" _ (by decide) h1
    rw [← String.append_assoc] at h2
    exact h2
  · intro u m hu hf hm
    unfold Exchange.bodyFileName
    rw [hu]
    simp only [Exchange.fileNameOfURL, hf, hm, Option.isSome_some, and_self, if_true,
      Option.getD_some]
  · intro u key hu h hm hk
    unfold Exchange.bodyFileName
    rw [hu, hm]
    simp only
    obtain ⟨stem, hs, hcase⟩ := fileNameOfURL_inherited H u key h hk
    refine ⟨stem, hs, ?_⟩
    rcases hcase with ⟨h1, h2⟩ | ⟨h1, h2⟩
    · exact Or.inl ⟨h1, by rw [h2]⟩
    · exact Or.inr ⟨h1, by rw [h2]⟩
  · intro hu hr
    unfold Exchange.bodyFileName
    rw [hu, hr]
    rfl

/-- C30 fails on the page `inside.asp` with the `mode` value `/../../x`: the
name contains path separators and dot segments. It fails as well on a
response whose MIME type is `toString`: the table lookup finds the inherited
function and its text is appended to the name. And an exchange with neither
URL nor request id has no name at all. -/
theorem bodyFileName_unsafe :
    Exchange.bodyFileName Host.ascii Example.insideAsp = some "inside-asp-mode-/../../x.html" ∧
    Exchange.safeSegment "inside-asp-mode-/../../x.html" = false ∧
    jsIncludes "inside-asp-mode-/../../x.html" "/" = true ∧
    Exchange.bodyFileName Host.ascii Example.inheritedMime =
      some "apifunction toString() \x7b [native code] \x7d" ∧
    Exchange.safeSegment "apifunction toString() \x7b [native code] \x7d" = false ∧
    Exchange.bodyFileName Host.ascii (Exchange.fresh none) = none := by
  decide

/-- C30 at the exchange `Example.json`, whose URL `https://x.test/api` parses:
the JSON body gets a safe name. -/
theorem bodyFileName_safe_witness :
    Exchange.bodyFileName Host.ascii Example.json = some "api.json" ∧
    ∃ name, Exchange.bodyFileName Host.ascii Example.json = some name ∧
      Exchange.safeSegment name = true :=
  ⟨by decide, (bodyFileName_safe Host.ascii Example.json).1
    { pathname := "/api", hostname := "x.test", mode := none } (by decide) (by decide)
    (by
      intro key h
      have h2 : Example.json.response.mimeType = some "application/json" := by decide
      rw [h2] at h
      cases h
      decide)⟩
